import Mathlib

/-!
# Gentle (HBL2) ECS core: scheduler batching and sparse component storage

A shallow embedding of `Sceduler.h`, `ECS/ComponentMask.h`,
`ECS/SparseComponentStorage.h`, `ECS/EntityManager.h` and `ECS/Registry.h`,
followed by theorems about the embedded functions.

Conventions of the embedding:
* `std::bitset<MAX_COMPONENT_TYPES>` is a natural number read as a bit mask;
  `(a & b).any()` is `a &&& b != 0`, `a |= b` is `a ||| b`, `reset()` is `0`.
* `std::vector` is `List`; `push_back` appends at the end.
* fixed-size arrays (`std::array<uint32_t, PAGE_SIZE>`, `uint64_t data[MASK_WORDS]`)
  are functions from the index, with an explicit bounds check at each access
  that the source does not prove in range.
* a failed `HBL2_CORE_ASSERT`, a null dereference and an out-of-bounds access
  are all the result `none`.
* `uint32_t` arithmetic is arithmetic on `Nat` modulo `2 ^ 32`.
-/

set_option autoImplicit false

namespace HBL2

/-! ## Sceduler.h -/

/-- The record `SystemEntry`: the two component masks and the task, the task
being named by a number. -/
structure SystemEntry where
  ReadMask : Nat
  WriteMask : Nat
  Task : Nat
deriving DecidableEq, Repr

/-- The class `Sceduler`: the registered entries in call order. -/
structure Sceduler where
  m_Entries : List SystemEntry
deriving DecidableEq, Repr

namespace Sceduler

/-- A freshly constructed scheduler. -/
def empty : Sceduler := ⟨[]⟩

/-- The method `Register`: `m_Entries.push_back(std::move(entry))`. -/
def Register (s : Sceduler) (entry : SystemEntry) : Sceduler :=
  ⟨s.m_Entries ++ [entry]⟩

/-- The locals of the first loop of `RunAll`. `currentBatch` always points at
`batches.back()`, so it is not a field of its own. -/
structure BatchState where
  batches : List (List SystemEntry)
  batchReadMask : Nat
  batchWriteMask : Nat
deriving DecidableEq, Repr

/-- The test `conflict` of `RunAll` (WW, WR, RW). -/
def conflict (sys : SystemEntry) (batchReadMask batchWriteMask : Nat) : Bool :=
  (sys.WriteMask &&& batchWriteMask != 0) ||
  (sys.WriteMask &&& batchReadMask != 0) ||
  (sys.ReadMask &&& batchWriteMask != 0)

/-- The statement `currentBatch->push_back(sys)` with `currentBatch == &batches.back()`. -/
def pushCurrent : List (List SystemEntry) → SystemEntry → List (List SystemEntry)
  | [], _ => []
  | [b], sys => [b ++ [sys]]
  | b :: c :: rest, sys => b :: pushCurrent (c :: rest) sys

/-- One iteration of the loop `for (const auto& sys : m_Entries)`. -/
def step (st : BatchState) (sys : SystemEntry) : BatchState :=
  let st1 : BatchState :=
    if conflict sys st.batchReadMask st.batchWriteMask then
      { batches := st.batches ++ [[]], batchReadMask := 0, batchWriteMask := 0 }
    else st
  { batches := pushCurrent st1.batches sys
    batchReadMask := st1.batchReadMask ||| sys.ReadMask
    batchWriteMask := st1.batchWriteMask ||| sys.WriteMask }

/-- The state before the first iteration: one empty batch, both masks clear. -/
def initState : BatchState :=
  { batches := [[]], batchReadMask := 0, batchWriteMask := 0 }

/-- The batches that `RunAll` has built when its first loop ends. -/
def buildBatches (s : Sceduler) : List (List SystemEntry) :=
  (s.m_Entries.foldl step initState).batches

/-- The method `RunAll`, as the sequence of waves it executes: the tasks of one
batch are started together (or the single task is called directly) and are all
complete before the next batch starts. -/
def RunAll (s : Sceduler) : List (List Nat) :=
  (buildBatches s).map (fun batch => batch.map SystemEntry.Task)

/-- Registering a list of descriptors one call after the other. -/
def registerAll (s : Sceduler) (entries : List SystemEntry) : Sceduler :=
  entries.foldl Register s

end Sceduler

/-- Two systems may share a batch: neither write mask meets the other system's
write mask or read mask. -/
def Compatible (a b : SystemEntry) : Prop :=
  a.WriteMask &&& b.WriteMask = 0 ∧ a.WriteMask &&& b.ReadMask = 0 ∧
  b.WriteMask &&& a.WriteMask = 0 ∧ b.WriteMask &&& a.ReadMask = 0

instance (a b : SystemEntry) : Decidable (Compatible a b) := by
  unfold Compatible; infer_instance

/-- Two systems conflict: write/write, write/read or read/write overlap. -/
def Conflicting (a b : SystemEntry) : Prop :=
  a.WriteMask &&& b.WriteMask ≠ 0 ∨ a.WriteMask &&& b.ReadMask ≠ 0 ∨
  a.ReadMask &&& b.WriteMask ≠ 0

instance (a b : SystemEntry) : Decidable (Conflicting a b) := by
  unfold Conflicting; infer_instance

/-- The place of the `i`-th element of the concatenation of `bs`: the index of
the batch that holds it and its position inside that batch. -/
def locate {α : Type} : List (List α) → Nat → Option (Nat × Nat)
  | [], _ => none
  | b :: bs, i =>
    if i < b.length then some (0, i)
    else (locate bs (i - b.length)).map (fun kp => (kp.1 + 1, kp.2))

end HBL2

namespace HBL2

/-- The mask with the single bit of component type `t` set (`mask.set(t)`). -/
def typeBit (t : Nat) : Nat := 1 <<< t

/-- The four systems of the batching scenario, in registration order:
S1 writes A; S2 reads A and writes B; S3 writes C; S4 reads A. -/
def fourSystems (A B C : Nat) : List SystemEntry :=
  [ { ReadMask := 0, WriteMask := typeBit A, Task := 1 },
    { ReadMask := typeBit A, WriteMask := typeBit B, Task := 2 },
    { ReadMask := 0, WriteMask := typeBit C, Task := 3 },
    { ReadMask := typeBit A, WriteMask := 0, Task := 4 } ]

namespace Sceduler

/-- What the loop keeps true: `done` is the part of the entries already
consumed. -/
structure BatchInv (done : List SystemEntry) (st : BatchState) : Prop where
  shape : ∃ pre cur, st.batches = pre ++ [cur] ∧
    (∀ m ∈ cur, ∀ x, x &&& st.batchReadMask = 0 → x &&& m.ReadMask = 0) ∧
    (∀ m ∈ cur, ∀ x, x &&& st.batchWriteMask = 0 → x &&& m.WriteMask = 0)
  flat : st.batches.flatten = done
  pw : ∀ b ∈ st.batches, b.Pairwise Compatible

end Sceduler

end HBL2

namespace HBL2

/-! ## ECS/EntityManager.h -/

/-- The type `Entity` is `uint32_t`. -/
abbrev Entity := Nat

def MAX_COMPONENT_TYPES : Nat := 128
def MAX_ENTITIES : Nat := 262144
def MASK_WORDS : Nat := (MAX_ENTITIES + 63) / 64

/-- The struct `ComponentTypeID`: the process-wide counter `s_Counter` and, per
component type (named by a number), the function-local static `id` of
`Get<T>` once it has been initialised. -/
structure ComponentTypeID where
  s_Counter : Nat
  ids : Nat → Option Nat

namespace ComponentTypeID

/-- The state at program start: no type has an id yet. -/
def init : ComponentTypeID := ⟨0, fun _ => none⟩

/-- The method `Get<T>`: the first call for `T` takes `s_Counter++` (a `uint8_t`). -/
def Get (c : ComponentTypeID) (T : Nat) : Nat × ComponentTypeID :=
  match c.ids T with
  | some id => (id, c)
  | none =>
    (c.s_Counter,
      { s_Counter := (c.s_Counter + 1) % 256
        ids := fun U => if U = T then some c.s_Counter else c.ids U })

/-- The method `GetCount`. -/
def GetCount (c : ComponentTypeID) : Nat := c.s_Counter

end ComponentTypeID

/-- The class `EntityManager`. -/
structure EntityManager where
  m_FreeList : List Entity
  m_NextId : Nat
deriving DecidableEq, Repr

namespace EntityManager

def init : EntityManager := ⟨[], 0⟩

/-- The method `Create`: the back of the free list if there is one, else `m_NextId++`. -/
def Create (m : EntityManager) : Entity × EntityManager :=
  match m.m_FreeList.getLast? with
  | some e => (e, { m with m_FreeList := m.m_FreeList.dropLast })
  | none => (m.m_NextId, { m with m_NextId := (m.m_NextId + 1) % 2 ^ 32 })

/-- The method `Destroy`. -/
def Destroy (m : EntityManager) (e : Entity) : EntityManager :=
  { m with m_FreeList := m.m_FreeList ++ [e] }

/-- The method `Clear`. -/
def Clear (_m : EntityManager) : EntityManager := ⟨[], 0⟩

end EntityManager

/-! ## ECS/ComponentMask.h -/

/-- The struct `ComponentMaskAVX`: `data[i]` for `i < MASK_WORDS`, each a
64-bit word. -/
structure ComponentMaskAVX where
  data : Nat → Nat

namespace ComponentMaskAVX

/-- The constructor, which calls `clear()`: every word is zero. -/
def clear : ComponentMaskAVX := ⟨fun _ => 0⟩

/-- The value `1ULL << (e & 63)`. -/
def bit (e : Entity) : Nat := (1 <<< (e &&& 63)) % 2 ^ 64

/-- The method `set`; `none` when `data[idx]` is out of bounds. -/
def set (m : ComponentMaskAVX) (e : Entity) : Option ComponentMaskAVX :=
  let idx := e >>> 6
  if idx < MASK_WORDS then
    some ⟨fun i => if i = idx then m.data idx ||| bit e else m.data i⟩
  else none

/-- The method `reset`: `data[idx] &= ~bit`, the complement taken in 64 bits. -/
def reset (m : ComponentMaskAVX) (e : Entity) : Option ComponentMaskAVX :=
  let idx := e >>> 6
  if idx < MASK_WORDS then
    some ⟨fun i => if i = idx then m.data idx &&& ((2 ^ 64 - 1) ^^^ bit e) else m.data i⟩
  else none

/-- The method `test`; `none` when `data[idx]` is out of bounds. -/
def test (m : ComponentMaskAVX) (e : Entity) : Option Bool :=
  let idx := e >>> 6
  if idx < MASK_WORDS then some (m.data idx &&& bit e != 0) else none

end ComponentMaskAVX

/-! ## ECS/SparseComponentStorage.h -/

def PAGE_SIZE : Nat := 2048
def PAGE_MASK : Nat := PAGE_SIZE - 1
def PAGE_SHIFT : Nat := 11
def NO_ENTITY : Entity := 2 ^ 32 - 1
def INDEX_BITS : Nat := 20
def INDEX_MASK : Nat := (1 <<< INDEX_BITS) - 1
def VERSION_SHIFT : Nat := INDEX_BITS

/-- The function `PackIndexVersion`, on `uint32_t`. -/
def PackIndexVersion (idx ver : Nat) : Nat :=
  let safeIdx := if idx > INDEX_MASK then INDEX_MASK else idx
  ((ver <<< VERSION_SHIFT) % 2 ^ 32) ||| safeIdx

def UnpackIndex (iv : Nat) : Nat := iv &&& INDEX_MASK

def UnpackVersion (iv : Nat) : Nat := iv >>> VERSION_SHIFT

/-- One sparse page, `std::array<uint32_t, PAGE_SIZE>`: the slot at each offset
below `PAGE_SIZE`. -/
abbrev Page := Nat → Nat

/-- The member `sparsePages`: a vector of page pointers, `none` for `nullptr`. -/
abbrev SparsePages := List (Option Page)

/-- The read `(*sparsePages[e >> PAGE_SHIFT])[e & PAGE_MASK]`; `none` when the
vector is too short or the page pointer is null. -/
def readSlot (pages : SparsePages) (e : Entity) : Option Nat :=
  match pages[e >>> PAGE_SHIFT]? with
  | some (some pg) => some (pg (e &&& PAGE_MASK))
  | _ => none

/-- The write `(*sparsePages[e >> PAGE_SHIFT])[e & PAGE_MASK] = v`. -/
def writeSlot (pages : SparsePages) (e : Entity) (v : Nat) : Option SparsePages :=
  match pages[e >>> PAGE_SHIFT]? with
  | some (some pg) =>
    some (pages.set (e >>> PAGE_SHIFT)
      (some (fun i => if i = e &&& PAGE_MASK then v else pg i)))
  | _ => none

/-- The method `EnsurePage`. -/
def EnsurePage (pages : SparsePages) (e : Entity) : SparsePages :=
  let p := e >>> PAGE_SHIFT
  let pages1 :=
    if p ≥ pages.length then pages ++ List.replicate (p + 1 - pages.length) none
    else pages
  match pages1[p]? with
  | some (some _) => pages1
  | _ => pages1.set p (some (fun _ => PackIndexVersion INDEX_MASK 0))

/-- The class `SparseComponentStorage<T>`. -/
structure SparseComponentStorage (T : Type) where
  mask : ComponentMaskAVX
  packed : List T
  indices : List Entity
  sparsePages : SparsePages

namespace SparseComponentStorage

variable {T : Type}

/-- A default-constructed storage. -/
def empty : SparseComponentStorage T :=
  { mask := ComponentMaskAVX.clear, packed := [], indices := [], sparsePages := [] }

/-- The method `Add`. The result is the new state and the slot of `packed` that
the returned pointer `&packed.back()` designates. -/
def Add [Inhabited T] (s : SparseComponentStorage T) (e : Entity) :
    Option (SparseComponentStorage T × Nat) := do
  let idx := s.packed.length % 2 ^ 32
  let packed := s.packed ++ [default]
  let indices := s.indices ++ [e]
  let mask ← s.mask.set e
  let pages := EnsurePage s.sparsePages e
  let iv ← readSlot pages e
  let pages ← writeSlot pages e (PackIndexVersion idx (UnpackVersion iv))
  pure ({ mask := mask, packed := packed, indices := indices, sparsePages := pages },
        packed.length - 1)

/-- The method `Has`. -/
def Has (s : SparseComponentStorage T) (e : Entity) : Bool :=
  let p := e >>> PAGE_SHIFT
  match s.sparsePages[p]? with
  | some (some pg) => UnpackIndex (pg (e &&& PAGE_MASK)) != INDEX_MASK
  | _ => false

/-- The method `Remove`; `none` when the assertion `Has(e)` fails or an access
is out of bounds. -/
def Remove (s : SparseComponentStorage T) (e : Entity) :
    Option (SparseComponentStorage T) :=
  if Has s e then do
    let old ← readSlot s.sparsePages e
    let idx := UnpackIndex old
    let ver := (UnpackVersion old + 1) % 2 ^ 32
    let lastEntity ← s.indices.getLast?
    let lastComp ← s.packed.getLast?
    if idx < s.packed.length ∧ idx < s.indices.length then
      let packed := (s.packed.set idx lastComp).dropLast
      let indices := (s.indices.set idx lastEntity).dropLast
      let siv ← readSlot s.sparsePages lastEntity
      let pages ← writeSlot s.sparsePages lastEntity
        (PackIndexVersion (idx % 2 ^ 32) (UnpackVersion siv))
      let pages ← writeSlot pages e (PackIndexVersion INDEX_MASK ver)
      let mask ← s.mask.reset e
      pure { mask := mask, packed := packed, indices := indices, sparsePages := pages }
    else none
  else none

/-- The method `Get`, as the slot of `packed` that the returned pointer
designates; `none` when the assertion `Has(e)` fails. -/
def Get (s : SparseComponentStorage T) (e : Entity) : Option Nat :=
  if Has s e then do
    let iv ← readSlot s.sparsePages e
    pure (UnpackIndex iv)
  else none

/-- The method `Mask`. -/
def Mask (s : SparseComponentStorage T) : ComponentMaskAVX := s.mask

/-- The method `Indices`. -/
def Indices (s : SparseComponentStorage T) : List Entity := s.indices

/-- The body of `Registry::AddComponent<T>` on the storage of `T`: `Add`, then
the value is constructed in the slot that `Add` returned. -/
def AddComponent [Inhabited T] (s : SparseComponentStorage T) (e : Entity) (comp : T) :
    Option (SparseComponentStorage T) := do
  let (s1, ptr) ← Add s e
  if ptr < s1.packed.length then
    pure { s1 with packed := s1.packed.set ptr comp }
  else none

/-- The body of `Registry::GetComponent<T>` on the storage of `T`: the value
behind the pointer that `Get` returns. -/
def GetComponent (s : SparseComponentStorage T) (e : Entity) : Option T := do
  let ptr ← Get s e
  s.packed[ptr]?

/-- The body of `Registry::RemoveComponent<T>` on the storage of `T`: nothing
happens unless `Has(e)`. -/
def RemoveComponent (s : SparseComponentStorage T) (e : Entity) :
    Option (SparseComponentStorage T) :=
  if !Has s e then some s else Remove s e

end SparseComponentStorage

/-- A call on a storage: `AddComponent<T>(e, v)` or `RemoveComponent<T>(e)`. -/
inductive StorageOp (T : Type) where
  | add (e : Entity) (v : T)
  | remove (e : Entity)

namespace StorageOp

variable {T : Type}

/-- The entity a call is made on. -/
def entity : StorageOp T → Entity
  | add e _ => e
  | remove e => e

/-- One call applied to a storage. -/
def apply [Inhabited T] (s : SparseComponentStorage T) : StorageOp T →
    Option (SparseComponentStorage T)
  | add e v => s.AddComponent e v
  | remove e => s.RemoveComponent e

/-- A sequence of calls, in order; `none` as soon as one call fails. -/
def run [Inhabited T] (s : SparseComponentStorage T) :
    List (StorageOp T) → Option (SparseComponentStorage T)
  | [] => some s
  | op :: rest => (apply s op).bind (fun s1 => run s1 rest)

end StorageOp

end HBL2

namespace HBL2

namespace StorageOp

variable {T : Type}

/-- The discipline of a call sequence run from `s`: every `add` is made on an
entity below `MAX_ENTITIES` that does not have the component at that moment.
Nothing is asked of a `remove` (which is a no-op on an entity without the
component), and nothing is assumed about a call completing. -/
def freshAdds [Inhabited T] : SparseComponentStorage T → List (StorageOp T) → Bool
  | _, [] => true
  | s, add f v :: rest =>
    !s.Has f && decide (f < MAX_ENTITIES) &&
      (match s.AddComponent f v with
        | some s1 => freshAdds s1 rest
        | none => true)
  | s, remove f :: rest =>
    match s.RemoveComponent f with
    | some s1 => freshAdds s1 rest
    | none => true

end StorageOp

/-- The consistency of a storage: `indices` and `packed` are aligned, the sparse
slot of the entity at position `i` holds index `i`, every slot that is not a
tombstone points at the position of its own entity, and the mask bit of every
entity equals `Has`. -/
structure StorageInv {T : Type} (s : SparseComponentStorage T) : Prop where
  len : s.packed.length = s.indices.length
  range : ∀ (i : Nat) (e : Entity), s.indices[i]? = some e → e < MAX_ENTITIES
  fwd : ∀ (i : Nat) (e : Entity), s.indices[i]? = some e →
    ∃ iv, readSlot s.sparsePages e = some iv ∧ UnpackIndex iv = i
  bwd : ∀ (e : Entity) (iv : Nat), readSlot s.sparsePages e = some iv →
    UnpackIndex iv ≠ INDEX_MASK → s.indices[UnpackIndex iv]? = some e
  maskOk : ∀ e : Entity, e < MAX_ENTITIES → s.mask.test e = some (s.Has e)

end HBL2

namespace HBL2

/-! ## ECS/Registry.h -/

/-- The class `Registry`, every component store being a `SparseComponentStorage`
(the default that `EnsureArray` creates). The values of all component types are
drawn from the one type `T`; a component type is named by a number. The static
state of `ComponentTypeID` is carried in the field `typeIDs`. `none` in
`m_Storages` is `nullptr`. -/
structure Registry (T : Type) where
  typeIDs : ComponentTypeID
  m_Entities : EntityManager
  m_EntityCount : Nat
  m_Storages : List (Option (SparseComponentStorage T))

namespace Registry

variable {T : Type}

/-- A freshly constructed registry in a fresh process. -/
def init : Registry T :=
  { typeIDs := ComponentTypeID.init, m_Entities := EntityManager.init, m_EntityCount := 0,
    m_Storages := List.replicate MAX_COMPONENT_TYPES none }

/-- The method `CreateEntity`. -/
def CreateEntity (r : Registry T) : Entity × Registry T :=
  let (e, m) := r.m_Entities.Create
  (e, { r with m_EntityCount := (r.m_EntityCount + 1) % 2 ^ 32, m_Entities := m })

/-- The method `EnsureArray<T>`: the id of the type and the registry in which
the store of that id exists; `none` when `m_Storages[id]` is out of bounds. -/
def EnsureArray (r : Registry T) (ty : Nat) : Option (Nat × Registry T) :=
  let (id, c) := r.typeIDs.Get ty
  match r.m_Storages[id]? with
  | none => none
  | some (some _) => some (id, { r with typeIDs := c })
  | some none =>
    some (id, { r with typeIDs := c
                       m_Storages := r.m_Storages.set id (some SparseComponentStorage.empty) })

/-- The store that `m_Storages[id]` points to; `none` for a null pointer or an
index out of bounds. -/
def storage (r : Registry T) (id : Nat) : Option (SparseComponentStorage T) :=
  (r.m_Storages[id]?).join

/-- The method `AddComponent<T>`. -/
def AddComponent [Inhabited T] (r : Registry T) (ty : Nat) (e : Entity) (comp : T) :
    Option (Registry T) := do
  let (id, r1) ← EnsureArray r ty
  let arr ← r1.storage id
  let arr1 ← arr.AddComponent e comp
  pure { r1 with m_Storages := r1.m_Storages.set id (some arr1) }

/-- The method `GetComponent<T>`. -/
def GetComponent (r : Registry T) (ty : Nat) (e : Entity) : Option (T × Registry T) := do
  let (id, r1) ← EnsureArray r ty
  let arr ← r1.storage id
  let v ← arr.GetComponent e
  pure (v, r1)

/-- The method `HasComponent<T>`. -/
def HasComponent (r : Registry T) (ty : Nat) (e : Entity) : Option (Bool × Registry T) := do
  let (id, r1) ← EnsureArray r ty
  let arr ← r1.storage id
  pure (arr.Has e, r1)

/-- The method `RemoveComponent<T>`. -/
def RemoveComponent (r : Registry T) (ty : Nat) (e : Entity) : Option (Registry T) := do
  let (id, r1) ← EnsureArray r ty
  let arr ← r1.storage id
  if !arr.Has e then pure r1
  else
    let arr1 ← arr.Remove e
    pure { r1 with m_Storages := r1.m_Storages.set id (some arr1) }

/-- One iteration of the loop of `DestroyEntity`: `m_Storages[i]->Remove(e)`. -/
def destroyStep (e : Entity) (r : Registry T) (i : Nat) : Option (Registry T) := do
  let arr ← r.storage i
  let arr1 ← arr.Remove e
  pure { r with m_Storages := r.m_Storages.set i (some arr1) }

/-- The method `DestroyEntity`. -/
def DestroyEntity (r : Registry T) (e : Entity) : Option (Registry T) :=
  let r1 : Registry T :=
    { r with m_EntityCount := (r.m_EntityCount + 2 ^ 32 - 1) % 2 ^ 32
             m_Entities := r.m_Entities.Destroy e }
  (List.range r1.typeIDs.GetCount).foldlM (destroyStep e) r1

end Registry

end HBL2

namespace HBL2

namespace SparseComponentStorage

variable {T : Type}

/-- The method `Clear`: `packed.clear()`, `indices.clear()`, every page deleted
and `sparsePages.clear()`. The member `mask` is not mentioned in the body. -/
def Clear (s : SparseComponentStorage T) : SparseComponentStorage T :=
  { s with packed := [], indices := [], sparsePages := [] }

end SparseComponentStorage

namespace Registry

variable {T : Type}

/-- The method `Clear`. -/
def Clear (r : Registry T) : Registry T :=
  { r with m_Entities := r.m_Entities.Clear
           m_EntityCount := 0
           m_Storages := r.m_Storages.map (fun p => p.map SparseComponentStorage.Clear) }

end Registry

namespace EntityManager

/-- `Create` called `n` times in a row, the returned ids dropped. -/
def createMany : Nat → EntityManager → EntityManager
  | 0, m => m
  | n + 1, m => createMany n (Create m).2

/-- `Destroy` called on each id of a list, in order. -/
def destroyAll (m : EntityManager) (ds : List Entity) : EntityManager :=
  ds.foldl Destroy m

end EntityManager

end HBL2

namespace HBL2

/-- The intrinsic `__builtin_ctzll` / `_BitScanForward64` on a non-zero 64-bit
word: the number of trailing zero bits, found by looking at the bits from the
lowest one up. -/
def ctzAux : Nat → Nat → Nat
  | 0, _ => 0
  | n + 1, w => if w % 2 = 1 then 0 else 1 + ctzAux n (w / 2)

def ctz (w : Nat) : Nat := ctzAux 64 w

namespace ComponentMaskAVX

/-! In the scans below an entity is written as the natural number it is
(`Entity` is `uint32_t`). -/

/-- The method `and_with` (`operator&=`): every word is ANDed with the word of
`other`, four words per step. -/
def and_with (m other : ComponentMaskAVX) : ComponentMaskAVX :=
  ⟨fun i => if i < MASK_WORDS then m.data i &&& other.data i else m.data i⟩

/-- The method `and_not_with` (`operator-=`): `_mm256_andnot_si256(ex, m)` is
`(~ex) & m` on every word. -/
def and_not_with (m other : ComponentMaskAVX) : ComponentMaskAVX :=
  ⟨fun i => if i < MASK_WORDS then ((2 ^ 64 - 1) ^^^ other.data i) &&& m.data i else m.data i⟩

/-- The result expression of the bit scans: `static_cast<Entity>(wi * 64 + tz)`,
then `(e < MAX_ENTITIES ? e : MAX_ENTITIES)`. -/
def foundAt (wi tz : Nat) : Nat :=
  let e := (wi * 64 + tz) % 2 ^ 32
  if e < MAX_ENTITIES then e else MAX_ENTITIES

/-- The loop `for (wj = wi; wj < MASK_WORDS; ++wj)` of `find_first` and
`find_next`, with `n` iterations left: the first set bit of the first non-zero
word, or `MAX_ENTITIES`. -/
def scanWords (m : ComponentMaskAVX) : Nat → Nat → Nat
  | 0, _ => MAX_ENTITIES
  | n + 1, wi =>
    let w := m.data wi
    if w ≠ 0 then foundAt wi (ctz w) else scanWords m n (wi + 1)

/-- The method `find_first`. -/
def find_first (m : ComponentMaskAVX) : Nat := scanWords m MASK_WORDS 0

/-- The method `find_next`. -/
def find_next (m : ComponentMaskAVX) (prev : Nat) : Nat :=
  let next := (prev + 1) % 2 ^ 32
  if next ≥ MAX_ENTITIES then MAX_ENTITIES
  else
    let wi := next >>> 6
    let bit_off := next &&& 63
    let w := m.data wi &&& (((2 ^ 64 - 1) <<< bit_off) % 2 ^ 64)
    if w ≠ 0 then foundAt wi (ctz w)
    else scanWords m (MASK_WORDS - (wi + 1)) (wi + 1)

/-- The method `begin`: the iterator at `find_first()`. An iterator is the
entity it stands on, which is all that `operator==` compares. -/
def beginIt (m : ComponentMaskAVX) : Nat := find_first m

/-- The method `end`: the iterator at `MAX_ENTITIES`. -/
def endIt (_m : ComponentMaskAVX) : Nat := MAX_ENTITIES

/-- The loop `for (it = ...; it != end(); ++it)` from the iterator at `cur`:
the entities it yields, `none` if `fuel` steps do not reach `end()`. -/
def iterFrom (m : ComponentMaskAVX) : Nat → Nat → Option (List Nat)
  | 0, _ => none
  | fuel + 1, cur =>
    if cur = MAX_ENTITIES then some []
    else (iterFrom m fuel (find_next m cur)).map (fun rest => cur :: rest)

/-- The range-for over a mask, `for (Entity e : mask)`, from `begin()`. -/
def entities (m : ComponentMaskAVX) : Option (List Nat) :=
  iterFrom m (MAX_ENTITIES + 1) (beginIt m)

/-- Every word of the mask is a 64-bit value. -/
def WordsU64 (m : ComponentMaskAVX) : Prop := ∀ i, m.data i < 2 ^ 64

end ComponentMaskAVX

end HBL2

namespace HBL2

/-! ## ECS-Alt/SparseFlatBitmap3L.h -/

def L2_BITS : Nat := 64
def L1_GROUPS : Nat := 64
def L0_BLOCKS : Nat := 64

/-- The class `SparseFlatBitmap3L`: `l2[b][g]`, `l1[b]` and `l0`, each a 64-bit
word. -/
structure SparseFlatBitmap3L where
  l2 : Nat → Nat → Nat
  l1 : Nat → Nat
  l0 : Nat

namespace SparseFlatBitmap3L

def max_entity : Nat := L0_BLOCKS * L1_GROUPS * L2_BITS

/-- A value-initialised bitmap: all words zero. -/
def clear : SparseFlatBitmap3L := ⟨fun _ _ => 0, fun _ => 0, 0⟩

/-- The function `split`: `(b, g, i)`. -/
def split (entity : Nat) : Nat × Nat × Nat :=
  (entity >>> 12, (entity >>> 6) &&& 0x3F, entity &&& 0x3F)

/-- The method `set`; `none` when the assertion on `b`, `g`, `i` fails. -/
def set (m : SparseFlatBitmap3L) (entity : Nat) : Option SparseFlatBitmap3L :=
  let (b, g, i) := split entity
  if b < L0_BLOCKS ∧ g < L1_GROUPS ∧ i < L2_BITS then
    let bit := (1 <<< i) % 2 ^ 64
    some { l2 := fun b1 g1 => if b1 = b ∧ g1 = g then m.l2 b g ||| bit else m.l2 b1 g1
           l1 := fun b1 => if b1 = b then m.l1 b ||| ((1 <<< g) % 2 ^ 64) else m.l1 b1
           l0 := m.l0 ||| ((1 <<< b) % 2 ^ 64) }
  else none

/-- The method `reset`. -/
def reset (m : SparseFlatBitmap3L) (entity : Nat) : Option SparseFlatBitmap3L :=
  let (b, g, i) := split entity
  if b < L0_BLOCKS ∧ g < L1_GROUPS ∧ i < L2_BITS then
    let bit := (1 <<< i) % 2 ^ 64
    if m.l2 b g &&& bit = 0 then some m
    else
      let w := m.l2 b g &&& ((2 ^ 64 - 1) ^^^ bit)
      let l2 := fun b1 g1 => if b1 = b ∧ g1 = g then w else m.l2 b1 g1
      if w = 0 then
        let w1 := m.l1 b &&& ((2 ^ 64 - 1) ^^^ ((1 <<< g) % 2 ^ 64))
        let l1 := fun b1 => if b1 = b then w1 else m.l1 b1
        if w1 = 0 then
          some { l2 := l2, l1 := l1, l0 := m.l0 &&& ((2 ^ 64 - 1) ^^^ ((1 <<< b) % 2 ^ 64)) }
        else some { l2 := l2, l1 := l1, l0 := m.l0 }
      else some { l2 := l2, l1 := m.l1, l0 := m.l0 }
  else none

/-- The method `test`. -/
def test (m : SparseFlatBitmap3L) (entity : Nat) : Bool :=
  let (b, g, i) := split entity
  if b ≥ L0_BLOCKS ∨ g ≥ L1_GROUPS ∨ i ≥ L2_BITS then false
  else m.l2 b g &&& ((1 <<< i) % 2 ^ 64) != 0

/-- The method `any`. -/
def any (m : SparseFlatBitmap3L) : Bool := m.l0 != 0

/-- The struct `SparseFlatBitmap3L::Iterator` (the reference `map` is passed to
the functions below). -/
structure Iterator where
  current_entity : Nat
  b : Nat
  g : Nat
  bits : Nat
deriving DecidableEq, Repr

/-- The method `advance_to_next`: the loop `while (true)`, `none` if `fuel`
rounds do not leave it. -/
def advance_to_next (map : SparseFlatBitmap3L) : Nat → Iterator → Option Iterator
  | 0, _ => none
  | fuel + 1, it =>
    if it.bits ≠ 0 then
      some { it with
        current_entity := ((it.b <<< 12) ||| (it.g <<< 6) ||| ctz it.bits) % 2 ^ 32 }
    else
      let g := it.g + 1
      if g ≥ L1_GROUPS then
        let b := it.b + 1
        if b ≥ L0_BLOCKS then
          some { it with g := 0, b := b, current_entity := max_entity }
        else advance_to_next map fuel { it with g := 0, b := b, bits := map.l2 b 0 }
      else advance_to_next map fuel { it with g := g, bits := map.l2 it.b g }

/-- The rounds that `advance_to_next` can need at most: one per group and one
more. -/
def advanceFuel : Nat := L0_BLOCKS * L1_GROUPS + 1

/-- The method `begin`: the constructor with `end == false`. -/
def beginIt (map : SparseFlatBitmap3L) : Option Iterator :=
  advance_to_next map advanceFuel { current_entity := 0, b := 0, g := 0, bits := map.l2 0 0 }

/-- The method `end`: the constructor with `end == true`. -/
def endIt (_map : SparseFlatBitmap3L) : Iterator :=
  { current_entity := max_entity, b := 0, g := 0, bits := 0 }

/-- The operator `++`: `bits &= bits - 1`, then `advance_to_next`. -/
def incr (map : SparseFlatBitmap3L) (it : Iterator) : Option Iterator :=
  advance_to_next map advanceFuel
    { it with bits := it.bits &&& ((it.bits + 2 ^ 64 - 1) % 2 ^ 64) }

/-- The operator `!=`: only `current_entity` is compared. -/
def neq (a b : Iterator) : Bool := a.current_entity != b.current_entity

/-- The loop `for (it = ...; it != end(); ++it)` from the iterator `it`. -/
def iterFrom (map : SparseFlatBitmap3L) : Nat → Iterator → Option (List Nat)
  | 0, _ => none
  | fuel + 1, it =>
    if neq it (endIt map) then
      (incr map it).bind (fun it1 =>
        (iterFrom map fuel it1).map (fun rest => it.current_entity :: rest))
    else some []

/-- The range-for over a bitmap, from `begin()`. -/
def entities (map : SparseFlatBitmap3L) : Option (List Nat) :=
  (beginIt map).bind (fun it => iterFrom map (max_entity + 1) it)

/-- Every word of `l2` is a 64-bit value. -/
def WordsU64 (m : SparseFlatBitmap3L) : Prop := ∀ b g, m.l2 b g < 2 ^ 64

end SparseFlatBitmap3L

end HBL2

namespace HBL2

/-! ## ECS/FilterQuery.h, ECS/ExcludeQuery.h, ECS/ViewQuery.h

A query holds pointers to stores; here it holds the stores themselves, each a
`SparseComponentStorage`. What `Run` returns is the list of entities on which
`m_Function` is invoked, in the order of the calls. -/

namespace Query

variable {T : Type}

/-- The loop `for (i = 1; i < Arity; ++i)` that finds `minCount` and `minIdx`,
at index `i` with the counts from `i` on. -/
def minLoop : List Nat → Nat → Nat → Nat → Nat × Nat
  | [], _, minCount, minIdx => (minCount, minIdx)
  | c :: rest, i, minCount, minIdx =>
    if c < minCount then minLoop rest (i + 1) c i
    else minLoop rest (i + 1) minCount minIdx

/-- The pair `(minCount, minIdx)`; `none` for an empty pack, where `counts[0]`
does not exist. -/
def findMin (counts : List Nat) : Option (Nat × Nat) :=
  match counts with
  | [] => none
  | c0 :: rest => some (minLoop rest 1 c0 0)

/-- The condition of the `if` that selects the low-density branch. -/
def useSparsePath (m_EntityCount minCount : Nat) : Bool :=
  let lowEntityCount := decide (m_EntityCount ≤ 1000)
  let mediumEntityCountLowDensity :=
    decide (m_EntityCount > 1000) && decide (m_EntityCount ≤ 10000) && decide (minCount ≤ 1500)
  let mediumHighEntityCountLowDensity :=
    decide (m_EntityCount > 10000) && decide (m_EntityCount ≤ 20000) && decide (minCount ≤ 3000)
  lowEntityCount || mediumEntityCountLowDensity || mediumHighEntityCountLowDensity

/-- The call `m_Function(*Get(e)...)` on the include stores: it needs the
component of `e` in every one of them. -/
def invoke (stores : List (SparseComponentStorage T)) (e : Entity) : Option Entity :=
  if stores.all (fun s => (s.GetComponent e).isSome) then some e else none

/-- The statements `m_JointMask = stores[0]->Mask()` and the loop
`m_JointMask &= stores[i]->Mask()`. -/
def jointMask (stores : List (SparseComponentStorage T)) : Option ComponentMaskAVX :=
  match stores with
  | [] => none
  | s0 :: rest => some (rest.foldl (fun joint s => joint.and_with s.Mask) s0.Mask)

/-- The loop `m_JointMask -= m_Exclude[i]->Mask()`. -/
def subtractMasks (joint : ComponentMaskAVX) (excludes : List (SparseComponentStorage T)) :
    ComponentMaskAVX :=
  excludes.foldl (fun j s => j.and_not_with s.Mask) joint

/-- The loop `for (Entity e : m_JointMask)` with its call of `m_Function`. -/
def denseLoop (stores : List (SparseComponentStorage T)) (joint : ComponentMaskAVX) :
    Option (List Entity) := do
  let es ← joint.entities
  es.mapM (invoke stores)

end Query

/-- The class `FilterQuery<Components...>`. -/
structure FilterQuery (T : Type) where
  m_Storages : List (SparseComponentStorage T)
  m_EntityCount : Nat

namespace FilterQuery

variable {T : Type}

/-- The low-density branch of `ForEachRunImpl`, over the entity list of the
store `minIdx`. -/
def sparseLoop (stores : List (SparseComponentStorage T)) : List Entity → Option (List Entity)
  | [] => some []
  | e :: rest =>
    if stores.all (fun s => s.Has e) then do
      let v ← Query.invoke stores e
      let vs ← sparseLoop stores rest
      pure (v :: vs)
    else sparseLoop stores rest

def sparsePath (q : FilterQuery T) (minIdx : Nat) : Option (List Entity) := do
  let st ← q.m_Storages[minIdx]?
  sparseLoop q.m_Storages st.Indices

/-- The other branch of `ForEachRunImpl`. -/
def densePath (q : FilterQuery T) : Option (List Entity) := do
  let joint ← Query.jointMask q.m_Storages
  Query.denseLoop q.m_Storages joint

/-- The method `Run` (`ForEachRunImpl`). -/
def Run (q : FilterQuery T) : Option (List Entity) := do
  let (minCount, minIdx) ← Query.findMin (q.m_Storages.map (fun s => s.Indices.length))
  if Query.useSparsePath q.m_EntityCount minCount then sparsePath q minIdx
  else densePath q

/-- The method `Schedule`: its body is empty. `sched` stands for any scheduler
of the program. -/
def Schedule (q : FilterQuery T) (sched : Sceduler) : FilterQuery T × Sceduler :=
  (q, sched)

end FilterQuery

/-- The class `ExcludeQuery<IncludeWrapper<...>, ExcludeWrapper<...>>`. -/
structure ExcludeQuery (T : Type) where
  m_Include : List (SparseComponentStorage T)
  m_Exclude : List (SparseComponentStorage T)
  m_EntityCount : Nat

namespace ExcludeQuery

variable {T : Type}

/-- The low-density branch of `ForEachRunImpl`. -/
def sparseLoop (includes excludes : List (SparseComponentStorage T)) :
    List Entity → Option (List Entity)
  | [] => some []
  | e :: rest =>
    if includes.all (fun s => s.Has e) then
      if excludes.any (fun s => s.Has e) then sparseLoop includes excludes rest
      else do
        let v ← Query.invoke includes e
        let vs ← sparseLoop includes excludes rest
        pure (v :: vs)
    else sparseLoop includes excludes rest

def sparsePath (q : ExcludeQuery T) (minIdx : Nat) : Option (List Entity) := do
  let st ← q.m_Include[minIdx]?
  sparseLoop q.m_Include q.m_Exclude st.Indices

/-- The other branch of `ForEachRunImpl`. -/
def densePath (q : ExcludeQuery T) : Option (List Entity) := do
  let joint ← Query.jointMask q.m_Include
  Query.denseLoop q.m_Include (Query.subtractMasks joint q.m_Exclude)

/-- The method `Run` (`ForEachRunImpl`). -/
def Run (q : ExcludeQuery T) : Option (List Entity) := do
  let (minCount, minIdx) ← Query.findMin (q.m_Include.map (fun s => s.Indices.length))
  if Query.useSparsePath q.m_EntityCount minCount then sparsePath q minIdx
  else densePath q

/-- The method `Schedule`: its body is empty. -/
def Schedule (q : ExcludeQuery T) (sched : Sceduler) : ExcludeQuery T × Sceduler :=
  (q, sched)

end ExcludeQuery

/-- The class `ViewQuery<Component>`. -/
structure ViewQuery (T : Type) where
  m_Storage : SparseComponentStorage T

namespace ViewQuery

variable {T : Type}

/-- The method `Run`: `IterateRaw` calls the function on `packed[i]` for every
`i` in order. -/
def Run (q : ViewQuery T) : List T := q.m_Storage.packed

/-- The method `Schedule`: its body is empty. -/
def Schedule (q : ViewQuery T) (sched : Sceduler) : ViewQuery T × Sceduler :=
  (q, sched)

end ViewQuery

/-- The store that a call sequence builds from the empty store (the empty store
if a call does not complete). -/
def storeOf {T : Type} [Inhabited T] (ops : List (StorageOp T)) : SparseComponentStorage T :=
  (StorageOp.run SparseComponentStorage.empty ops).getD SparseComponentStorage.empty

/-- Every call sequence of the list adds only to entities that lack the
component. -/
def allFresh {T : Type} [Inhabited T] (opss : List (List (StorageOp T))) : Bool :=
  opss.all (fun ops => StorageOp.freshAdds SparseComponentStorage.empty ops)

/-- The entity is in every include mask and in no exclude mask. -/
def InMasks {T : Type} (includes excludes : List (SparseComponentStorage T)) (e : Entity) :
    Prop :=
  (∀ s ∈ includes, s.Mask.test e = some true) ∧ (∀ s ∈ excludes, s.Mask.test e ≠ some true)

end HBL2

namespace HBL2

/-! ## ECS-Alt/Registry.h: `Schedule` and `FillDeps` -/

namespace Alt

def MAX_COMPONENT_TYPES : Nat := 64

/-- A template argument of `Schedule`: the component type (named by a number)
and whether it is declared `const`. -/
structure Param where
  type : Nat
  isConst : Bool
deriving DecidableEq, Repr

/-- The call `std::bitset<MAX_COMPONENT_TYPES>::set(pos)`; it throws
`std::out_of_range`, here `none`, when `pos` is not below the size. -/
def bitsetSet (mask pos : Nat) : Option Nat :=
  if pos < MAX_COMPONENT_TYPES then some (mask ||| (1 <<< pos)) else none

/-- The part of the ECS-Alt class `Registry` that `Schedule` reads and writes:
the static state of `ComponentTypeID` and the member `m_Sceduler`. -/
structure Registry where
  typeIDs : ComponentTypeID
  m_Sceduler : Sceduler

namespace Registry

/-- The method `FillDeps<C>`. -/
def FillDeps (c : ComponentTypeID) (info : SystemEntry) (C : Param) :
    Option (ComponentTypeID × SystemEntry) :=
  let (id, c1) := c.Get C.type
  if C.isConst then
    (bitsetSet info.ReadMask id).map (fun m => (c1, { info with ReadMask := m }))
  else
    (bitsetSet info.WriteMask id).map (fun m => (c1, { info with WriteMask := m }))

/-- A default-constructed `SystemEntry`, before `Task` is assigned. -/
def newEntry : SystemEntry := { ReadMask := 0, WriteMask := 0, Task := 0 }

/-- The method `Schedule<A>`; `task` names the closure that runs `Run<A>(func)`. -/
def Schedule1 (r : Registry) (A : Param) (task : Nat) : Option Registry := do
  let (c1, entry) ← FillDeps r.typeIDs newEntry A
  pure { typeIDs := c1, m_Sceduler := r.m_Sceduler.Register { entry with Task := task } }

/-- The method `Schedule<A, B>`. -/
def Schedule2 (r : Registry) (A B : Param) (task : Nat) : Option Registry := do
  let (c1, entry) ← FillDeps r.typeIDs newEntry A
  let (c2, entry) ← FillDeps c1 entry B
  pure { typeIDs := c2, m_Sceduler := r.m_Sceduler.Register { entry with Task := task } }

/-- A fresh registry in a fresh process. -/
def init : Registry := { typeIDs := ComponentTypeID.init, m_Sceduler := Sceduler.empty }

end Registry

end Alt

/-- The ids handed out so far are below the counter and no two component types
share one. -/
def IdsOk (c : ComponentTypeID) : Prop :=
  (∀ T id, c.ids T = some id → id < c.s_Counter) ∧
  (∀ T U id, c.ids T = some id → c.ids U = some id → T = U)

end HBL2

namespace HBL2

/-- In `counts`, `minCount` is the smallest value and `minIdx` is the first index
that holds it. -/
def IsFirstMin (counts : List Nat) (minCount minIdx : Nat) : Prop :=
  counts[minIdx]? = some minCount ∧ (∀ c ∈ counts, minCount ≤ c) ∧
    ∀ (j c : Nat), j < minIdx → counts[j]? = some c → minCount < c

end HBL2

namespace HBL2

/-- The version field of the sparse slot of `e`; 0 while the page of `e` is not
allocated, which is the version `EnsurePage` then gives the slot. -/
def versionOf {T : Type} (s : SparseComponentStorage T) (e : Entity) : Nat :=
  match readSlot s.sparsePages e with
  | some iv => UnpackVersion iv
  | none => 0

/-- Every sparse slot holds a 32-bit value. -/
def SlotsU32 {T : Type} (s : SparseComponentStorage T) : Prop :=
  ∀ (e : Entity) (iv : Nat), readSlot s.sparsePages e = some iv → iv < 2 ^ 32

/-- The call sequence `Add(e); Remove(e)` made `n` times in a row. -/
def addRemoveCycles (e : Entity) : Nat → List (StorageOp Nat)
  | 0 => []
  | n + 1 => addRemoveCycles e n ++ [StorageOp.add e 0, StorageOp.remove e]

end HBL2

namespace HBL2

/-- Bit `e` of a mask, read from word `e / 64`. -/
def ComponentMaskAVX.bitSet (m : ComponentMaskAVX) (e : Nat) : Prop :=
  (m.data (e / 64)).testBit (e % 64) = true

/-- The value `r` is the least set bit of `m` that is at least `lo`, or
`MAX_ENTITIES` when there is none. -/
def ComponentMaskAVX.LeastFrom (m : ComponentMaskAVX) (lo r : Nat) : Prop :=
  lo ≤ r ∧ r ≤ MAX_ENTITIES ∧ (r < MAX_ENTITIES → m.bitSet r) ∧
    ∀ e, lo ≤ e → e < r → ¬ m.bitSet e

end HBL2

namespace HBL2

namespace SparseFlatBitmap3L

/-- Bit `e` of the bitmap, read from `l2`. -/
def bitSet (m : SparseFlatBitmap3L) (e : Nat) : Prop :=
  e < max_entity ∧ (m.l2 (e / 4096) (e / 64 % 64)).testBit (e % 64) = true

/-- The entities an iterator has still to yield: the bits left in `bits` for the
group it stands on, and every set bit of the later groups. -/
def Remaining (m : SparseFlatBitmap3L) (it : Iterator) (e : Nat) : Prop :=
  (e / 64 = it.b * 64 + it.g ∧ it.bits.testBit (e % 64) = true) ∨
    (it.b * 64 + it.g < e / 64 ∧ m.bitSet e)

/-- The iterator stands on a set bit: `bits` is not zero and `current_entity` is
its lowest bit in group `g` of block `b`. -/
def Positioned (it : Iterator) : Prop :=
  it.b < 64 ∧ it.g < 64 ∧ it.bits < 2 ^ 64 ∧ it.bits ≠ 0 ∧
    it.current_entity = (it.b * 64 + it.g) * 64 + ctz it.bits

end SparseFlatBitmap3L

end HBL2

namespace HBL2

/-- A store is consistent and the words of its mask are 64-bit values. -/
def StoreOk {T : Type} (s : SparseComponentStorage T) : Prop :=
  StorageInv s ∧ s.mask.WordsU64

end HBL2

namespace HBL2

/-- The intrinsic `_mm_popcnt_u64`: the number of one bits among the 64 bits of
a word, counted from the lowest bit up. -/
def popcntAux : Nat → Nat → Nat
  | 0, _ => 0
  | n + 1, w => w % 2 + popcntAux n (w / 2)

def popcnt (w : Nat) : Nat := popcntAux 64 w

namespace ComponentMaskAVX

/-- The loop of `count`, `for (i = ...; i < MASK_WORDS; ++i) total += popcnt(data[i])`,
with `n` iterations left; `total` is a `size_t`. -/
def countLoop (m : ComponentMaskAVX) : Nat → Nat → Nat → Nat
  | 0, _, total => total
  | n + 1, i, total => countLoop m n (i + 1) ((total + popcnt (m.data i)) % 2 ^ 64)

/-- The method `count`. -/
def count (m : ComponentMaskAVX) : Nat := countLoop m MASK_WORDS 0 0

end ComponentMaskAVX

end HBL2

namespace HBL2

/-! ## ECS/SingletonComponentStorage.h -/

def UINT32_MAX : Nat := 2 ^ 32 - 1

/-- The class `SingletonComponentStorage<T>`. -/
structure SingletonComponentStorage (T : Type) where
  m_Component : T
  m_Entity : Entity
  m_Mask : ComponentMaskAVX

namespace SingletonComponentStorage

variable {T : Type}

/-- A newly constructed store: `m_Entity = UINT32_MAX`, the mask cleared by its
constructor. -/
def fresh [Inhabited T] : SingletonComponentStorage T :=
  ⟨default, UINT32_MAX, ComponentMaskAVX.clear⟩

/-- The method `Add`; the flag tells whether `&m_Component` is returned (true) or
`nullptr` (false). -/
def Add (s : SingletonComponentStorage T) (e : Entity) : SingletonComponentStorage T × Bool :=
  if s.m_Entity = UINT32_MAX then ({ s with m_Entity := e }, true)
  else (s, false)

/-- The method `Remove`. -/
def Remove (s : SingletonComponentStorage T) (e : Entity) : SingletonComponentStorage T :=
  if s.m_Entity = e then { s with m_Entity := UINT32_MAX } else s

/-- The method `Get`; `none` is `nullptr`. -/
def Get (s : SingletonComponentStorage T) (e : Entity) : Option T :=
  if s.m_Entity = e then some s.m_Component else none

/-- The method `Has`. -/
def Has (s : SingletonComponentStorage T) (e : Entity) : Bool :=
  if s.m_Entity = e then true else false

/-- The method `Mask`. -/
def Mask (s : SingletonComponentStorage T) : ComponentMaskAVX := s.m_Mask

/-- The method `Indices`: the span over `m_Entity`. -/
def Indices (s : SingletonComponentStorage T) : List Entity := [s.m_Entity]

/-- The method `Clear`. -/
def Clear (s : SingletonComponentStorage T) : SingletonComponentStorage T :=
  { s with m_Entity := UINT32_MAX }

end SingletonComponentStorage

/-- A call of `Add`, `Remove` or `Clear` on a singleton store. -/
inductive SingletonOp where
  | add (e : Entity)
  | remove (e : Entity)
  | clear
deriving DecidableEq, Repr

namespace SingletonOp

def apply {T : Type} (s : SingletonComponentStorage T) : SingletonOp → SingletonComponentStorage T
  | .add e => (s.Add e).1
  | .remove e => s.Remove e
  | .clear => s.Clear

/-- The calls of a list, in order. -/
def run {T : Type} (s : SingletonComponentStorage T) (ops : List SingletonOp) :
    SingletonComponentStorage T :=
  ops.foldl apply s

end SingletonOp

/-! ## ECS/SmallComponentStorage.h -/

/-- The class `SmallComponentStorage<T, N>`. The two `DynamicArray`s (declared in
`Core/Allocators.h`, which is not among the sources) are lists: `Add` appends. -/
structure SmallComponentStorage (T : Type) (N : Nat) where
  m_Components : List T
  m_Entities : List Entity
  m_Mask : ComponentMaskAVX
  m_Size : Nat

namespace SmallComponentStorage

variable {T : Type} {N : Nat}

/-- What a call of `Add` leaves: the store, the returned pointer as the index of
the slot in `m_Components` (`none` is `nullptr`), and whether
`HBL2_CORE_ASSERT(false, ...)` was reached. -/
structure AddResult (T : Type) (N : Nat) where
  store : SmallComponentStorage T N
  slot : Option Nat
  assertFailed : Bool

/-- The method `Add`; `none` when `m_Mask.set(e)` writes outside the mask. -/
def Add [Inhabited T] (s : SmallComponentStorage T N) (e : Entity) : Option (AddResult T N) :=
  if s.m_Size < N then
    match s.m_Mask.set e with
    | some mask =>
      some { store := { m_Components := s.m_Components ++ [default]
                        m_Entities := s.m_Entities ++ [e]
                        m_Mask := mask
                        m_Size := (s.m_Size + 1) % 2 ^ 32 }
             slot := some s.m_Size
             assertFailed := false }
    | none => none
  else some { store := s, slot := none, assertFailed := true }

end SmallComponentStorage

/-! ## ECS/EntityManager.h: `ComponentTypeID` over several types -/

namespace ComponentTypeID

/-- The calls `Get<T>()` for the component types of a list, in order: the ids
returned and the final state. -/
def GetAll (c : ComponentTypeID) : List Nat → List Nat × ComponentTypeID
  | [] => ([], c)
  | T :: rest =>
    let r := c.Get T
    let rs := GetAll r.2 rest
    (r.1 :: rs.1, rs.2)

end ComponentTypeID

end HBL2

namespace HBL2

/-! ## ECS-Alt/Meta.h -/

namespace Meta

abbrev TypeID := Nat
abbrev MemberID := Nat

/-- The C++ types that `test_meta` reflects. -/
inductive BaseType where
  | int
  | float
  | bool
  | NewComponent
deriving DecidableEq, Repr

/-- A C++ type with its `const` qualification. -/
structure CType where
  base : BaseType
  isConst : Bool
deriving DecidableEq, Repr

namespace CType

/-- The trait `std::remove_const_t`. -/
def remove_const (t : CType) : CType := { t with isConst := false }

/-- The value `TypeIndex<T>::value`: the address of a static member, one per
instantiation, so distinct types have distinct values and none is 0. -/
def TypeIndex (t : CType) : TypeID :=
  let k := match t.base with
    | .int => 1
    | .float => 2
    | .bool => 3
    | .NewComponent => 4
  2 * k + (if t.isConst then 1 else 0)

/-- The operator `sizeof`, in bytes. -/
def sizeof (t : CType) : Nat :=
  match t.base with
  | .int => 4
  | .float => 4
  | .bool => 1
  | .NewComponent => 12

/-- The operator `alignof`. -/
def alignof (t : CType) : Nat :=
  match t.base with
  | .int => 4
  | .float => 4
  | .bool => 1
  | .NewComponent => 4

/-- The string `typeid(T).name()`. -/
def typeName (t : CType) : String :=
  match t.base with
  | .int => "int"
  | .float => "float"
  | .bool => "bool"
  | .NewComponent => "NewComponent"

end CType

/-- The struct `MemberData`. -/
structure MemberData where
  name : String
  offset : Nat
  type : TypeID
deriving DecidableEq, Repr

/-- The struct `TypeData`. -/
structure TypeData where
  id : TypeID
  name : String
  size : Nat
  alignment : Nat
  members : List MemberData
deriving DecidableEq, Repr

/-- The method `TypeData::Member`: the first member of that name; `none` is
`nullptr`. -/
def TypeData.Member (td : TypeData) (n : String) : Option MemberData :=
  td.members.find? (fun m => m.name == n)

/-- The struct `Context`: the map `types`, as a list of bindings in which the
first binding of a key is the one in force. -/
structure Context where
  types : List (TypeID × TypeData)
deriving DecidableEq, Repr

namespace Context

/-- The call `types.count(id)`. -/
def count (ctx : Context) (id : TypeID) : Nat :=
  if (ctx.types.lookup id).isSome then 1 else 0

/-- The call `types.at(id)`; `none` where it throws `std::out_of_range`. -/
def typesAt (ctx : Context) (id : TypeID) : Option TypeData := ctx.types.lookup id

/-- The assignment `types[id] = td`. -/
def assign (ctx : Context) (id : TypeID) (td : TypeData) : Context :=
  ⟨(id, td) :: ctx.types⟩

end Context

/-- The struct `Any`: `object` is an address (0 is `nullptr`); `ctx` tells
whether the `Context*` is non-null, and it then points to the one context of
the program. -/
structure Any where
  object : Nat
  type : TypeID
  ctx : Bool
deriving DecidableEq, Repr

namespace Any

/-- The method `Assign(void* obj, TypeID t, Context* c)`. -/
def Assign (_a : Any) (obj : Nat) (t : TypeID) (c : Bool) : Any := ⟨obj, t, c⟩

/-- The method template `Assign(T* obj, Context* c)` with a non-null `c`: the
type is that of `T` without `const`, and a type not yet in the context is
registered with no members. -/
def AssignTyped (_a : Any) (T : CType) (obj : Nat) (ctx : Context) : Any × Context :=
  let type := T.remove_const.TypeIndex
  (⟨obj, type, true⟩,
    if ctx.count type = 0 then
      ctx.assign type ⟨type, T.typeName, T.sizeof, T.alignof, []⟩
    else ctx)

/-- The method template `Is<T>`. -/
def Is (a : Any) (T : CType) : Bool := a.type == T.TypeIndex

end Any

/-- The function template `ForwardAsMeta`: the overload for `T&` when `T` is not
`const`, the overload for `const T&` (tagged with the id of `const T`) when it
is. `obj` is the address of the object. -/
def ForwardAsMeta (T : CType) (obj : Nat) : Any :=
  (⟨0, 0, false⟩ : Any).Assign obj T.TypeIndex true

/-- The constructor of `Register<T>`. -/
def Register (ctx : Context) (T : CType) : Context :=
  ctx.assign T.TypeIndex ⟨T.TypeIndex, T.typeName, T.sizeof, T.alignof, []⟩

/-- The method template `Register<T>::Data<MemberPtr>(name)`, given the offset
and the type of the member: it appends to the members of `T`. -/
def Data (ctx : Context) (T : CType) (name : String) (offset : Nat) (MemberT : CType) :
    Context :=
  match ctx.typesAt T.TypeIndex with
  | some td =>
    ctx.assign T.TypeIndex { td with members := td.members ++ [⟨name, offset, MemberT.TypeIndex⟩] }
  | none => ctx

/-- The memory of the program, byte by byte. -/
abbrev Memory := Nat → Nat

/-- The function `std::memcpy(dst, src, n)`. -/
def memcpy (mem : Memory) (dst src n : Nat) : Memory :=
  fun a => if dst ≤ a ∧ a < dst + n then mem (src + (a - dst)) else mem a

/-- A non-negative `int` stored at an address (4 bytes, lowest first). -/
def readInt (mem : Memory) (a : Nat) : Nat :=
  mem a + 256 * mem (a + 1) + 65536 * mem (a + 2) + 16777216 * mem (a + 3)

/-- How a call ends: it returns, it throws an exception that a caller can catch,
or an `assert` fails. -/
inductive Outcome (α : Type) where
  | returned (a : α)
  | thrown
  | assertFailed

namespace MemberData

/-- The method `MemberData::Get`. -/
def Get (md : MemberData) (owner : Any) : Outcome Any :=
  if owner.ctx then
    .returned ((⟨0, 0, false⟩ : Any).Assign (owner.object + md.offset) md.type owner.ctx)
  else .assertFailed

/-- The method `MemberData::Set(Any owner, Any value)`: two assertions, then
`memcpy` of `types.at(type).size` bytes to `owner.object + offset`. The `type`
of `owner` is not read. -/
def Set (md : MemberData) (ctx : Context) (mem : Memory) (owner value : Any) : Outcome Memory :=
  if owner.ctx && decide (ctx.count md.type ≠ 0) then
    if value.type = md.type then
      match ctx.typesAt md.type with
      | some td => .returned (memcpy mem (owner.object + md.offset) value.object td.size)
      | none => .thrown
    else .assertFailed
  else .assertFailed

end MemberData

/-! ### The objects of `test_meta` -/

namespace test_meta

def NewComponent : CType := ⟨.NewComponent, false⟩
def int : CType := ⟨.int, false⟩
def float : CType := ⟨.float, false⟩
def bool : CType := ⟨.bool, false⟩

/-- Step 1: `Register<NewComponent>(ctx).Data<...>("Mario").Data<...>("Speed")
.Data<...>("Active")` on an empty context. -/
def registered : Context :=
  Data (Data (Data (Register ⟨[]⟩ NewComponent) NewComponent "Mario" 0 int)
    NewComponent "Speed" 4 float) NewComponent "Active" 8 bool

/-- The addresses of the locals `comp`, `ccomp` and (step 7) `x`. -/
def compAddr : Nat := 1000
def ccompAddr : Nat := 2000
def xAddr : Nat := 3000

/-- The bytes of the `int`s among the locals at step 7: `comp.Mario` (123 after
step 5), `ccomp.Mario = 1` and `x = 999`; the other bytes are not read. -/
def mem : Memory := fun a =>
  if a = compAddr then 123
  else if a = ccompAddr then 1
  else if a = xAddr then 231
  else if a = xAddr + 1 then 3
  else 0

/-- Step 2: `Any anyConst = ForwardAsMeta(ctx, ccomp)` with `ccomp` a
`const NewComponent`. -/
def anyConst : Any := ForwardAsMeta ⟨.NewComponent, true⟩ ccompAddr

/-- Steps 4 and 5: the calls `newVal.Assign(&newM, &ctx)`, `newValF.Assign(&newS,
&ctx)`, `newValB.Assign(&newA, &ctx)` and `raw.Assign(&v, &ctx)` register `int`,
`float` and `bool`; the locals they wrap are gone by step 7. -/
def afterWrites : Context :=
  let c1 := ((⟨0, 0, false⟩ : Any).AssignTyped int 0 registered).2
  let c2 := ((⟨0, 0, false⟩ : Any).AssignTyped float 0 c1).2
  let c3 := ((⟨0, 0, false⟩ : Any).AssignTyped bool 0 c2).2
  ((⟨0, 0, false⟩ : Any).AssignTyped int 0 c3).2

/-- Step 7: `Any bad; int x = 999; bad.Assign(&x, &ctx);`. -/
def bad : Any × Context := (⟨0, 0, false⟩ : Any).AssignTyped int xAddr afterWrites

/-- Step 7: `auto* md = td.Member("Mario")` with `td = Resolve<NewComponent>(ctx)`. -/
def md : Option MemberData :=
  (bad.2.typesAt NewComponent.TypeIndex).bind (fun td => td.Member "Mario")

/-- Step 7: the `try` block and its handler: `caught` is true exactly when
`md->Set(anyConst, bad)` throws. -/
def caught : Option Bool :=
  md.map (fun m =>
    match m.Set bad.2 mem anyConst bad.1 with
    | .thrown => true
    | _ => false)

end test_meta

end Meta

end HBL2

namespace HBL2

namespace SparseFlatBitmap3L

/-- The operator `&=`: `l0`, every `l1[b]` and every `l2[b][g]` are ANDed with
those of `other`. -/
def and_with (m other : SparseFlatBitmap3L) : SparseFlatBitmap3L :=
  { l0 := m.l0 &&& other.l0
    l1 := fun b => if b < L0_BLOCKS then m.l1 b &&& other.l1 b else m.l1 b
    l2 := fun b g =>
      if b < L0_BLOCKS ∧ g < L1_GROUPS then m.l2 b g &&& other.l2 b g else m.l2 b g }

/-- The words are 64-bit values and the summary levels cover the leaves: the bit
of a group is set in `l1` when its `l2` word is not zero, and the bit of a block
is set in `l0` when its `l1` word is not zero. -/
def SummaryOk (m : SparseFlatBitmap3L) : Prop :=
  m.l0 < 2 ^ 64 ∧ (∀ b, m.l1 b < 2 ^ 64) ∧ (∀ b g, m.l2 b g < 2 ^ 64) ∧
  (∀ b g, b < 64 → g < 64 → m.l2 b g ≠ 0 → (m.l1 b).testBit g = true) ∧
  (∀ b, b < 64 → m.l1 b ≠ 0 → m.l0.testBit b = true)

end SparseFlatBitmap3L

/-- A call on one of the bitmaps of a program; the bitmaps are named by
numbers. -/
inductive BitmapOp where
  | set (r : Nat) (e : Entity)
  | reset (r : Nat) (e : Entity)
  | clear (r : Nat)
  | and_with (r other : Nat)
deriving DecidableEq, Repr

namespace BitmapOp

/-- The entity of the call, if it has one, is below `MAX_ENTITIES`. -/
def inRange : BitmapOp → Bool
  | .set _ e => decide (e < MAX_ENTITIES)
  | .reset _ e => decide (e < MAX_ENTITIES)
  | .clear _ => true
  | .and_with _ _ => true

/-- The call on `ComponentMaskAVX` bitmaps. -/
def applyFlat (st : Nat → ComponentMaskAVX) : BitmapOp → Option (Nat → ComponentMaskAVX)
  | .set r e => ((st r).set e).map (fun m => fun k => if k = r then m else st k)
  | .reset r e => ((st r).reset e).map (fun m => fun k => if k = r then m else st k)
  | .clear r => some (fun k => if k = r then ComponentMaskAVX.clear else st k)
  | .and_with r o => some (fun k => if k = r then (st r).and_with (st o) else st k)

/-- The call on `SparseFlatBitmap3L` bitmaps. -/
def apply3L (st : Nat → SparseFlatBitmap3L) : BitmapOp → Option (Nat → SparseFlatBitmap3L)
  | .set r e => ((st r).set e).map (fun m => fun k => if k = r then m else st k)
  | .reset r e => ((st r).reset e).map (fun m => fun k => if k = r then m else st k)
  | .clear r => some (fun k => if k = r then SparseFlatBitmap3L.clear else st k)
  | .and_with r o => some (fun k => if k = r then (st r).and_with (st o) else st k)

/-- The calls of a list, in order, on flat bitmaps that start empty. -/
def runFlat (ops : List BitmapOp) : Option (Nat → ComponentMaskAVX) :=
  ops.foldlM applyFlat (fun _ => ComponentMaskAVX.clear)

/-- The calls of a list, in order, on three-level bitmaps that start empty. -/
def run3L (ops : List BitmapOp) : Option (Nat → SparseFlatBitmap3L) :=
  ops.foldlM apply3L (fun _ => SparseFlatBitmap3L.clear)

end BitmapOp

/-- The flat bitmap and the three-level bitmap hold the same words: word
`b * 64 + g` of the one is `l2[b][g]` of the other, and all are 64-bit values. -/
def SameWords (f : ComponentMaskAVX) (t : SparseFlatBitmap3L) : Prop :=
  f.WordsU64 ∧ t.WordsU64 ∧ ∀ b g, b < 64 → g < 64 → f.data (b * 64 + g) = t.l2 b g

end HBL2

namespace HBL2

namespace Sceduler

/-- The method `RunAll` with the scheduler it leaves behind: the waves it
executes and the member `m_Entries` after the call. The first loop reads
`m_Entries` through `const auto&`, the second loop starts the tasks of the
batches, and no statement of the body assigns a member; what a task does is not
part of `RunAll`. -/
def RunAllState (s : Sceduler) : List (List Nat) × Sceduler :=
  let st := s.m_Entries.foldl step initState
  (st.batches.map (fun batch => batch.map SystemEntry.Task), { m_Entries := s.m_Entries })

end Sceduler

namespace Alt

namespace Registry

/-- The method `ExecuteScheduledSystems`: `m_Sceduler.RunAll()`. -/
def ExecuteScheduledSystems (r : Registry) : List (List Nat) × Registry :=
  let out := r.m_Sceduler.RunAllState
  (out.1, { r with m_Sceduler := out.2 })

end Registry

end Alt

end HBL2

namespace HBL2

namespace Sceduler

/-- The batch `next` was opened because its first system conflicts with a system
of the batch `prev`. -/
def SealedBy (prev next : List SystemEntry) : Prop :=
  ∃ first rest, next = first :: rest ∧ ∃ s ∈ prev, Conflicting first s

/-- What the loop of `RunAll` keeps true about the batches it has built so far:
the batches before the current one are not empty, each batch was opened by a
conflict with the batch before it, and a bit of a batch mask comes from a system
of the current batch. -/
structure SealInv (st : BatchState) : Prop where
  shape : ∃ pre cur, st.batches = pre ++ [cur] ∧ (∀ b ∈ pre, b ≠ []) ∧
    (∀ x, x &&& st.batchReadMask ≠ 0 → ∃ m ∈ cur, x &&& m.ReadMask ≠ 0) ∧
    (∀ x, x &&& st.batchWriteMask ≠ 0 → ∃ m ∈ cur, x &&& m.WriteMask ≠ 0)
  chain : List.Chain' SealedBy st.batches

end Sceduler

end HBL2

namespace HBL2

namespace StorageOp

variable {T : Type}

/-- The discipline of a call sequence run from `s`: every `add` is made on an
entity for which `Has` is false at that moment and every `remove` on an entity
for which `Has` is true. Nothing is assumed about a call completing. -/
def hasGuarded [Inhabited T] : SparseComponentStorage T → List (StorageOp T) → Bool
  | _, [] => true
  | s, add f v :: rest =>
    !s.Has f &&
      (match s.AddComponent f v with
        | some s1 => hasGuarded s1 rest
        | none => true)
  | s, remove f :: rest =>
    s.Has f &&
      (match s.RemoveComponent f with
        | some s1 => hasGuarded s1 rest
        | none => true)

end StorageOp

end HBL2

namespace HBL2

end HBL2

namespace HBL2

/-! ## ECS-Alt/ComponentArray.h and the entity and component methods of
ECS-Alt/Registry.h -/

namespace Alt

/-- The class `ComponentArray<T>`. `m_Reverse` is a vector of `MAX_ENTITIES`
`uint32_t`, here a function with a bounds check at each access. -/
structure ComponentArray (T : Type) where
  m_Packed : List T
  m_Indices : List Entity
  m_Reverse : Nat → Nat
  m_Mask : SparseFlatBitmap3L

namespace ComponentArray

variable {T : Type}

/-- The constructor: `m_Reverse.resize(MAX_ENTITIES, uint32_t(-1))`. -/
def new : ComponentArray T :=
  { m_Packed := [], m_Indices := [], m_Reverse := fun _ => 2 ^ 32 - 1,
    m_Mask := SparseFlatBitmap3L.clear }

/-- The method `Add`; `none` when `m_Reverse[e]` is out of bounds or the
assertion of `m_Mask.set` fails. -/
def Add (a : ComponentArray T) (e : Entity) (comp : T) : Option (ComponentArray T) :=
  let idx := a.m_Packed.length % 2 ^ 32
  if e < MAX_ENTITIES then
    (a.m_Mask.set e).map (fun mask =>
      { m_Packed := a.m_Packed ++ [comp]
        m_Indices := a.m_Indices ++ [e]
        m_Reverse := fun k => if k = e then idx else a.m_Reverse k
        m_Mask := mask })
  else none

/-- The method `Remove`: swap with the last entry, fix the reverse index of the
entity now at `idx`, pop, reset the mask bit; `none` when an access is out of
bounds. -/
def Remove (a : ComponentArray T) (e : Entity) : Option (ComponentArray T) :=
  if e < MAX_ENTITIES then do
    let idx := a.m_Reverse e
    let last := (a.m_Packed.length + 2 ^ 32 - 1) % 2 ^ 32
    let pi ← a.m_Packed[idx]?
    let pl ← a.m_Packed[last]?
    let packed := (a.m_Packed.set idx pl).set last pi
    let ii ← a.m_Indices[idx]?
    let il ← a.m_Indices[last]?
    let indices := (a.m_Indices.set idx il).set last ii
    let moved ← indices[idx]?
    if moved < MAX_ENTITIES then
      let mask ← a.m_Mask.reset e
      pure { m_Packed := packed.dropLast
             m_Indices := indices.dropLast
             m_Reverse := fun k => if k = moved then idx else a.m_Reverse k
             m_Mask := mask }
    else none
  else none

/-- The method `Get`: `m_Packed[m_Reverse[e]]`. -/
def Get (a : ComponentArray T) (e : Entity) : Option T :=
  if e < MAX_ENTITIES then a.m_Packed[a.m_Reverse e]? else none

/-- The method `Has`. -/
def Has (a : ComponentArray T) (e : Entity) : Bool := a.m_Mask.test e

/-- The method `Mask`. -/
def Mask (a : ComponentArray T) : SparseFlatBitmap3L := a.m_Mask

/-- The range `begin()` .. `end()`: the packed components in order. -/
def components (a : ComponentArray T) : List T := a.m_Packed

end ComponentArray

/-- The part of the ECS-Alt class `Registry` that the entity and component
methods read and write. The values of all component types are drawn from the
one type `T`; `none` in `m_Arrays` is `nullptr`. -/
structure RegistryData (T : Type) where
  typeIDs : ComponentTypeID
  m_Entities : EntityManager
  m_EntityCount : Nat
  m_Arrays : List (Option (ComponentArray T))

namespace RegistryData

variable {T : Type}

/-- A freshly constructed registry in a fresh process. -/
def init : RegistryData T :=
  { typeIDs := ComponentTypeID.init, m_Entities := EntityManager.init, m_EntityCount := 0,
    m_Arrays := List.replicate MAX_COMPONENT_TYPES none }

/-- The method `CreateEntity`. -/
def CreateEntity (r : RegistryData T) : Entity × RegistryData T :=
  let (e, m) := r.m_Entities.Create
  (e, { r with m_EntityCount := (r.m_EntityCount + 1) % 2 ^ 32, m_Entities := m })

/-- One iteration of the loop of `DestroyEntity`: `m_Arrays[i]->Mask().reset(e)`. -/
def destroyStep (e : Entity) (r : RegistryData T) (i : Nat) : Option (RegistryData T) := do
  let arr ← (r.m_Arrays[i]?).join
  let mask ← arr.m_Mask.reset e
  pure { r with m_Arrays := r.m_Arrays.set i (some { arr with m_Mask := mask }) }

/-- The method `DestroyEntity`: the count, the entity manager, then the mask bit
of `e` is reset in every array; the arrays are not asked to remove `e`. -/
def DestroyEntity (r : RegistryData T) (e : Entity) : Option (RegistryData T) :=
  let r1 : RegistryData T :=
    { r with m_EntityCount := (r.m_EntityCount + 2 ^ 32 - 1) % 2 ^ 32
             m_Entities := r.m_Entities.Destroy e }
  (List.range r1.typeIDs.GetCount).foldlM (destroyStep e) r1

/-- The method `EnsureArray<T>`: the id of the type and the registry in which
the array of that id exists; `none` when `m_Arrays[id]` is out of bounds. -/
def EnsureArray (r : RegistryData T) (ty : Nat) : Option (Nat × RegistryData T) :=
  let (id, c) := r.typeIDs.Get ty
  match r.m_Arrays[id]? with
  | none => none
  | some (some _) => some (id, { r with typeIDs := c })
  | some none =>
    some (id, { r with typeIDs := c
                       m_Arrays := r.m_Arrays.set id (some ComponentArray.new) })

/-- The array that `m_Arrays[id]` points to. -/
def array (r : RegistryData T) (id : Nat) : Option (ComponentArray T) :=
  (r.m_Arrays[id]?).join

/-- The method `AddComponent<T>`. -/
def AddComponent (r : RegistryData T) (ty : Nat) (e : Entity) (comp : T) :
    Option (RegistryData T) := do
  let (id, r1) ← EnsureArray r ty
  let arr ← r1.array id
  let arr1 ← arr.Add e comp
  pure { r1 with m_Arrays := r1.m_Arrays.set id (some arr1) }

/-- The method `HasComponent<T>`. -/
def HasComponent (r : RegistryData T) (ty : Nat) (e : Entity) :
    Option (Bool × RegistryData T) := do
  let (id, r1) ← EnsureArray r ty
  let arr ← r1.array id
  pure (arr.Has e, r1)

/-- The method `RemoveComponent<T>`. -/
def RemoveComponent (r : RegistryData T) (ty : Nat) (e : Entity) :
    Option (RegistryData T) := do
  let (id, r1) ← EnsureArray r ty
  let arr ← r1.array id
  if !arr.Has e then pure r1
  else
    let arr1 ← arr.Remove e
    pure { r1 with m_Arrays := r1.m_Arrays.set id (some arr1) }

/-- The method `Run<A>(std::function<void(A&)>)`, and `View<A>().ForEach` with
the same loop `for (A& a : arrA)`: the components the function is called on, in
order. -/
def Run (r : RegistryData T) (ty : Nat) : Option (List T × RegistryData T) := do
  let (id, r1) ← EnsureArray r ty
  let arr ← r1.array id
  pure (arr.components, r1)

/-- The method `Run<A>(std::function<void(Entity, A&)>)`: `func(arrA.GetEntity
(index++), a)` for each packed component; `none` when `m_Indices[index]` is out
of bounds. -/
def RunWithEntity (r : RegistryData T) (ty : Nat) :
    Option (List (Entity × T) × RegistryData T) := do
  let (id, r1) ← EnsureArray r ty
  let arr ← r1.array id
  let pairs ← (List.range arr.m_Packed.length).mapM (fun i => do
    let e ← arr.m_Indices[i]?
    let a ← arr.m_Packed[i]?
    pure (e, a))
  pure (pairs, r1)

end RegistryData

end Alt

end HBL2

namespace HBL2

/-- A call on an `EntityManager`. -/
inductive EntityOp where
  | create
  | destroy (e : Entity)
deriving DecidableEq, Repr

namespace EntityManager

/-- A sequence of calls, with the ids that are live: those returned by `Create`
and not destroyed since, newest first. `none` when `Destroy` is asked for an id
that is not live. -/
def runLive : EntityManager → List Entity → List EntityOp →
    Option (EntityManager × List Entity)
  | m, live, [] => some (m, live)
  | m, live, .create :: rest => runLive m.Create.2 (m.Create.1 :: live) rest
  | m, live, .destroy e :: rest =>
    if e ∈ live then runLive (m.Destroy e) (live.erase e) rest else none

end EntityManager

/-- A call of `CreateEntity`, `DestroyEntity` or `Clear` on a registry. -/
inductive RegistryOp where
  | createEntity
  | destroyEntity (e : Entity)
  | clear
deriving DecidableEq, Repr

namespace Registry

variable {T : Type}

/-- A sequence of calls, with the entities that are live: those returned by
`CreateEntity` and not destroyed since, none after `Clear`. `none` when
`DestroyEntity` is asked for an entity that is not live, or when a call fails. -/
def runLive : Registry T → List Entity → List RegistryOp → Option (Registry T × List Entity)
  | r, live, [] => some (r, live)
  | r, live, .createEntity :: rest =>
    runLive r.CreateEntity.2 (r.CreateEntity.1 :: live) rest
  | r, live, .destroyEntity e :: rest =>
    if e ∈ live then (r.DestroyEntity e).bind (fun r1 => runLive r1 (live.erase e) rest)
    else none
  | r, _, .clear :: rest => runLive r.Clear [] rest

end Registry

end HBL2

namespace HBL2

namespace SparseFlatBitmap3L

/-- The summary words are exact: besides covering the leaves, a bit of `l1` is
set only when its `l2` word is not zero and a bit of `l0` is set only when its
`l1` word is not zero. -/
def SummaryExact (m : SparseFlatBitmap3L) : Prop :=
  m.SummaryOk ∧
  (∀ b g, b < 64 → g < 64 → (m.l1 b).testBit g = true → m.l2 b g ≠ 0) ∧
  (∀ b, b < 64 → m.l0.testBit b = true → m.l1 b ≠ 0)

end SparseFlatBitmap3L

namespace BitmapOp

/-- The call is `set`, `reset` or `clear`, not `&=`. -/
def noAnd : BitmapOp → Bool
  | .and_with _ _ => false
  | _ => true

end BitmapOp

end HBL2

namespace HBL2

/-- What every completed add and remove keeps, whatever the call sequence:
`packed` and the entity list have equal length and every sparse slot holds a
32-bit value. -/
def BasicInv {T : Type} (s : SparseComponentStorage T) : Prop :=
  s.packed.length = s.indices.length ∧ SlotsU32 s

namespace StorageOp

end StorageOp

end HBL2

/-! # Theorems

All definitions stand above this line. -/

namespace HBL2

/-! ## Facts about masks -/

theorem or_eq_zero_left {a b : Nat} (h : a ||| b = 0) : a = 0 := by
  apply Nat.eq_of_testBit_eq
  intro i
  have := congrArg (fun n => Nat.testBit n i) h
  simp only [Nat.testBit_or, Nat.zero_testBit, Bool.or_eq_false_iff] at this
  simpa using this.1

theorem or_eq_zero_right {a b : Nat} (h : a ||| b = 0) : b = 0 := by
  rw [Nat.or_comm] at h
  exact or_eq_zero_left h

theorem and_or_eq_zero {x a b : Nat} (h : x &&& (a ||| b) = 0) :
    x &&& a = 0 ∧ x &&& b = 0 := by
  rw [Nat.and_or_distrib_left] at h
  exact ⟨or_eq_zero_left h, or_eq_zero_right h⟩

theorem two_pow_and_two_pow_of_ne {a b : Nat} (h : a ≠ b) : 2 ^ a &&& 2 ^ b = 0 := by
  apply Nat.eq_of_testBit_eq
  intro i
  simp only [Nat.testBit_and, Nat.testBit_two_pow, Nat.zero_testBit]
  by_cases h1 : a = i
  · by_cases h2 : b = i
    · exact absurd (h1.trans h2.symm) h
    · simp [h2]
  · simp [h1]

theorem two_pow_and_self_ne_zero (a : Nat) : 2 ^ a &&& 2 ^ a ≠ 0 := by
  rw [Nat.and_self]
  exact Nat.pos_iff_ne_zero.mp (Nat.two_pow_pos a)

namespace Sceduler

/-! ## The batch-building loop -/

theorem pushCurrent_append_singleton (pre : List (List SystemEntry))
    (cur : List SystemEntry) (sys : SystemEntry) :
    pushCurrent (pre ++ [cur]) sys = pre ++ [cur ++ [sys]] := by
  induction pre with
  | nil => rfl
  | cons b rest ih =>
    cases rest with
    | nil => simp [pushCurrent]
    | cons c rest2 =>
      simp only [List.cons_append] at ih ⊢
      simp only [pushCurrent, ih]

theorem conflict_eq_false_iff (sys : SystemEntry) (r w : Nat) :
    conflict sys r w = false ↔
      sys.WriteMask &&& w = 0 ∧ sys.WriteMask &&& r = 0 ∧ sys.ReadMask &&& w = 0 := by
  simp [conflict, and_assoc]

theorem batchInv_init : BatchInv [] initState where
  shape := ⟨[], [], rfl, by simp, by simp⟩
  flat := rfl
  pw := by simp [initState]

theorem batchInv_step {done : List SystemEntry} {st : BatchState}
    (h : BatchInv done st) (sys : SystemEntry) :
    BatchInv (done ++ [sys]) (step st sys) := by
  obtain ⟨pre, cur, hb, hr, hw⟩ := h.shape
  have hflat := h.flat
  have hpw := h.pw
  cases hc : conflict sys st.batchReadMask st.batchWriteMask with
  | true =>
    have hst : step st sys =
        { batches := (pre ++ [cur]) ++ [[sys]]
          batchReadMask := 0 ||| sys.ReadMask
          batchWriteMask := 0 ||| sys.WriteMask } := by
      simp only [step, hc, if_true, hb]
      rw [pushCurrent_append_singleton]
      simp
    rw [hst]
    refine ⟨⟨pre ++ [cur], [sys], rfl, ?_, ?_⟩, ?_, ?_⟩
    · intro m hm x hx
      simp only [List.mem_singleton] at hm
      subst hm
      simpa using hx
    · intro m hm x hx
      simp only [List.mem_singleton] at hm
      subst hm
      simpa using hx
    · simp only [List.flatten_append, ← hb, hflat]
      simp
    · intro b hbm
      simp only [List.mem_append, List.mem_singleton] at hbm
      rcases hbm with hbm | hbm
      · exact hpw b (by rw [hb]; simpa using hbm)
      · subst hbm; simp
  | false =>
    have hst : step st sys =
        { batches := pre ++ [cur ++ [sys]]
          batchReadMask := st.batchReadMask ||| sys.ReadMask
          batchWriteMask := st.batchWriteMask ||| sys.WriteMask } := by
      simp only [step, hc, Bool.false_eq_true, if_false, hb, pushCurrent_append_singleton]
    obtain ⟨hww, hwr, hrw⟩ := (conflict_eq_false_iff _ _ _).mp hc
    rw [hst]
    refine ⟨⟨pre, cur ++ [sys], rfl, ?_, ?_⟩, ?_, ?_⟩
    · intro m hm x hx
      obtain ⟨hx1, hx2⟩ := and_or_eq_zero hx
      simp only [List.mem_append, List.mem_singleton] at hm
      rcases hm with hm | hm
      · exact hr m hm x hx1
      · subst hm; exact hx2
    · intro m hm x hx
      obtain ⟨hx1, hx2⟩ := and_or_eq_zero hx
      simp only [List.mem_append, List.mem_singleton] at hm
      rcases hm with hm | hm
      · exact hw m hm x hx1
      · subst hm; exact hx2
    · rw [← hflat, hb]
      simp
    · intro b hbm
      simp only [List.mem_append, List.mem_singleton] at hbm
      rcases hbm with hbm | hbm
      · exact hpw b (by rw [hb]; simp [hbm])
      · subst hbm
        rw [List.pairwise_append]
        refine ⟨hpw cur (by rw [hb]; simp), by simp, ?_⟩
        intro a ha c hcm
        simp only [List.mem_singleton] at hcm
        subst hcm
        have h1 := hw a ha _ hww
        have h2 := hr a ha _ hwr
        have h3 := hw a ha _ hrw
        refine ⟨?_, ?_, h1, h2⟩
        · rw [Nat.and_comm]; exact h1
        · rw [Nat.and_comm]; exact h3

theorem batchInv_foldl (entries : List SystemEntry) :
    ∀ (done : List SystemEntry) (st : BatchState), BatchInv done st →
      BatchInv (done ++ entries) (entries.foldl step st) := by
  induction entries with
  | nil => intro done st h; simpa using h
  | cons sys rest ih =>
    intro done st h
    have := ih (done ++ [sys]) (step st sys) (batchInv_step h sys)
    simpa using this

theorem batchInv_buildBatches (s : Sceduler) :
    BatchInv s.m_Entries (s.m_Entries.foldl step initState) := by
  simpa using batchInv_foldl s.m_Entries [] initState batchInv_init

theorem registerAll_entries (entries : List SystemEntry) :
    ∀ s : Sceduler, (registerAll s entries).m_Entries = s.m_Entries ++ entries := by
  induction entries with
  | nil => intro s; simp [registerAll]
  | cons e rest ih =>
    intro s
    have := ih (Register s e)
    simp only [registerAll, List.foldl_cons] at this ⊢
    rw [this]
    simp [Register]

end Sceduler

end HBL2

namespace HBL2

theorem typeBit_and_of_ne {a b : Nat} (h : a ≠ b) : typeBit a &&& typeBit b = 0 := by
  simp only [typeBit, Nat.one_shiftLeft]
  exact two_pow_and_two_pow_of_ne h

theorem typeBit_and_self_ne (a : Nat) : typeBit a &&& typeBit a ≠ 0 := by
  simp only [typeBit, Nat.one_shiftLeft]
  exact two_pow_and_self_ne_zero a

theorem Compatible.symm {a b : SystemEntry} (h : Compatible a b) : Compatible b a :=
  ⟨h.2.2.1, h.2.2.2, h.1, h.2.1⟩

theorem not_conflicting_of_compatible {a b : SystemEntry} (h : Compatible a b) :
    ¬ Conflicting a b := by
  rintro (hc | hc | hc)
  · exact hc h.1
  · exact hc h.2.1
  · exact hc (by rw [Nat.and_comm]; exact h.2.2.2)

theorem pairwise_getElem?_of_ne {l : List SystemEntry} (hp : l.Pairwise Compatible)
    {i j : Nat} {a b : SystemEntry} (hij : i ≠ j) (hi : l[i]? = some a) (hj : l[j]? = some b) :
    Compatible a b := by
  obtain ⟨hi', rfl⟩ := List.getElem?_eq_some_iff.mp hi
  obtain ⟨hj', rfl⟩ := List.getElem?_eq_some_iff.mp hj
  rw [List.pairwise_iff_getElem] at hp
  rcases Nat.lt_or_gt_of_ne hij with h | h
  · exact hp i j hi' hj' h
  · exact (hp j i hj' hi' h).symm

theorem locate_spec {α : Type} : ∀ (bs : List (List α)) (i : Nat) (x : α),
    bs.flatten[i]? = some x →
      ∃ k p b, locate bs i = some (k, p) ∧ bs[k]? = some b ∧ b[p]? = some x := by
  intro bs
  induction bs with
  | nil => intro i x h; simp at h
  | cons b rest ih =>
    intro i x h
    simp only [List.flatten_cons] at h
    by_cases hlt : i < b.length
    · rw [List.getElem?_append_left hlt] at h
      exact ⟨0, i, b, by simp [locate, hlt], by simp, h⟩
    · rw [List.getElem?_append_right (Nat.le_of_not_lt hlt)] at h
      obtain ⟨k, p, c, hl, hk, hp⟩ := ih _ x h
      exact ⟨k + 1, p, c, by simp [locate, hlt, hl], by simpa using hk, hp⟩

theorem locate_lt {α : Type} : ∀ (bs : List (List α)) (i j k1 p1 k2 p2 : Nat),
    i < j → locate bs i = some (k1, p1) → locate bs j = some (k2, p2) →
      k1 < k2 ∨ (k1 = k2 ∧ p1 < p2) := by
  intro bs
  induction bs with
  | nil => intro i j k1 p1 k2 p2 _ h; simp [locate] at h
  | cons b rest ih =>
    intro i j k1 p1 k2 p2 hij h1 h2
    simp only [locate] at h1 h2
    by_cases hi : i < b.length
    · simp only [hi, if_true, Option.some.injEq, Prod.mk.injEq] at h1
      by_cases hj : j < b.length
      · simp only [hj, if_true, Option.some.injEq, Prod.mk.injEq] at h2
        right; omega
      · simp only [hj, if_false, Option.map_eq_some'] at h2
        obtain ⟨⟨k, p⟩, _, hkp⟩ := h2
        simp only [Prod.mk.injEq] at hkp
        left; omega
    · have hj : ¬ j < b.length := by omega
      simp only [hi, if_false, Option.map_eq_some'] at h1
      simp only [hj, if_false, Option.map_eq_some'] at h2
      obtain ⟨⟨k, p⟩, hl1, hkp1⟩ := h1
      obtain ⟨⟨k', p'⟩, hl2, hkp2⟩ := h2
      simp only [Prod.mk.injEq] at hkp1 hkp2
      have := ih (i - b.length) (j - b.length) k p k' p' (by omega) hl1 hl2
      omega

namespace Sceduler

/-- C1: in the batches that `RunAll` builds for any registered list, two systems
at distinct positions of one batch are compatible: neither write mask meets the
other's write mask or read mask. -/
theorem same_batch_compatible (entries : List SystemEntry) (b : List SystemEntry)
    (hb : b ∈ buildBatches (registerAll empty entries))
    (i j : Nat) (s1 s2 : SystemEntry) (hij : i ≠ j)
    (h1 : b[i]? = some s1) (h2 : b[j]? = some s2) :
    s1.WriteMask &&& s2.WriteMask = 0 ∧ s1.WriteMask &&& s2.ReadMask = 0 ∧
    s2.WriteMask &&& s1.WriteMask = 0 ∧ s2.WriteMask &&& s1.ReadMask = 0 :=
  pairwise_getElem?_of_ne ((batchInv_buildBatches _).pw b hb) hij h1 h2

theorem same_batch_compatible_witness :
    (fourSystems 0 1 2).tail ∈ buildBatches (registerAll empty (fourSystems 0 1 2)) ∧
    (2 &&& 4 = 0 ∧ 2 &&& 0 = 0 ∧ 4 &&& 2 = 0 ∧ 4 &&& 1 = 0) :=
  ⟨by decide,
   same_batch_compatible (fourSystems 0 1 2) (fourSystems 0 1 2).tail (by decide) 0 1
     ⟨1, 2, 2⟩ ⟨0, 4, 3⟩ (by decide) (by decide) (by decide)⟩

end Sceduler

end HBL2

namespace HBL2

namespace Sceduler

/-- C2: for any registered list and any two systems S1 (registered at position
`i`) and S2 (registered at a later position `j`) that conflict, `RunAll` places
S1 in a batch whose index is strictly smaller than the index of the batch of S2,
and the wave that runs the task of S1 comes strictly before the wave that runs
the task of S2. -/
theorem conflicting_batch_order (entries : List SystemEntry) (i j : Nat)
    (s1 s2 : SystemEntry) (hij : i < j)
    (h1 : entries[i]? = some s1) (h2 : entries[j]? = some s2)
    (hc : Conflicting s1 s2) :
    ∃ k1 p1 k2 p2 b1 b2,
      locate (buildBatches (registerAll empty entries)) i = some (k1, p1) ∧
      locate (buildBatches (registerAll empty entries)) j = some (k2, p2) ∧
      (buildBatches (registerAll empty entries))[k1]? = some b1 ∧ b1[p1]? = some s1 ∧
      (buildBatches (registerAll empty entries))[k2]? = some b2 ∧ b2[p2]? = some s2 ∧
      (RunAll (registerAll empty entries))[k1]? = some (b1.map SystemEntry.Task) ∧
      (RunAll (registerAll empty entries))[k2]? = some (b2.map SystemEntry.Task) ∧
      k1 < k2 := by
  have hinv := batchInv_buildBatches (registerAll empty entries)
  have hent : (registerAll empty entries).m_Entries = entries := by
    rw [registerAll_entries]; rfl
  have hflat : (buildBatches (registerAll empty entries)).flatten = entries := by
    unfold buildBatches; rw [hinv.flat, hent]
  have hpw : ∀ b ∈ buildBatches (registerAll empty entries), b.Pairwise Compatible :=
    hinv.pw
  simp only [RunAll]
  generalize buildBatches (registerAll empty entries) = bs at hflat hpw ⊢
  rw [← hflat] at h1 h2
  obtain ⟨k1, p1, b1, hl1, hk1, hp1⟩ := locate_spec bs i s1 h1
  obtain ⟨k2, p2, b2, hl2, hk2, hp2⟩ := locate_spec bs j s2 h2
  have hlt : k1 < k2 := by
    rcases locate_lt bs i j k1 p1 k2 p2 hij hl1 hl2 with h | ⟨hk, hp⟩
    · exact h
    · exfalso
      subst hk
      rw [hk1] at hk2
      cases hk2
      have hmem : b1 ∈ bs := List.mem_iff_getElem?.mpr ⟨k1, hk1⟩
      exact not_conflicting_of_compatible
        (pairwise_getElem?_of_ne (hpw b1 hmem) (Nat.ne_of_lt hp) hp1 hp2) hc
  refine ⟨k1, p1, k2, p2, b1, b2, hl1, hl2, hk1, hp1, hk2, hp2, ?_, ?_, hlt⟩
  · rw [List.getElem?_map, hk1]; rfl
  · rw [List.getElem?_map, hk2]; rfl

end Sceduler

end HBL2

namespace HBL2

namespace Sceduler

theorem conflicting_batch_order_witness :
    ∃ k1 p1 k2 p2 b1 b2,
      locate (buildBatches (registerAll empty (fourSystems 0 1 2))) 0 = some (k1, p1) ∧
      locate (buildBatches (registerAll empty (fourSystems 0 1 2))) 1 = some (k2, p2) ∧
      (buildBatches (registerAll empty (fourSystems 0 1 2)))[k1]? = some b1 ∧
      b1[p1]? = some ⟨0, 1, 1⟩ ∧
      (buildBatches (registerAll empty (fourSystems 0 1 2)))[k2]? = some b2 ∧
      b2[p2]? = some ⟨1, 2, 2⟩ ∧
      (RunAll (registerAll empty (fourSystems 0 1 2)))[k1]? = some (b1.map SystemEntry.Task) ∧
      (RunAll (registerAll empty (fourSystems 0 1 2)))[k2]? = some (b2.map SystemEntry.Task) ∧
      k1 < k2 :=
  conflicting_batch_order (fourSystems 0 1 2) 0 1 ⟨0, 1, 1⟩ ⟨1, 2, 2⟩ (by decide)
    (by decide) (by decide) (by decide)

/-- C4: for every sequence of `Register` calls, concatenating the batches that
`RunAll` builds, in batch order, gives exactly the registered descriptors in
call order; so every system is in exactly one batch, once, and no batch
reorders its members. -/
theorem batches_flatten_eq_entries (entries : List SystemEntry) :
    (registerAll empty entries).m_Entries = entries ∧
    (buildBatches (registerAll empty entries)).flatten = entries := by
  have hent : (registerAll empty entries).m_Entries = entries := by
    rw [registerAll_entries]; rfl
  refine ⟨hent, ?_⟩
  unfold buildBatches
  rw [(batchInv_buildBatches (registerAll empty entries)).flat, hent]

/-- C3, against the claim: with A, B, C the component types 0, 1, 2 the batches
that `RunAll` builds for S1..S4 are not `[S1], [S2, S3], [S4]`. -/
theorem four_systems_not_three_batches :
    ¬ (∀ A B C : Nat, A ≠ B → A ≠ C → B ≠ C →
        buildBatches (registerAll empty (fourSystems A B C)) =
          [ [ { ReadMask := 0, WriteMask := typeBit A, Task := 1 } ],
            [ { ReadMask := typeBit A, WriteMask := typeBit B, Task := 2 },
              { ReadMask := 0, WriteMask := typeBit C, Task := 3 } ],
            [ { ReadMask := typeBit A, WriteMask := 0, Task := 4 } ] ]) := by
  intro h
  have := h 0 1 2 (by decide) (by decide) (by decide)
  revert this
  decide

/-- C3, as the code behaves: for distinct component types A, B, C the four
systems S1 (writes A), S2 (reads A, writes B), S3 (writes C), S4 (reads A),
registered in this order, are grouped into exactly the two batches
`[S1], [S2, S3, S4]`: S4 only reads A, and the second batch writes B and C. -/
theorem four_systems_two_batches (A B C : Nat) (hAB : A ≠ B) (hAC : A ≠ C) (hBC : B ≠ C) :
    buildBatches (registerAll empty (fourSystems A B C)) =
      [ [ { ReadMask := 0, WriteMask := typeBit A, Task := 1 } ],
        [ { ReadMask := typeBit A, WriteMask := typeBit B, Task := 2 },
          { ReadMask := 0, WriteMask := typeBit C, Task := 3 },
          { ReadMask := typeBit A, WriteMask := 0, Task := 4 } ] ] := by
  have h1 := typeBit_and_of_ne hAB
  have h2 := typeBit_and_of_ne hAC
  have h3 := typeBit_and_of_ne hBC
  have h1s := typeBit_and_of_ne (Ne.symm hAB)
  have h2s := typeBit_and_of_ne (Ne.symm hAC)
  have h3s := typeBit_and_of_ne (Ne.symm hBC)
  have hA : typeBit A ≠ 0 := by
    have := typeBit_and_self_ne A
    rwa [Nat.and_self] at this
  simp [buildBatches, registerAll, Register, empty, fourSystems, step, initState,
    conflict, pushCurrent, h1, h2, h3, h1s, h2s, h3s, hA, Nat.and_or_distrib_left]

theorem four_systems_two_batches_witness :
    buildBatches (registerAll empty (fourSystems 0 1 2)) =
      [ [ { ReadMask := 0, WriteMask := typeBit 0, Task := 1 } ],
        [ { ReadMask := typeBit 0, WriteMask := typeBit 1, Task := 2 },
          { ReadMask := 0, WriteMask := typeBit 2, Task := 3 },
          { ReadMask := typeBit 0, WriteMask := 0, Task := 4 } ] ] :=
  four_systems_two_batches 0 1 2 (by decide) (by decide) (by decide)

end Sceduler

end HBL2

namespace HBL2

/-! ## Arithmetic of pages, slots and mask words -/

theorem page_shift_eq (e : Nat) : e >>> PAGE_SHIFT = e / 2048 := by
  simp [PAGE_SHIFT, Nat.shiftRight_eq_div_pow]

theorem page_mask_eq (e : Nat) : e &&& PAGE_MASK = e % 2048 := by
  have := Nat.and_pow_two_sub_one_eq_mod e 11
  simpa [PAGE_MASK, PAGE_SIZE] using this

theorem word_shift_eq (e : Nat) : e >>> 6 = e / 64 := by
  simp [Nat.shiftRight_eq_div_pow]

theorem word_mask_eq (e : Nat) : e &&& 63 = e % 64 := by
  have := Nat.and_pow_two_sub_one_eq_mod e 6
  simpa using this

theorem word_out_of_bounds {e : Nat} (h : ¬ e < MAX_ENTITIES) : ¬ e >>> 6 < MASK_WORDS := by
  rw [word_shift_eq]
  simp only [MASK_WORDS, MAX_ENTITIES] at *
  omega

theorem slot_ne_of_ne {e f : Nat} (h : f ≠ e) (hp : f >>> PAGE_SHIFT = e >>> PAGE_SHIFT) :
    f &&& PAGE_MASK ≠ e &&& PAGE_MASK := by
  rw [page_shift_eq, page_shift_eq] at hp
  rw [page_mask_eq, page_mask_eq]
  omega

theorem index_mask_eq : INDEX_MASK = 1048575 := by
  simp [INDEX_MASK, INDEX_BITS, Nat.one_shiftLeft]

theorem packIndexVersion_eq (idx ver : Nat) (h : idx ≤ INDEX_MASK) :
    PackIndexVersion idx ver = (ver % 4096) * 1048576 + idx := by
  have hi : idx < 2 ^ 20 := by rw [index_mask_eq] at h; omega
  have h1 : ¬ idx > INDEX_MASK := by omega
  have h2 : (ver <<< 20) % 2 ^ 32 = (ver % 4096) <<< 20 := by
    simp only [Nat.shiftLeft_eq]
    omega
  simp only [PackIndexVersion, h1, if_false, VERSION_SHIFT, INDEX_BITS, h2]
  rw [Nat.shiftLeft_eq, Nat.mul_comm (ver % 4096) (2 ^ 20), ← Nat.mul_add_lt_is_or hi]

theorem unpackIndex_eq (iv : Nat) : UnpackIndex iv = iv % 1048576 := by
  have := Nat.and_pow_two_sub_one_eq_mod iv 20
  simpa [UnpackIndex, index_mask_eq] using this

theorem unpackVersion_eq (iv : Nat) : UnpackVersion iv = iv / 1048576 := by
  simp [UnpackVersion, VERSION_SHIFT, INDEX_BITS, Nat.shiftRight_eq_div_pow]

theorem unpackIndex_pack (idx ver : Nat) (h : idx ≤ INDEX_MASK) :
    UnpackIndex (PackIndexVersion idx ver) = idx := by
  rw [packIndexVersion_eq idx ver h, unpackIndex_eq]
  rw [index_mask_eq] at h
  omega

theorem unpackVersion_pack (idx ver : Nat) (h : idx ≤ INDEX_MASK) :
    UnpackVersion (PackIndexVersion idx ver) = ver % 4096 := by
  rw [packIndexVersion_eq idx ver h, unpackVersion_eq]
  rw [index_mask_eq] at h
  omega

/-! ## The membership mask -/

namespace ComponentMaskAVX

theorem bit_eq (e : Nat) : bit e = 2 ^ (e % 64) := by
  have h : e % 64 < 64 := Nat.mod_lt _ (by decide)
  simp only [bit, word_mask_eq, Nat.one_shiftLeft]
  exact Nat.mod_eq_of_lt (Nat.pow_lt_pow_right (by decide) h)

theorem and_bit_ne_zero (x e : Nat) : (x &&& bit e != 0) = x.testBit (e % 64) := by
  rw [bit_eq, Nat.and_two_pow]
  cases h : x.testBit (e % 64) <;> simp [Nat.pos_iff_ne_zero.mp (Nat.two_pow_pos _)]

theorem word_ne_or_bit_ne {e f : Nat} (h : f ≠ e) (hw : f >>> 6 = e >>> 6) :
    f % 64 ≠ e % 64 := by
  rw [word_shift_eq, word_shift_eq] at hw
  omega

theorem test_set {m m1 : ComponentMaskAVX} {e : Nat} (h : m.set e = some m1) (f : Nat) :
    m1.test f = if f = e then some true else m.test f := by
  unfold set at h
  by_cases hb : e >>> 6 < MASK_WORDS
  · simp only [hb, if_true, Option.some.injEq] at h
    subst h
    by_cases hfe : f = e
    · subst hfe
      simp only [test, hb, if_true]
      rw [and_bit_ne_zero, Nat.testBit_or, bit_eq, Nat.testBit_two_pow_self]
      simp
    · simp only [test, hfe, if_false]
      by_cases hw : f >>> 6 = e >>> 6
      · simp only [hw, if_true]
        congr 1
        have := word_ne_or_bit_ne hfe hw
        rw [and_bit_ne_zero, and_bit_ne_zero, Nat.testBit_or, bit_eq, Nat.testBit_two_pow]
        simp [Ne.symm this]
      · simp [hw]
  · simp [hb] at h

theorem test_reset {m m1 : ComponentMaskAVX} {e : Nat} (h : m.reset e = some m1) (f : Nat) :
    m1.test f = if f = e then some false else m.test f := by
  unfold reset at h
  by_cases hb : e >>> 6 < MASK_WORDS
  · simp only [hb, if_true, Option.some.injEq] at h
    subst h
    have h64 : ∀ g : Nat, g % 64 < 64 := fun g => Nat.mod_lt _ (by decide)
    by_cases hfe : f = e
    · subst hfe
      simp only [test, hb, if_true]
      rw [and_bit_ne_zero, Nat.testBit_and, Nat.testBit_xor, bit_eq, Nat.testBit_two_pow_self,
        Nat.testBit_two_pow_sub_one]
      simp [h64]
    · simp only [test, hfe, if_false]
      by_cases hw : f >>> 6 = e >>> 6
      · simp only [hw, if_true]
        congr 1
        have := word_ne_or_bit_ne hfe hw
        rw [and_bit_ne_zero, and_bit_ne_zero, Nat.testBit_and, Nat.testBit_xor, bit_eq,
          Nat.testBit_two_pow, Nat.testBit_two_pow_sub_one]
        simp [Ne.symm this, h64]
      · simp [hw]
  · simp [hb] at h

theorem set_isSome {m : ComponentMaskAVX} {e : Nat} (h : e < MAX_ENTITIES) :
    ∃ m1, m.set e = some m1 := by
  have : e >>> 6 < MASK_WORDS := by
    rw [word_shift_eq]; simp only [MASK_WORDS, MAX_ENTITIES] at *; omega
  simp [set, this]

theorem reset_isSome {m : ComponentMaskAVX} {e : Nat} (h : e < MAX_ENTITIES) :
    ∃ m1, m.reset e = some m1 := by
  have : e >>> 6 < MASK_WORDS := by
    rw [word_shift_eq]; simp only [MASK_WORDS, MAX_ENTITIES] at *; omega
  simp [reset, this]

theorem test_clear {e : Nat} (h : e < MAX_ENTITIES) : clear.test e = some false := by
  have : e >>> 6 < MASK_WORDS := by
    rw [word_shift_eq]; simp only [MASK_WORDS, MAX_ENTITIES] at *; omega
  simp [test, clear, this]

end ComponentMaskAVX

end HBL2

namespace HBL2

/-! ## The sparse map: reads and writes of slots -/

/-- The page that `sparsePages[q]` points to, if the vector is long enough and
the pointer is not null. -/
theorem readSlot_eq (pages : SparsePages) (e : Nat) :
    readSlot pages e = (pages[e >>> PAGE_SHIFT]?).join.map (fun pg => pg (e &&& PAGE_MASK)) := by
  unfold readSlot
  cases h : pages[e >>> PAGE_SHIFT]? with
  | none => simp
  | some o => cases o <;> simp

theorem writeSlot_eq_some {pages : SparsePages} {e iv : Nat} (h : readSlot pages e = some iv)
    (v : Nat) : ∃ pages1, writeSlot pages e v = some pages1 := by
  unfold readSlot at h
  unfold writeSlot
  cases hp : pages[e >>> PAGE_SHIFT]? with
  | none => simp [hp] at h
  | some o =>
    cases o with
    | none => simp [hp] at h
    | some pg => simp

theorem readSlot_writeSlot {pages pages1 : SparsePages} {e v : Nat}
    (h : writeSlot pages e v = some pages1) (f : Nat) :
    readSlot pages1 f = if f = e then some v else readSlot pages f := by
  unfold writeSlot at h
  cases hp : pages[e >>> PAGE_SHIFT]? with
  | none => simp [hp] at h
  | some o =>
    cases o with
    | none => simp [hp] at h
    | some pg =>
      simp only [hp, Option.some.injEq] at h
      subst h
      have hlen : e >>> PAGE_SHIFT < pages.length := by
        by_contra hc
        rw [List.getElem?_eq_none (Nat.le_of_not_lt hc)] at hp
        exact Option.noConfusion hp
      by_cases hq : f >>> PAGE_SHIFT = e >>> PAGE_SHIFT
      · by_cases hfe : f = e
        · subst hfe
          simp [readSlot, List.getElem?_set, hlen]
        · have hs := slot_ne_of_ne hfe hq
          simp [readSlot, List.getElem?_set, hlen, hq, hp, hs, hfe]
      · have hfe : f ≠ e := fun hc => hq (by rw [hc])
        simp [readSlot, List.getElem?_set, hfe, Ne.symm hq]

theorem getElem?_join_pad (pages : SparsePages) (n q : Nat) :
    ((pages ++ List.replicate n none)[q]?).join = (pages[q]?).join := by
  by_cases hq : q < pages.length
  · rw [List.getElem?_append_left hq]
  · rw [List.getElem?_append_right (Nat.le_of_not_lt hq),
      List.getElem?_eq_none (Nat.le_of_not_lt hq)]
    cases h : (List.replicate n (none : Option Page))[q - pages.length]? with
    | none => rfl
    | some o =>
      have := List.mem_iff_getElem?.mpr ⟨_, h⟩
      rw [List.mem_replicate] at this
      rw [this.2]
      rfl

theorem fillPage_getElem? (pages1 : SparsePages) (p q : Nat) (hlen : p < pages1.length) :
    (((match pages1[p]? with
        | some (some _) => pages1
        | _ => pages1.set p (some (fun _ => PackIndexVersion INDEX_MASK 0)))[q]?).join) =
      match (pages1[q]?).join with
      | some pg => some pg
      | none => if q = p then some (fun _ => PackIndexVersion INDEX_MASK 0) else none := by
  cases hpp : pages1[p]? with
  | none =>
    rw [List.getElem?_eq_none_iff] at hpp
    omega
  | some o =>
    cases o with
    | some pg =>
      cases hq : (pages1[q]?).join with
      | some pg2 => rfl
      | none =>
        by_cases hqe : q = p
        · subst hqe
          rw [hpp] at hq
          simp at hq
        · simp [hqe]
    | none =>
      by_cases hqe : q = p
      · subst hqe
        simp [List.getElem?_set, hlen, hpp]
      · simp only [List.getElem?_set_ne (Ne.symm hqe)]
        cases hq : (pages1[q]?).join <;> simp [hqe]

theorem ensurePage_getElem? (pages : SparsePages) (e q : Nat) :
    (((EnsurePage pages e)[q]?).join) =
      match (pages[q]?).join with
      | some pg => some pg
      | none =>
        if q = e >>> PAGE_SHIFT then some (fun _ => PackIndexVersion INDEX_MASK 0) else none := by
  obtain ⟨pages1, hp1⟩ : ∃ pages1 : SparsePages, pages1 =
      (if e >>> PAGE_SHIFT ≥ pages.length then
        pages ++ List.replicate (e >>> PAGE_SHIFT + 1 - pages.length) none else pages) :=
    ⟨_, rfl⟩
  have hjoin : ∀ r : Nat, (pages1[r]?).join = (pages[r]?).join := by
    intro r
    rw [hp1]
    split
    · exact getElem?_join_pad _ _ _
    · rfl
  have hlen : e >>> PAGE_SHIFT < pages1.length := by
    rw [hp1]
    split
    · simp only [List.length_append, List.length_replicate]; omega
    · omega
  have hE : EnsurePage pages e =
      (match pages1[e >>> PAGE_SHIFT]? with
        | some (some _) => pages1
        | _ => pages1.set (e >>> PAGE_SHIFT) (some (fun _ => PackIndexVersion INDEX_MASK 0))) := by
    rw [hp1]; rfl
  rw [hE, fillPage_getElem? pages1 _ q hlen, hjoin q]

theorem readSlot_ensurePage (pages : SparsePages) (e f : Nat) :
    readSlot (EnsurePage pages e) f =
      match readSlot pages f with
      | some x => some x
      | none =>
        if f >>> PAGE_SHIFT = e >>> PAGE_SHIFT then some (PackIndexVersion INDEX_MASK 0)
        else none := by
  rw [readSlot_eq, readSlot_eq, ensurePage_getElem?]
  cases hq : (pages[f >>> PAGE_SHIFT]?).join with
  | some pg => simp
  | none =>
    by_cases h : f >>> PAGE_SHIFT = e >>> PAGE_SHIFT <;> simp [h]

end HBL2

namespace HBL2

namespace SparseComponentStorage

variable {T : Type}

/-! ## What `Add`, `Has`, `Get` and `Remove` compute -/

theorem Has_eq (s : SparseComponentStorage T) (e : Nat) :
    Has s e = match readSlot s.sparsePages e with
      | some iv => UnpackIndex iv != INDEX_MASK
      | none => false := by
  cases h : s.sparsePages[e >>> PAGE_SHIFT]? with
  | none => simp only [Has, readSlot, h]
  | some o => cases o <;> simp only [Has, readSlot, h]

theorem Has_eq_true_iff (s : SparseComponentStorage T) (e : Nat) :
    Has s e = true ↔ ∃ iv, readSlot s.sparsePages e = some iv ∧ UnpackIndex iv ≠ INDEX_MASK := by
  rw [Has_eq]
  cases h : readSlot s.sparsePages e with
  | none => simp
  | some iv => simp

theorem readSlot_ensurePage_self (pages : SparsePages) (e : Nat) :
    ∃ iv, readSlot (EnsurePage pages e) e = some iv ∧
      (readSlot pages e = some iv ∨
        (readSlot pages e = none ∧ iv = PackIndexVersion INDEX_MASK 0)) := by
  rw [readSlot_ensurePage]
  cases h : readSlot pages e with
  | some x => exact ⟨x, rfl, Or.inl rfl⟩
  | none => exact ⟨_, by simp, Or.inr ⟨rfl, rfl⟩⟩

/-- The effect of a completed `Add`, slot by slot. -/
theorem Add_spec [Inhabited T] (s : SparseComponentStorage T) (e : Nat)
    (he : e < MAX_ENTITIES) :
    ∃ s1 iv0, Add s e = some (s1, s.packed.length) ∧
      s1.packed = s.packed ++ [default] ∧ s1.indices = s.indices ++ [e] ∧
      (∀ f, s1.mask.test f = if f = e then some true else s.mask.test f) ∧
      readSlot (EnsurePage s.sparsePages e) e = some iv0 ∧
      (∀ f, readSlot s1.sparsePages f =
        if f = e then
          some (PackIndexVersion (s.packed.length % 2 ^ 32) (UnpackVersion iv0))
        else readSlot (EnsurePage s.sparsePages e) f) := by
  obtain ⟨m1, hm1⟩ := ComponentMaskAVX.set_isSome (m := s.mask) he
  obtain ⟨iv0, hiv0, _⟩ := readSlot_ensurePage_self s.sparsePages e
  obtain ⟨pages1, hw⟩ := writeSlot_eq_some hiv0
    (PackIndexVersion (s.packed.length % 2 ^ 32) (UnpackVersion iv0))
  refine ⟨{ mask := m1, packed := s.packed ++ [default], indices := s.indices ++ [e],
            sparsePages := pages1 }, iv0, ?_, rfl, rfl, ?_, hiv0, ?_⟩
  · have hw2 := hw
    norm_num at hw2
    simp [Add, hm1, hiv0, hw2]
  · intro f; exact ComponentMaskAVX.test_set hm1 f
  · intro f; exact readSlot_writeSlot hw f

/-- The effect of a completed `AddComponent`. -/
theorem AddComponent_spec [Inhabited T] (s : SparseComponentStorage T) (e : Nat) (v : T)
    (he : e < MAX_ENTITIES) :
    ∃ s1 iv0, AddComponent s e v = some s1 ∧
      s1.packed = s.packed ++ [v] ∧ s1.indices = s.indices ++ [e] ∧
      (∀ f, s1.mask.test f = if f = e then some true else s.mask.test f) ∧
      readSlot (EnsurePage s.sparsePages e) e = some iv0 ∧
      (∀ f, readSlot s1.sparsePages f =
        if f = e then
          some (PackIndexVersion (s.packed.length % 2 ^ 32) (UnpackVersion iv0))
        else readSlot (EnsurePage s.sparsePages e) f) := by
  obtain ⟨s1, iv0, hadd, hp, hi, hm, hiv0, hr⟩ := Add_spec s e he
  refine ⟨{ s1 with packed := s1.packed.set s.packed.length v }, iv0, ?_, ?_, hi, hm, hiv0, hr⟩
  · simp [AddComponent, hadd, hp]
  · simp [hp]

end SparseComponentStorage

end HBL2

namespace HBL2

theorem length_le_of_nodup_of_lt {l : List Nat} {n : Nat} (hnd : l.Nodup)
    (h : ∀ x ∈ l, x < n) : l.length ≤ n := by
  have hsub : l.toFinset ⊆ Finset.range n := by
    intro x hx
    rw [List.mem_toFinset] at hx
    exact Finset.mem_range.mpr (h x hx)
  have := Finset.card_le_card hsub
  rwa [List.toFinset_card_of_nodup hnd, Finset.card_range] at this

namespace SparseComponentStorage

variable {T : Type}

theorem inv_nodup {s : SparseComponentStorage T} (hinv : StorageInv s) :
    s.indices.Nodup := by
  rw [List.nodup_iff_getElem?_ne_getElem?]
  intro i j hij hj heq
  have hi : i < s.indices.length := by omega
  have h1 : s.indices[i]? = some s.indices[i] := List.getElem?_eq_getElem hi
  have h2 : s.indices[j]? = some s.indices[i] := by rw [← heq, h1]
  obtain ⟨iv1, hr1, hu1⟩ := hinv.fwd i _ h1
  obtain ⟨iv2, hr2, hu2⟩ := hinv.fwd j _ h2
  rw [hr1] at hr2
  cases hr2
  omega

theorem inv_length_le {s : SparseComponentStorage T} (hinv : StorageInv s) :
    s.indices.length ≤ MAX_ENTITIES := by
  apply length_le_of_nodup_of_lt (inv_nodup hinv)
  intro x hx
  obtain ⟨i, hi⟩ := List.mem_iff_getElem?.mp hx
  exact hinv.range i x hi

theorem inv_length_lt_mask {s : SparseComponentStorage T} (hinv : StorageInv s) :
    s.indices.length < INDEX_MASK := by
  have := (inv_length_le hinv)
  rw [index_mask_eq]
  simp only [MAX_ENTITIES] at this
  omega

theorem inv_has_iff_mem {s : SparseComponentStorage T} (hinv : StorageInv s) (e : Nat) :
    Has s e = true ↔ e ∈ s.indices := by
  constructor
  · intro h
    obtain ⟨iv, hr, hne⟩ := (Has_eq_true_iff s e).mp h
    exact List.mem_iff_getElem?.mpr ⟨_, hinv.bwd e iv hr hne⟩
  · intro h
    obtain ⟨i, hi⟩ := List.mem_iff_getElem?.mp h
    obtain ⟨iv, hr, hu⟩ := hinv.fwd i e hi
    refine (Has_eq_true_iff s e).mpr ⟨iv, hr, ?_⟩
    have hlt : i < s.indices.length := (List.getElem?_eq_some_iff.mp hi).1
    have := (inv_length_lt_mask hinv)
    omega

/-- The effect of `Remove` on a consistent storage, slot by slot. -/
theorem Remove_spec {s : SparseComponentStorage T} (hinv : StorageInv s) (e : Nat)
    (hHas : Has s e = true) :
    ∃ s1 old last lastComp siv,
      readSlot s.sparsePages e = some old ∧ s.indices.getLast? = some last ∧
      s.packed.getLast? = some lastComp ∧ readSlot s.sparsePages last = some siv ∧
      UnpackIndex old < s.indices.length ∧ s.indices[UnpackIndex old]? = some e ∧
      Remove s e = some s1 ∧
      s1.packed = (s.packed.set (UnpackIndex old) lastComp).dropLast ∧
      s1.indices = (s.indices.set (UnpackIndex old) last).dropLast ∧
      (∀ f, s1.mask.test f = if f = e then some false else s.mask.test f) ∧
      (∀ f, readSlot s1.sparsePages f =
        if f = e then
          some (PackIndexVersion INDEX_MASK ((UnpackVersion old + 1) % 2 ^ 32))
        else if f = last then
          some (PackIndexVersion (UnpackIndex old % 2 ^ 32) (UnpackVersion siv))
        else readSlot s.sparsePages f) := by
  obtain ⟨old, hold, hne⟩ := (Has_eq_true_iff s e).mp hHas
  have hidx := hinv.bwd e old hold hne
  have hlt : UnpackIndex old < s.indices.length := (List.getElem?_eq_some_iff.mp hidx).1
  have he : e < MAX_ENTITIES := hinv.range _ e hidx
  have hne1 : s.indices ≠ [] := by
    intro hc; rw [hc] at hlt; simp at hlt
  have hne2 : s.packed ≠ [] := by
    intro hc
    have := hinv.len
    rw [hc] at this
    simp at this
    omega
  obtain ⟨last, hlast⟩ : ∃ last, s.indices.getLast? = some last :=
    ⟨_, List.getLast?_eq_getLast _ hne1⟩
  obtain ⟨lastComp, hlastC⟩ : ∃ c, s.packed.getLast? = some c :=
    ⟨_, List.getLast?_eq_getLast _ hne2⟩
  have hlastIdx : s.indices[s.indices.length - 1]? = some last := by
    rw [← List.getLast?_eq_getElem?]; exact hlast
  obtain ⟨siv, hsiv, _⟩ := hinv.fwd _ last hlastIdx
  obtain ⟨pages1, hw1⟩ := writeSlot_eq_some hsiv
    (PackIndexVersion (UnpackIndex old % 2 ^ 32) (UnpackVersion siv))
  have hr1 := readSlot_writeSlot hw1
  obtain ⟨x, hx⟩ : ∃ x, readSlot pages1 e = some x := by
    rw [hr1 e]
    by_cases h : e = last
    · simp [h]
    · simp [h, hold]
  obtain ⟨pages2, hw2⟩ := writeSlot_eq_some hx
    (PackIndexVersion INDEX_MASK ((UnpackVersion old + 1) % 2 ^ 32))
  have hr2 := readSlot_writeSlot hw2
  obtain ⟨m1, hm1⟩ := ComponentMaskAVX.reset_isSome (m := s.mask) he
  refine ⟨{ mask := m1, packed := (s.packed.set (UnpackIndex old) lastComp).dropLast,
            indices := (s.indices.set (UnpackIndex old) last).dropLast,
            sparsePages := pages2 }, old, last, lastComp, siv, hold, hlast, hlastC, hsiv, hlt,
          hidx, ?_, rfl, rfl, ?_, ?_⟩
  · have hlt2 : UnpackIndex old < s.packed.length := by rw [hinv.len]; exact hlt
    have hw1' := hw1
    have hw2' := hw2
    norm_num at hw1' hw2'
    simp [Remove, hHas, hold, hlast, hlastC, hlt, hlt2, hsiv, hw1', hw2', hm1]
  · intro f; exact ComponentMaskAVX.test_reset hm1 f
  · intro f
    rw [hr2 f, hr1 f]

end SparseComponentStorage

end HBL2

namespace HBL2

theorem getElem?_set_dropLast {α : Type} (l : List α) (i j : Nat) (x : α) :
    ((l.set i x).dropLast)[j]? =
      if j < l.length - 1 then (if j = i then some x else l[j]?) else none := by
  rw [List.dropLast_eq_take, List.getElem?_take, List.length_set]
  by_cases hj : j < l.length - 1
  · simp only [hj, if_true]
    by_cases hji : j = i
    · subst hji
      have : j < l.length := by omega
      simp [List.getElem?_set, this]
    · simp [List.getElem?_set, hji, Ne.symm hji]
  · simp [hj]

theorem unpackIndex_tombstone (ver : Nat) :
    UnpackIndex (PackIndexVersion INDEX_MASK ver) = INDEX_MASK :=
  unpackIndex_pack INDEX_MASK ver (Nat.le_refl _)

namespace SparseComponentStorage

variable {T : Type}

theorem Has_empty (e : Nat) : Has (empty : SparseComponentStorage T) e = false := by
  simp [Has, empty]

theorem inv_empty : StorageInv (empty : SparseComponentStorage T) where
  len := rfl
  range := by intro i e h; simp [empty] at h
  fwd := by intro i e h; simp [empty] at h
  bwd := by intro e iv h; simp [empty, readSlot] at h
  maskOk := by
    intro e he
    rw [Has_empty]
    exact ComponentMaskAVX.test_clear he

/-- After a completed `AddComponent(e, v)` on a consistent storage, `Has` holds
of `e` and is unchanged for every other entity. -/
theorem Has_addComponent [Inhabited T] {s s1 : SparseComponentStorage T}
    (hinv : StorageInv s) {e : Nat} {v : T} (h : AddComponent s e v = some s1) (f : Nat) :
    Has s1 f = if f = e then true else Has s f := by
  have he : e < MAX_ENTITIES := by
    by_contra hc
    have : ¬ e >>> 6 < MASK_WORDS := by
      rw [word_shift_eq]; simp only [MASK_WORDS, MAX_ENTITIES] at *; omega
    simp [AddComponent, Add, ComponentMaskAVX.set, this] at h
  obtain ⟨s2, iv0, hadd, _, _, _, _, hr⟩ := AddComponent_spec s e v he
  rw [h] at hadd
  cases hadd
  have hn := inv_length_lt_mask hinv
  rw [← hinv.len] at hn
  have hn2 : s.packed.length % 2 ^ 32 = s.packed.length := by
    apply Nat.mod_eq_of_lt
    rw [index_mask_eq] at hn
    omega
  by_cases hfe : f = e
  · subst hfe
    simp only [if_true]
    rw [Has_eq, hr f]
    simp only [if_true, hn2]
    rw [unpackIndex_pack _ _ (Nat.le_of_lt hn)]
    simpa using Nat.ne_of_lt hn
  · simp only [hfe, if_false]
    rw [Has_eq, Has_eq, hr f]
    simp only [hfe, if_false]
    rw [readSlot_ensurePage]
    cases hs : readSlot s.sparsePages f with
    | some x => rfl
    | none =>
      by_cases hq : f >>> PAGE_SHIFT = e >>> PAGE_SHIFT
      · simp [hq, unpackIndex_tombstone]
      · simp [hq]

theorem inv_addComponent [Inhabited T] {s s1 : SparseComponentStorage T}
    (hinv : StorageInv s) {e : Nat} {v : T} (hHas : Has s e = false)
    (h : AddComponent s e v = some s1) : StorageInv s1 := by
  have hHas1 := Has_addComponent hinv h
  have he : e < MAX_ENTITIES := by
    by_contra hc
    have : ¬ e >>> 6 < MASK_WORDS := by
      rw [word_shift_eq]; simp only [MASK_WORDS, MAX_ENTITIES] at *; omega
    simp [AddComponent, Add, ComponentMaskAVX.set, this] at h
  obtain ⟨s2, iv0, hadd, hp, hi, hm, hiv0, hr⟩ := AddComponent_spec s e v he
  rw [h] at hadd
  cases hadd
  have hn := inv_length_lt_mask hinv
  have hlen := hinv.len
  have hn2 : s.packed.length % 2 ^ 32 = s.indices.length := by
    rw [hlen]
    apply Nat.mod_eq_of_lt
    rw [index_mask_eq] at hn
    omega
  have hnotin : e ∉ s.indices := fun hc => by
    rw [← inv_has_iff_mem hinv] at hc
    rw [hc] at hHas
    exact Bool.noConfusion hHas
  refine ⟨?_, ?_, ?_, ?_, ?_⟩
  · rw [hp, hi]; simp [hlen]
  · intro i x hx
    rw [hi] at hx
    by_cases hlt : i < s.indices.length
    · rw [List.getElem?_append_left hlt] at hx
      exact hinv.range i x hx
    · rw [List.getElem?_append_right (Nat.le_of_not_lt hlt)] at hx
      have : x = e := by
        cases hk : i - s.indices.length with
        | zero => rw [hk] at hx; simpa using hx.symm
        | succ k => rw [hk] at hx; simp at hx
      rw [this]; exact he
  · intro i x hx
    rw [hi] at hx
    by_cases hlt : i < s.indices.length
    · rw [List.getElem?_append_left hlt] at hx
      have hxe : x ≠ e := fun hc => hnotin (hc ▸ List.mem_iff_getElem?.mpr ⟨i, hx⟩)
      obtain ⟨iv, hiv, hu⟩ := hinv.fwd i x hx
      refine ⟨iv, ?_, hu⟩
      rw [hr x]
      simp only [hxe, if_false]
      rw [readSlot_ensurePage, hiv]
    · rw [List.getElem?_append_right (Nat.le_of_not_lt hlt)] at hx
      have hxi : x = e ∧ i = s.indices.length := by
        cases hk : i - s.indices.length with
        | zero =>
          rw [hk] at hx
          exact ⟨by simpa using hx.symm, by omega⟩
        | succ k => rw [hk] at hx; simp at hx
      obtain ⟨rfl, rfl⟩ := hxi
      refine ⟨PackIndexVersion (s.packed.length % 2 ^ 32) (UnpackVersion iv0),
        by rw [hr x, if_pos rfl], ?_⟩
      rw [hn2]
      exact unpackIndex_pack _ _ (Nat.le_of_lt hn)
  · intro f iv hf hne
    rw [hr f] at hf
    rw [hi]
    by_cases hfe : f = e
    · subst hfe
      simp only [if_true, Option.some.injEq] at hf
      subst hf
      rw [hn2, unpackIndex_pack _ _ (Nat.le_of_lt hn)]
      simp
    · simp only [hfe, if_false] at hf
      rw [readSlot_ensurePage] at hf
      cases hs : readSlot s.sparsePages f with
      | some x =>
        rw [hs] at hf
        simp only [Option.some.injEq] at hf
        subst hf
        have := hinv.bwd f x hs hne
        have hlt : UnpackIndex x < s.indices.length := (List.getElem?_eq_some_iff.mp this).1
        rw [List.getElem?_append_left hlt]
        exact this
      | none =>
        rw [hs] at hf
        by_cases hq : f >>> PAGE_SHIFT = e >>> PAGE_SHIFT
        · simp only [hq, if_true, Option.some.injEq] at hf
          subst hf
          exact absurd (unpackIndex_tombstone 0) hne
        · simp [hq] at hf
  · intro f hf
    rw [hm f, hHas1 f]
    by_cases hfe : f = e
    · simp [hfe]
    · simp only [hfe, if_false]
      exact hinv.maskOk f hf

end SparseComponentStorage

end HBL2

namespace HBL2

namespace SparseComponentStorage

variable {T : Type}

theorem GetComponent_eq {s : SparseComponentStorage T} {f iv : Nat} (hHas : Has s f = true)
    (hr : readSlot s.sparsePages f = some iv) :
    GetComponent s f = s.packed[UnpackIndex iv]? := by
  simp [GetComponent, Get, hHas, hr]

/-- Everything `Remove` does on a consistent storage that has `e`. -/
theorem Remove_facts {s : SparseComponentStorage T} (hinv : StorageInv s) (e : Nat)
    (hHas : Has s e = true) :
    ∃ s1, Remove s e = some s1 ∧ StorageInv s1 ∧
      s1.packed.length + 1 = s.packed.length ∧
      s1.indices.length + 1 = s.indices.length ∧
      (∀ f, Has s1 f = if f = e then false else Has s f) ∧
      (∀ f, s1.mask.test f = if f = e then some false else s.mask.test f) ∧
      (∀ f, f ≠ e → Has s f = true →
        GetComponent s1 f = GetComponent s f ∧ (GetComponent s f).isSome = true) ∧
      (∃ iv, readSlot s1.sparsePages e = some iv ∧ UnpackIndex iv = INDEX_MASK) := by
  obtain ⟨s1, old, last, lastComp, siv, hold, hlast, hlastC, hsiv, hlt, hidx, hrem, hp, hi,
    hm, hr⟩ := Remove_spec hinv e hHas
  have hn := inv_length_lt_mask hinv
  have hlen := hinv.len
  have hlastIdx : s.indices[s.indices.length - 1]? = some last := by
    rw [← List.getLast?_eq_getElem?]; exact hlast
  have hlastCIdx : s.packed[s.indices.length - 1]? = some lastComp := by
    rw [← hlen, ← List.getLast?_eq_getElem?]; exact hlastC
  have hmod : UnpackIndex old % 2 ^ 32 = UnpackIndex old := by
    apply Nat.mod_eq_of_lt
    rw [index_mask_eq] at hn
    omega
  have hle : UnpackIndex old ≤ INDEX_MASK := by omega
  -- the entity at the victim position is the last one exactly when the position is last
  have hel : last = e → UnpackIndex old = s.indices.length - 1 := by
    intro h
    obtain ⟨iv, hiv, hu⟩ := hinv.fwd _ last hlastIdx
    rw [h, hold] at hiv
    cases hiv
    exact hu
  have hle2 : last ≠ e → UnpackIndex old < s.indices.length - 1 := by
    intro h
    have : UnpackIndex old ≠ s.indices.length - 1 := by
      intro hc
      rw [hc, hlastIdx] at hidx
      exact h (Option.some.inj hidx)
    omega
  have hHas1 : ∀ f, Has s1 f = if f = e then false else Has s f := by
    intro f
    rw [Has_eq, hr f]
    by_cases hfe : f = e
    · simp [hfe, unpackIndex_tombstone]
    · simp only [hfe, if_false]
      by_cases hfl : f = last
      · subst hfl
        simp only [if_true]
        rw [hmod, unpackIndex_pack _ _ hle]
        have h1 : Has s f = true :=
          (inv_has_iff_mem hinv f).mpr (List.mem_iff_getElem?.mpr ⟨_, hlastIdx⟩)
        rw [h1]
        simpa using Nat.ne_of_lt (Nat.lt_trans hlt hn)
      · simp only [hfl, if_false]
        rw [Has_eq]
  have hget : ∀ j : Nat, s1.indices[j]? =
      if j < s.indices.length - 1 then
        (if j = UnpackIndex old then some last else s.indices[j]?) else none := by
    intro j; rw [hi]; exact getElem?_set_dropLast _ _ _ _
  have hgetP : ∀ j : Nat, s1.packed[j]? =
      if j < s.indices.length - 1 then
        (if j = UnpackIndex old then some lastComp else s.packed[j]?) else none := by
    intro j; rw [hp, getElem?_set_dropLast, hlen]
  have hinv1 : StorageInv s1 := by
    refine ⟨?_, ?_, ?_, ?_, ?_⟩
    · rw [hp, hi]; simp [hlen]
    · intro j x hx
      rw [hget j] at hx
      by_cases hj : j < s.indices.length - 1
      · simp only [hj, if_true] at hx
        by_cases hji : j = UnpackIndex old
        · simp only [hji, if_true, Option.some.injEq] at hx
          subst hx
          exact hinv.range _ _ hlastIdx
        · simp only [hji, if_false] at hx
          exact hinv.range _ _ hx
      · simp [hj] at hx
    · intro j x hx
      rw [hget j] at hx
      by_cases hj : j < s.indices.length - 1
      · simp only [hj, if_true] at hx
        by_cases hji : j = UnpackIndex old
        · simp only [hji, if_true, Option.some.injEq] at hx
          subst hx
          have hne : last ≠ e := by
            intro hc
            have := hel hc
            omega
          refine ⟨PackIndexVersion (UnpackIndex old % 2 ^ 32) (UnpackVersion siv), ?_, ?_⟩
          · rw [hr last, if_neg hne, if_pos rfl]
          · rw [hmod, unpackIndex_pack _ _ hle, hji]
        · simp only [hji, if_false] at hx
          obtain ⟨iv, hiv, hu⟩ := hinv.fwd j x hx
          have hxe : x ≠ e := by
            intro hc
            rw [hc, hold] at hiv
            cases hiv
            exact hji hu.symm
          have hxl : x ≠ last := by
            intro hc
            obtain ⟨iv2, hiv2, hu2⟩ := hinv.fwd _ last hlastIdx
            rw [hc, hiv2] at hiv
            cases hiv
            omega
          exact ⟨iv, by rw [hr x, if_neg hxe, if_neg hxl, hiv], hu⟩
      · simp [hj] at hx
    · intro f iv hf hne
      rw [hr f] at hf
      by_cases hfe : f = e
      · simp only [hfe, if_true, Option.some.injEq] at hf
        subst hf
        exact absurd (unpackIndex_tombstone _) hne
      · simp only [hfe, if_false] at hf
        by_cases hfl : f = last
        · simp only [hfl, if_true, Option.some.injEq] at hf
          subst hf
          rw [hmod, unpackIndex_pack _ _ hle, hget]
          have := hle2 (fun hc => hfe (hfl.trans hc))
          simp [this, hfl]
        · simp only [hfl, if_false] at hf
          have hold2 := hinv.bwd f iv hf hne
          have hk1 : UnpackIndex iv ≠ UnpackIndex old := by
            intro hc
            rw [hc, hidx] at hold2
            exact hfe (Option.some.inj hold2).symm
          have hk2 : UnpackIndex iv ≠ s.indices.length - 1 := by
            intro hc
            rw [hc, hlastIdx] at hold2
            exact hfl (Option.some.inj hold2).symm
          have hk3 : UnpackIndex iv < s.indices.length :=
            (List.getElem?_eq_some_iff.mp hold2).1
          rw [hget]
          have : UnpackIndex iv < s.indices.length - 1 := by omega
          simp [this, hk1, hold2]
    · intro f hf
      rw [hm f, hHas1 f]
      by_cases hfe : f = e
      · simp [hfe]
      · simp only [hfe, if_false]
        exact hinv.maskOk f hf
  refine ⟨s1, hrem, hinv1, ?_, ?_, hHas1, hm, ?_, ?_⟩
  · rw [hp]; simp only [List.length_dropLast, List.length_set]; omega
  · rw [hi]; simp only [List.length_dropLast, List.length_set]; omega
  · intro f hfe hHf
    obtain ⟨iv, hiv, hne⟩ := (Has_eq_true_iff s f).mp hHf
    have hold2 := hinv.bwd f iv hiv hne
    have hk3 : UnpackIndex iv < s.indices.length := (List.getElem?_eq_some_iff.mp hold2).1
    have hHf1 : Has s1 f = true := by rw [hHas1 f, if_neg hfe]; exact hHf
    rw [GetComponent_eq hHf hiv]
    have hsome : (s.packed[UnpackIndex iv]?).isSome = true := by
      rw [List.getElem?_eq_getElem (by rw [hlen]; exact hk3)]; rfl
    refine ⟨?_, hsome⟩
    by_cases hfl : f = last
    · have hr1 : readSlot s1.sparsePages f =
          some (PackIndexVersion (UnpackIndex old % 2 ^ 32) (UnpackVersion siv)) := by
        rw [hr f, if_neg hfe, if_pos hfl]
      rw [GetComponent_eq hHf1 hr1, hmod, unpackIndex_pack _ _ hle, hgetP]
      have h1 := hle2 (fun hc => hfe (hfl.trans hc))
      have h2 : UnpackIndex iv = s.indices.length - 1 := by
        obtain ⟨iv2, hiv2, hu2⟩ := hinv.fwd _ last hlastIdx
        rw [← hfl, hiv] at hiv2
        cases hiv2
        exact hu2
      simp [h1, h2, hlastCIdx]
    · have hr1 : readSlot s1.sparsePages f = some iv := by
        rw [hr f, if_neg hfe, if_neg hfl, hiv]
      have hk1 : UnpackIndex iv ≠ UnpackIndex old := by
        intro hc
        rw [hc, hidx] at hold2
        exact hfe (Option.some.inj hold2).symm
      have hk2 : UnpackIndex iv ≠ s.indices.length - 1 := by
        intro hc
        rw [hc, hlastIdx] at hold2
        exact hfl (Option.some.inj hold2).symm
      rw [GetComponent_eq hHf1 hr1, hgetP]
      have : UnpackIndex iv < s.indices.length - 1 := by omega
      simp [this, hk1]
  · exact ⟨_, by rw [hr e, if_pos rfl], unpackIndex_tombstone _⟩

end SparseComponentStorage

end HBL2

namespace HBL2

open SparseComponentStorage

namespace StorageOp

variable {T : Type}

/-! ## Sequences of calls -/

theorem run_append [Inhabited T] (a b : List (StorageOp T)) :
    ∀ s : SparseComponentStorage T, run s (a ++ b) = (run s a).bind (fun s1 => run s1 b) := by
  induction a with
  | nil => intro s; simp [run]
  | cons op rest ih =>
    intro s
    simp only [List.cons_append, run]
    cases h : apply s op with
    | none => simp
    | some s1 => simp [ih s1]

/-- One disciplined call on a consistent storage completes and keeps it
consistent. -/
theorem apply_inv [Inhabited T] {s : SparseComponentStorage T} (hinv : StorageInv s)
    (op : StorageOp T) (rest : List (StorageOp T)) (hf : freshAdds s (op :: rest) = true) :
    ∃ s1, apply s op = some s1 ∧ StorageInv s1 ∧ freshAdds s1 rest = true := by
  cases op with
  | add f v =>
    simp only [freshAdds, Bool.and_eq_true, Bool.not_eq_true', decide_eq_true_eq] at hf
    obtain ⟨⟨hHas, hlt⟩, hrest⟩ := hf
    obtain ⟨s1, _, hadd, _⟩ := AddComponent_spec s f v hlt
    rw [hadd] at hrest
    exact ⟨s1, hadd, inv_addComponent hinv hHas hadd, hrest⟩
  | remove f =>
    simp only [freshAdds] at hf
    cases hH : Has s f with
    | false =>
      have : RemoveComponent s f = some s := by simp [RemoveComponent, hH]
      rw [this] at hf
      exact ⟨s, this, hinv, hf⟩
    | true =>
      obtain ⟨s1, hrem, hinv1, _⟩ := Remove_facts hinv f hH
      have : RemoveComponent s f = some s1 := by simp [RemoveComponent, hH, hrem]
      rw [this] at hf
      exact ⟨s1, this, hinv1, hf⟩

/-- A disciplined sequence of calls completes, keeps the storage consistent, and
what follows it is disciplined from the state it reaches. -/
theorem run_inv [Inhabited T] (a b : List (StorageOp T)) :
    ∀ s : SparseComponentStorage T, StorageInv s → freshAdds s (a ++ b) = true →
      ∃ s1, run s a = some s1 ∧ StorageInv s1 ∧ freshAdds s1 b = true := by
  induction a with
  | nil => intro s hinv hf; exact ⟨s, rfl, hinv, hf⟩
  | cons op rest ih =>
    intro s hinv hf
    obtain ⟨s1, happ, hinv1, hf1⟩ := apply_inv hinv op (rest ++ b) hf
    obtain ⟨s2, hrun, hinv2, hf2⟩ := ih s1 hinv1 hf1
    exact ⟨s2, by simp [run, happ, hrun], hinv2, hf2⟩

theorem run_inv_all [Inhabited T] (ops : List (StorageOp T))
    (hf : freshAdds (empty : SparseComponentStorage T) ops = true) :
    ∃ s, run (empty : SparseComponentStorage T) ops = some s ∧ StorageInv s := by
  obtain ⟨s, hrun, hinv, _⟩ := run_inv ops [] empty inv_empty (by simpa using hf)
  exact ⟨s, hrun, hinv⟩

end StorageOp

namespace SparseComponentStorage

variable {T : Type}

theorem GetComponent_addComponent_self [Inhabited T] {s s1 : SparseComponentStorage T}
    (hinv : StorageInv s) {e : Nat} {v : T} (h : AddComponent s e v = some s1) :
    GetComponent s1 e = some v := by
  have hH := Has_addComponent hinv h e
  simp only [if_true] at hH
  have he : e < MAX_ENTITIES := by
    by_contra hc
    have : ¬ e >>> 6 < MASK_WORDS := by
      rw [word_shift_eq]; simp only [MASK_WORDS, MAX_ENTITIES] at *; omega
    simp [AddComponent, Add, ComponentMaskAVX.set, this] at h
  obtain ⟨s2, iv0, hadd, hp, _, _, _, hr⟩ := AddComponent_spec s e v he
  rw [h] at hadd
  cases hadd
  have hn := inv_length_lt_mask hinv
  rw [← hinv.len] at hn
  have hn2 : s.packed.length % 2 ^ 32 = s.packed.length := by
    apply Nat.mod_eq_of_lt
    rw [index_mask_eq] at hn
    omega
  have hr1 := hr e
  rw [if_pos rfl] at hr1
  rw [GetComponent_eq hH hr1, hn2, unpackIndex_pack _ _ (Nat.le_of_lt hn), hp]
  simp

theorem GetComponent_addComponent_other [Inhabited T] {s s1 : SparseComponentStorage T}
    (hinv : StorageInv s) {e f : Nat} {v : T} (h : AddComponent s f v = some s1)
    (hfe : e ≠ f) (hHas : Has s e = true) :
    GetComponent s1 e = GetComponent s e := by
  have hH := Has_addComponent hinv h e
  rw [if_neg hfe, hHas] at hH
  have hf : f < MAX_ENTITIES := by
    by_contra hc
    have : ¬ f >>> 6 < MASK_WORDS := by
      rw [word_shift_eq]; simp only [MASK_WORDS, MAX_ENTITIES] at *; omega
    simp [AddComponent, Add, ComponentMaskAVX.set, this] at h
  obtain ⟨s2, iv0, hadd, hp, _, _, _, hr⟩ := AddComponent_spec s f v hf
  rw [h] at hadd
  cases hadd
  obtain ⟨iv, hiv, hne⟩ := (Has_eq_true_iff s e).mp hHas
  have hidx := hinv.bwd e iv hiv hne
  have hk : UnpackIndex iv < s.packed.length := by
    rw [hinv.len]; exact (List.getElem?_eq_some_iff.mp hidx).1
  have hr1 : readSlot s1.sparsePages e = some iv := by
    rw [hr e, if_neg hfe, readSlot_ensurePage, hiv]
  rw [GetComponent_eq hH hr1, GetComponent_eq hHas hiv, hp, List.getElem?_append_left hk]

end SparseComponentStorage

namespace StorageOp

variable {T : Type}

/-- Disciplined calls on entities other than `e` leave the component of `e` as
it is. -/
theorem run_others_keep [Inhabited T] (e : Nat) (v : T) (ops : List (StorageOp T)) :
    ∀ s : SparseComponentStorage T, StorageInv s → Has s e = true →
      GetComponent s e = some v → (∀ op ∈ ops, op.entity ≠ e) → freshAdds s ops = true →
      ∃ s2, run s ops = some s2 ∧ StorageInv s2 ∧ Has s2 e = true ∧
        GetComponent s2 e = some v := by
  induction ops with
  | nil => intro s hinv hH hG _ _; exact ⟨s, rfl, hinv, hH, hG⟩
  | cons op rest ih =>
    intro s hinv hH hG hoth hf
    have hne : op.entity ≠ e := hoth op (List.mem_cons_self _ _)
    have hoth2 : ∀ op2 ∈ rest, op2.entity ≠ e :=
      fun op2 h2 => hoth op2 (List.mem_cons_of_mem _ h2)
    obtain ⟨s1, happ, hinv1, hf1⟩ := apply_inv hinv op rest hf
    have hkeep : Has s1 e = true ∧ GetComponent s1 e = some v := by
      cases op with
      | add f w =>
        have hef : e ≠ f := fun hc => hne hc.symm
        have hadd : AddComponent s f w = some s1 := happ
        refine ⟨?_, ?_⟩
        · rw [Has_addComponent hinv hadd e, if_neg hef]; exact hH
        · rw [GetComponent_addComponent_other hinv hadd hef hH]; exact hG
      | remove f =>
        have hef : e ≠ f := fun hc => hne hc.symm
        have hrem : RemoveComponent s f = some s1 := happ
        cases hHf : Has s f with
        | false =>
          simp only [RemoveComponent, hHf, Bool.not_false, if_true, Option.some.injEq] at hrem
          subst hrem
          exact ⟨hH, hG⟩
        | true =>
          obtain ⟨s1', hrem', _, _, _, hHas1, _, hget, _⟩ := Remove_facts hinv f hHf
          simp only [RemoveComponent, hHf, Bool.not_true, Bool.false_eq_true, if_false] at hrem
          rw [hrem] at hrem'
          cases hrem'
          refine ⟨?_, ?_⟩
          · rw [hHas1 e, if_neg hef]; exact hH
          · rw [(hget e hef hH).1]; exact hG
    obtain ⟨s2, hrun, hinv2, hH2, hG2⟩ := ih s1 hinv1 hkeep.1 hkeep.2 hoth2 hf1
    exact ⟨s2, by simp [run, happ, hrun], hinv2, hH2, hG2⟩

end StorageOp

end HBL2

namespace HBL2

open SparseComponentStorage StorageOp

/-- C6, against the claim: after add 1, add 0, add 0, remove 0, remove 1 (each
remove made where `Has` holds) `Has(0)` is true and `Mask().test(0)` is false. -/
theorem has_mask_disagree_after_second_add :
    ((run (SparseComponentStorage.empty : SparseComponentStorage Nat)
        [.add 1 5, .add 0 7, .add 0 9, .remove 0, .remove 1]).map
      (fun s => (Has s 0, s.Mask.test 0))) = some (true, some false) := by
  decide

/-- C6, as the code behaves: in every state reached from the empty storage by
adds made only on entities that lack the component and removes made only where
`Has` holds, for every entity `e`, `Has(e)` is true if and only if
`Mask().test(e)` is true. -/
theorem has_iff_mask_test {T : Type} [Inhabited T] (ops : List (StorageOp T))
    (hfresh : freshAdds (SparseComponentStorage.empty : SparseComponentStorage T) ops = true) :
    ∃ s, run (SparseComponentStorage.empty : SparseComponentStorage T) ops = some s ∧
      ∀ e : Entity, Has s e = true ↔ s.Mask.test e = some true := by
  obtain ⟨s, hrun, hinv⟩ := run_inv_all ops hfresh
  refine ⟨s, hrun, ?_⟩
  intro e
  by_cases he : e < MAX_ENTITIES
  · have := hinv.maskOk e he
    simp only [Mask]
    rw [this]
    simp
  · constructor
    · intro h
      obtain ⟨i, hi⟩ := List.mem_iff_getElem?.mp ((inv_has_iff_mem hinv e).mp h)
      exact absurd (hinv.range i e hi) he
    · intro h
      have hw : ¬ e >>> 6 < MASK_WORDS := word_out_of_bounds he
      simp [Mask, ComponentMaskAVX.test, hw] at h

theorem has_iff_mask_test_witness :
    ∃ s, run (SparseComponentStorage.empty : SparseComponentStorage Nat)
        [.add 1 5, .add 0 7, .remove 0, .remove 1, .add 0 3] = some s ∧
      ∀ e : Entity, Has s e = true ↔ s.Mask.test e = some true :=
  has_iff_mask_test [.add 1 5, .add 0 7, .remove 0, .remove 1, .add 0 3] (by decide)

/-- C7, against the claim: in the state after `AddComponent(0, 10)`, where
`Has(0)` holds and the component of 0 is in slot 0, `Add(0)` returns slot 1 and
leaves `packed` and the entity list with two elements each. -/
theorem add_present_appends_example :
    ((run (SparseComponentStorage.empty : SparseComponentStorage Nat) [.add 0 10]).map
      (fun s => (Has s 0, Get s 0, s.packed.length, s.indices.length))) =
        some (true, some 0, 1, 1) ∧
    ((run (SparseComponentStorage.empty : SparseComponentStorage Nat) [.add 0 10]).bind
      (fun s => (Add s 0).map (fun r => (r.2, r.1.packed.length, r.1.indices.length)))) =
        some (1, 2, 2) := by
  decide

/-- C7, as the code behaves: for every storage state and every entity `e` below
`MAX_ENTITIES`, also when `Has(e)` is true, `Add(e)` appends: it returns the new
last slot of `packed`, and `packed` and the entity list each grow by one, the
new last entry of the entity list being `e`. -/
theorem add_always_appends {T : Type} [Inhabited T] (s : SparseComponentStorage T)
    (e : Entity) (he : e < MAX_ENTITIES) :
    ∃ s1, Add s e = some (s1, s.packed.length) ∧
      s1.packed.length = s.packed.length + 1 ∧
      s1.indices.length = s.indices.length + 1 ∧
      s1.indices.getLast? = some e := by
  obtain ⟨s1, _, hadd, hp, hi, _⟩ := Add_spec s e he
  exact ⟨s1, hadd, by simp [hp], by simp [hi], by simp [hi]⟩

theorem add_always_appends_witness :
    ∃ s1, Add (SparseComponentStorage.empty : SparseComponentStorage Nat) 5 =
        some (s1, (SparseComponentStorage.empty : SparseComponentStorage Nat).packed.length) ∧
      s1.packed.length = (SparseComponentStorage.empty : SparseComponentStorage Nat).packed.length + 1 ∧
      s1.indices.length =
        (SparseComponentStorage.empty : SparseComponentStorage Nat).indices.length + 1 ∧
      s1.indices.getLast? = some 5 :=
  add_always_appends SparseComponentStorage.empty 5 (by decide)

/-- C8: in every state reached from the empty storage by adds made only on
entities that lack the component and removes made only where `Has` holds,
`Remove(e)` on an entity that has the component completes, shortens `packed` and
the entity list by one, makes `Has(e)` false, clears the mask bit of `e`, leaves
the sparse slot of `e` a tombstone (whether or not `e` was the last packed
element), and every other entity that had a component still has it, with the
same value. -/
theorem remove_present {T : Type} [Inhabited T] (ops : List (StorageOp T))
    (hfresh : freshAdds (SparseComponentStorage.empty : SparseComponentStorage T) ops = true) :
    ∃ s, run (SparseComponentStorage.empty : SparseComponentStorage T) ops = some s ∧
      ∀ e : Entity, Has s e = true →
        ∃ s1, Remove s e = some s1 ∧
          s1.packed.length + 1 = s.packed.length ∧
          s1.indices.length + 1 = s.indices.length ∧
          Has s1 e = false ∧ s1.Mask.test e = some false ∧
          (∃ iv, readSlot s1.sparsePages e = some iv ∧ UnpackIndex iv = INDEX_MASK) ∧
          ∀ f : Entity, f ≠ e → Has s f = true →
            Has s1 f = true ∧ (GetComponent s f).isSome = true ∧
              GetComponent s1 f = GetComponent s f := by
  obtain ⟨s, hrun, hinv⟩ := run_inv_all ops hfresh
  refine ⟨s, hrun, ?_⟩
  intro e hH
  obtain ⟨s1, hrem, _, hlp, hli, hHas1, hm, hget, htomb⟩ := Remove_facts hinv e hH
  refine ⟨s1, hrem, hlp, hli, ?_, ?_, htomb, ?_⟩
  · rw [hHas1 e, if_pos rfl]
  · simp only [Mask]; rw [hm e, if_pos rfl]
  · intro f hfe hHf
    exact ⟨by rw [hHas1 f, if_neg hfe]; exact hHf, (hget f hfe hHf).2, (hget f hfe hHf).1⟩

theorem remove_present_witness :
    ∃ s, run (SparseComponentStorage.empty : SparseComponentStorage Nat)
        [.add 0 1, .add 1 4, .add 2 7] = some s ∧
      ∀ e : Entity, Has s e = true →
        ∃ s1, Remove s e = some s1 ∧
          s1.packed.length + 1 = s.packed.length ∧
          s1.indices.length + 1 = s.indices.length ∧
          Has s1 e = false ∧ s1.Mask.test e = some false ∧
          (∃ iv, readSlot s1.sparsePages e = some iv ∧ UnpackIndex iv = INDEX_MASK) ∧
          ∀ f : Entity, f ≠ e → Has s f = true →
            Has s1 f = true ∧ (GetComponent s f).isSome = true ∧
              GetComponent s1 f = GetComponent s f :=
  remove_present [.add 0 1, .add 1 4, .add 2 7] (by decide)

/-- C9, against the claim: on the empty storage, where `Has(0)` is false and no
sparse page is allocated, `Remove(0)` does not complete. -/
theorem remove_absent_fails_example :
    Has (SparseComponentStorage.empty : SparseComponentStorage Nat) 0 = false ∧
    (Remove (SparseComponentStorage.empty : SparseComponentStorage Nat) 0).isSome = false := by
  decide

/-- C9, as the code behaves: for every storage state and every entity `e` for
which `Has(e)` is false, `Remove(e)` fails its assertion `Has(e)`; the call that
completes and leaves `packed`, the entity list, the sparse map and the mask
unchanged is `Registry::RemoveComponent`, which returns before `Remove`. -/
theorem remove_absent {T : Type} (s : SparseComponentStorage T) (e : Entity)
    (hHas : Has s e = false) :
    Remove s e = none ∧ RemoveComponent s e = some s := by
  constructor
  · simp [Remove, hHas]
  · simp [RemoveComponent, hHas]

theorem remove_absent_witness :
    Remove (SparseComponentStorage.empty : SparseComponentStorage Nat) 7 = none ∧
    RemoveComponent (SparseComponentStorage.empty : SparseComponentStorage Nat) 7 =
      some SparseComponentStorage.empty :=
  remove_absent SparseComponentStorage.empty 7 (by decide)

end HBL2

namespace HBL2

set_option maxRecDepth 8000

namespace Registry

variable {T : Type}

theorem destroyStep_storage_other {r r1 : Registry T} {e : Entity} {i j : Nat}
    (h : destroyStep e r i = some r1) (hij : i ≠ j) : r1.storage j = r.storage j := by
  unfold destroyStep at h
  cases hs : r.storage i with
  | none => simp [hs] at h
  | some arr =>
    cases hr : arr.Remove e with
    | none => simp [hs, hr] at h
    | some arr1 =>
      simp [hs, hr] at h
      subst h
      simp [storage, List.getElem?_set_ne hij]

theorem destroyStep_fails {r : Registry T} {e : Entity} {j : Nat}
    (hbad : ∀ st, r.storage j = some st → st.Has e = false) : destroyStep e r j = none := by
  unfold destroyStep
  cases hs : r.storage j with
  | none => simp
  | some arr => simp [SparseComponentStorage.Remove, hbad arr hs]

theorem foldlM_destroyStep_fails (e : Entity) (j : Nat) (l : List Nat) :
    ∀ r : Registry T, j ∈ l → (∀ st, r.storage j = some st → st.Has e = false) →
      l.foldlM (destroyStep e) r = none := by
  induction l with
  | nil => intro r hj; simp at hj
  | cons i rest ih =>
    intro r hj hbad
    rw [List.foldlM_cons]
    by_cases hij : i = j
    · subst hij
      rw [destroyStep_fails hbad]
      rfl
    · cases hstep : destroyStep e r i with
      | none => rfl
      | some r1 =>
        have hmem : j ∈ rest := by
          rcases List.mem_cons.mp hj with h | h
          · exact absurd h.symm hij
          · exact h
        have hsame := destroyStep_storage_other hstep hij
        exact ih r1 hmem (by rw [hsame]; exact hbad)

/-- Whenever one of the `GetCount()` stores is a null pointer or does not hold a
component of `e`, `DestroyEntity(e)` does not complete. -/
theorem destroyEntity_fails_of_absent (r : Registry T) (e : Entity) (j : Nat)
    (hj : j < r.typeIDs.GetCount)
    (hbad : ∀ st, r.storage j = some st → st.Has e = false) :
    DestroyEntity r e = none := by
  unfold DestroyEntity
  exact foldlM_destroyStep_fails e j _ _ (List.mem_range.mpr hj) hbad

end Registry

/-- C10, on the code: two entities 0 and 1 are created, entity 1 gets a
component of type 0, entity 0 gets none. All of that completes, entity 0 is
live and `HasComponent` is false for it; `DestroyEntity(0)` does not complete
(the `Remove(0)` it calls on the store of type 0 fails the assertion `Has(0)`),
while `RemoveComponent` of type 0 on entity 0 does complete. -/
theorem destroyEntity_without_component_fails :
    ((Registry.AddComponent
        (Registry.CreateEntity (Registry.CreateEntity (Registry.init : Registry Nat)).2).2
        0 1 42).map
      (fun r => (r.typeIDs.GetCount, (r.storage 0).map (fun st => st.Has 0),
        (Registry.DestroyEntity r 0).isSome, (Registry.RemoveComponent r 0 0).isSome))) =
      some (1, some false, false, true) ∧
    (Registry.CreateEntity (Registry.init : Registry Nat)).1 = 0 ∧
    (Registry.CreateEntity (Registry.CreateEntity (Registry.init : Registry Nat)).2).1 = 1 := by
  decide

/-- The same sequence with the component given to entity 0 as well: then
`DestroyEntity(0)` completes, entity 0 has no component afterwards and entity 1
keeps its value. -/
theorem destroyEntity_with_component_example :
    (((Registry.AddComponent
        (Registry.CreateEntity (Registry.CreateEntity (Registry.init : Registry Nat)).2).2
        0 1 42).bind (fun r => Registry.AddComponent r 0 0 7)).bind
      (fun r => (Registry.DestroyEntity r 0).map
        (fun r1 => ((r1.storage 0).map (fun st => (st.Has 0, st.Has 1, st.GetComponent 1)),
          r1.m_Entities.m_FreeList)))) =
      some (some (false, true, some 42), [0]) := by
  decide

end HBL2

namespace HBL2

open SparseComponentStorage StorageOp

/-! ## Clear -/

theorem SparseComponentStorage.Clear_facts {T : Type} (s : SparseComponentStorage T) :
    (Clear s).packed = [] ∧ (Clear s).indices = [] ∧ (∀ e, Has (Clear s) e = false) ∧
      (Clear s).mask = s.mask := by
  refine ⟨rfl, rfl, ?_, rfl⟩
  intro e
  simp [Has, Clear]

/-- C11, on the code: after `AddComponent(0, 10)` and `Clear()`, `packed` and the
entity list are empty and `Has(0)` is false, but `Mask().test(0)` is still true:
`Clear` leaves the mask as it was. -/
theorem clear_keeps_mask_bit :
    ((run (SparseComponentStorage.empty : SparseComponentStorage Nat) [.add 0 10]).map
      (fun s => ((Clear s).packed, (Clear s).indices, Has (Clear s) 0,
        (Clear s).Mask.test 0))) = some ([], [], false, some true) := by
  decide

/-! ## The entity allocator -/

namespace EntityManager

theorem destroyAll_append (m : EntityManager) (ds : List Entity) (d : Entity) :
    destroyAll m (ds ++ [d]) = Destroy (destroyAll m ds) d := by
  simp [destroyAll, List.foldl_append]

theorem Create_Destroy (m : EntityManager) (e : Entity) : Create (Destroy m e) = (e, m) := by
  simp [Create, Destroy]

theorem createMany_init (n : Nat) : ∀ k : Nat, k + n < 2 ^ 32 →
    createMany n ⟨[], k⟩ = ⟨[], k + n⟩ := by
  induction n with
  | zero => intro k _; rfl
  | succ n ih =>
    intro k hk
    have h1 : (k + 1) % 2 ^ 32 = k + 1 := Nat.mod_eq_of_lt (by omega)
    have h2 : (Create ⟨[], k⟩).2 = ⟨[], k + 1⟩ := by
      simp only [Create, List.getLast?_nil]
      rw [h1]
    simp only [createMany, h2]
    rw [ih (k + 1) (by omega)]
    congr 1
    omega

end EntityManager

/-- C13: for every `EntityManager` state, `Create()` returns the back of the
free list when the free list is non-empty, removes it from the free list and
leaves the counter unchanged; with an empty free list it returns the current
counter value and advances the counter by one (as a `uint32_t`); after any
sequence of `Destroy` calls the ids come back last destroyed first, so `Create()`
immediately after `Destroy(e0)` returns `e0` and restores the state. -/
theorem create_spec (m : EntityManager) :
    (∀ (l : List Entity) (e : Entity), m.m_FreeList = l ++ [e] →
      m.Create = (e, { m_FreeList := l, m_NextId := m.m_NextId })) ∧
    (m.m_FreeList = [] →
      m.Create = (m.m_NextId, { m_FreeList := [], m_NextId := (m.m_NextId + 1) % 2 ^ 32 }) ∧
      (m.m_NextId + 1 < 2 ^ 32 → (m.Create).2.m_NextId = m.m_NextId + 1)) ∧
    (∀ (ds : List Entity) (d : Entity),
      (m.destroyAll (ds ++ [d])).Create = (d, m.destroyAll ds)) ∧
    (∀ e0 : Entity, (m.Destroy e0).Create = (e0, m)) := by
  refine ⟨?_, ?_, ?_, ?_⟩
  · intro l e h
    simp [EntityManager.Create, h]
  · intro h
    have h1 : m.Create =
        (m.m_NextId, { m_FreeList := [], m_NextId := (m.m_NextId + 1) % 2 ^ 32 }) := by
      simp [EntityManager.Create, h]
    refine ⟨h1, ?_⟩
    intro hlt
    rw [h1]
    exact Nat.mod_eq_of_lt hlt
  · intro ds d
    rw [EntityManager.destroyAll_append, EntityManager.Create_Destroy]
  · intro e0
    exact EntityManager.Create_Destroy m e0

/-- C14, against the claim: after `MAX_ENTITIES` calls of `Create()` on a fresh
allocator the counter has reached `MAX_ENTITIES` and the free list is empty; the
next `Create()` returns the id `MAX_ENTITIES`. -/
theorem create_returns_max_entities :
    (EntityManager.createMany MAX_ENTITIES EntityManager.init).m_NextId = MAX_ENTITIES ∧
    (EntityManager.createMany MAX_ENTITIES EntityManager.init).m_FreeList = [] ∧
    (EntityManager.createMany MAX_ENTITIES EntityManager.init).Create.1 = MAX_ENTITIES ∧
    ¬ ((EntityManager.createMany MAX_ENTITIES EntityManager.init).Create.1 < MAX_ENTITIES) := by
  have h : EntityManager.createMany MAX_ENTITIES EntityManager.init = ⟨[], MAX_ENTITIES⟩ := by
    have := EntityManager.createMany_init MAX_ENTITIES 0 (by decide)
    simpa [EntityManager.init] using this
  rw [h]
  refine ⟨rfl, rfl, ?_, ?_⟩
  · simp [EntityManager.Create]
  · simp [EntityManager.Create]

/-- C14, as the code behaves: `Create()` has no exhaustion check. When the
counter has reached (or passed) `MAX_ENTITIES` and the free list is empty,
`Create()` returns the counter value, which is not less than `MAX_ENTITIES`, and
advances the counter; `Registry::CreateEntity` returns that same id. -/
theorem create_no_exhaustion_check {T : Type} (r : Registry T)
    (hfree : r.m_Entities.m_FreeList = []) (hmax : MAX_ENTITIES ≤ r.m_Entities.m_NextId) :
    r.m_Entities.Create.1 = r.m_Entities.m_NextId ∧
    MAX_ENTITIES ≤ r.m_Entities.Create.1 ∧
    r.m_Entities.Create.2.m_NextId = (r.m_Entities.m_NextId + 1) % 2 ^ 32 ∧
    r.CreateEntity.1 = r.m_Entities.m_NextId := by
  have h1 : r.m_Entities.Create = (r.m_Entities.m_NextId,
      { m_FreeList := [], m_NextId := (r.m_Entities.m_NextId + 1) % 2 ^ 32 }) := by
    simp [EntityManager.Create, hfree]
  refine ⟨by rw [h1], by rw [h1]; exact hmax, by rw [h1], ?_⟩
  simp [Registry.CreateEntity, h1]

theorem create_no_exhaustion_check_witness :
    (⟨ComponentTypeID.init, ⟨[], MAX_ENTITIES⟩, 0, []⟩ : Registry Nat).m_Entities.Create.1 =
      MAX_ENTITIES ∧
    MAX_ENTITIES ≤
      (⟨ComponentTypeID.init, ⟨[], MAX_ENTITIES⟩, 0, []⟩ : Registry Nat).m_Entities.Create.1 ∧
    (⟨ComponentTypeID.init, ⟨[], MAX_ENTITIES⟩, 0, []⟩ : Registry Nat).m_Entities.Create.2.m_NextId =
      (MAX_ENTITIES + 1) % 2 ^ 32 ∧
    (⟨ComponentTypeID.init, ⟨[], MAX_ENTITIES⟩, 0, []⟩ : Registry Nat).CreateEntity.1 =
      MAX_ENTITIES :=
  create_no_exhaustion_check ⟨ComponentTypeID.init, ⟨[], MAX_ENTITIES⟩, 0, []⟩ rfl
    (Nat.le_refl _)

end HBL2

namespace HBL2

theorem create_spec_witness :
    (∀ (l : List Entity) (e : Entity), (⟨[3, 5], 7⟩ : EntityManager).m_FreeList = l ++ [e] →
      (⟨[3, 5], 7⟩ : EntityManager).Create = (e, { m_FreeList := l, m_NextId := 7 })) ∧
    ((⟨[3, 5], 7⟩ : EntityManager).m_FreeList = [] →
      (⟨[3, 5], 7⟩ : EntityManager).Create =
        (7, { m_FreeList := [], m_NextId := (7 + 1) % 2 ^ 32 }) ∧
      (7 + 1 < 2 ^ 32 → ((⟨[3, 5], 7⟩ : EntityManager).Create).2.m_NextId = 7 + 1)) ∧
    (∀ (ds : List Entity) (d : Entity),
      ((⟨[3, 5], 7⟩ : EntityManager).destroyAll (ds ++ [d])).Create =
        (d, (⟨[3, 5], 7⟩ : EntityManager).destroyAll ds)) ∧
    (∀ e0 : Entity, ((⟨[3, 5], 7⟩ : EntityManager).Destroy e0).Create = (e0, ⟨[3, 5], 7⟩)) :=
  create_spec ⟨[3, 5], 7⟩

/-! ## Path selection of `Run` -/

namespace Query

theorem minLoop_firstMin (rest : List Nat) :
    ∀ (pre : List Nat) (minCount minIdx : Nat), IsFirstMin pre minCount minIdx →
      IsFirstMin (pre ++ rest) (minLoop rest pre.length minCount minIdx).1
        (minLoop rest pre.length minCount minIdx).2 := by
  induction rest with
  | nil => intro pre mc mi h; simpa [minLoop] using h
  | cons c rest ih =>
    intro pre mc mi h
    obtain ⟨hget, hmin, hfirst⟩ := h
    have hmi : mi < pre.length := (List.getElem?_eq_some_iff.mp hget).1
    have hstep : IsFirstMin (pre ++ [c]) (if c < mc then c else mc)
        (if c < mc then pre.length else mi) := by
      by_cases hc : c < mc
      · simp only [hc, if_true]
        refine ⟨by simp, ?_, ?_⟩
        · intro d hd
          rcases List.mem_append.mp hd with hd | hd
          · exact Nat.le_trans (Nat.le_of_lt hc) (hmin d hd)
          · simp only [List.mem_singleton] at hd
            omega
        · intro j d hj hd
          rw [List.getElem?_append_left hj] at hd
          have := hmin d (List.mem_iff_getElem?.mpr ⟨j, hd⟩)
          omega
      · simp only [hc, if_false]
        refine ⟨by rw [List.getElem?_append_left hmi]; exact hget, ?_, ?_⟩
        · intro d hd
          rcases List.mem_append.mp hd with hd | hd
          · exact hmin d hd
          · simp only [List.mem_singleton] at hd
            omega
        · intro j d hj hd
          rw [List.getElem?_append_left (by omega)] at hd
          exact hfirst j d hj hd
    have := ih (pre ++ [c]) _ _ hstep
    simp only [List.length_append, List.length_singleton, List.append_assoc,
      List.singleton_append] at this
    by_cases hc : c < mc
    · simp only [hc, if_true] at this
      simpa [minLoop, hc] using this
    · simp only [hc, if_false] at this
      simpa [minLoop, hc] using this

theorem findMin_firstMin {counts : List Nat} {minCount minIdx : Nat}
    (h : findMin counts = some (minCount, minIdx)) : IsFirstMin counts minCount minIdx := by
  cases counts with
  | nil => simp [findMin] at h
  | cons c0 rest =>
    simp only [findMin, Option.some.injEq] at h
    have h0 : IsFirstMin [c0] c0 0 := by
      refine ⟨rfl, by simp, ?_⟩
      intro j c hj; omega
    have := minLoop_firstMin rest [c0] c0 0 h0
    simp only [List.length_singleton, List.singleton_append] at this
    rw [h] at this
    exact this

theorem findMin_isSome {counts : List Nat} (h : counts ≠ []) :
    ∃ minCount minIdx, findMin counts = some (minCount, minIdx) := by
  cases counts with
  | nil => exact absurd rfl h
  | cons c0 rest => exact ⟨_, _, rfl⟩

theorem useSparsePath_iff (N k : Nat) :
    useSparsePath N k = true ↔
      (N ≤ 1000 ∨ (1000 < N ∧ N ≤ 10000 ∧ k ≤ 1500) ∨ (10000 < N ∧ N ≤ 20000 ∧ k ≤ 3000)) := by
  simp [useSparsePath, and_assoc, or_assoc]

end Query

/-- C16: `FilterQuery::Run` and `ExcludeQuery::Run` take the sparse path exactly
when N <= 1000, or 1000 < N <= 10000 and minCount <= 1500, or 10000 < N <= 20000
and minCount <= 3000, and the dense path otherwise, where N is `m_EntityCount` and
minCount is the smallest `Indices().Size()` among the include stores (found at the
first index that holds it); N = 5000 with minCount = 1200 selects the sparse path
and with minCount = 2000 the dense path. -/
theorem run_path_selection {T : Type} (q : FilterQuery T) (x : ExcludeQuery T) :
    (∀ N k : Nat, Query.useSparsePath N k = true ↔
      (N ≤ 1000 ∨ (1000 < N ∧ N ≤ 10000 ∧ k ≤ 1500) ∨
        (10000 < N ∧ N ≤ 20000 ∧ k ≤ 3000))) ∧
    (q.m_Storages ≠ [] →
      ∃ minCount minIdx,
        IsFirstMin (q.m_Storages.map (fun s => s.Indices.length)) minCount minIdx ∧
        q.Run = if Query.useSparsePath q.m_EntityCount minCount then q.sparsePath minIdx
          else q.densePath) ∧
    (x.m_Include ≠ [] →
      ∃ minCount minIdx,
        IsFirstMin (x.m_Include.map (fun s => s.Indices.length)) minCount minIdx ∧
        x.Run = if Query.useSparsePath x.m_EntityCount minCount then x.sparsePath minIdx
          else x.densePath) ∧
    Query.useSparsePath 5000 1200 = true ∧ Query.useSparsePath 5000 2000 = false := by
  refine ⟨Query.useSparsePath_iff, ?_, ?_, by decide, by decide⟩
  · intro hne
    obtain ⟨mc, mi, hfm⟩ := Query.findMin_isSome
      (show q.m_Storages.map (fun s => s.Indices.length) ≠ [] from by simpa using hne)
    exact ⟨mc, mi, Query.findMin_firstMin hfm, by simp [FilterQuery.Run, hfm]⟩
  · intro hne
    obtain ⟨mc, mi, hfm⟩ := Query.findMin_isSome
      (show x.m_Include.map (fun s => s.Indices.length) ≠ [] from by simpa using hne)
    exact ⟨mc, mi, Query.findMin_firstMin hfm, by simp [ExcludeQuery.Run, hfm]⟩

/-! ## `Schedule` of the queries -/

theorem query_schedule_noop {T : Type} (f : FilterQuery T) (x : ExcludeQuery T)
    (v : ViewQuery T) (sched : Sceduler) :
    (f.Schedule sched).2 = sched ∧ (x.Schedule sched).2 = sched ∧
      (v.Schedule sched).2 = sched :=
  ⟨rfl, rfl, rfl⟩

/-- C18, on the code: with a scheduler that has nothing registered, calling
`Schedule()` on a `FilterQuery`, an `ExcludeQuery` and a `ViewQuery` over stores
that hold entity 0 leaves the registered list empty each time, and `RunAll`
afterwards executes no task. -/
theorem query_schedule_registers_nothing :
    ((FilterQuery.Schedule
        (⟨[storeOf [.add 0 1], storeOf [.add 0 2]], 1⟩ : FilterQuery Nat)
        Sceduler.empty).2.m_Entries = [] ∧
     (ExcludeQuery.Schedule
        (⟨[storeOf [.add 0 1], storeOf [.add 0 2]], [], 1⟩ : ExcludeQuery Nat)
        Sceduler.empty).2.m_Entries = [] ∧
     (ViewQuery.Schedule (⟨storeOf [.add 0 1]⟩ : ViewQuery Nat)
        Sceduler.empty).2.m_Entries = []) ∧
    Sceduler.RunAll (FilterQuery.Schedule
        (⟨[storeOf [.add 0 1], storeOf [.add 0 2]], 1⟩ : FilterQuery Nat)
        Sceduler.empty).2 = [[]] ∧
    (FilterQuery.Run
        (⟨[storeOf [.add 0 1], storeOf [.add 0 2]], 1⟩ : FilterQuery Nat)) = some [0] := by
  decide

end HBL2

namespace HBL2

/-! ## `Schedule` of the ECS-Alt registry -/

theorem ComponentTypeID.get_ids_ne {c : ComponentTypeID} (h : IdsOk c) {A B : Nat}
    (hAB : A ≠ B) : (c.Get A).1 ≠ ((c.Get A).2.Get B).1 := by
  obtain ⟨hlt, hinj⟩ := h
  unfold ComponentTypeID.Get
  cases hA : c.ids A with
  | none =>
    simp only
    have hBA : ¬ B = A := fun hc => hAB hc.symm
    cases hB : c.ids B with
    | none =>
      simp only [hBA, if_false, hB]
      omega
    | some idB =>
      simp only [hBA, if_false, hB]
      have := hlt B idB hB
      omega
  | some idA =>
    simp only
    cases hB : c.ids B with
    | none =>
      simp only
      have := hlt A idA hA
      omega
    | some idB =>
      simp only
      intro hc
      subst hc
      exact hAB (hinj A B idA hA hB)

theorem idsOk_init : IdsOk ComponentTypeID.init := by
  constructor
  · intro T id h; simp [ComponentTypeID.init] at h
  · intro T U id h; simp [ComponentTypeID.init] at h

namespace Alt

theorem bitsetSet_zero {pos : Nat} (h : pos < MAX_COMPONENT_TYPES) :
    bitsetSet 0 pos = some (2 ^ pos) := by
  simp [bitsetSet, h, Nat.one_shiftLeft]

theorem bitsetSet_eq {mask pos : Nat} (h : pos < MAX_COMPONENT_TYPES) :
    bitsetSet mask pos = some (mask ||| 2 ^ pos) := by
  simp [bitsetSet, h, Nat.one_shiftLeft]

theorem testBit_two_pow_eq (a i : Nat) : (2 ^ a).testBit i = decide (i = a) := by
  rw [Nat.testBit_two_pow]
  by_cases h : a = i
  · simp [h]
  · have : ¬ i = a := fun hc => h hc.symm
    simp [h, this]

end Alt

/-- C19, against the claim: `Schedule<C0, const C0>(f)` on a fresh ECS-Alt
registry completes and appends one descriptor whose read mask and write mask
both have the bit of type id 0. -/
theorem schedule_same_type_both_masks :
    ((Alt.Registry.Schedule2 Alt.Registry.init ⟨0, false⟩ ⟨0, true⟩ 7).map
      (fun r => r.m_Sceduler.m_Entries)) =
        some [{ ReadMask := 1, WriteMask := 1, Task := 7 }] ∧
    (1 : Nat) &&& 1 ≠ 0 := by
  decide

/-- C19, as the code behaves: for every `Schedule<A>(f)` and `Schedule<A, B>(f)`
call on the ECS-Alt registry whose type ids are below `MAX_COMPONENT_TYPES`, the
call completes and appends exactly one descriptor to the scheduler's list; its
read mask has exactly the type-id bits of the parameters declared const and its
write mask exactly those of the parameters declared non-const; no type id is set
in both masks provided no component type is passed both const and non-const
(the ids handed out so far being distinct per type). -/
theorem schedule_masks (r : Alt.Registry) (A B : Alt.Param) (task : Nat)
    (hA : (r.typeIDs.Get A.type).1 < Alt.MAX_COMPONENT_TYPES)
    (hB : ((r.typeIDs.Get A.type).2.Get B.type).1 < Alt.MAX_COMPONENT_TYPES) :
    (∃ r1 entry, Alt.Registry.Schedule1 r A task = some r1 ∧
      r1.m_Sceduler.m_Entries = r.m_Sceduler.m_Entries ++ [entry] ∧ entry.Task = task ∧
      (∀ i, entry.ReadMask.testBit i =
        (A.isConst && decide (i = (r.typeIDs.Get A.type).1))) ∧
      (∀ i, entry.WriteMask.testBit i =
        (!A.isConst && decide (i = (r.typeIDs.Get A.type).1))) ∧
      entry.ReadMask &&& entry.WriteMask = 0) ∧
    (∃ r2 entry, Alt.Registry.Schedule2 r A B task = some r2 ∧
      r2.m_Sceduler.m_Entries = r.m_Sceduler.m_Entries ++ [entry] ∧ entry.Task = task ∧
      (∀ i, entry.ReadMask.testBit i =
        ((A.isConst && decide (i = (r.typeIDs.Get A.type).1)) ||
          (B.isConst && decide (i = ((r.typeIDs.Get A.type).2.Get B.type).1)))) ∧
      (∀ i, entry.WriteMask.testBit i =
        ((!A.isConst && decide (i = (r.typeIDs.Get A.type).1)) ||
          (!B.isConst && decide (i = ((r.typeIDs.Get A.type).2.Get B.type).1)))) ∧
      (IdsOk r.typeIDs → (A.type = B.type → A.isConst = B.isConst) →
        entry.ReadMask &&& entry.WriteMask = 0)) := by
  generalize hgA : r.typeIDs.Get A.type = gA at hA hB
  obtain ⟨idA, c1⟩ := gA
  generalize hgB : c1.Get B.type = gB at hB
  obtain ⟨idB, c2⟩ := gB
  simp only at hA hB
  constructor
  · cases hcA : A.isConst with
    | true =>
      refine ⟨⟨c1, r.m_Sceduler.Register { ReadMask := 2 ^ idA, WriteMask := 0, Task := task }⟩, { ReadMask := 2 ^ idA, WriteMask := 0, Task := task }, ?_, rfl, rfl, ?_, ?_, ?_⟩
      · simp [Alt.Registry.Schedule1, Alt.Registry.FillDeps, hgA, hcA, Alt.Registry.newEntry,
          Alt.bitsetSet_zero hA, Sceduler.Register]
      · intro i; simp [Alt.testBit_two_pow_eq]
      · intro i; simp
      · simp
    | false =>
      refine ⟨⟨c1, r.m_Sceduler.Register { ReadMask := 0, WriteMask := 2 ^ idA, Task := task }⟩, { ReadMask := 0, WriteMask := 2 ^ idA, Task := task }, ?_, rfl, rfl, ?_, ?_, ?_⟩
      · simp [Alt.Registry.Schedule1, Alt.Registry.FillDeps, hgA, hcA, Alt.Registry.newEntry,
          Alt.bitsetSet_zero hA, Sceduler.Register]
      · intro i; simp
      · intro i; simp [Alt.testBit_two_pow_eq]
      · simp
  · have hne : IdsOk r.typeIDs → A.type ≠ B.type → idA ≠ idB := by
      intro hok hAB
      have := ComponentTypeID.get_ids_ne hok hAB
      rw [hgA] at this
      simp only at this
      rw [hgB] at this
      exact this
    cases hcA : A.isConst with
    | true =>
      cases hcB : B.isConst with
      | true =>
        refine ⟨⟨c2, r.m_Sceduler.Register { ReadMask := 2 ^ idA ||| 2 ^ idB, WriteMask := 0, Task := task }⟩,
          { ReadMask := 2 ^ idA ||| 2 ^ idB, WriteMask := 0, Task := task }, ?_, rfl, rfl,
          ?_, ?_, ?_⟩
        · simp [Alt.Registry.Schedule2, Alt.Registry.FillDeps, hgA, hgB, hcA, hcB,
            Alt.Registry.newEntry, Alt.bitsetSet_zero hA, Alt.bitsetSet_eq hB, Sceduler.Register]
        · intro i; simp [Alt.testBit_two_pow_eq]
        · intro i; simp
        · intro _ _; simp
      | false =>
        refine ⟨⟨c2, r.m_Sceduler.Register { ReadMask := 2 ^ idA, WriteMask := 2 ^ idB, Task := task }⟩,
          { ReadMask := 2 ^ idA, WriteMask := 2 ^ idB, Task := task }, ?_, rfl, rfl,
          ?_, ?_, ?_⟩
        · simp [Alt.Registry.Schedule2, Alt.Registry.FillDeps, hgA, hgB, hcA, hcB,
            Alt.Registry.newEntry, Alt.bitsetSet_zero hA, Alt.bitsetSet_zero hB, Sceduler.Register]
        · intro i; simp [Alt.testBit_two_pow_eq]
        · intro i; simp [Alt.testBit_two_pow_eq]
        · intro hok hty
          have hAB : A.type ≠ B.type := fun hc => Bool.noConfusion (hty hc)
          exact two_pow_and_two_pow_of_ne (hne hok hAB)
    | false =>
      cases hcB : B.isConst with
      | true =>
        refine ⟨⟨c2, r.m_Sceduler.Register { ReadMask := 2 ^ idB, WriteMask := 2 ^ idA, Task := task }⟩,
          { ReadMask := 2 ^ idB, WriteMask := 2 ^ idA, Task := task }, ?_, rfl, rfl,
          ?_, ?_, ?_⟩
        · simp [Alt.Registry.Schedule2, Alt.Registry.FillDeps, hgA, hgB, hcA, hcB,
            Alt.Registry.newEntry, Alt.bitsetSet_zero hA, Alt.bitsetSet_zero hB, Sceduler.Register]
        · intro i; simp [Alt.testBit_two_pow_eq]
        · intro i; simp [Alt.testBit_two_pow_eq]
        · intro hok hty
          have hAB : A.type ≠ B.type := fun hc => Bool.noConfusion (hty hc)
          exact two_pow_and_two_pow_of_ne (Ne.symm (hne hok hAB))
      | false =>
        refine ⟨⟨c2, r.m_Sceduler.Register { ReadMask := 0, WriteMask := 2 ^ idA ||| 2 ^ idB, Task := task }⟩,
          { ReadMask := 0, WriteMask := 2 ^ idA ||| 2 ^ idB, Task := task }, ?_, rfl, rfl,
          ?_, ?_, ?_⟩
        · simp [Alt.Registry.Schedule2, Alt.Registry.FillDeps, hgA, hgB, hcA, hcB,
            Alt.Registry.newEntry, Alt.bitsetSet_zero hA, Alt.bitsetSet_eq hB, Sceduler.Register]
        · intro i; simp
        · intro i; simp [Alt.testBit_two_pow_eq]
        · intro _ _; simp

end HBL2

namespace HBL2

theorem schedule_masks_witness :
    (∃ r1 entry, Alt.Registry.Schedule1 Alt.Registry.init ⟨0, false⟩ 7 = some r1 ∧
      r1.m_Sceduler.m_Entries = Alt.Registry.init.m_Sceduler.m_Entries ++ [entry] ∧
      entry.Task = 7 ∧
      (∀ i, entry.ReadMask.testBit i =
        ((⟨0, false⟩ : Alt.Param).isConst &&
          decide (i = (Alt.Registry.init.typeIDs.Get (⟨0, false⟩ : Alt.Param).type).1))) ∧
      (∀ i, entry.WriteMask.testBit i =
        (!(⟨0, false⟩ : Alt.Param).isConst &&
          decide (i = (Alt.Registry.init.typeIDs.Get (⟨0, false⟩ : Alt.Param).type).1))) ∧
      entry.ReadMask &&& entry.WriteMask = 0) ∧
    (∃ r2 entry, Alt.Registry.Schedule2 Alt.Registry.init ⟨0, false⟩ ⟨1, true⟩ 7 = some r2 ∧
      r2.m_Sceduler.m_Entries = Alt.Registry.init.m_Sceduler.m_Entries ++ [entry] ∧
      entry.Task = 7 ∧
      (∀ i, entry.ReadMask.testBit i =
        (((⟨0, false⟩ : Alt.Param).isConst &&
            decide (i = (Alt.Registry.init.typeIDs.Get (⟨0, false⟩ : Alt.Param).type).1)) ||
          ((⟨1, true⟩ : Alt.Param).isConst &&
            decide (i = ((Alt.Registry.init.typeIDs.Get (⟨0, false⟩ : Alt.Param).type).2.Get
              (⟨1, true⟩ : Alt.Param).type).1)))) ∧
      (∀ i, entry.WriteMask.testBit i =
        ((!(⟨0, false⟩ : Alt.Param).isConst &&
            decide (i = (Alt.Registry.init.typeIDs.Get (⟨0, false⟩ : Alt.Param).type).1)) ||
          (!(⟨1, true⟩ : Alt.Param).isConst &&
            decide (i = ((Alt.Registry.init.typeIDs.Get (⟨0, false⟩ : Alt.Param).type).2.Get
              (⟨1, true⟩ : Alt.Param).type).1)))) ∧
      (IdsOk Alt.Registry.init.typeIDs →
        ((⟨0, false⟩ : Alt.Param).type = (⟨1, true⟩ : Alt.Param).type →
          (⟨0, false⟩ : Alt.Param).isConst = (⟨1, true⟩ : Alt.Param).isConst) →
        entry.ReadMask &&& entry.WriteMask = 0)) :=
  schedule_masks Alt.Registry.init ⟨0, false⟩ ⟨1, true⟩ 7 (by decide) (by decide)

end HBL2

namespace HBL2

open SparseComponentStorage StorageOp

/-! ## The version field -/

theorem packIndexVersion_lt (idx ver : Nat) : PackIndexVersion idx ver < 2 ^ 32 := by
  by_cases h : idx > INDEX_MASK
  · have h1 : PackIndexVersion idx ver = PackIndexVersion INDEX_MASK ver := by
      simp [PackIndexVersion, h]
    rw [h1, packIndexVersion_eq _ _ (Nat.le_refl _), index_mask_eq]
    omega
  · have hle : idx ≤ INDEX_MASK := Nat.le_of_not_lt h
    rw [packIndexVersion_eq _ _ hle]
    rw [index_mask_eq] at hle
    omega

theorem packIndexVersion_clamp (idx ver : Nat) :
    PackIndexVersion idx ver = PackIndexVersion (min idx INDEX_MASK) ver := by
  by_cases hgt : idx > INDEX_MASK
  · rw [Nat.min_eq_right (Nat.le_of_lt hgt)]
    simp [PackIndexVersion, hgt]
  · rw [Nat.min_eq_left (Nat.le_of_not_lt hgt)]

theorem unpackVersion_lt {iv : Nat} (h : iv < 2 ^ 32) : UnpackVersion iv < 4096 := by
  rw [unpackVersion_eq]
  omega

namespace SparseComponentStorage

variable {T : Type}

theorem slotsU32_empty : SlotsU32 (empty : SparseComponentStorage T) := by
  intro e iv h
  simp [empty, readSlot] at h

theorem addComponent_lt [Inhabited T] {s s1 : SparseComponentStorage T} {e : Nat} {v : T}
    (h : AddComponent s e v = some s1) : e < MAX_ENTITIES := by
  by_contra hc
  have := word_out_of_bounds hc
  simp [AddComponent, Add, ComponentMaskAVX.set, this] at h

/-- The state that `Add(e)` leaves is the state that `AddComponent(e, T{})`
leaves. -/
theorem addComponent_default_of_add [Inhabited T] {s s1 : SparseComponentStorage T}
    {e k : Nat} (h : Add s e = some (s1, k)) : AddComponent s e default = some s1 := by
  have he : e < MAX_ENTITIES := by
    by_contra hc
    have := word_out_of_bounds hc
    simp [Add, ComponentMaskAVX.set, this] at h
  obtain ⟨s2, _, hadd, hp, _⟩ := Add_spec s e he
  rw [h] at hadd
  simp only [Option.some.injEq, Prod.mk.injEq] at hadd
  obtain ⟨rfl, rfl⟩ := hadd
  have hlt : s.packed.length < s1.packed.length := by rw [hp]; simp
  have hset : s1.packed.set s.packed.length default = s1.packed := by
    rw [hp]; simp
  simp only [AddComponent, h, Option.bind_eq_bind, Option.some_bind, hlt, if_true, hset]
  rfl

theorem slotsU32_addComponent [Inhabited T] {s s1 : SparseComponentStorage T} {e : Nat}
    {v : T} (hu : SlotsU32 s) (h : AddComponent s e v = some s1) : SlotsU32 s1 := by
  obtain ⟨s2, iv0, hadd, _, _, _, _, hr⟩ := AddComponent_spec s e v (addComponent_lt h)
  rw [h] at hadd
  cases hadd
  intro f iv hf
  rw [hr f] at hf
  by_cases hfe : f = e
  · simp only [hfe, if_true, Option.some.injEq] at hf
    rw [← hf]
    exact packIndexVersion_lt _ _
  · simp only [hfe, if_false] at hf
    rw [readSlot_ensurePage] at hf
    cases hs : readSlot s.sparsePages f with
    | some x =>
      rw [hs] at hf
      simp only [Option.some.injEq] at hf
      rw [← hf]
      exact hu f x hs
    | none =>
      rw [hs] at hf
      by_cases hq : f >>> PAGE_SHIFT = e >>> PAGE_SHIFT
      · simp only [hq, if_true, Option.some.injEq] at hf
        rw [← hf]
        exact packIndexVersion_lt _ _
      · simp [hq] at hf

theorem versionOf_addComponent [Inhabited T] {s s1 : SparseComponentStorage T} {e : Nat}
    {v : T} (hu : SlotsU32 s) (h : AddComponent s e v = some s1) :
    versionOf s1 e = versionOf s e := by
  obtain ⟨s2, iv0, hadd, _, _, _, hiv0, hr⟩ := AddComponent_spec s e v (addComponent_lt h)
  rw [h] at hadd
  cases hadd
  have hr1 := hr e
  rw [if_pos rfl] at hr1
  have hv1 : versionOf s1 e = UnpackVersion iv0 % 4096 := by
    simp only [versionOf, hr1]
    rw [packIndexVersion_clamp, unpackVersion_pack _ _ (Nat.min_le_right _ _)]
  rw [readSlot_ensurePage] at hiv0
  cases hs : readSlot s.sparsePages e with
  | some x =>
    rw [hs] at hiv0
    simp only [Option.some.injEq] at hiv0
    subst hiv0
    have := unpackVersion_lt (hu e x hs)
    rw [hv1]
    simp only [versionOf, hs]
    omega
  | none =>
    rw [hs] at hiv0
    simp only [if_true, Option.some.injEq] at hiv0
    subst hiv0
    rw [hv1, unpackVersion_pack _ _ (Nat.le_refl _)]
    simp [versionOf, hs]

theorem slotsU32_remove {s s1 : SparseComponentStorage T} {e : Nat} (hinv : StorageInv s)
    (hu : SlotsU32 s) (hHas : Has s e = true) (h : Remove s e = some s1) : SlotsU32 s1 := by
  obtain ⟨s2, old, last, lastComp, siv, _, _, _, _, _, _, hrem, _, _, _, hr⟩ :=
    Remove_spec hinv e hHas
  rw [h] at hrem
  cases hrem
  intro f iv hf
  rw [hr f] at hf
  by_cases hfe : f = e
  · simp only [hfe, if_true, Option.some.injEq] at hf
    rw [← hf]; exact packIndexVersion_lt _ _
  · simp only [hfe, if_false] at hf
    by_cases hfl : f = last
    · simp only [hfl, if_true, Option.some.injEq] at hf
      rw [← hf]; exact packIndexVersion_lt _ _
    · simp only [hfl, if_false] at hf
      exact hu f iv hf

theorem versionOf_remove {s s1 : SparseComponentStorage T} {e : Nat} (hinv : StorageInv s)
    (hHas : Has s e = true) (h : Remove s e = some s1) :
    versionOf s1 e = (versionOf s e + 1) % 4096 := by
  obtain ⟨s2, old, last, lastComp, siv, hold, _, _, _, _, _, hrem, _, _, _, hr⟩ :=
    Remove_spec hinv e hHas
  rw [h] at hrem
  cases hrem
  have hr1 := hr e
  rw [if_pos rfl] at hr1
  simp only [versionOf, hr1, hold]
  rw [unpackVersion_pack _ _ (Nat.le_refl _)]
  omega

/-- `Add(e)` then `Remove(e)` on a consistent storage that lacks `e`. -/
theorem add_remove_cycle [Inhabited T] {s : SparseComponentStorage T} (hinv : StorageInv s)
    (hu : SlotsU32 s) {e : Nat} (hHas : Has s e = false) (he : e < MAX_ENTITIES) :
    ∃ s1 k s2, Add s e = some (s1, k) ∧ AddComponent s e default = some s1 ∧
      Remove s1 e = some s2 ∧ RemoveComponent s1 e = some s2 ∧
      StorageInv s1 ∧ StorageInv s2 ∧ SlotsU32 s2 ∧
      Has s1 e = true ∧ Has s2 e = false ∧
      versionOf s1 e = versionOf s e ∧ versionOf s2 e = (versionOf s e + 1) % 4096 := by
  obtain ⟨s1, _, hadd, _⟩ := Add_spec s e he
  have haddC := addComponent_default_of_add hadd
  have hinv1 := inv_addComponent hinv hHas haddC
  have hu1 := slotsU32_addComponent hu haddC
  have hH1 : Has s1 e = true := by rw [Has_addComponent hinv haddC e, if_pos rfl]
  obtain ⟨s2, hrem, hinv2, _, _, hHas2, _⟩ := Remove_facts hinv1 e hH1
  refine ⟨s1, _, s2, hadd, haddC, hrem, by simp [RemoveComponent, hH1, hrem], hinv1, hinv2,
    slotsU32_remove hinv1 hu1 hH1 hrem, hH1, by rw [hHas2 e, if_pos rfl],
    versionOf_addComponent hu haddC, ?_⟩
  rw [versionOf_remove hinv1 hH1 hrem, versionOf_addComponent hu haddC]

end SparseComponentStorage

namespace StorageOp

variable {T : Type}

theorem slotsU32_apply [Inhabited T] {s s1 : SparseComponentStorage T} (hinv : StorageInv s)
    (hu : SlotsU32 s) (op : StorageOp T) (h : apply s op = some s1) : SlotsU32 s1 := by
  cases op with
  | add f v => exact slotsU32_addComponent hu h
  | remove f =>
    have hrem : RemoveComponent s f = some s1 := h
    cases hH : Has s f with
    | false =>
      simp only [RemoveComponent, hH, Bool.not_false, if_true, Option.some.injEq] at hrem
      rw [← hrem]; exact hu
    | true =>
      simp only [RemoveComponent, hH, Bool.not_true, Bool.false_eq_true, if_false] at hrem
      exact slotsU32_remove hinv hu hH hrem

/-- A disciplined call sequence from a consistent state with 32-bit slots ends
in such a state. -/
theorem run_inv_u32 [Inhabited T] (ops : List (StorageOp T)) :
    ∀ s : SparseComponentStorage T, StorageInv s → SlotsU32 s → freshAdds s ops = true →
      ∃ s1, run s ops = some s1 ∧ StorageInv s1 ∧ SlotsU32 s1 := by
  induction ops with
  | nil => intro s hinv hu _; exact ⟨s, rfl, hinv, hu⟩
  | cons op rest ih =>
    intro s hinv hu hf
    obtain ⟨s1, happ, hinv1, hf1⟩ := apply_inv hinv op rest hf
    obtain ⟨s2, hrun, hinv2, hu2⟩ := ih s1 hinv1 (slotsU32_apply hinv hu op happ) hf1
    exact ⟨s2, by simp [run, happ, hrun], hinv2, hu2⟩

/-- After `n` rounds of `Add(e); Remove(e)` from the empty storage the version
of the slot of `e` is `n` modulo 4096. -/
theorem addRemoveCycles_version (e : Nat) (he : e < MAX_ENTITIES) (n : Nat) :
    ∃ s, run (SparseComponentStorage.empty : SparseComponentStorage Nat)
        (addRemoveCycles e n) = some s ∧
      StorageInv s ∧ SlotsU32 s ∧ Has s e = false ∧ versionOf s e = n % 4096 := by
  induction n with
  | zero =>
    exact ⟨SparseComponentStorage.empty, rfl, inv_empty, slotsU32_empty, Has_empty e,
      by simp [versionOf, SparseComponentStorage.empty, readSlot]⟩
  | succ n ih =>
    obtain ⟨s, hrun, hinv, hu, hH, hv⟩ := ih
    obtain ⟨s1, k, s2, _, haddC, _, hremC, _, hinv2, hu2, _, hH2, _, hv2⟩ :=
      add_remove_cycle hinv hu hH he
    refine ⟨s2, ?_, hinv2, hu2, hH2, ?_⟩
    · simp only [addRemoveCycles]
      rw [run_append, hrun]
      have : (default : Nat) = 0 := rfl
      rw [this] at haddC
      simp [run, apply, haddC, hremC]
    · rw [hv2, hv]
      omega

end StorageOp

end HBL2

namespace HBL2

open SparseComponentStorage StorageOp

end HBL2

namespace HBL2

/-! ## Bit scans -/

theorem ctzAux_spec : ∀ (n w : Nat), w ≠ 0 → w < 2 ^ n →
    ctzAux n w < n ∧ w.testBit (ctzAux n w) = true ∧
      ∀ i, i < ctzAux n w → w.testBit i = false := by
  intro n
  induction n with
  | zero => intro w h0 hlt; simp at hlt; exact absurd hlt h0
  | succ n ih =>
    intro w h0 hlt
    by_cases hodd : w % 2 = 1
    · simp only [ctzAux, hodd, if_true]
      refine ⟨Nat.succ_pos n, ?_, ?_⟩
      · rw [Nat.testBit_zero]; simpa using hodd
      · intro i hi; omega
    · simp only [ctzAux, hodd, if_false]
      have h2 : w / 2 ≠ 0 := by omega
      have h3 : w / 2 < 2 ^ n := by
        rw [Nat.pow_succ] at hlt
        omega
      obtain ⟨hc, ht, hl⟩ := ih (w / 2) h2 h3
      refine ⟨by omega, ?_, ?_⟩
      · rw [Nat.add_comm, Nat.testBit_succ]; exact ht
      · intro i hi
        cases i with
        | zero => rw [Nat.testBit_zero]; simpa using hodd
        | succ j =>
          rw [Nat.testBit_succ]
          exact hl j (by omega)

theorem ctz_spec {w : Nat} (h0 : w ≠ 0) (hlt : w < 2 ^ 64) :
    ctz w < 64 ∧ w.testBit (ctz w) = true ∧ ∀ i, i < ctz w → w.testBit i = false :=
  ctzAux_spec 64 w h0 hlt

theorem testBit_eq_false_of_lt {w i n : Nat} (h : w < 2 ^ n) (hi : n ≤ i) :
    w.testBit i = false :=
  Nat.testBit_lt_two_pow (Nat.lt_of_lt_of_le h (Nat.pow_le_pow_right (by decide) hi))

namespace ComponentMaskAVX

theorem foundAt_eq {wi tz : Nat} (hw : wi < MASK_WORDS) (ht : tz < 64) :
    foundAt wi tz = wi * 64 + tz := by
  have h1 : wi * 64 + tz < MAX_ENTITIES := by
    simp only [MASK_WORDS, MAX_ENTITIES] at *
    omega
  have h2 : (wi * 64 + tz) % 2 ^ 32 = wi * 64 + tz := by
    apply Nat.mod_eq_of_lt
    simp only [MAX_ENTITIES] at h1
    omega
  simp only [foundAt, h2, h1, if_true]

theorem not_bitSet_of_word_zero {m : ComponentMaskAVX} {e : Nat} (h : m.data (e / 64) = 0) :
    ¬ m.bitSet e := by
  simp [bitSet, h]

theorem scanWords_succ (m : ComponentMaskAVX) (n wi : Nat) :
    scanWords m (n + 1) wi =
      if m.data wi ≠ 0 then foundAt wi (ctz (m.data wi)) else scanWords m n (wi + 1) := rfl

/-- The word scan finds the least set bit from the start of word `wi` on. -/
theorem scanWords_spec {m : ComponentMaskAVX} (hu : WordsU64 m) :
    ∀ (n wi : Nat), wi + n = MASK_WORDS → LeastFrom m (wi * 64) (scanWords m n wi) := by
  intro n
  induction n with
  | zero =>
    intro wi h
    simp only [scanWords]
    refine ⟨?_, Nat.le_refl _, fun h1 => absurd h1 (Nat.lt_irrefl _), ?_⟩
    · simp only [MASK_WORDS, MAX_ENTITIES] at *; omega
    · intro e h1 h2
      simp only [MASK_WORDS, MAX_ENTITIES] at *
      omega
  | succ n ih =>
    intro wi h
    have hwi : wi < MASK_WORDS := by omega
    rw [scanWords_succ]
    by_cases hw : m.data wi ≠ 0
    · rw [if_pos hw]
      obtain ⟨hc, ht, hl⟩ := ctz_spec hw (hu wi)
      rw [foundAt_eq hwi hc]
      generalize ctz (m.data wi) = c at hc ht hl
      have hdiv : (wi * 64 + c) / 64 = wi := by omega
      have hmod : (wi * 64 + c) % 64 = c := by omega
      refine ⟨by omega, ?_, ?_, ?_⟩
      · simp only [MASK_WORDS, MAX_ENTITIES] at *; omega
      · intro _
        simp only [bitSet, hdiv, hmod]
        exact ht
      · intro e h1 h2
        have hd : e / 64 = wi := by omega
        have hm : e % 64 < c := by omega
        simp only [bitSet, hd]
        rw [hl _ hm]
        exact Bool.noConfusion
    · have hw0 : m.data wi = 0 := by simpa using hw
      rw [if_neg hw]
      obtain ⟨h1, h2, h3, h4⟩ := ih (wi + 1) (by omega)
      refine ⟨by omega, h2, h3, ?_⟩
      intro e he1 he2
      by_cases hlt : e < (wi + 1) * 64
      · have hd : e / 64 = wi := by omega
        exact not_bitSet_of_word_zero (by rw [hd]; exact hw0)
      · exact h4 e (by omega) he2

theorem find_first_spec {m : ComponentMaskAVX} (hu : WordsU64 m) :
    LeastFrom m 0 (find_first m) := by
  have := scanWords_spec hu MASK_WORDS 0 (by simp)
  simpa [find_first] using this

theorem testBit_high_mask (off i : Nat) :
    (((2 ^ 64 - 1) <<< off) % 2 ^ 64).testBit i = (decide (i < 64) && decide (off ≤ i)) := by
  rw [Nat.testBit_mod_two_pow, Nat.testBit_shiftLeft, Nat.testBit_two_pow_sub_one]
  by_cases h1 : i < 64
  · by_cases h2 : off ≤ i
    · have : i - off < 64 := by omega
      simp [h1, h2, this]
    · simp [h1, h2]
  · simp [h1]

theorem find_next_spec {m : ComponentMaskAVX} (hu : WordsU64 m) {prev : Nat}
    (hp : prev < MAX_ENTITIES) : LeastFrom m (prev + 1) (find_next m prev) := by
  have hmod : (prev + 1) % 2 ^ 32 = prev + 1 := by
    apply Nat.mod_eq_of_lt
    simp only [MAX_ENTITIES] at hp
    omega
  unfold find_next
  simp only [hmod]
  by_cases hge : prev + 1 ≥ MAX_ENTITIES
  · rw [if_pos hge]
    refine ⟨by omega, Nat.le_refl _, fun h => absurd h (Nat.lt_irrefl _), ?_⟩
    intro e h1 h2
    omega
  · rw [if_neg hge]
    rw [word_shift_eq, word_mask_eq]
    have hwi : (prev + 1) / 64 < MASK_WORDS := by
      simp only [MASK_WORDS, MAX_ENTITIES] at *
      omega
    have hoff : (prev + 1) % 64 < 64 := Nat.mod_lt _ (by decide)
    have hbit : ∀ i, (m.data ((prev + 1) / 64) &&&
        (((2 ^ 64 - 1) <<< ((prev + 1) % 64)) % 2 ^ 64)).testBit i =
          ((m.data ((prev + 1) / 64)).testBit i &&
            (decide (i < 64) && decide ((prev + 1) % 64 ≤ i))) := by
      intro i
      rw [Nat.testBit_and, testBit_high_mask]
    by_cases hw : m.data ((prev + 1) / 64) &&&
        (((2 ^ 64 - 1) <<< ((prev + 1) % 64)) % 2 ^ 64) ≠ 0
    · rw [if_pos hw]
      have hlt : m.data ((prev + 1) / 64) &&&
          (((2 ^ 64 - 1) <<< ((prev + 1) % 64)) % 2 ^ 64) < 2 ^ 64 :=
        Nat.lt_of_le_of_lt Nat.and_le_left (hu _)
      obtain ⟨hc, ht, hl⟩ := ctz_spec hw hlt
      rw [foundAt_eq hwi hc]
      rw [hbit] at ht
      simp only [Bool.and_eq_true, decide_eq_true_eq] at ht
      obtain ⟨ht1, _, ht3⟩ := ht
      generalize ctz (m.data ((prev + 1) / 64) &&&
        (((2 ^ 64 - 1) <<< ((prev + 1) % 64)) % 2 ^ 64)) = c at hc ht1 ht3 hl
      have hdiv : ((prev + 1) / 64 * 64 + c) / 64 = (prev + 1) / 64 := by omega
      have hmod2 : ((prev + 1) / 64 * 64 + c) % 64 = c := by omega
      refine ⟨by omega, ?_, ?_, ?_⟩
      · simp only [MASK_WORDS, MAX_ENTITIES] at *; omega
      · intro _
        simp only [bitSet, hdiv, hmod2]
        exact ht1
      · intro e h1 h2
        have hd : e / 64 = (prev + 1) / 64 := by omega
        have hm1 : e % 64 < c := by omega
        have hm2 : (prev + 1) % 64 ≤ e % 64 := by omega
        have hm3 : e % 64 < 64 := Nat.mod_lt _ (by decide)
        have := hl _ hm1
        rw [hbit] at this
        simp only [bitSet, hd]
        intro hset
        rw [hset] at this
        simp [hm2, hm3] at this
    · have hw0 : m.data ((prev + 1) / 64) &&&
          (((2 ^ 64 - 1) <<< ((prev + 1) % 64)) % 2 ^ 64) = 0 := by simpa using hw
      rw [if_neg hw]
      obtain ⟨h1, h2, h3, h4⟩ := scanWords_spec hu (MASK_WORDS - ((prev + 1) / 64 + 1))
        ((prev + 1) / 64 + 1) (by omega)
      refine ⟨by omega, h2, h3, ?_⟩
      intro e he1 he2
      by_cases hlt : e < ((prev + 1) / 64 + 1) * 64
      · have hd : e / 64 = (prev + 1) / 64 := by omega
        have hm2 : (prev + 1) % 64 ≤ e % 64 := by omega
        have hm3 : e % 64 < 64 := Nat.mod_lt _ (by decide)
        have := hbit (e % 64)
        rw [hw0, Nat.zero_testBit] at this
        simp only [bitSet, hd]
        intro hset
        rw [hset] at this
        simp [hm2, hm3] at this
      · exact h4 e (by omega) he2

end ComponentMaskAVX

end HBL2

namespace HBL2

namespace ComponentMaskAVX

theorem test_eq_some_true_iff (m : ComponentMaskAVX) (e : Nat) :
    m.test e = some true ↔ e < MAX_ENTITIES ∧ m.bitSet e := by
  by_cases he : e < MAX_ENTITIES
  · have hw : e / 64 < MASK_WORDS := by
      simp only [MASK_WORDS, MAX_ENTITIES] at *; omega
    simp only [test, word_shift_eq, hw, if_true, Option.some.injEq, and_bit_ne_zero, bitSet, he,
      true_and]
  · have hw := word_out_of_bounds he
    simp [test, hw, he]

/-- The iteration from a position that is `MAX_ENTITIES` or a set bit yields the
set bits from there on, in ascending order. -/
theorem iterFrom_spec {m : ComponentMaskAVX} (hu : WordsU64 m) :
    ∀ (fuel cur : Nat), cur ≤ MAX_ENTITIES → (cur < MAX_ENTITIES → m.bitSet cur) →
      MAX_ENTITIES - cur < fuel →
      ∃ l, iterFrom m fuel cur = some l ∧ l.Pairwise (· < ·) ∧ (∀ e ∈ l, cur ≤ e) ∧
        ∀ e, e ∈ l ↔ (cur ≤ e ∧ e < MAX_ENTITIES ∧ m.bitSet e) := by
  intro fuel
  induction fuel with
  | zero => intro cur _ _ h; omega
  | succ fuel ih =>
    intro cur hle hset hfuel
    by_cases hend : cur = MAX_ENTITIES
    · refine ⟨[], by simp [iterFrom, hend], List.Pairwise.nil, by simp, ?_⟩
      intro e
      simp only [List.not_mem_nil, false_iff, not_and]
      intro h1 h2
      omega
    · have hlt : cur < MAX_ENTITIES := by omega
      obtain ⟨hn1, hn2, hn3, hn4⟩ := find_next_spec hu hlt
      obtain ⟨l, hl, hpw, hge, hmem⟩ := ih (find_next m cur) hn2 hn3 (by omega)
      refine ⟨cur :: l, by simp [iterFrom, hend, hl], ?_, ?_, ?_⟩
      · rw [List.pairwise_cons]
        exact ⟨fun e he => by have := hge e he; omega, hpw⟩
      · intro e he
        rcases List.mem_cons.mp he with h | h
        · omega
        · have := hge e h; omega
      · intro e
        rw [List.mem_cons, hmem]
        constructor
        · rintro (h | ⟨h1, h2, h3⟩)
          · subst h; exact ⟨Nat.le_refl _, hlt, hset hlt⟩
          · exact ⟨by omega, h2, h3⟩
        · rintro ⟨h1, h2, h3⟩
          by_cases hec : e = cur
          · exact Or.inl hec
          · right
            refine ⟨?_, h2, h3⟩
            by_contra hc
            exact hn4 e (by omega) (by omega) h3

/-- The range-for over a mask completes and yields, in strictly ascending order,
exactly the entities whose bit is set. -/
theorem entities_spec {m : ComponentMaskAVX} (hu : WordsU64 m) :
    ∃ l, m.entities = some l ∧ l.Pairwise (· < ·) ∧ ∀ e, e ∈ l ↔ m.test e = some true := by
  obtain ⟨h1, h2, h3, h4⟩ := find_first_spec hu
  obtain ⟨l, hl, hpw, _, hmem⟩ := iterFrom_spec hu (MAX_ENTITIES + 1) (find_first m) h2 h3
    (Nat.lt_succ_of_le (Nat.sub_le _ _))
  refine ⟨l, hl, hpw, ?_⟩
  intro e
  rw [hmem, test_eq_some_true_iff]
  constructor
  · rintro ⟨_, h5, h6⟩; exact ⟨h5, h6⟩
  · rintro ⟨h5, h6⟩
    refine ⟨?_, h5, h6⟩
    by_contra hc
    exact h4 e (Nat.zero_le _) (by omega) h6

theorem find_first_eq_max_of_empty {m : ComponentMaskAVX} (hu : WordsU64 m)
    (hempty : ∀ e, m.test e ≠ some true) : find_first m = MAX_ENTITIES := by
  obtain ⟨_, h2, h3, _⟩ := find_first_spec hu
  by_contra hc
  have hlt : find_first m < MAX_ENTITIES := by omega
  exact hempty _ ((test_eq_some_true_iff m _).mpr ⟨hlt, h3 hlt⟩)

theorem wordsU64_clear : WordsU64 clear := by
  intro i; simp [clear]

theorem wordsU64_set {m m1 : ComponentMaskAVX} {e : Nat} (hu : WordsU64 m)
    (h : m.set e = some m1) : WordsU64 m1 := by
  unfold set at h
  by_cases hb : e >>> 6 < MASK_WORDS
  · simp only [hb, if_true, Option.some.injEq] at h
    subst h
    intro i
    by_cases hi : i = e >>> 6
    · simp only [hi, if_true]
      apply Nat.or_lt_two_pow (hu _)
      rw [bit_eq]
      exact Nat.pow_lt_pow_right (by decide) (Nat.mod_lt _ (by decide))
    · simp only [hi, if_false]; exact hu i
  · simp [hb] at h

theorem wordsU64_reset {m m1 : ComponentMaskAVX} {e : Nat} (hu : WordsU64 m)
    (h : m.reset e = some m1) : WordsU64 m1 := by
  unfold reset at h
  by_cases hb : e >>> 6 < MASK_WORDS
  · simp only [hb, if_true, Option.some.injEq] at h
    subst h
    intro i
    by_cases hi : i = e >>> 6
    · simp only [hi, if_true]
      exact Nat.lt_of_le_of_lt Nat.and_le_left (hu _)
    · simp only [hi, if_false]; exact hu i
  · simp [hb] at h

theorem wordsU64_and_with {m o : ComponentMaskAVX} (hu : WordsU64 m) :
    WordsU64 (m.and_with o) := by
  intro i
  simp only [and_with]
  split
  · exact Nat.lt_of_le_of_lt Nat.and_le_left (hu _)
  · exact hu i

theorem wordsU64_and_not_with {m o : ComponentMaskAVX} (hu : WordsU64 m) :
    WordsU64 (m.and_not_with o) := by
  intro i
  simp only [and_not_with]
  split
  · exact Nat.lt_of_le_of_lt Nat.and_le_right (hu _)
  · exact hu i

theorem test_and_with (m o : ComponentMaskAVX) (e : Nat) :
    (m.and_with o).test e = some true ↔ m.test e = some true ∧ o.test e = some true := by
  simp only [test_eq_some_true_iff]
  by_cases he : e < MAX_ENTITIES
  · have hw : e / 64 < MASK_WORDS := by simp only [MASK_WORDS, MAX_ENTITIES] at *; omega
    simp only [bitSet, and_with, hw, if_true, Nat.testBit_and, Bool.and_eq_true, he, true_and]
  · simp [he]

theorem test_and_not_with {m o : ComponentMaskAVX} (e : Nat) :
    (m.and_not_with o).test e = some true ↔ m.test e = some true ∧ o.test e ≠ some true := by
  have h1 := test_eq_some_true_iff (m.and_not_with o) e
  have h2 := test_eq_some_true_iff m e
  have h3 := test_eq_some_true_iff o e
  rw [h1, h2, Ne, h3]
  by_cases he : e < MAX_ENTITIES
  · have hw : e / 64 < MASK_WORDS := by simp only [MASK_WORDS, MAX_ENTITIES] at *; omega
    have h64 : e % 64 < 64 := Nat.mod_lt _ (by decide)
    simp only [bitSet, and_not_with, hw, if_true, Nat.testBit_and, Nat.testBit_xor,
      Nat.testBit_two_pow_sub_one, he, true_and, h64, decide_True, Bool.true_xor]
    cases (m.data (e / 64)).testBit (e % 64) <;> cases (o.data (e / 64)).testBit (e % 64) <;>
      simp
  · simp [he]

end ComponentMaskAVX

end HBL2

namespace HBL2

/-! ## The three-level bitmap: iteration -/

theorem clear_lowest_bit : ∀ (n w : Nat), w ≠ 0 → w < 2 ^ n → ∀ i,
    (w &&& (w - 1)).testBit i = (w.testBit i && decide (i ≠ ctzAux n w)) := by
  intro n
  induction n with
  | zero => intro w h0 hlt; simp at hlt; exact absurd hlt h0
  | succ n ih =>
    intro w h0 hlt i
    rw [Nat.testBit_and]
    by_cases hodd : w % 2 = 1
    · simp only [ctzAux, hodd, if_true]
      cases i with
      | zero =>
        have : (w - 1).testBit 0 = false := by
          rw [Nat.testBit_zero]; simp; omega
        simp [this]
      | succ j =>
        have : (w - 1) / 2 = w / 2 := by omega
        rw [Nat.testBit_succ, Nat.testBit_succ, this]
        simp
    · simp only [ctzAux, hodd, if_false]
      have h2 : w / 2 ≠ 0 := by omega
      have h3 : w / 2 < 2 ^ n := by
        rw [Nat.pow_succ] at hlt
        omega
      cases i with
      | zero =>
        have : w.testBit 0 = false := by
          rw [Nat.testBit_zero]; simpa using hodd
        simp [this]
      | succ j =>
        have h4 : (w - 1) / 2 = w / 2 - 1 := by omega
        rw [Nat.testBit_succ, Nat.testBit_succ, h4, ← Nat.testBit_and, ih (w / 2) h2 h3 j]
        have : (j + 1 ≠ 1 + ctzAux n (w / 2)) ↔ (j ≠ ctzAux n (w / 2)) := by omega
        simp only [this]

namespace SparseFlatBitmap3L

theorem max_entity_eq : max_entity = 262144 := by
  simp [max_entity, L0_BLOCKS, L1_GROUPS, L2_BITS]

theorem test_iff (m : SparseFlatBitmap3L) (e : Nat) : m.test e = true ↔ m.bitSet e := by
  have hb : e >>> 12 = e / 4096 := by simp [Nat.shiftRight_eq_div_pow]
  have hg : (e >>> 6) &&& 0x3F = e / 64 % 64 := by
    rw [word_shift_eq]; exact word_mask_eq _
  have hi : e &&& 0x3F = e % 64 := word_mask_eq e
  have h64 : e % 64 < 64 := Nat.mod_lt _ (by decide)
  have hg64 : e / 64 % 64 < 64 := Nat.mod_lt _ (by decide)
  have hbit := ComponentMaskAVX.and_bit_ne_zero (m.l2 (e / 4096) (e / 64 % 64)) e
  simp only [ComponentMaskAVX.bit, hi] at hbit
  simp only [test, split, hb, hg, hi, L0_BLOCKS, L1_GROUPS, L2_BITS, bitSet, max_entity_eq]
  by_cases he : e < 262144
  · have h1 : ¬ (e / 4096 ≥ 64 ∨ e / 64 % 64 ≥ 64 ∨ e % 64 ≥ 64) := by omega
    simp only [h1, if_false, hbit, he, true_and]
  · have h1 : (e / 4096 ≥ 64 ∨ e / 64 % 64 ≥ 64 ∨ e % 64 ≥ 64) := by omega
    simp [h1, he]

theorem entity_or {b g i : Nat} (hb : b < 64) (hg : g < 64) (hi : i < 64) :
    ((b <<< 12) ||| (g <<< 6) ||| i) % 2 ^ 32 = (b * 64 + g) * 64 + i := by
  have h1 : g <<< 6 = 2 ^ 6 * g := by rw [Nat.shiftLeft_eq, Nat.mul_comm]
  have h2 : b <<< 12 = 2 ^ 12 * b := by rw [Nat.shiftLeft_eq, Nat.mul_comm]
  have h3 : 2 ^ 6 * g < 2 ^ 12 := by omega
  have h4 : 2 ^ 12 * b ||| 2 ^ 6 * g = 2 ^ 12 * b + 2 ^ 6 * g :=
    (Nat.mul_add_lt_is_or h3 b).symm
  have h5 : 2 ^ 12 * b + 2 ^ 6 * g = 2 ^ 6 * (64 * b + g) := by omega
  have h6 : 2 ^ 6 * (64 * b + g) ||| i = 2 ^ 6 * (64 * b + g) + i :=
    (Nat.mul_add_lt_is_or (by omega : i < 2 ^ 6) _).symm
  rw [h1, h2, h4, h5, h6]
  omega

theorem advance_succ (m : SparseFlatBitmap3L) (fuel : Nat) (it : Iterator) :
    advance_to_next m (fuel + 1) it =
      if it.bits ≠ 0 then
        some { it with
          current_entity := ((it.b <<< 12) ||| (it.g <<< 6) ||| ctz it.bits) % 2 ^ 32 }
      else
        if it.g + 1 ≥ L1_GROUPS then
          if it.b + 1 ≥ L0_BLOCKS then
            some { it with g := 0, b := it.b + 1, current_entity := max_entity }
          else advance_to_next m fuel { it with g := 0, b := it.b + 1, bits := m.l2 (it.b + 1) 0 }
        else advance_to_next m fuel { it with g := it.g + 1, bits := m.l2 it.b (it.g + 1) } :=
  rfl

/-- Moving from an exhausted group to the next one leaves the same entities to
yield. -/
theorem remaining_next (m : SparseFlatBitmap3L) {it it2 : Iterator} (h0 : it.bits = 0)
    (hK : it2.b * 64 + it2.g = it.b * 64 + it.g + 1) (hb : it2.b < 64) (hg : it2.g < 64)
    (hbits : it2.bits = m.l2 it2.b it2.g) (e : Nat) :
    Remaining m it2 e ↔ Remaining m it e := by
  simp only [Remaining, h0, Nat.zero_testBit, Bool.false_eq_true, and_false, false_or, hK, hbits]
  constructor
  · rintro (⟨h1, h2⟩ | ⟨h1, h2⟩)
    · refine ⟨by omega, ?_, ?_⟩
      · rw [max_entity_eq]; omega
      · have e1 : e / 4096 = it2.b := by omega
        have e2 : e / 64 % 64 = it2.g := by omega
        rw [e1, e2]; exact h2
    · exact ⟨by omega, h2⟩
  · rintro ⟨h1, h2⟩
    by_cases hk : e / 64 = it.b * 64 + it.g + 1
    · left
      refine ⟨hk, ?_⟩
      have e1 : e / 4096 = it2.b := by omega
      have e2 : e / 64 % 64 = it2.g := by omega
      have := h2.2
      rw [e1, e2] at this
      exact this
    · right; exact ⟨by omega, h2⟩

/-- The loop of `advance_to_next` ends, either past the last group with nothing
left to yield or on the lowest bit of what was left. -/
theorem advance_spec {m : SparseFlatBitmap3L} (hu : WordsU64 m) :
    ∀ (fuel : Nat) (it : Iterator), it.b < 64 → it.g < 64 → it.bits < 2 ^ 64 →
      4096 - (it.b * 64 + it.g) < fuel →
      ∃ it1, advance_to_next m fuel it = some it1 ∧
        ((it1.current_entity = max_entity ∧ ∀ e, ¬ Remaining m it e) ∨
          (Positioned it1 ∧ ∀ e, Remaining m it1 e ↔ Remaining m it e)) := by
  intro fuel
  induction fuel with
  | zero => intro it _ _ _ h; omega
  | succ fuel ih =>
    intro it hb hg hbits hfuel
    rw [advance_succ]
    by_cases h0 : it.bits ≠ 0
    · rw [if_pos h0]
      refine ⟨_, rfl, Or.inr ⟨⟨hb, hg, hbits, h0, ?_⟩, fun e => Iff.rfl⟩⟩
      exact entity_or hb hg (ctz_spec h0 hbits).1
    · rw [if_neg h0]
      have h0' : it.bits = 0 := by simpa using h0
      simp only [L1_GROUPS, L0_BLOCKS]
      by_cases hg1 : it.g + 1 ≥ 64
      · rw [if_pos hg1]
        by_cases hb1 : it.b + 1 ≥ 64
        · rw [if_pos hb1]
          refine ⟨_, rfl, Or.inl ⟨rfl, ?_⟩⟩
          intro e
          simp only [Remaining, h0', Nat.zero_testBit, Bool.false_eq_true, and_false, false_or,
            bitSet, max_entity_eq, not_and]
          intro h1 h2
          omega
        · rw [if_neg hb1]
          obtain ⟨it1, h1, h2⟩ := ih { it with g := 0, b := it.b + 1, bits := m.l2 (it.b + 1) 0 }
            (by simp; omega) (by simp) (hu _ _) (by simp; omega)
          have hrem := @remaining_next m it
            { it with g := 0, b := it.b + 1, bits := m.l2 (it.b + 1) 0 } h0'
            (by simp; omega) (by simp; omega) (by simp) rfl
          refine ⟨it1, h1, ?_⟩
          rcases h2 with ⟨h2a, h2b⟩ | ⟨h2a, h2b⟩
          · exact Or.inl ⟨h2a, fun e he => h2b e ((hrem e).mpr he)⟩
          · exact Or.inr ⟨h2a, fun e => (h2b e).trans (hrem e)⟩
      · rw [if_neg hg1]
        obtain ⟨it1, h1, h2⟩ := ih { it with g := it.g + 1, bits := m.l2 it.b (it.g + 1) }
          hb (by simp; omega) (hu _ _) (by simp; omega)
        have hrem := @remaining_next m it
          { it with g := it.g + 1, bits := m.l2 it.b (it.g + 1) } h0'
          (by simp; omega) hb (by simp; omega) rfl
        refine ⟨it1, h1, ?_⟩
        rcases h2 with ⟨h2a, h2b⟩ | ⟨h2a, h2b⟩
        · exact Or.inl ⟨h2a, fun e he => h2b e ((hrem e).mpr he)⟩
        · exact Or.inr ⟨h2a, fun e => (h2b e).trans (hrem e)⟩

end SparseFlatBitmap3L

end HBL2

namespace HBL2

namespace SparseFlatBitmap3L

theorem positioned_lt {it : Iterator} (h : Positioned it) : it.current_entity < max_entity := by
  obtain ⟨hb, hg, hbits, h0, hcur⟩ := h
  have := (ctz_spec h0 hbits).1
  rw [hcur, max_entity_eq]
  omega

/-- A positioned iterator stands on the least entity it has still to yield. -/
theorem positioned_least (m : SparseFlatBitmap3L) {it : Iterator} (h : Positioned it) :
    Remaining m it it.current_entity ∧ ∀ e, Remaining m it e → it.current_entity ≤ e := by
  obtain ⟨hb, hg, hbits, h0, hcur⟩ := h
  obtain ⟨hc, ht, hl⟩ := ctz_spec h0 hbits
  constructor
  · left
    rw [hcur]
    have e1 : ((it.b * 64 + it.g) * 64 + ctz it.bits) / 64 = it.b * 64 + it.g := by omega
    have e2 : ((it.b * 64 + it.g) * 64 + ctz it.bits) % 64 = ctz it.bits := by omega
    rw [e1, e2]
    exact ⟨rfl, ht⟩
  · intro e he
    rw [hcur]
    rcases he with ⟨h1, h2⟩ | ⟨h1, _⟩
    · have : ¬ e % 64 < ctz it.bits := by
        intro hlt
        rw [hl _ hlt] at h2
        exact Bool.noConfusion h2
      omega
    · omega

/-- The operator `++` on a positioned iterator drops exactly the entity it
stands on. -/
theorem incr_spec {m : SparseFlatBitmap3L} (hu : WordsU64 m) {it : Iterator}
    (h : Positioned it) :
    ∃ it1, incr m it = some it1 ∧
      ((it1.current_entity = max_entity ∧
          ∀ e, Remaining m it e → e = it.current_entity) ∨
        (Positioned it1 ∧
          ∀ e, Remaining m it1 e ↔ (Remaining m it e ∧ e ≠ it.current_entity))) := by
  obtain ⟨hb, hg, hbits, h0, hcur⟩ := h
  obtain ⟨hc, ht, hl⟩ := ctz_spec h0 hbits
  have hdec : (it.bits + 2 ^ 64 - 1) % 2 ^ 64 = it.bits - 1 := by omega
  have hlow := clear_lowest_bit 64 it.bits h0 hbits
  have hlt2 : it.bits &&& (it.bits - 1) < 2 ^ 64 :=
    Nat.lt_of_le_of_lt Nat.and_le_left hbits
  obtain ⟨it1, h1, h2⟩ := advance_spec hu advanceFuel
    { it with bits := it.bits &&& (it.bits - 1) } hb hg hlt2
    (by simp only [advanceFuel, L0_BLOCKS, L1_GROUPS]; omega)
  have hrem : ∀ e, Remaining m { it with bits := it.bits &&& (it.bits - 1) } e ↔
      (Remaining m it e ∧ e ≠ it.current_entity) := by
    intro e
    simp only [Remaining, hlow, Bool.and_eq_true, decide_eq_true_eq]
    have hctz : ctz it.bits = ctzAux 64 it.bits := rfl
    rw [← hctz]
    constructor
    · rintro (⟨k1, k2, k3⟩ | ⟨k1, k2⟩)
      · exact ⟨Or.inl ⟨k1, k2⟩, by rw [hcur]; omega⟩
      · exact ⟨Or.inr ⟨k1, k2⟩, by rw [hcur]; omega⟩
    · rintro ⟨(⟨k1, k2⟩ | ⟨k1, k2⟩), k3⟩
      · exact Or.inl ⟨k1, k2, by rw [hcur] at k3; omega⟩
      · exact Or.inr ⟨k1, k2⟩
  refine ⟨it1, by simp only [incr, hdec]; exact h1, ?_⟩
  rcases h2 with ⟨h2a, h2b⟩ | ⟨h2a, h2b⟩
  · left
    refine ⟨h2a, ?_⟩
    intro e he
    by_contra hne
    exact h2b e ((hrem e).mpr ⟨he, hne⟩)
  · right
    exact ⟨h2a, fun e => (h2b e).trans (hrem e)⟩

theorem iterFrom_succ (m : SparseFlatBitmap3L) (fuel : Nat) (it : Iterator) :
    iterFrom m (fuel + 1) it =
      if neq it (endIt m) then
        (incr m it).bind (fun it1 =>
          (iterFrom m fuel it1).map (fun rest => it.current_entity :: rest))
      else some [] := rfl

/-- The loop from an iterator that is at the end or positioned yields what was
left, in ascending order. -/
theorem iterFrom_spec3L {m : SparseFlatBitmap3L} (hu : WordsU64 m) :
    ∀ (fuel : Nat) (it : Iterator) (S : Nat → Prop),
      ((it.current_entity = max_entity ∧ ∀ e, ¬ S e) ∨
        (Positioned it ∧ ∀ e, S e ↔ Remaining m it e)) →
      max_entity - it.current_entity < fuel →
      ∃ l, iterFrom m fuel it = some l ∧ l.Pairwise (· < ·) ∧
        (∀ e ∈ l, it.current_entity ≤ e) ∧ ∀ e, e ∈ l ↔ S e := by
  intro fuel
  induction fuel with
  | zero => intro it S _ h; omega
  | succ fuel ih =>
    intro it S hst hfuel
    rw [iterFrom_succ]
    rcases hst with ⟨hend, hS⟩ | ⟨hpos, hS⟩
    · have : neq it (endIt m) = false := by simp [neq, endIt, hend]
      rw [this]
      exact ⟨[], rfl, List.Pairwise.nil, by simp, fun e => by simpa using hS e⟩
    · have hlt := positioned_lt hpos
      have hneq : neq it (endIt m) = true := by
        simp only [neq, endIt, bne_iff_ne, ne_eq]
        omega
      rw [hneq]
      obtain ⟨hin, hleast⟩ := positioned_least m hpos
      obtain ⟨it1, hinc, hcase⟩ := incr_spec hu hpos
      have hst1 : (it1.current_entity = max_entity ∧
            ∀ e, ¬ (S e ∧ e ≠ it.current_entity)) ∨
          (Positioned it1 ∧ ∀ e, (S e ∧ e ≠ it.current_entity) ↔ Remaining m it1 e) := by
        rcases hcase with ⟨h1, h2⟩ | ⟨h1, h2⟩
        · left
          refine ⟨h1, ?_⟩
          rintro e ⟨hs, hne⟩
          exact hne (h2 e ((hS e).mp hs))
        · right
          refine ⟨h1, fun e => ?_⟩
          rw [h2 e, hS e]
      have hgt : it.current_entity < it1.current_entity := by
        rcases hcase with ⟨h1, _⟩ | ⟨h1, h2⟩
        · omega
        · obtain ⟨hin1, _⟩ := positioned_least m h1
          have := (h2 _).mp hin1
          have := hleast _ this.1
          omega
      obtain ⟨l, hl, hpw, hge, hmem⟩ := ih it1 (fun e => S e ∧ e ≠ it.current_entity) hst1
        (by omega)
      refine ⟨it.current_entity :: l, by simp [hinc, hl], ?_, ?_, ?_⟩
      · rw [List.pairwise_cons]
        exact ⟨fun e he => by have := hge e he; omega, hpw⟩
      · intro e he
        rcases List.mem_cons.mp he with h | h
        · omega
        · have := hge e h; omega
      · intro e
        rw [List.mem_cons, hmem]
        constructor
        · rintro (h | ⟨h, _⟩)
          · rw [h]; exact (hS _).mpr hin
          · exact h
        · intro h
          by_cases hec : e = it.current_entity
          · exact Or.inl hec
          · exact Or.inr ⟨h, hec⟩

theorem remaining_begin (m : SparseFlatBitmap3L) (e : Nat) :
    Remaining m { current_entity := 0, b := 0, g := 0, bits := m.l2 0 0 } e ↔ m.bitSet e := by
  simp only [Remaining, bitSet, max_entity_eq]
  constructor
  · rintro (⟨h1, h2⟩ | ⟨_, h2⟩)
    · have e1 : e / 4096 = 0 := by omega
      have e2 : e / 64 % 64 = 0 := by omega
      rw [e1, e2]
      exact ⟨by omega, h2⟩
    · exact h2
  · rintro ⟨h1, h2⟩
    by_cases hk : e / 64 = 0
    · left
      have e1 : e / 4096 = 0 := by omega
      have e2 : e / 64 % 64 = 0 := by omega
      rw [e1, e2] at h2
      exact ⟨by omega, h2⟩
    · right; exact ⟨by omega, h1, h2⟩

/-- The range-for over a three-level bitmap completes and yields, in strictly
ascending order, exactly the entities for which `test` is true. -/
theorem entities_spec3L {m : SparseFlatBitmap3L} (hu : WordsU64 m) :
    ∃ l, m.entities = some l ∧ l.Pairwise (· < ·) ∧ ∀ e, e ∈ l ↔ m.test e = true := by
  obtain ⟨it, hbegin, hcase⟩ := advance_spec hu advanceFuel
    { current_entity := 0, b := 0, g := 0, bits := m.l2 0 0 }
    (Nat.zero_lt_succ _) (Nat.zero_lt_succ _) (hu 0 0)
    (by simp only [advanceFuel, L0_BLOCKS, L1_GROUPS]; omega)
  have hst : (it.current_entity = max_entity ∧ ∀ e, ¬ m.test e = true) ∨
      (Positioned it ∧ ∀ e, m.test e = true ↔ Remaining m it e) := by
    rcases hcase with ⟨h1, h2⟩ | ⟨h1, h2⟩
    · left
      refine ⟨h1, fun e he => h2 e ?_⟩
      rw [remaining_begin]
      exact (test_iff m e).mp he
    · right
      refine ⟨h1, fun e => ?_⟩
      rw [h2 e, remaining_begin, test_iff]
  obtain ⟨l, hl, hpw, _, hmem⟩ := iterFrom_spec3L hu (max_entity + 1) it
    (fun e => m.test e = true) hst (Nat.lt_succ_of_le (Nat.sub_le _ _))
  refine ⟨l, ?_, hpw, hmem⟩
  have : m.beginIt = some it := hbegin
  simp [entities, this, hl]

/-- Over a bitmap with no bit set, `begin()` compares equal to `end()`. -/
theorem begin_eq_end_of_empty {m : SparseFlatBitmap3L} (hu : WordsU64 m)
    (hempty : ∀ e, m.test e = false) :
    ∃ it, m.beginIt = some it ∧ neq it (endIt m) = false := by
  obtain ⟨it, hbegin, hcase⟩ := advance_spec hu advanceFuel
    { current_entity := 0, b := 0, g := 0, bits := m.l2 0 0 }
    (Nat.zero_lt_succ _) (Nat.zero_lt_succ _) (hu 0 0)
    (by simp only [advanceFuel, L0_BLOCKS, L1_GROUPS]; omega)
  refine ⟨it, hbegin, ?_⟩
  rcases hcase with ⟨h1, _⟩ | ⟨h1, h2⟩
  · simp [neq, endIt, h1]
  · exfalso
    obtain ⟨hin, _⟩ := positioned_least m h1
    have := (h2 _).mp hin
    rw [remaining_begin, ← test_iff, hempty] at this
    exact Bool.noConfusion this

end SparseFlatBitmap3L

end HBL2

namespace HBL2

/-- C20: for every bitmap of either kind (its words being 64-bit values),
iterating from `begin()` to `end()` terminates and yields exactly the entities
for which `test` is true, each exactly once, in strictly ascending order; over a
bitmap with no bit set `begin()` equals `end()`. -/
theorem bitmap_iteration (m : ComponentMaskAVX) (b : SparseFlatBitmap3L)
    (hm : m.WordsU64) (hb : b.WordsU64) :
    (∃ l, m.entities = some l ∧ l.Pairwise (· < ·) ∧ l.Nodup ∧
      ∀ e, e ∈ l ↔ m.test e = some true) ∧
    ((∀ e, m.test e ≠ some true) → m.beginIt = m.endIt) ∧
    (∃ l, b.entities = some l ∧ l.Pairwise (· < ·) ∧ l.Nodup ∧
      ∀ e, e ∈ l ↔ b.test e = true) ∧
    ((∀ e, b.test e = false) →
      ∃ it, b.beginIt = some it ∧ SparseFlatBitmap3L.neq it b.endIt = false) := by
  obtain ⟨l1, h1, hp1, hm1⟩ := ComponentMaskAVX.entities_spec hm
  obtain ⟨l2, h2, hp2, hm2⟩ := SparseFlatBitmap3L.entities_spec3L hb
  refine ⟨⟨l1, h1, hp1, hp1.imp (fun h => Nat.ne_of_lt h), hm1⟩, ?_,
    ⟨l2, h2, hp2, hp2.imp (fun h => Nat.ne_of_lt h), hm2⟩, ?_⟩
  · intro hempty
    exact ComponentMaskAVX.find_first_eq_max_of_empty hm hempty
  · intro hempty
    exact SparseFlatBitmap3L.begin_eq_end_of_empty hb hempty

theorem bitmap_iteration_witness :
    (∃ l, (⟨fun i => if i = 1 then 5 else 0⟩ : ComponentMaskAVX).entities = some l ∧
      l.Pairwise (· < ·) ∧ l.Nodup ∧
      ∀ e, e ∈ l ↔ (⟨fun i => if i = 1 then 5 else 0⟩ : ComponentMaskAVX).test e = some true) ∧
    ((∀ e, (⟨fun i => if i = 1 then 5 else 0⟩ : ComponentMaskAVX).test e ≠ some true) →
      (⟨fun i => if i = 1 then 5 else 0⟩ : ComponentMaskAVX).beginIt =
        (⟨fun i => if i = 1 then 5 else 0⟩ : ComponentMaskAVX).endIt) ∧
    (∃ l, SparseFlatBitmap3L.clear.entities = some l ∧ l.Pairwise (· < ·) ∧ l.Nodup ∧
      ∀ e, e ∈ l ↔ SparseFlatBitmap3L.clear.test e = true) ∧
    ((∀ e, SparseFlatBitmap3L.clear.test e = false) →
      ∃ it, SparseFlatBitmap3L.clear.beginIt = some it ∧
        SparseFlatBitmap3L.neq it SparseFlatBitmap3L.clear.endIt = false) :=
  bitmap_iteration ⟨fun i => if i = 1 then 5 else 0⟩ SparseFlatBitmap3L.clear
    (by intro i; simp only; split <;> decide)
    (by intro b g; simp [SparseFlatBitmap3L.clear])

end HBL2

namespace HBL2

open SparseComponentStorage StorageOp

/-! ## Stores built by disciplined calls -/

namespace SparseComponentStorage

variable {T : Type}

theorem addComponent_mask [Inhabited T] {s s1 : SparseComponentStorage T} {e : Nat} {v : T}
    (h : AddComponent s e v = some s1) : s.mask.set e = some s1.mask := by
  simp only [AddComponent, Add, Option.bind_eq_bind, Option.bind_eq_some, Option.pure_def,
    Option.some.injEq, Prod.mk.injEq, Prod.exists] at h
  obtain ⟨s2, k, ⟨m1, hm1, iv, _, pages, _, hs2, _⟩, h2⟩ := h
  split at h2
  · simp only [Option.some.injEq] at h2
    rw [hm1, ← h2, ← hs2]
  · exact Option.noConfusion h2

theorem remove_mask {s s1 : SparseComponentStorage T} {e : Nat}
    (h : Remove s e = some s1) : s.mask.reset e = some s1.mask := by
  unfold Remove at h
  split at h
  · simp only [Option.bind_eq_bind, Option.bind_eq_some] at h
    obtain ⟨old, _, last, _, lastComp, _, h2⟩ := h
    split at h2
    · simp only [Option.bind_eq_bind, Option.bind_eq_some, Option.pure_def,
        Option.some.injEq] at h2
      obtain ⟨siv, _, p1, _, p2, _, m1, hm1, hs1⟩ := h2
      rw [hm1, ← hs1]
    · exact Option.noConfusion h2
  · exact Option.noConfusion h

theorem has_iff_test {s : SparseComponentStorage T} (hinv : StorageInv s) (e : Nat) :
    Has s e = true ↔ s.Mask.test e = some true := by
  by_cases he : e < MAX_ENTITIES
  · have := hinv.maskOk e he
    simp only [Mask]
    rw [this]
    simp
  · constructor
    · intro h
      obtain ⟨i, hi⟩ := List.mem_iff_getElem?.mp ((inv_has_iff_mem hinv e).mp h)
      exact absurd (hinv.range i e hi) he
    · intro h
      have hw : ¬ e >>> 6 < MASK_WORDS := word_out_of_bounds he
      simp [Mask, ComponentMaskAVX.test, hw] at h

theorem getComponent_isSome {s : SparseComponentStorage T} (hinv : StorageInv s) {e : Nat}
    (h : Has s e = true) : (GetComponent s e).isSome = true := by
  obtain ⟨iv, hr, hne⟩ := (Has_eq_true_iff s e).mp h
  have hidx := hinv.bwd e iv hr hne
  have hlt : UnpackIndex iv < s.packed.length := by
    rw [hinv.len]; exact (List.getElem?_eq_some_iff.mp hidx).1
  rw [GetComponent_eq h hr, List.getElem?_eq_getElem hlt]
  rfl

end SparseComponentStorage

namespace StorageOp

variable {T : Type}

theorem wordsU64_apply [Inhabited T] {s s1 : SparseComponentStorage T}
    (hu : s.mask.WordsU64) (op : StorageOp T) (h : apply s op = some s1) :
    s1.mask.WordsU64 := by
  cases op with
  | add f v => exact ComponentMaskAVX.wordsU64_set hu (addComponent_mask h)
  | remove f =>
    have hrem : RemoveComponent s f = some s1 := h
    cases hH : Has s f with
    | false =>
      simp only [RemoveComponent, hH, Bool.not_false, if_true, Option.some.injEq] at hrem
      rw [← hrem]; exact hu
    | true =>
      simp only [RemoveComponent, hH, Bool.not_true, Bool.false_eq_true, if_false] at hrem
      exact ComponentMaskAVX.wordsU64_reset hu (remove_mask hrem)

theorem run_storeOk [Inhabited T] (ops : List (StorageOp T)) :
    ∀ s : SparseComponentStorage T, StoreOk s → freshAdds s ops = true →
      ∃ s1, run s ops = some s1 ∧ StoreOk s1 := by
  induction ops with
  | nil => intro s h _; exact ⟨s, rfl, h⟩
  | cons op rest ih =>
    intro s h hf
    obtain ⟨s1, happ, hinv1, hf1⟩ := apply_inv h.1 op rest hf
    obtain ⟨s2, hrun, h2⟩ := ih s1 ⟨hinv1, wordsU64_apply h.2 op happ⟩ hf1
    exact ⟨s2, by simp [run, happ, hrun], h2⟩

end StorageOp

theorem storeOk_storeOf {T : Type} [Inhabited T] {ops : List (StorageOp T)}
    (h : freshAdds (SparseComponentStorage.empty : SparseComponentStorage T) ops = true) :
    StoreOk (storeOf ops) := by
  obtain ⟨s, hrun, hok⟩ := run_storeOk ops _ ⟨inv_empty, ComponentMaskAVX.wordsU64_clear⟩ h
  simp only [storeOf, hrun, Option.getD_some]
  exact hok

theorem storeOk_of_allFresh {T : Type} [Inhabited T] {opss : List (List (StorageOp T))}
    (h : allFresh opss = true) : ∀ s ∈ opss.map storeOf, StoreOk s := by
  intro s hs
  obtain ⟨ops, hops, rfl⟩ := List.mem_map.mp hs
  simp only [allFresh, List.all_eq_true] at h
  exact storeOk_storeOf (h ops hops)

end HBL2

namespace HBL2

open SparseComponentStorage

/-! ## The two paths of `Run` -/

namespace Query

variable {T : Type}

theorem invoke_eq_some {stores : List (SparseComponentStorage T)} {e : Nat}
    (hok : ∀ s ∈ stores, StoreOk s) (hHas : ∀ s ∈ stores, Has s e = true) :
    invoke stores e = some e := by
  have : stores.all (fun s => (s.GetComponent e).isSome) = true := by
    rw [List.all_eq_true]
    intro s hs
    exact getComponent_isSome (hok s hs).1 (hHas s hs)
  simp [invoke, this]

theorem mapM_invoke {stores : List (SparseComponentStorage T)} :
    ∀ (l : List Nat), (∀ e ∈ l, invoke stores e = some e) → l.mapM (invoke stores) = some l := by
  intro l
  induction l with
  | nil => intro _; rfl
  | cons a rest ih =>
    intro h
    rw [List.mapM_cons, h a (List.mem_cons_self _ _),
      ih (fun e he => h e (List.mem_cons_of_mem _ he))]
    rfl

theorem foldl_and_with_spec (rest : List (SparseComponentStorage T)) :
    ∀ (j : ComponentMaskAVX), j.WordsU64 →
      (rest.foldl (fun joint s => joint.and_with s.Mask) j).WordsU64 ∧
      ∀ e, (rest.foldl (fun joint s => joint.and_with s.Mask) j).test e = some true ↔
        (j.test e = some true ∧ ∀ s ∈ rest, s.Mask.test e = some true) := by
  induction rest with
  | nil => intro j hu; exact ⟨hu, fun e => by simp⟩
  | cons s rest ih =>
    intro j hu
    obtain ⟨h1, h2⟩ := ih (j.and_with s.Mask) (ComponentMaskAVX.wordsU64_and_with hu)
    refine ⟨h1, fun e => ?_⟩
    simp only [List.foldl_cons]
    rw [h2 e, ComponentMaskAVX.test_and_with]
    simp only [List.mem_cons, forall_eq_or_imp]
    exact and_assoc

theorem jointMask_spec {stores : List (SparseComponentStorage T)} (hne : stores ≠ [])
    (hok : ∀ s ∈ stores, StoreOk s) :
    ∃ j, jointMask stores = some j ∧ j.WordsU64 ∧
      ∀ e, j.test e = some true ↔ ∀ s ∈ stores, s.Mask.test e = some true := by
  cases stores with
  | nil => exact absurd rfl hne
  | cons s0 rest =>
    obtain ⟨h1, h2⟩ := foldl_and_with_spec rest s0.Mask (hok s0 (List.mem_cons_self _ _)).2
    refine ⟨_, rfl, h1, fun e => ?_⟩
    rw [h2 e]
    simp only [List.mem_cons, forall_eq_or_imp]

theorem subtractMasks_spec (excludes : List (SparseComponentStorage T)) :
    ∀ (j : ComponentMaskAVX), j.WordsU64 →
      (subtractMasks j excludes).WordsU64 ∧
      ∀ e, (subtractMasks j excludes).test e = some true ↔
        (j.test e = some true ∧ ∀ s ∈ excludes, s.Mask.test e ≠ some true) := by
  induction excludes with
  | nil => intro j hu; exact ⟨hu, fun e => by simp [subtractMasks]⟩
  | cons s rest ih =>
    intro j hu
    obtain ⟨h1, h2⟩ := ih (j.and_not_with s.Mask) (ComponentMaskAVX.wordsU64_and_not_with hu)
    refine ⟨h1, fun e => ?_⟩
    have : subtractMasks j (s :: rest) = subtractMasks (j.and_not_with s.Mask) rest := rfl
    rw [this, h2 e, ComponentMaskAVX.test_and_not_with]
    simp only [List.mem_cons, forall_eq_or_imp]
    exact and_assoc

/-- The dense loop over a joint mask whose set bits all have the component in
every include store. -/
theorem denseLoop_spec {stores : List (SparseComponentStorage T)} {joint : ComponentMaskAVX}
    (hok : ∀ s ∈ stores, StoreOk s) (hu : joint.WordsU64)
    (hinc : ∀ e, joint.test e = some true → ∀ s ∈ stores, s.Mask.test e = some true) :
    ∃ l, denseLoop stores joint = some l ∧ l.Pairwise (· < ·) ∧
      ∀ e, e ∈ l ↔ joint.test e = some true := by
  obtain ⟨l, hl, hpw, hmem⟩ := ComponentMaskAVX.entities_spec hu
  refine ⟨l, ?_, hpw, hmem⟩
  have hall : ∀ e ∈ l, invoke stores e = some e := by
    intro e he
    apply invoke_eq_some hok
    intro s hs
    exact (has_iff_test (hok s hs).1 e).mpr (hinc e ((hmem e).mp he) s hs)
  simp only [denseLoop, hl, Option.bind_eq_bind, Option.some_bind]
  exact mapM_invoke l hall

end Query

namespace ExcludeQuery

variable {T : Type}

/-- The matching test of the low-density branch. -/
theorem sparseLoop_spec {includes excludes : List (SparseComponentStorage T)}
    (hok : ∀ s ∈ includes, StoreOk s) :
    ∀ es : List Entity, sparseLoop includes excludes es =
      some (es.filter (fun e => includes.all (fun s => s.Has e) &&
        !excludes.any (fun s => s.Has e))) := by
  intro es
  induction es with
  | nil => rfl
  | cons e rest ih =>
    simp only [sparseLoop, ih, List.filter_cons]
    cases hI : includes.all (fun s => s.Has e) with
    | false => simp
    | true =>
      cases hE : excludes.any (fun s => s.Has e) with
      | true => simp
      | false =>
        have hinv : Query.invoke includes e = some e :=
          Query.invoke_eq_some hok (fun s hs => (List.all_eq_true.mp hI) s hs)
        simp [hinv]

end ExcludeQuery

namespace FilterQuery

variable {T : Type}

theorem sparseLoop_eq (stores : List (SparseComponentStorage T)) :
    ∀ es : List Entity, sparseLoop stores es = ExcludeQuery.sparseLoop stores [] es := by
  intro es
  induction es with
  | nil => rfl
  | cons e rest ih =>
    simp only [sparseLoop, ExcludeQuery.sparseLoop, ih, List.any_nil]
    rfl

theorem sparsePath_eq (stores : List (SparseComponentStorage T)) (N minIdx : Nat) :
    sparsePath ⟨stores, N⟩ minIdx = ExcludeQuery.sparsePath ⟨stores, [], N⟩ minIdx := by
  simp only [sparsePath, ExcludeQuery.sparsePath, sparseLoop_eq]

theorem densePath_eq (stores : List (SparseComponentStorage T)) (N : Nat) :
    densePath ⟨stores, N⟩ = ExcludeQuery.densePath ⟨stores, [], N⟩ := by
  simp only [densePath, ExcludeQuery.densePath, Query.subtractMasks, List.foldl_nil]

theorem Run_eq (stores : List (SparseComponentStorage T)) (N : Nat) :
    Run ⟨stores, N⟩ = ExcludeQuery.Run ⟨stores, [], N⟩ := by
  simp only [Run, ExcludeQuery.Run, sparsePath_eq, densePath_eq]

end FilterQuery

/-- Both branches of `ExcludeQuery::Run` over consistent stores: the entities
each visits and their order. -/
theorem exclude_paths {T : Type} {includes excludes : List (SparseComponentStorage T)}
    (N : Nat) (hne : includes ≠ []) (hI : ∀ s ∈ includes, StoreOk s)
    (hE : ∀ s ∈ excludes, StoreOk s) :
    ∃ minCount minIdx st vs vd,
      Query.findMin (includes.map (fun s => s.Indices.length)) = some (minCount, minIdx) ∧
      IsFirstMin (includes.map (fun s => s.Indices.length)) minCount minIdx ∧
      includes[minIdx]? = some st ∧
      ExcludeQuery.sparsePath ⟨includes, excludes, N⟩ minIdx = some vs ∧
      vs.Sublist st.Indices ∧ vs.Nodup ∧ (∀ e, e ∈ vs ↔ InMasks includes excludes e) ∧
      ExcludeQuery.densePath ⟨includes, excludes, N⟩ = some vd ∧
      vd.Pairwise (· < ·) ∧ (∀ e, e ∈ vd ↔ InMasks includes excludes e) ∧
      ExcludeQuery.Run ⟨includes, excludes, N⟩ =
        (if Query.useSparsePath N minCount then some vs else some vd) := by
  obtain ⟨mc, mi, hfm⟩ := Query.findMin_isSome
    (show includes.map (fun s => s.Indices.length) ≠ [] from by simpa using hne)
  have hfirst := Query.findMin_firstMin hfm
  have hmi : mi < includes.length := by
    have := (List.getElem?_eq_some_iff.mp hfirst.1).1
    simpa using this
  have hst : includes[mi]? = some includes[mi] := List.getElem?_eq_getElem hmi
  have hstmem : includes[mi] ∈ includes := List.getElem_mem hmi
  -- the sparse branch
  have hsp : ExcludeQuery.sparsePath ⟨includes, excludes, N⟩ mi =
      some (includes[mi].Indices.filter (fun e => includes.all (fun s => s.Has e) &&
        !excludes.any (fun s => s.Has e))) := by
    simp only [ExcludeQuery.sparsePath, hst, Option.bind_eq_bind, Option.some_bind]
    exact ExcludeQuery.sparseLoop_spec hI _
  have hmemS : ∀ e, e ∈ includes[mi].Indices.filter (fun e =>
      includes.all (fun s => s.Has e) && !excludes.any (fun s => s.Has e)) ↔
        InMasks includes excludes e := by
    intro e
    simp only [List.mem_filter, Bool.and_eq_true, List.all_eq_true, Bool.not_eq_true',
      List.any_eq_false, InMasks]
    constructor
    · rintro ⟨_, h1, h2⟩
      refine ⟨fun s hs => (has_iff_test (hI s hs).1 e).mp (h1 s hs), fun s hs hc => ?_⟩
      exact h2 s hs ((has_iff_test (hE s hs).1 e).mpr hc)
    · rintro ⟨h1, h2⟩
      have hall : ∀ s ∈ includes, s.Has e = true :=
        fun s hs => (has_iff_test (hI s hs).1 e).mpr (h1 s hs)
      refine ⟨?_, hall, fun s hs hc => h2 s hs ((has_iff_test (hE s hs).1 e).mp hc)⟩
      exact (inv_has_iff_mem (hI _ hstmem).1 e).mp (hall _ hstmem)
  -- the dense branch
  obtain ⟨j, hj, hju, hjt⟩ := Query.jointMask_spec hne hI
  obtain ⟨hsu, hst2⟩ := Query.subtractMasks_spec excludes j hju
  have hjoint : ∀ e, (Query.subtractMasks j excludes).test e = some true ↔
      InMasks includes excludes e := by
    intro e
    rw [hst2 e, hjt e]
    rfl
  obtain ⟨vd, hvd, hpw, hmemD⟩ := Query.denseLoop_spec
    hI (show (Query.subtractMasks j excludes).WordsU64 from hsu)
    (fun e he => ((hjoint e).mp he).1)
  have hdp : ExcludeQuery.densePath ⟨includes, excludes, N⟩ = some vd := by
    simp only [ExcludeQuery.densePath, hj, Option.bind_eq_bind, Option.some_bind]
    exact hvd
  refine ⟨mc, mi, includes[mi], _, vd, hfm, hfirst, hst, hsp, List.filter_sublist _,
    (inv_nodup (hI _ hstmem).1).filter _, hmemS, hdp, hpw,
    fun e => (hmemD e).trans (hjoint e), ?_⟩
  simp only [ExcludeQuery.Run, hfm, Option.bind_eq_bind, Option.some_bind, hsp, hdp]

end HBL2

namespace HBL2

open SparseComponentStorage

namespace Query

variable {T : Type}

theorem invoke_some {stores : List (SparseComponentStorage T)} {e v : Nat}
    (h : invoke stores e = some v) : v = e := by
  unfold invoke at h
  split at h
  · exact (Option.some.inj h).symm
  · exact Option.noConfusion h

theorem mapM_invoke_some {stores : List (SparseComponentStorage T)} :
    ∀ (l vd : List Nat), l.mapM (invoke stores) = some vd → vd = l := by
  intro l
  induction l with
  | nil =>
    intro vd h
    rw [List.mapM_nil] at h
    exact (Option.some.inj h).symm
  | cons a rest ih =>
    intro vd h
    rw [List.mapM_cons] at h
    cases ha : invoke stores a with
    | none => rw [ha] at h; exact Option.noConfusion h
    | some v =>
      cases hr : rest.mapM (invoke stores) with
      | none => rw [ha, hr] at h; exact Option.noConfusion h
      | some vs =>
        rw [ha, hr] at h
        have h2 : some (v :: vs) = some vd := h
        rw [← Option.some.inj h2, invoke_some ha, ih vs hr]

theorem jointMask_wordsU64 {stores : List (SparseComponentStorage T)} {j : ComponentMaskAVX}
    (hu : ∀ s ∈ stores, s.mask.WordsU64) (h : jointMask stores = some j) : j.WordsU64 := by
  cases stores with
  | nil => exact Option.noConfusion h
  | cons s0 rest =>
    simp only [jointMask, Option.some.injEq] at h
    rw [← h]
    exact (foldl_and_with_spec rest s0.Mask (hu s0 (List.mem_cons_self _ _))).1

theorem denseLoop_sorted {stores : List (SparseComponentStorage T)} {joint : ComponentMaskAVX}
    (hu : joint.WordsU64) {vd : List Nat} (h : denseLoop stores joint = some vd) :
    vd.Pairwise (· < ·) := by
  obtain ⟨l, hl, hpw, _⟩ := ComponentMaskAVX.entities_spec hu
  simp only [denseLoop, hl, Option.bind_eq_bind, Option.some_bind] at h
  rw [mapM_invoke_some l vd h]
  exact hpw

end Query

namespace ExcludeQuery

variable {T : Type}

theorem sparseLoop_eq_filter {includes excludes : List (SparseComponentStorage T)} :
    ∀ (es vs : List Entity), sparseLoop includes excludes es = some vs →
      vs = es.filter (fun e => includes.all (fun s => s.Has e) &&
        !excludes.any (fun s => s.Has e)) := by
  intro es
  induction es with
  | nil =>
    intro vs h
    simp only [sparseLoop, Option.some.injEq] at h
    rw [← h]; rfl
  | cons e rest ih =>
    intro vs h
    simp only [sparseLoop] at h
    rw [List.filter_cons]
    cases hI : includes.all (fun s => s.Has e) with
    | false =>
      rw [hI] at h
      simp only [Bool.false_eq_true, if_false] at h
      simpa using ih vs h
    | true =>
      rw [hI] at h
      simp only [if_true] at h
      cases hE : excludes.any (fun s => s.Has e) with
      | true =>
        rw [hE] at h
        simp only [if_true] at h
        simpa using ih vs h
      | false =>
        rw [hE] at h
        simp only [Bool.false_eq_true, if_false, Option.bind_eq_bind, Option.bind_eq_some,
          Option.pure_def, Option.some.injEq] at h
        obtain ⟨v, hv, vs1, hvs1, rfl⟩ := h
        rw [Query.invoke_some hv, ih vs1 hvs1]
        simp

end ExcludeQuery

/-- The order of the visits on each branch of `ExcludeQuery::Run`, for stores
whose mask words are 64-bit values. -/
theorem exclude_order {T : Type} {includes excludes : List (SparseComponentStorage T)}
    (N : Nat) (hne : includes ≠ []) (hu : ∀ s ∈ includes, s.mask.WordsU64) :
    ∃ minCount minIdx st,
      IsFirstMin (includes.map (fun s => s.Indices.length)) minCount minIdx ∧
      includes[minIdx]? = some st ∧
      ExcludeQuery.Run ⟨includes, excludes, N⟩ =
        (if Query.useSparsePath N minCount
          then ExcludeQuery.sparsePath ⟨includes, excludes, N⟩ minIdx
          else ExcludeQuery.densePath ⟨includes, excludes, N⟩) ∧
      (∀ vs, ExcludeQuery.sparsePath ⟨includes, excludes, N⟩ minIdx = some vs →
        vs = st.Indices.filter (fun e => includes.all (fun s => s.Has e) &&
          !excludes.any (fun s => s.Has e)) ∧ vs.Sublist st.Indices) ∧
      (∀ vd, ExcludeQuery.densePath ⟨includes, excludes, N⟩ = some vd →
        vd.Pairwise (· < ·)) := by
  obtain ⟨mc, mi, hfm⟩ := Query.findMin_isSome
    (show includes.map (fun s => s.Indices.length) ≠ [] from by simpa using hne)
  have hfirst := Query.findMin_firstMin hfm
  have hmi : mi < includes.length := by
    have := (List.getElem?_eq_some_iff.mp hfirst.1).1
    simpa using this
  have hst : includes[mi]? = some includes[mi] := List.getElem?_eq_getElem hmi
  refine ⟨mc, mi, includes[mi], hfirst, hst, ?_, ?_, ?_⟩
  · simp only [ExcludeQuery.Run, hfm, Option.bind_eq_bind, Option.some_bind]
  · intro vs hvs
    simp only [ExcludeQuery.sparsePath, hst, Option.bind_eq_bind, Option.some_bind] at hvs
    have := ExcludeQuery.sparseLoop_eq_filter _ vs hvs
    exact ⟨this, by rw [this]; exact List.filter_sublist _⟩
  · intro vd hvd
    simp only [ExcludeQuery.densePath, Option.bind_eq_bind, Option.bind_eq_some] at hvd
    obtain ⟨j, hj, hd⟩ := hvd
    have hju := Query.jointMask_wordsU64 hu hj
    have hsu : (Query.subtractMasks j excludes).WordsU64 := by
      have : ∀ (ex : List (SparseComponentStorage T)) (j : ComponentMaskAVX), j.WordsU64 →
          (Query.subtractMasks j ex).WordsU64 := by
        intro ex
        induction ex with
        | nil => intro j h; exact h
        | cons s rest ih =>
          intro j h
          exact ih (j.and_not_with s.Mask) (ComponentMaskAVX.wordsU64_and_not_with h)
      exact this excludes j hju
    exact Query.denseLoop_sorted hsu hd

end HBL2

namespace HBL2

open SparseComponentStorage

set_option maxRecDepth 8000

/-- C15, against the claim: the include store is built by add 1, add 0, add 0,
remove 0, remove 1 (public calls, each remove made where `Has` holds). With two
live entities `Run()` takes the sparse path and invokes the function on entity 0,
whose bit is clear in the include mask. -/
theorem run_visits_entity_outside_masks :
    FilterQuery.Run (⟨[storeOf [.add 1 5, .add 0 7, .add 0 9, .remove 0, .remove 1]], 2⟩ :
        FilterQuery Nat) = some [0] ∧
    (storeOf [.add 1 5, .add 0 7, .add 0 9, .remove 0, .remove 1] :
      SparseComponentStorage Nat).Mask.test 0 = some false := by
  decide

/-- C15, as the code behaves: for include stores I (at least one) and exclude
stores E, each built from the empty store by calls that add only to entities
lacking the component, both branches of `Run()` complete and each invokes the
function on exactly the entities in (intersection of the include masks) minus
(union of the exclude masks), for `ExcludeQuery` and, with no exclude stores, for
`FilterQuery`; `Run()` returns what the branch it selects returns. -/
theorem run_visits_mask_set {T : Type} [Inhabited T] (inc0 : List (StorageOp T))
    (incs excs : List (List (StorageOp T))) (N : Nat)
    (hfresh : allFresh ((inc0 :: incs) ++ excs) = true) :
    (∃ minCount minIdx vs vd,
      Query.findMin (((inc0 :: incs).map storeOf).map (fun s => s.Indices.length)) =
        some (minCount, minIdx) ∧
      ExcludeQuery.sparsePath ⟨(inc0 :: incs).map storeOf, excs.map storeOf, N⟩ minIdx =
        some vs ∧
      ExcludeQuery.densePath ⟨(inc0 :: incs).map storeOf, excs.map storeOf, N⟩ = some vd ∧
      ExcludeQuery.Run ⟨(inc0 :: incs).map storeOf, excs.map storeOf, N⟩ =
        (if Query.useSparsePath N minCount then some vs else some vd) ∧
      (∀ e, e ∈ vs ↔ InMasks ((inc0 :: incs).map storeOf) (excs.map storeOf) e) ∧
      (∀ e, e ∈ vd ↔ InMasks ((inc0 :: incs).map storeOf) (excs.map storeOf) e)) ∧
    (∃ minCount minIdx vs vd,
      Query.findMin (((inc0 :: incs).map storeOf).map (fun s => s.Indices.length)) =
        some (minCount, minIdx) ∧
      FilterQuery.sparsePath ⟨(inc0 :: incs).map storeOf, N⟩ minIdx = some vs ∧
      FilterQuery.densePath ⟨(inc0 :: incs).map storeOf, N⟩ = some vd ∧
      FilterQuery.Run ⟨(inc0 :: incs).map storeOf, N⟩ =
        (if Query.useSparsePath N minCount then some vs else some vd) ∧
      (∀ e, e ∈ vs ↔ InMasks ((inc0 :: incs).map storeOf) [] e) ∧
      (∀ e, e ∈ vd ↔ InMasks ((inc0 :: incs).map storeOf) [] e)) := by
  have hall := storeOk_of_allFresh hfresh
  have hI : ∀ s ∈ (inc0 :: incs).map storeOf, StoreOk s := by
    intro s hs
    apply hall s
    rw [List.map_append]
    exact List.mem_append_left _ hs
  have hE : ∀ s ∈ excs.map storeOf, StoreOk s := by
    intro s hs
    apply hall s
    rw [List.map_append]
    exact List.mem_append_right _ hs
  have hne : (inc0 :: incs).map storeOf ≠ [] := by simp
  constructor
  · obtain ⟨mc, mi, _, vs, vd, hfm, _, _, hsp, _, _, hmS, hdp, _, hmD, hrun⟩ :=
      exclude_paths N hne hI hE
    exact ⟨mc, mi, vs, vd, hfm, hsp, hdp, hrun, hmS, hmD⟩
  · obtain ⟨mc, mi, _, vs, vd, hfm, _, _, hsp, _, _, hmS, hdp, _, hmD, hrun⟩ :=
      @exclude_paths T _ [] N hne hI (by simp)
    refine ⟨mc, mi, vs, vd, hfm, ?_, ?_, ?_, hmS, hmD⟩
    · rw [FilterQuery.sparsePath_eq]; exact hsp
    · rw [FilterQuery.densePath_eq]; exact hdp
    · rw [FilterQuery.Run_eq]; exact hrun

theorem run_visits_mask_set_witness :
    (∃ minCount minIdx vs vd,
      Query.findMin ((([.add 0 1, .add 1 2, .add 3 4] ::
          [[.add 0 5, .add 2 6, .add 3 7]]).map (storeOf (T := Nat))).map
            (fun s => s.Indices.length)) = some (minCount, minIdx) ∧
      ExcludeQuery.sparsePath ⟨([.add 0 1, .add 1 2, .add 3 4] ::
          [[.add 0 5, .add 2 6, .add 3 7]]).map (storeOf (T := Nat)),
          [[.add 3 9]].map storeOf, 4⟩ minIdx = some vs ∧
      ExcludeQuery.densePath ⟨([.add 0 1, .add 1 2, .add 3 4] ::
          [[.add 0 5, .add 2 6, .add 3 7]]).map (storeOf (T := Nat)),
          [[.add 3 9]].map storeOf, 4⟩ = some vd ∧
      ExcludeQuery.Run ⟨([.add 0 1, .add 1 2, .add 3 4] ::
          [[.add 0 5, .add 2 6, .add 3 7]]).map (storeOf (T := Nat)),
          [[.add 3 9]].map storeOf, 4⟩ =
        (if Query.useSparsePath 4 minCount then some vs else some vd) ∧
      (∀ e, e ∈ vs ↔ InMasks (([.add 0 1, .add 1 2, .add 3 4] ::
          [[.add 0 5, .add 2 6, .add 3 7]]).map (storeOf (T := Nat)))
          ([[.add 3 9]].map storeOf) e) ∧
      (∀ e, e ∈ vd ↔ InMasks (([.add 0 1, .add 1 2, .add 3 4] ::
          [[.add 0 5, .add 2 6, .add 3 7]]).map (storeOf (T := Nat)))
          ([[.add 3 9]].map storeOf) e)) ∧
    (∃ minCount minIdx vs vd,
      Query.findMin ((([.add 0 1, .add 1 2, .add 3 4] ::
          [[.add 0 5, .add 2 6, .add 3 7]]).map (storeOf (T := Nat))).map
            (fun s => s.Indices.length)) = some (minCount, minIdx) ∧
      FilterQuery.sparsePath ⟨([.add 0 1, .add 1 2, .add 3 4] ::
          [[.add 0 5, .add 2 6, .add 3 7]]).map (storeOf (T := Nat)), 4⟩ minIdx = some vs ∧
      FilterQuery.densePath ⟨([.add 0 1, .add 1 2, .add 3 4] ::
          [[.add 0 5, .add 2 6, .add 3 7]]).map (storeOf (T := Nat)), 4⟩ = some vd ∧
      FilterQuery.Run ⟨([.add 0 1, .add 1 2, .add 3 4] ::
          [[.add 0 5, .add 2 6, .add 3 7]]).map (storeOf (T := Nat)), 4⟩ =
        (if Query.useSparsePath 4 minCount then some vs else some vd) ∧
      (∀ e, e ∈ vs ↔ InMasks (([.add 0 1, .add 1 2, .add 3 4] ::
          [[.add 0 5, .add 2 6, .add 3 7]]).map (storeOf (T := Nat))) [] e) ∧
      (∀ e, e ∈ vd ↔ InMasks (([.add 0 1, .add 1 2, .add 3 4] ::
          [[.add 0 5, .add 2 6, .add 3 7]]).map (storeOf (T := Nat))) [] e)) :=
  run_visits_mask_set [.add 0 1, .add 1 2, .add 3 4] [[.add 0 5, .add 2 6, .add 3 7]]
    [[.add 3 9]] 4 (by decide)

end HBL2

namespace HBL2

theorem popcntAux_eq : ∀ (n w : Nat),
    popcntAux n w = (List.range n).countP (fun i => w.testBit i) := by
  intro n
  induction n with
  | zero => intro w; rfl
  | succ n ih =>
    intro w
    rw [popcntAux, ih, List.range_succ_eq_map, List.countP_cons, List.countP_map]
    have h1 : ((fun i => w.testBit i) ∘ Nat.succ) = (fun i => (w / 2).testBit i) := by
      funext i
      simp [Nat.testBit_succ]
    rw [h1, Nat.add_comm]
    congr 1
    rcases Nat.mod_two_eq_zero_or_one w with h | h <;> simp [Nat.testBit_zero, h]

theorem popcnt_le (w : Nat) : popcnt w ≤ 64 := by
  rw [popcnt, popcntAux_eq]
  exact (List.countP_le_length _).trans (by simp)

namespace ComponentMaskAVX

/-- The number of set bits in the words `i`, ..., `i + n - 1`. -/
theorem countLoop_eq (m : ComponentMaskAVX) : ∀ (n i total : Nat),
    total + 64 * n < 2 ^ 64 →
    countLoop m n i total =
      total + ((List.range (n * 64)).countP (fun j => (m.data (i + j / 64)).testBit (j % 64))) := by
  intro n
  induction n with
  | zero => intro i total _; simp [countLoop]
  | succ n ih =>
    intro i total hlt
    have hp := popcnt_le (m.data i)
    rw [countLoop, Nat.mod_eq_of_lt (by omega), ih _ _ (by omega)]
    have hsplit : (n + 1) * 64 = 64 + n * 64 := by ring
    have h1 : (List.range 64).countP (fun j => (m.data (i + j / 64)).testBit (j % 64)) =
        popcnt (m.data i) := by
      rw [popcnt, popcntAux_eq]
      apply List.countP_congr
      intro j hj
      have hj64 : j < 64 := List.mem_range.mp hj
      simp [Nat.div_eq_of_lt hj64, Nat.mod_eq_of_lt hj64]
    have h2 : (List.map (fun x => 64 + x) (List.range (n * 64))).countP
          (fun j => (m.data (i + j / 64)).testBit (j % 64)) =
        (List.range (n * 64)).countP
          (fun j => (m.data (i + 1 + j / 64)).testBit (j % 64)) := by
      rw [List.countP_map]
      apply List.countP_congr
      intro j _
      have e1 : (64 + j) / 64 = 1 + j / 64 := by omega
      have e2 : (64 + j) % 64 = j % 64 := by omega
      simp only [Function.comp, e1, e2, Nat.add_assoc]
    rw [hsplit, List.range_add, List.countP_append, h1, h2, Nat.add_assoc]

theorem test_eq_testBit (m : ComponentMaskAVX) {e : Nat} (he : e < MAX_ENTITIES) :
    m.test e = some ((m.data (e / 64)).testBit (e % 64)) := by
  have h := test_eq_some_true_iff m e
  have hidx : e >>> 6 < MASK_WORDS := by
    rw [Nat.shiftRight_eq_div_pow]
    have : MASK_WORDS = 4096 := by decide
    have : MAX_ENTITIES = 262144 := by decide
    omega
  cases hb : (m.data (e / 64)).testBit (e % 64) with
  | true => exact h.mpr ⟨he, hb⟩
  | false =>
    have hne : m.test e ≠ some true := by
      intro ht
      have := (h.mp ht).2
      rw [bitSet, hb] at this
      exact Bool.noConfusion this
    simp only [test, hidx, if_true] at hne ⊢
    cases hv : (m.data (e >>> 6) &&& bit e != 0) with
    | false => rfl
    | true => rw [hv] at hne; exact absurd rfl hne

/-- The value of `count()` as a number of entities. -/
theorem count_eq (m : ComponentMaskAVX) :
    m.count = (List.range MAX_ENTITIES).countP (fun e => m.test e == some true) := by
  have h64 : (0 : Nat) + 64 * MASK_WORDS < 2 ^ 64 := by decide
  rw [count, countLoop_eq m MASK_WORDS 0 0 h64, Nat.zero_add]
  have hM : MASK_WORDS * 64 = MAX_ENTITIES := by decide
  rw [hM]
  apply List.countP_congr
  intro e he
  rw [test_eq_testBit m (List.mem_range.mp he), Nat.zero_add]
  cases (m.data (e / 64)).testBit (e % 64) <;> simp

end ComponentMaskAVX

end HBL2

namespace HBL2

namespace ComponentMaskAVX

theorem test_out_of_range (m : ComponentMaskAVX) (k : Nat) :
    m.test (MAX_ENTITIES + k) = none := by
  have hidx : ¬ (MAX_ENTITIES + k) >>> 6 < MASK_WORDS := by
    rw [Nat.shiftRight_eq_div_pow]
    have h1 : MASK_WORDS = 4096 := by decide
    have h2 : MAX_ENTITIES = 262144 := by decide
    omega
  simp only [test, hidx, if_false]

theorem and_with_self (A : ComponentMaskAVX) : A.and_with A = A := by
  cases A with
  | mk data =>
    simp only [and_with, mk.injEq]
    funext i
    split <;> simp

theorem count_and_with_le (A B : ComponentMaskAVX) :
    (A.and_with B).count ≤ A.count ∧ (A.and_with B).count ≤ B.count := by
  rw [count_eq, count_eq, count_eq]
  constructor
  · apply List.countP_mono_left
    intro e _ h
    have h1 := (test_and_with A B e).mp (by simpa using h)
    simpa using h1.1
  · apply List.countP_mono_left
    intro e _ h
    have h1 := (test_and_with A B e).mp (by simpa using h)
    simpa using h1.2

theorem test_and_not_with_self (A : ComponentMaskAVX) (e : Nat) :
    (A.and_not_with A).test e ≠ some true := by
  intro h
  have h1 := (test_and_not_with e).mp h
  exact h1.2 h1.1

theorem count_and_not_with_self (A : ComponentMaskAVX) : (A.and_not_with A).count = 0 := by
  rw [count_eq, List.countP_eq_zero]
  intro e _ h
  exact test_and_not_with_self A e (by simpa using h)

end ComponentMaskAVX

/-- C21, the code against its own comment ("the next set bit after `prev`, or
MAX_ENTITIES if none"): in the mask whose only set bit is entity 5,
`find_next(0xFFFFFFFF)` computes `prev + 1` in 32 bits, which is 0, and returns
5. Entity 5 is not greater than `prev`, and no entity greater than `prev` has
its bit set, so the sentinel `MAX_ENTITIES` was due. -/
theorem find_next_wraps_at_uint32_max :
    (⟨fun i => if i = 0 then 32 else 0⟩ : ComponentMaskAVX).find_next (2 ^ 32 - 1) = 5 ∧
    (⟨fun i => if i = 0 then 32 else 0⟩ : ComponentMaskAVX).test 5 = some true ∧
    ¬ (2 ^ 32 - 1 < 5) ∧ 5 ≠ MAX_ENTITIES ∧
    (∀ e : Nat, 2 ^ 32 - 1 < e →
      (⟨fun i => if i = 0 then 32 else 0⟩ : ComponentMaskAVX).test e ≠ some true) := by
  refine ⟨by decide, by decide, by decide, by decide, ?_⟩
  intro e he h
  have h1 := ((ComponentMaskAVX.test_eq_some_true_iff _ e).mp h).1
  have h2 : MAX_ENTITIES = 262144 := by decide
  omega

/-- C22: for every mask, `count()` equals the number of entities `e` in
`[0, MAX_ENTITIES)` for which `test(e)` is true. -/
theorem count_eq_number_of_set_entities (m : ComponentMaskAVX) :
    m.count = ((List.range MAX_ENTITIES).filter (fun e => m.test e == some true)).length := by
  rw [ComponentMaskAVX.count_eq, List.countP_eq_length_filter]

/-- C24: for all masks `A` and `B`, the count of `A &= B` is at most the smaller
of the counts of `A` and `B`; `A &= A` leaves `A` unchanged; and after `A -= A`
the mask is empty: its count is 0 and `test` is true for no entity. -/
theorem and_count_le_and_self_laws (A B : ComponentMaskAVX) :
    (A.and_with B).count ≤ min A.count B.count ∧
    A.and_with A = A ∧
    (A.and_not_with A).count = 0 ∧
    (∀ e, (A.and_not_with A).test e ≠ some true) := by
  refine ⟨?_, ComponentMaskAVX.and_with_self A, ComponentMaskAVX.count_and_not_with_self A,
    ComponentMaskAVX.test_and_not_with_self A⟩
  have h := ComponentMaskAVX.count_and_with_le A B
  exact Nat.le_min.mpr h

/-- C25, the code against the claim: `ComponentMaskAVX::test` has no range check,
so for every entity value `e >= MAX_ENTITIES` it reads `data[e >> 6]` outside the
array (the model's `none`), for every mask; `SparseFlatBitmap3L::test` has the
check and returns false there. -/
theorem flat_test_reads_out_of_bounds (m : ComponentMaskAVX) (b : SparseFlatBitmap3L)
    (k : Nat) :
    m.test (MAX_ENTITIES + k) = none ∧ b.test (MAX_ENTITIES + k) = false := by
  refine ⟨ComponentMaskAVX.test_out_of_range m k, ?_⟩
  cases hb : b.test (MAX_ENTITIES + k) with
  | false => rfl
  | true =>
    have h1 := ((SparseFlatBitmap3L.test_iff b _).mp hb).1
    have h2 : MAX_ENTITIES = 262144 := by decide
    rw [SparseFlatBitmap3L.max_entity_eq] at h1
    omega

end HBL2

namespace HBL2

namespace ComponentMaskAVX

/-- Away from the 32-bit wrap-around of `prev + 1`, `find_next(prev)` is the
smallest entity above `prev` whose bit is set, or `MAX_ENTITIES` when there is
none. -/
theorem find_next_of_no_wrap {m : ComponentMaskAVX} (hu : WordsU64 m) {prev : Nat}
    (hp : prev + 1 < 2 ^ 32) :
    (m.find_next prev = MAX_ENTITIES ∧ ∀ e : Nat, prev < e → m.test e ≠ some true) ∨
    (prev < m.find_next prev ∧ m.test (m.find_next prev) = some true ∧
      ∀ e : Nat, prev < e → e < m.find_next prev → m.test e ≠ some true) := by
  have hM : MAX_ENTITIES = 262144 := by decide
  by_cases hlt : prev < MAX_ENTITIES
  · obtain ⟨h1, h2, h3, h4⟩ := find_next_spec hu hlt
    by_cases hr : m.find_next prev < MAX_ENTITIES
    · right
      refine ⟨by omega, (test_eq_some_true_iff m _).mpr ⟨hr, h3 hr⟩, ?_⟩
      intro e he1 he2 ht
      exact h4 e (by omega) he2 ((test_eq_some_true_iff m e).mp ht).2
    · left
      refine ⟨by omega, ?_⟩
      intro e he ht
      have h5 := (test_eq_some_true_iff m e).mp ht
      exact h4 e (by omega) (by omega) h5.2
  · left
    constructor
    · have hn : (prev + 1) % 2 ^ 32 ≥ MAX_ENTITIES := by
        rw [Nat.mod_eq_of_lt hp]; omega
      simp only [find_next, hn, if_true]
    · intro e he ht
      have h5 := (test_eq_some_true_iff m e).mp ht
      omega

end ComponentMaskAVX

end HBL2

namespace HBL2

namespace SingletonOp

theorem apply_mask {T : Type} (s : SingletonComponentStorage T) (op : SingletonOp) :
    (apply s op).m_Mask = s.m_Mask := by
  cases op with
  | add e =>
    simp only [apply, SingletonComponentStorage.Add]
    split <;> rfl
  | remove e =>
    simp only [apply, SingletonComponentStorage.Remove]
    split <;> rfl
  | clear => rfl

/-- No call of `Add`, `Remove` or `Clear` touches the mask of a singleton store. -/
theorem run_mask {T : Type} (ops : List SingletonOp) :
    ∀ s : SingletonComponentStorage T, (run s ops).m_Mask = s.m_Mask := by
  induction ops with
  | nil => intro s; rfl
  | cons op rest ih =>
    intro s
    rw [run, List.foldl_cons]
    exact (ih (apply s op)).trans (apply_mask s op)

end SingletonOp

/-- C27, the code against the store contract: after `Add(3)` on a fresh
`SingletonComponentStorage`, `Has(3)` is true while `Mask().test(3)` is false;
and after any calls of `Add`, `Remove` and `Clear` the mask is still the empty
mask of the constructor, because no method of the class writes `m_Mask`
(`SparseComponentStorage::Add` and `SmallComponentStorage::Add` call
`mask.set(e)`). -/
theorem singleton_has_without_mask_bit (ops : List SingletonOp) :
    ((SingletonComponentStorage.fresh : SingletonComponentStorage Nat).Add 3).1.Has 3 = true ∧
    ((SingletonComponentStorage.fresh : SingletonComponentStorage Nat).Add 3).1.Mask.test 3 =
      some false ∧
    (SingletonOp.run (SingletonComponentStorage.fresh : SingletonComponentStorage Nat) ops).Mask =
      ComponentMaskAVX.clear := by
  refine ⟨by decide, by decide, ?_⟩
  exact SingletonOp.run_mask ops _

namespace SmallComponentStorage

/-- C28: for a `SmallComponentStorage<T, N>` (`N <= 64` by the `static_assert`)
and an entity `e` below `MAX_ENTITIES`: when the store holds `N` components,
`Add(e)` reaches the failed assertion, returns `nullptr` and leaves the store
(entities, components, size, mask) as it was; when it holds fewer than `N`,
`Add(e)` returns the slot at the old size, appends `e` and a component, raises
the size by one and sets the mask bit of `e`. -/
theorem add_capacity {T : Type} [Inhabited T] {N : Nat} (s : SmallComponentStorage T N)
    (e : Entity) (hN : N ≤ 64) (he : e < MAX_ENTITIES) :
    (s.m_Size = N → s.Add e = some { store := s, slot := none, assertFailed := true }) ∧
    (s.m_Size < N → ∃ r, s.Add e = some r ∧ r.assertFailed = false ∧
      r.slot = some s.m_Size ∧ r.store.m_Size = s.m_Size + 1 ∧
      r.store.m_Entities = s.m_Entities ++ [e] ∧
      r.store.m_Components.length = s.m_Components.length + 1 ∧
      r.store.m_Mask.test e = some true ∧
      (∀ f, s.m_Mask.test f = some true → r.store.m_Mask.test f = some true)) := by
  constructor
  · intro h
    have hn : ¬ s.m_Size < N := by omega
    simp only [Add, hn, if_false]
  · intro h
    obtain ⟨mask, hmask⟩ := @ComponentMaskAVX.set_isSome s.m_Mask e he
    have hadd : s.Add e = some { store := { m_Components := s.m_Components ++ [default]
                                            m_Entities := s.m_Entities ++ [e]
                                            m_Mask := mask
                                            m_Size := (s.m_Size + 1) % 2 ^ 32 }
                                 slot := some s.m_Size
                                 assertFailed := false } := by
      simp only [Add, h, if_true, hmask]
    refine ⟨_, hadd, rfl, rfl, ?_, rfl, by simp, ?_, ?_⟩
    · show (s.m_Size + 1) % 2 ^ 32 = s.m_Size + 1
      apply Nat.mod_eq_of_lt
      omega
    · show mask.test e = some true
      rw [ComponentMaskAVX.test_set hmask]
      simp
    · intro f hf
      show mask.test f = some true
      rw [ComponentMaskAVX.test_set hmask]
      split
      · rfl
      · exact hf

theorem add_capacity_witness :
    ((⟨[10, 20], [4, 9], ⟨fun i => if i = 0 then 528 else 0⟩, 2⟩ :
        SmallComponentStorage Nat 2).Add 7 =
      some ⟨⟨[10, 20], [4, 9], ⟨fun i => if i = 0 then 528 else 0⟩, 2⟩, none, true⟩) ∧
    (∃ r, (⟨[10], [4], ⟨fun i => if i = 0 then 16 else 0⟩, 1⟩ :
        SmallComponentStorage Nat 2).Add 7 = some r ∧ r.assertFailed = false ∧
      r.slot = some 1 ∧ r.store.m_Size = 1 + 1 ∧
      r.store.m_Entities = [4] ++ [7] ∧
      r.store.m_Components.length = [10].length + 1 ∧
      r.store.m_Mask.test 7 = some true ∧
      (∀ f, (⟨fun i => if i = 0 then 16 else 0⟩ : ComponentMaskAVX).test f = some true →
        r.store.m_Mask.test f = some true)) :=
  ⟨(add_capacity ⟨[10, 20], [4, 9], ⟨fun i => if i = 0 then 528 else 0⟩, 2⟩ 7
      (by decide) (by decide)).1 rfl,
   (add_capacity ⟨[10], [4], ⟨fun i => if i = 0 then 16 else 0⟩, 1⟩ 7
      (by decide) (by decide)).2 (by decide)⟩

end SmallComponentStorage

end HBL2

namespace HBL2

namespace ComponentTypeID

theorem get_fresh (c : ComponentTypeID) (T : Nat) (h : c.ids T = none) :
    c.Get T = (c.s_Counter,
      { s_Counter := (c.s_Counter + 1) % 256
        ids := fun U => if U = T then some c.s_Counter else c.ids U }) := by
  simp only [Get, h]

theorem get_known (c : ComponentTypeID) (T id : Nat) (h : c.ids T = some id) :
    c.Get T = (id, c) := by
  simp only [Get, h]

theorem get_ids_keep (c : ComponentTypeID) (T U id : Nat) (h : c.ids U = some id) :
    (c.Get T).2.ids U = some id := by
  cases hT : c.ids T with
  | some j => rw [get_known c T j hT]; exact h
  | none =>
    rw [get_fresh c T hT]
    have hne : U ≠ T := by
      intro hUT
      rw [hUT, hT] at h
      exact Option.noConfusion h
    simp only [hne, if_false]
    exact h

theorem getAll_ids_keep (ts : List Nat) : ∀ (c : ComponentTypeID) (U id : Nat),
    c.ids U = some id → (c.GetAll ts).2.ids U = some id := by
  induction ts with
  | nil => intro c U id h; exact h
  | cons T rest ih =>
    intro c U id h
    exact ih (c.Get T).2 U id (get_ids_keep c T U id h)

/-- Requests for distinct types that have no id yet: the `k`-th gets the counter
plus `k`, in 8 bits. -/
theorem getAll_fresh (ts : List Nat) : ∀ (c : ComponentTypeID), ts.Nodup →
    (∀ T ∈ ts, c.ids T = none) → c.s_Counter < 256 →
    (c.GetAll ts).1 = (List.range ts.length).map (fun k => (c.s_Counter + k) % 256) ∧
    (∀ (k : Nat) (T : Nat), ts[k]? = some T →
      (c.GetAll ts).2.ids T = some ((c.s_Counter + k) % 256)) := by
  induction ts with
  | nil =>
    intro c _ _ _
    exact ⟨rfl, fun k T h => by simp at h⟩
  | cons T rest ih =>
    intro c hnd hfresh hc
    have hT : c.ids T = none := hfresh T (List.mem_cons_self _ _)
    have hTrest : T ∉ rest := (List.nodup_cons.mp hnd).1
    have hget := get_fresh c T hT
    have hfresh1 : ∀ U ∈ rest, (c.Get T).2.ids U = none := by
      intro U hU
      rw [hget]
      have hne : U ≠ T := fun h => hTrest (h ▸ hU)
      simp only [hne, if_false]
      exact hfresh U (List.mem_cons_of_mem _ hU)
    have hc1 : (c.Get T).2.s_Counter = (c.s_Counter + 1) % 256 := by rw [hget]
    obtain ⟨ih1, ih2⟩ := ih (c.Get T).2 (List.nodup_cons.mp hnd).2 hfresh1
      (by rw [hc1]; exact Nat.mod_lt _ (by decide))
    constructor
    · show (c.Get T).1 :: ((c.Get T).2.GetAll rest).1 = _
      rw [ih1, List.length_cons, List.range_succ_eq_map, List.map_cons, List.map_map, hc1]
      congr 1
      · rw [hget]
        show c.s_Counter = (c.s_Counter + 0) % 256
        rw [Nat.add_zero, Nat.mod_eq_of_lt hc]
      · apply List.map_congr_left
        intro k _
        show ((c.s_Counter + 1) % 256 + k) % 256 = (c.s_Counter + (k + 1)) % 256
        omega
    · intro k U hk
      show ((c.Get T).2.GetAll rest).2.ids U = _
      cases k with
      | zero =>
        simp only [List.getElem?_cons_zero, Option.some.injEq] at hk
        subst hk
        apply getAll_ids_keep
        rw [hget]
        simp [Nat.mod_eq_of_lt hc]
      | succ k =>
        rw [List.getElem?_cons_succ] at hk
        rw [ih2 k U hk, hc1]
        congr 1
        omega

end ComponentTypeID

/-- C29, against the claim: from program start, `Get` for 129 distinct component
types (named 0 to 128, asked in this order) returns an id every time, and the
last one is 128, which is not below `MAX_COMPONENT_TYPES`; with 257 distinct
types the last one receives 0, the id of the first. -/
theorem get_129th_type_yields_128 :
    (ComponentTypeID.init.GetAll (List.range 129)).1.length = 129 ∧
    (ComponentTypeID.init.GetAll (List.range 129)).1.getLast? = some 128 ∧
    ¬ 128 < MAX_COMPONENT_TYPES ∧
    (ComponentTypeID.init.GetAll (List.range 257)).1[0]? = some 0 ∧
    (ComponentTypeID.init.GetAll (List.range 257)).1[256]? = some 0 := by
  have h := (ComponentTypeID.getAll_fresh (List.range 129) ComponentTypeID.init
    (List.nodup_range 129) (fun _ _ => rfl) (by decide)).1
  have h2 := (ComponentTypeID.getAll_fresh (List.range 257) ComponentTypeID.init
    (List.nodup_range 257) (fun _ _ => rfl) (by decide)).1
  rw [h, h2]
  simp only [List.length_range, ComponentTypeID.init, Nat.zero_add]
  refine ⟨by simp, by decide, by decide, by simp, by simp⟩

/-- C29, as the code behaves: `Get` never fails. When distinct component types
are asked for the first time in the order of the list `ts`, the `k`-th of them
(from 0) receives `k mod 256`, and every later `Get` for it returns that id
again. So among the first `MAX_COMPONENT_TYPES` types every id is below
`MAX_COMPONENT_TYPES`, and among the first 256 types no two ids are equal. -/
theorem get_assigns_counter_mod_256 (ts : List Nat) (hnd : ts.Nodup) :
    (ComponentTypeID.init.GetAll ts).1 = (List.range ts.length).map (fun k => k % 256) ∧
    (∀ (k : Nat) (T : Nat), ts[k]? = some T →
      ((ComponentTypeID.init.GetAll ts).2.Get T).1 = k % 256) ∧
    (ts.length ≤ MAX_COMPONENT_TYPES →
      ∀ id ∈ (ComponentTypeID.init.GetAll ts).1, id < MAX_COMPONENT_TYPES) ∧
    (ts.length ≤ 256 → (ComponentTypeID.init.GetAll ts).1.Nodup) := by
  obtain ⟨h1, h2⟩ := ComponentTypeID.getAll_fresh ts ComponentTypeID.init hnd
    (fun _ _ => rfl) (by decide)
  have h0 : ComponentTypeID.init.s_Counter = 0 := rfl
  simp only [h0, Nat.zero_add] at h1 h2
  refine ⟨h1, ?_, ?_, ?_⟩
  · intro k T hk
    rw [ComponentTypeID.get_known _ T _ (h2 k T hk)]
  · intro hlen id hid
    rw [h1] at hid
    obtain ⟨k, hk, rfl⟩ := List.mem_map.mp hid
    have hk1 := List.mem_range.mp hk
    have hM : MAX_COMPONENT_TYPES = 128 := rfl
    omega
  · intro hlen
    rw [h1]
    apply (List.nodup_range _).map_on
    intro a ha b hb hab
    have ha1 := List.mem_range.mp ha
    have hb1 := List.mem_range.mp hb
    omega

theorem get_assigns_counter_mod_256_witness :
    (ComponentTypeID.init.GetAll [7, 3, 9]).1 =
      (List.range [7, 3, 9].length).map (fun k => k % 256) ∧
    (∀ (k : Nat) (T : Nat), [7, 3, 9][k]? = some T →
      ((ComponentTypeID.init.GetAll [7, 3, 9]).2.Get T).1 = k % 256) ∧
    ([7, 3, 9].length ≤ MAX_COMPONENT_TYPES →
      ∀ id ∈ (ComponentTypeID.init.GetAll [7, 3, 9]).1, id < MAX_COMPONENT_TYPES) ∧
    ([7, 3, 9].length ≤ 256 → (ComponentTypeID.init.GetAll [7, 3, 9]).1.Nodup) :=
  get_assigns_counter_mod_256 [7, 3, 9] (by decide)

end HBL2

namespace HBL2

/-- C30, the code against its own test (`test_meta`, step 7, `assert(caught)`):
with `anyConst` forwarded from the `const NewComponent ccomp` whose `Mario` is 1
and `bad` wrapping the `int` 999, `md->Set(anyConst, bad)` for the member
`Mario` passes both assertions, throws nothing and returns after copying 999
over `ccomp.Mario`; `caught` stays false. -/
theorem set_on_const_any_writes :
    Meta.test_meta.anyConst.Is ⟨.NewComponent, true⟩ = true ∧
    Meta.readInt Meta.test_meta.mem Meta.test_meta.ccompAddr = 1 ∧
    (∃ m mem1, Meta.test_meta.md = some m ∧
      m.Set Meta.test_meta.bad.2 Meta.test_meta.mem Meta.test_meta.anyConst
        Meta.test_meta.bad.1 = .returned mem1 ∧
      Meta.readInt mem1 Meta.test_meta.ccompAddr = 999) ∧
    Meta.test_meta.caught = some false := by
  refine ⟨by decide, by decide, ⟨⟨"Mario", 0, 2⟩, _, by decide, rfl, by decide⟩, by decide⟩

end HBL2

namespace HBL2

/-! ## The two bitmap representations hold the same words -/

namespace SparseFlatBitmap3L

theorem split_eq (e : Nat) : split e = (e / 4096, e / 64 % 64, e % 64) := by
  have hb : e >>> 12 = e / 4096 := by simp [Nat.shiftRight_eq_div_pow]
  have hg : (e >>> 6) &&& 0x3F = e / 64 % 64 := by
    rw [word_shift_eq]; exact word_mask_eq _
  have hi : e &&& 0x3F = e % 64 := word_mask_eq e
  simp only [split, hb, hg, hi]

theorem split_lt {e : Nat} (he : e < MAX_ENTITIES) :
    e / 4096 < L0_BLOCKS ∧ e / 64 % 64 < L1_GROUPS ∧ e % 64 < L2_BITS := by
  have hM : MAX_ENTITIES = 262144 := by decide
  simp only [L0_BLOCKS, L1_GROUPS, L2_BITS]
  omega

theorem bit3L_eq (e : Nat) : (1 <<< (e % 64)) % 2 ^ 64 = ComponentMaskAVX.bit e := by
  rw [ComponentMaskAVX.bit, word_mask_eq]

/-- The leaf words after `set`. -/
theorem set_l2 {m : SparseFlatBitmap3L} {e : Nat} (he : e < MAX_ENTITIES) :
    ∃ m1, m.set e = some m1 ∧ ∀ b g, m1.l2 b g =
      if b = e / 4096 ∧ g = e / 64 % 64 then m.l2 b g ||| ComponentMaskAVX.bit e
      else m.l2 b g := by
  have hs := split_lt he
  simp only [set, split_eq, hs, and_self, if_true, bit3L_eq]
  refine ⟨_, rfl, ?_⟩
  intro b g
  split
  · next h => simp only [h, and_self, if_true]
  · next h => simp only [h, if_false]

/-- Clearing a bit that is not set leaves a 64-bit word as it is. -/
theorem and_not_bit_of_clear {w : Nat} (e : Nat) (hw : w < 2 ^ 64)
    (h : w &&& ComponentMaskAVX.bit e = 0) :
    w &&& ((2 ^ 64 - 1) ^^^ ComponentMaskAVX.bit e) = w := by
  have h64 : e % 64 < 64 := Nat.mod_lt _ (by decide)
  have hbit : w.testBit (e % 64) = false := by
    have := ComponentMaskAVX.and_bit_ne_zero w e
    rw [h] at this
    simpa using this.symm
  apply Nat.eq_of_testBit_eq
  intro i
  rw [Nat.testBit_and, Nat.testBit_xor, ComponentMaskAVX.bit_eq, Nat.testBit_two_pow,
    Nat.testBit_two_pow_sub_one]
  by_cases hi : i < 64
  · by_cases hie : e % 64 = i
    · subst hie; simp [hbit]
    · simp [hi, hie]
  · have := testBit_eq_false_of_lt hw (Nat.le_of_not_lt hi)
    simp [this]

/-- The leaf words after `reset`. -/
theorem reset_l2 {m : SparseFlatBitmap3L} {e : Nat} (hu : m.WordsU64) (he : e < MAX_ENTITIES) :
    ∃ m1, m.reset e = some m1 ∧ ∀ b g, m1.l2 b g =
      if b = e / 4096 ∧ g = e / 64 % 64 then
        m.l2 b g &&& ((2 ^ 64 - 1) ^^^ ComponentMaskAVX.bit e)
      else m.l2 b g := by
  have hs := split_lt he
  simp only [reset, split_eq, hs, and_self, if_true, bit3L_eq]
  by_cases h0 : m.l2 (e / 4096) (e / 64 % 64) &&& ComponentMaskAVX.bit e = 0
  · rw [if_pos h0]
    refine ⟨m, rfl, ?_⟩
    intro b g
    split
    · next h =>
      rw [h.1, h.2, and_not_bit_of_clear e (hu _ _) h0]
    · rfl
  · rw [if_neg h0]
    by_cases hw : m.l2 (e / 4096) (e / 64 % 64) &&&
        ((2 ^ 64 - 1) ^^^ ComponentMaskAVX.bit e) = 0
    · rw [if_pos hw]
      by_cases hw1 : m.l1 (e / 4096) &&&
          ((2 ^ 64 - 1) ^^^ ComponentMaskAVX.bit (e / 64)) = 0
      · rw [if_pos hw1]
        refine ⟨_, rfl, ?_⟩
        intro b g
        split
        · next h => simp only [h, and_self, if_true]
        · next h => simp only [h, if_false]
      · rw [if_neg hw1]
        refine ⟨_, rfl, ?_⟩
        intro b g
        split
        · next h => simp only [h, and_self, if_true]
        · next h => simp only [h, if_false]
    · rw [if_neg hw]
      refine ⟨_, rfl, ?_⟩
      intro b g
      split
      · next h => simp only [h, and_self, if_true]
      · next h => simp only [h, if_false]

end SparseFlatBitmap3L

end HBL2

namespace HBL2

namespace ComponentMaskAVX

theorem bit_lt (e : Nat) : bit e < 2 ^ 64 := by
  rw [bit_eq]
  exact Nat.pow_lt_pow_right (by decide) (Nat.mod_lt _ (by decide))

/-- The words after `set`. -/
theorem set_data {m : ComponentMaskAVX} {e : Nat} (he : e < MAX_ENTITIES) :
    ∃ m1, m.set e = some m1 ∧
      ∀ i, m1.data i = if i = e / 64 then m.data i ||| bit e else m.data i := by
  have hidx : e / 64 < MASK_WORDS := by
    have h1 : MASK_WORDS = 4096 := by decide
    have h2 : MAX_ENTITIES = 262144 := by decide
    omega
  simp only [set, word_shift_eq, hidx, if_true]
  refine ⟨_, rfl, ?_⟩
  intro i
  split
  · next h => simp only [h, if_true]
  · next h => simp only [h, if_false]

/-- The words after `reset`. -/
theorem reset_data {m : ComponentMaskAVX} {e : Nat} (he : e < MAX_ENTITIES) :
    ∃ m1, m.reset e = some m1 ∧
      ∀ i, m1.data i =
        if i = e / 64 then m.data i &&& ((2 ^ 64 - 1) ^^^ bit e) else m.data i := by
  have hidx : e / 64 < MASK_WORDS := by
    have h1 : MASK_WORDS = 4096 := by decide
    have h2 : MAX_ENTITIES = 262144 := by decide
    omega
  simp only [reset, word_shift_eq, hidx, if_true]
  refine ⟨_, rfl, ?_⟩
  intro i
  split
  · next h => simp only [h, if_true]
  · next h => simp only [h, if_false]

end ComponentMaskAVX

/-- Word `b * 64 + g` is the word of entity `e` exactly for the block and group
of `e`. -/
theorem word_index_iff {b g : Nat} (e : Nat) (hg : g < 64) :
    b * 64 + g = e / 64 ↔ (b = e / 4096 ∧ g = e / 64 % 64) := by
  omega

theorem sameWords_clear : SameWords ComponentMaskAVX.clear SparseFlatBitmap3L.clear := by
  refine ⟨ComponentMaskAVX.wordsU64_clear, ?_, ?_⟩
  · intro b g
    simp [SparseFlatBitmap3L.clear]
  · intro b g _ _
    rfl

theorem sameWords_set {f : ComponentMaskAVX} {t : SparseFlatBitmap3L} {e : Nat}
    (h : SameWords f t) (he : e < MAX_ENTITIES) :
    ∃ f1 t1, f.set e = some f1 ∧ t.set e = some t1 ∧ SameWords f1 t1 := by
  obtain ⟨f1, hf1, hd⟩ := @ComponentMaskAVX.set_data f e he
  obtain ⟨t1, ht1, hl⟩ := @SparseFlatBitmap3L.set_l2 t e he
  refine ⟨f1, t1, hf1, ht1, ComponentMaskAVX.wordsU64_set h.1 hf1, ?_, ?_⟩
  · intro b g
    rw [hl]
    split
    · exact Nat.or_lt_two_pow (h.2.1 _ _) (ComponentMaskAVX.bit_lt e)
    · exact h.2.1 _ _
  · intro b g hb hg
    rw [hd, hl, h.2.2 b g hb hg]
    by_cases hc : b * 64 + g = e / 64
    · rw [if_pos hc, if_pos ((word_index_iff e hg).mp hc)]
    · rw [if_neg hc, if_neg (fun hx => hc ((word_index_iff e hg).mpr hx))]

theorem sameWords_reset {f : ComponentMaskAVX} {t : SparseFlatBitmap3L} {e : Nat}
    (h : SameWords f t) (he : e < MAX_ENTITIES) :
    ∃ f1 t1, f.reset e = some f1 ∧ t.reset e = some t1 ∧ SameWords f1 t1 := by
  obtain ⟨f1, hf1, hd⟩ := @ComponentMaskAVX.reset_data f e he
  obtain ⟨t1, ht1, hl⟩ := @SparseFlatBitmap3L.reset_l2 t e h.2.1 he
  refine ⟨f1, t1, hf1, ht1, ComponentMaskAVX.wordsU64_reset h.1 hf1, ?_, ?_⟩
  · intro b g
    rw [hl]
    split
    · exact Nat.lt_of_le_of_lt Nat.and_le_left (h.2.1 _ _)
    · exact h.2.1 _ _
  · intro b g hb hg
    rw [hd, hl, h.2.2 b g hb hg]
    by_cases hc : b * 64 + g = e / 64
    · rw [if_pos hc, if_pos ((word_index_iff e hg).mp hc)]
    · rw [if_neg hc, if_neg (fun hx => hc ((word_index_iff e hg).mpr hx))]

theorem sameWords_and_with {f f2 : ComponentMaskAVX} {t t2 : SparseFlatBitmap3L}
    (h : SameWords f t) (h2 : SameWords f2 t2) :
    SameWords (f.and_with f2) (t.and_with t2) := by
  refine ⟨ComponentMaskAVX.wordsU64_and_with h.1, ?_, ?_⟩
  · intro b g
    simp only [SparseFlatBitmap3L.and_with]
    split
    · exact Nat.lt_of_le_of_lt Nat.and_le_left (h.2.1 _ _)
    · exact h.2.1 _ _
  · intro b g hb hg
    have hi : b * 64 + g < MASK_WORDS := by
      have h1 : MASK_WORDS = 4096 := by decide
      omega
    have hbg : b < L0_BLOCKS ∧ g < L1_GROUPS := ⟨hb, hg⟩
    simp only [ComponentMaskAVX.and_with, SparseFlatBitmap3L.and_with, hi, hbg, and_self,
      if_true, h.2.2 b g hb hg, h2.2.2 b g hb hg]

/-- The two representations answer `test` alike. -/
theorem sameWords_test {f : ComponentMaskAVX} {t : SparseFlatBitmap3L} (h : SameWords f t)
    {e : Nat} (he : e < MAX_ENTITIES) : f.test e = some (t.test e) := by
  have hM : MAX_ENTITIES = 262144 := by decide
  rw [ComponentMaskAVX.test_eq_testBit f he]
  have hw : e / 64 = e / 4096 * 64 + e / 64 % 64 := by omega
  have hd : f.data (e / 64) = t.l2 (e / 4096) (e / 64 % 64) := by
    have h1 := h.2.2 (e / 4096) (e / 64 % 64) (by omega) (Nat.mod_lt _ (by decide))
    rw [← hw] at h1
    exact h1
  rw [hd]
  congr 1
  cases ht : t.test e with
  | true => exact ((SparseFlatBitmap3L.test_iff t e).mp ht).2
  | false =>
    cases hb : (t.l2 (e / 4096) (e / 64 % 64)).testBit (e % 64) with
    | false => rfl
    | true =>
      have := (SparseFlatBitmap3L.test_iff t e).mpr
        ⟨by rw [SparseFlatBitmap3L.max_entity_eq]; omega, hb⟩
      rw [ht] at this
      exact Bool.noConfusion this

/-- The two representations iterate alike. -/
theorem sameWords_entities {f : ComponentMaskAVX} {t : SparseFlatBitmap3L}
    (h : SameWords f t) : ∃ l, f.entities = some l ∧ t.entities = some l := by
  obtain ⟨l1, h1, hp1, hm1⟩ := ComponentMaskAVX.entities_spec h.1
  obtain ⟨l2, h2, hp2, hm2⟩ := SparseFlatBitmap3L.entities_spec3L h.2.1
  have hM : MAX_ENTITIES = 262144 := by decide
  have hmem : ∀ e, e ∈ l1 ↔ e ∈ l2 := by
    intro e
    rw [hm1, hm2]
    by_cases he : e < MAX_ENTITIES
    · rw [sameWords_test h he]
      simp
    · constructor
      · intro ht
        exact absurd ((ComponentMaskAVX.test_eq_some_true_iff f e).mp ht).1 he
      · intro ht
        have := ((SparseFlatBitmap3L.test_iff t e).mp ht).1
        rw [SparseFlatBitmap3L.max_entity_eq] at this
        omega
  have heq : l1 = l2 := by
    apply List.eq_of_perm_of_sorted (r := (· < ·))
    · exact (List.perm_ext_iff_of_nodup hp1.nodup hp2.nodup).mpr hmem
    · exact hp1
    · exact hp2
  exact ⟨l1, h1, heq ▸ h2⟩

end HBL2

namespace HBL2

namespace BitmapOp

theorem apply_sameWords {sf : Nat → ComponentMaskAVX} {st : Nat → SparseFlatBitmap3L}
    (op : BitmapOp) (h : ∀ r, SameWords (sf r) (st r)) (hop : op.inRange = true) :
    ∃ sf1 st1, applyFlat sf op = some sf1 ∧ apply3L st op = some st1 ∧
      ∀ r, SameWords (sf1 r) (st1 r) := by
  cases op with
  | set r e =>
    have he : e < MAX_ENTITIES := of_decide_eq_true hop
    obtain ⟨f1, t1, hf, ht, hs⟩ := sameWords_set (h r) he
    refine ⟨fun k => if k = r then f1 else sf k, fun k => if k = r then t1 else st k,
      by simp only [applyFlat, hf, Option.map_some'],
      by simp only [apply3L, ht, Option.map_some'], ?_⟩
    intro k
    by_cases hk : k = r
    · simp only [hk, if_true]; exact hs
    · simp only [hk, if_false]; exact h k
  | reset r e =>
    have he : e < MAX_ENTITIES := of_decide_eq_true hop
    obtain ⟨f1, t1, hf, ht, hs⟩ := sameWords_reset (h r) he
    refine ⟨fun k => if k = r then f1 else sf k, fun k => if k = r then t1 else st k,
      by simp only [applyFlat, hf, Option.map_some'],
      by simp only [apply3L, ht, Option.map_some'], ?_⟩
    intro k
    by_cases hk : k = r
    · simp only [hk, if_true]; exact hs
    · simp only [hk, if_false]; exact h k
  | clear r =>
    refine ⟨_, _, rfl, rfl, ?_⟩
    intro k
    by_cases hk : k = r
    · simp only [hk, if_true]; exact sameWords_clear
    · simp only [hk, if_false]; exact h k
  | and_with r o =>
    refine ⟨_, _, rfl, rfl, ?_⟩
    intro k
    by_cases hk : k = r
    · simp only [hk, if_true]; exact sameWords_and_with (h r) (h o)
    · simp only [hk, if_false]; exact h k

theorem foldlM_sameWords (ops : List BitmapOp) :
    ∀ (sf : Nat → ComponentMaskAVX) (st : Nat → SparseFlatBitmap3L),
      (∀ r, SameWords (sf r) (st r)) → ops.all inRange = true →
      ∃ sf1 st1, ops.foldlM applyFlat sf = some sf1 ∧ ops.foldlM apply3L st = some st1 ∧
        ∀ r, SameWords (sf1 r) (st1 r) := by
  induction ops with
  | nil => intro sf st h _; exact ⟨sf, st, rfl, rfl, h⟩
  | cons op rest ih =>
    intro sf st h hall
    rw [List.all_cons, Bool.and_eq_true] at hall
    obtain ⟨sf1, st1, hf, ht, hs⟩ := apply_sameWords op h hall.1
    obtain ⟨sf2, st2, hf2, ht2, hs2⟩ := ih sf1 st1 hs hall.2
    refine ⟨sf2, st2, ?_, ?_, hs2⟩
    · rw [List.foldlM_cons, hf]; exact hf2
    · rw [List.foldlM_cons, ht]; exact ht2

end BitmapOp

/-- C26: for every sequence of `set`, `reset`, `clear` and `&=` calls on
entities below `MAX_ENTITIES`, made alike on `ComponentMaskAVX` bitmaps and on
`SparseFlatBitmap3L` bitmaps that start empty, all calls complete on both
sides, and for every bitmap of the program `test(e)` agrees between the two
representations for every `e` in `[0, MAX_ENTITIES)` and the two iterations
complete with the same sequence of entities. -/
theorem flat_and_three_level_agree (ops : List BitmapOp)
    (h : ops.all BitmapOp.inRange = true) :
    ∃ sf st, BitmapOp.runFlat ops = some sf ∧ BitmapOp.run3L ops = some st ∧
      ∀ r, (∀ e : Nat, e < MAX_ENTITIES → (sf r).test e = some ((st r).test e)) ∧
        ∃ l, (sf r).entities = some l ∧ (st r).entities = some l := by
  obtain ⟨sf, st, hf, ht, hs⟩ := BitmapOp.foldlM_sameWords ops _ _
    (fun _ => sameWords_clear) h
  exact ⟨sf, st, hf, ht, fun r => ⟨fun e he => sameWords_test (hs r) he,
    sameWords_entities (hs r)⟩⟩

theorem flat_and_three_level_agree_witness :
    ∃ sf st,
      BitmapOp.runFlat [.set 0 5, .set 1 5, .set 1 70, .set 0 4100, .and_with 0 1,
        .reset 1 5, .clear 2] = some sf ∧
      BitmapOp.run3L [.set 0 5, .set 1 5, .set 1 70, .set 0 4100, .and_with 0 1,
        .reset 1 5, .clear 2] = some st ∧
      ∀ r, (∀ e : Nat, e < MAX_ENTITIES → (sf r).test e = some ((st r).test e)) ∧
        ∃ l, (sf r).entities = some l ∧ (st r).entities = some l :=
  flat_and_three_level_agree [.set 0 5, .set 1 5, .set 1 70, .set 0 4100, .and_with 0 1,
    .reset 1 5, .clear 2] (by decide)

end HBL2

namespace HBL2

/-! ## `reset` followed by `set` -/

theorem and_not_or_pow {w k : Nat} (hw : w < 2 ^ 64) (hk : k < 64) :
    (w &&& ((2 ^ 64 - 1) ^^^ 2 ^ k)) ||| 2 ^ k = w ||| 2 ^ k := by
  apply Nat.eq_of_testBit_eq
  intro i
  rw [Nat.testBit_or, Nat.testBit_or, Nat.testBit_and, Nat.testBit_xor, Nat.testBit_two_pow,
    Nat.testBit_two_pow_sub_one]
  by_cases hi : i < 64
  · by_cases hie : k = i
    · simp [hie]
    · simp [hi, hie]
  · have := testBit_eq_false_of_lt hw (Nat.le_of_not_lt hi)
    have hne : k ≠ i := by omega
    simp [this, hne]

theorem or_pow_of_testBit {w k : Nat} (h : w.testBit k = true) : w ||| 2 ^ k = w := by
  apply Nat.eq_of_testBit_eq
  intro i
  rw [Nat.testBit_or, Nat.testBit_two_pow]
  by_cases hie : k = i
  · subst hie; simp [h]
  · simp [hie]

theorem one_shiftLeft_mod {k : Nat} (hk : k < 64) : (1 <<< k) % 2 ^ 64 = 2 ^ k := by
  rw [Nat.one_shiftLeft]
  exact Nat.mod_eq_of_lt (Nat.pow_lt_pow_right (by decide) hk)

namespace ComponentMaskAVX

theorem eq_of_data {a b : ComponentMaskAVX} (h : ∀ i, a.data i = b.data i) : a = b := by
  cases a
  cases b
  simp only [mk.injEq]
  funext i
  exact h i

/-- On a mask of 64-bit words, `reset(e)` then `set(e)` is `set(e)`; it gives the
mask back when the bit of `e` was set. -/
theorem reset_set {m : ComponentMaskAVX} {e : Nat} (hm : m.WordsU64) (he : e < MAX_ENTITIES) :
    ∃ m1 m2, m.reset e = some m1 ∧ m1.set e = some m2 ∧ m.set e = some m2 ∧
      m2.test e = some true ∧ (m.test e = some true → m2 = m) := by
  obtain ⟨m1, h1, d1⟩ := @reset_data m e he
  obtain ⟨m2, h2, d2⟩ := @set_data m1 e he
  obtain ⟨m3, h3, d3⟩ := @set_data m e he
  have h64 : e % 64 < 64 := Nat.mod_lt _ (by decide)
  have h23 : m2 = m3 := by
    apply eq_of_data
    intro i
    rw [d2, d3, d1]
    by_cases hi : i = e / 64
    · simp only [hi, if_true]
      rw [bit_eq]
      exact and_not_or_pow (hm _) h64
    · simp only [hi, if_false]
  refine ⟨m1, m2, h1, h2, h23 ▸ h3, ?_, ?_⟩
  · rw [test_set h2]; simp
  · intro ht
    rw [h23]
    apply eq_of_data
    intro i
    rw [d3]
    by_cases hi : i = e / 64
    · simp only [hi, if_true]
      rw [bit_eq]
      apply or_pow_of_testBit
      rw [test_eq_testBit m he] at ht
      exact Option.some.inj ht
    · simp only [hi, if_false]

end ComponentMaskAVX

namespace SparseFlatBitmap3L

theorem eq_of_words {a c : SparseFlatBitmap3L} (h2 : ∀ b g, a.l2 b g = c.l2 b g)
    (h1 : ∀ b, a.l1 b = c.l1 b) (h0 : a.l0 = c.l0) : a = c := by
  cases a
  cases c
  simp only [mk.injEq]
  refine ⟨?_, ?_, h0⟩
  · funext b g; exact h2 b g
  · funext b; exact h1 b

/-- The three levels after `set`. -/
theorem set_words {m : SparseFlatBitmap3L} {e : Nat} (he : e < MAX_ENTITIES) :
    ∃ m1, m.set e = some m1 ∧
      (∀ b g, m1.l2 b g =
        if b = e / 4096 ∧ g = e / 64 % 64 then m.l2 b g ||| 2 ^ (e % 64) else m.l2 b g) ∧
      (∀ b, m1.l1 b = if b = e / 4096 then m.l1 b ||| 2 ^ (e / 64 % 64) else m.l1 b) ∧
      m1.l0 = m.l0 ||| 2 ^ (e / 4096) := by
  have hs := split_lt he
  have b1 := one_shiftLeft_mod hs.1
  have b2 := one_shiftLeft_mod hs.2.1
  have b3 := one_shiftLeft_mod hs.2.2
  simp only [set, split_eq, hs, and_self, if_true, b1, b2, b3]
  refine ⟨_, rfl, ?_, ?_, rfl⟩
  · intro b g
    split
    · next h => simp only [h, and_self, if_true]
    · next h => simp only [h, if_false]
  · intro b
    split
    · next h => simp only [h, if_true]
    · next h => simp only [h, if_false]

/-- The three levels after `reset`: each word of the result, ORed with the bit
that `set` will put there, is the word before ORed with that bit. -/
theorem reset_words {m : SparseFlatBitmap3L} {e : Nat} (he : e < MAX_ENTITIES)
    (h0 : m.l0 < 2 ^ 64) (h1 : ∀ b, m.l1 b < 2 ^ 64) (h2 : ∀ b g, m.l2 b g < 2 ^ 64) :
    ∃ m1, m.reset e = some m1 ∧
      (∀ b g, m1.l2 b g =
        if b = e / 4096 ∧ g = e / 64 % 64 then
          m.l2 b g &&& ((2 ^ 64 - 1) ^^^ 2 ^ (e % 64))
        else m.l2 b g) ∧
      (∀ b, b ≠ e / 4096 → m1.l1 b = m.l1 b) ∧
      m1.l1 (e / 4096) ||| 2 ^ (e / 64 % 64) = m.l1 (e / 4096) ||| 2 ^ (e / 64 % 64) ∧
      m1.l0 ||| 2 ^ (e / 4096) = m.l0 ||| 2 ^ (e / 4096) := by
  have hs := split_lt he
  have b1 := one_shiftLeft_mod hs.1
  have b2 := one_shiftLeft_mod hs.2.1
  have b3 := one_shiftLeft_mod hs.2.2
  obtain ⟨m1, hm1, hl2⟩ := @reset_l2 m e h2 he
  refine ⟨m1, hm1, ?_, ?_⟩
  · intro b g
    rw [hl2, ComponentMaskAVX.bit_eq]
  · simp only [reset, split_eq, hs, and_self, if_true, b1, b2, b3] at hm1
    by_cases c0 : m.l2 (e / 4096) (e / 64 % 64) &&& 2 ^ (e % 64) = 0
    · rw [if_pos c0] at hm1
      cases hm1
      exact ⟨fun _ _ => rfl, rfl, rfl⟩
    · rw [if_neg c0] at hm1
      by_cases cw : m.l2 (e / 4096) (e / 64 % 64) &&& ((2 ^ 64 - 1) ^^^ 2 ^ (e % 64)) = 0
      · rw [if_pos cw] at hm1
        by_cases cw1 : m.l1 (e / 4096) &&& ((2 ^ 64 - 1) ^^^ 2 ^ (e / 64 % 64)) = 0
        · rw [if_pos cw1] at hm1
          cases hm1
          refine ⟨?_, ?_, ?_⟩
          · intro b hb
            simp only [hb, if_false]
          · simp only [if_true]
            exact and_not_or_pow (h1 _) hs.2.1
          · exact and_not_or_pow h0 hs.1
        · rw [if_neg cw1] at hm1
          cases hm1
          refine ⟨?_, ?_, rfl⟩
          · intro b hb
            simp only [hb, if_false]
          · simp only [if_true]
            exact and_not_or_pow (h1 _) hs.2.1
      · rw [if_neg cw] at hm1
        cases hm1
        exact ⟨fun _ _ => rfl, rfl, rfl⟩

end SparseFlatBitmap3L

end HBL2

namespace HBL2

namespace SparseFlatBitmap3L

/-- On a bitmap of 64-bit words, `reset(e)` then `set(e)` is `set(e)`; it gives
the bitmap back when the bit of `e` was set and the summary levels cover the
leaves. -/
theorem reset_set3L {m : SparseFlatBitmap3L} {e : Nat} (hm : m.SummaryOk)
    (he : e < MAX_ENTITIES) :
    ∃ m1 m2, m.reset e = some m1 ∧ m1.set e = some m2 ∧ m.set e = some m2 ∧
      m2.test e = true ∧ (m.test e = true → m2 = m) := by
  obtain ⟨h0, h1, h2, hc1, hc0⟩ := hm
  have hs := split_lt he
  have hM : MAX_ENTITIES = 262144 := by decide
  obtain ⟨m1, hr, r2, r1o, r1, r0⟩ := reset_words he h0 h1 h2
  obtain ⟨m2, hs2, s2, s1, s0⟩ := @set_words m1 e he
  obtain ⟨m3, hs3, t2, t1, t0⟩ := @set_words m e he
  have h23 : m2 = m3 := by
    apply eq_of_words
    · intro b g
      rw [s2, t2, r2]
      by_cases hbg : b = e / 4096 ∧ g = e / 64 % 64
      · simp only [hbg, and_self, if_true]
        exact and_not_or_pow (h2 _ _) hs.2.2
      · simp only [hbg, if_false]
    · intro b
      rw [s1, t1]
      by_cases hb : b = e / 4096
      · simp only [hb, if_true]
        exact r1
      · simp only [hb, if_false]
        exact r1o b hb
    · rw [s0, t0]
      exact r0
  have hbit3 : m3.test e = true := by
    rw [test_iff]
    refine ⟨by rw [max_entity_eq]; omega, ?_⟩
    rw [t2]
    simp only [and_self, if_true, Nat.testBit_or, Nat.testBit_two_pow_self, Bool.or_true]
  refine ⟨m1, m2, hr, hs2, h23 ▸ hs3, h23 ▸ hbit3, ?_⟩
  intro ht
  have hb2 := ((test_iff m e).mp ht).2
  have hw : m.l2 (e / 4096) (e / 64 % 64) ≠ 0 := by
    intro hz
    rw [hz, Nat.zero_testBit] at hb2
    exact Bool.noConfusion hb2
  have hb1 := hc1 _ _ hs.1 hs.2.1 hw
  have hw1 : m.l1 (e / 4096) ≠ 0 := by
    intro hz
    rw [hz, Nat.zero_testBit] at hb1
    exact Bool.noConfusion hb1
  have hb0 := hc0 _ hs.1 hw1
  rw [h23]
  apply eq_of_words
  · intro b g
    rw [t2]
    by_cases hbg : b = e / 4096 ∧ g = e / 64 % 64
    · simp only [hbg, and_self, if_true]
      exact or_pow_of_testBit hb2
    · simp only [hbg, if_false]
  · intro b
    rw [t1]
    by_cases hb : b = e / 4096
    · simp only [hb, if_true]
      exact or_pow_of_testBit hb1
    · simp only [hb, if_false]
  · rw [t0]
    exact or_pow_of_testBit hb0

theorem summaryOk_clear : SummaryOk clear := by
  refine ⟨by decide, fun _ => Nat.two_pow_pos 64, fun _ _ => Nat.two_pow_pos 64, ?_, ?_⟩
  · intro b g _ _ h
    exact absurd rfl h
  · intro b _ h
    exact absurd rfl h

end SparseFlatBitmap3L

/-- C23, against the claim: on the empty bitmap, `reset(0)` followed by `set(0)`
leaves entity 0 set, in the flat and in the three-level representation alike,
so the bitmap is not the (empty) bitmap it was before the two calls. -/
theorem reset_then_set_on_empty_differs :
    ((ComponentMaskAVX.clear.reset 0).bind (fun m => m.set 0)).map (fun m => m.test 0) =
      some (some true) ∧
    ComponentMaskAVX.clear.test 0 = some false ∧
    (ComponentMaskAVX.clear.reset 0).bind (fun m => m.set 0) ≠ some ComponentMaskAVX.clear ∧
    ((SparseFlatBitmap3L.clear.reset 0).bind (fun m => m.set 0)).map (fun m => m.test 0) =
      some true ∧
    SparseFlatBitmap3L.clear.test 0 = false ∧
    (SparseFlatBitmap3L.clear.reset 0).bind (fun m => m.set 0) ≠
      some SparseFlatBitmap3L.clear := by
  refine ⟨by decide, by decide, ?_, by decide, by decide, ?_⟩
  · intro h
    have h1 := congrArg (fun o => o.map (fun m => ComponentMaskAVX.test m 0)) h
    revert h1
    decide
  · intro h
    have h1 := congrArg (fun o => o.map (fun m => SparseFlatBitmap3L.test m 0)) h
    revert h1
    decide

/-- C23, as the code behaves: for every entity `e` below `MAX_ENTITIES`, on a
flat bitmap of 64-bit words and on a three-level bitmap of 64-bit words whose
summary levels cover its leaves, `reset(e)` followed by `set(e)` completes and
leaves what `set(e)` alone leaves: the bit of `e` is set, and the bitmap equals
the one before the two calls when `test(e)` was true before them. -/
theorem reset_then_set (m : ComponentMaskAVX) (b : SparseFlatBitmap3L) (e : Nat)
    (he : e < MAX_ENTITIES) (hm : m.WordsU64) (hb : b.SummaryOk) :
    (∃ m1 m2, m.reset e = some m1 ∧ m1.set e = some m2 ∧ m.set e = some m2 ∧
      m2.test e = some true ∧ (m.test e = some true → m2 = m)) ∧
    (∃ b1 b2, b.reset e = some b1 ∧ b1.set e = some b2 ∧ b.set e = some b2 ∧
      b2.test e = true ∧ (b.test e = true → b2 = b)) :=
  ⟨ComponentMaskAVX.reset_set hm he, SparseFlatBitmap3L.reset_set3L hb he⟩

theorem reset_then_set_witness :
    (∃ m1 m2, (⟨fun i => if i = 0 then 32 else 0⟩ : ComponentMaskAVX).reset 5 = some m1 ∧
      m1.set 5 = some m2 ∧
      (⟨fun i => if i = 0 then 32 else 0⟩ : ComponentMaskAVX).set 5 = some m2 ∧
      m2.test 5 = some true ∧
      ((⟨fun i => if i = 0 then 32 else 0⟩ : ComponentMaskAVX).test 5 = some true →
        m2 = (⟨fun i => if i = 0 then 32 else 0⟩ : ComponentMaskAVX))) ∧
    (∃ b1 b2,
      (⟨fun b g => if b = 0 ∧ g = 0 then 32 else 0, fun b => if b = 0 then 1 else 0, 1⟩ :
        SparseFlatBitmap3L).reset 5 = some b1 ∧
      b1.set 5 = some b2 ∧
      (⟨fun b g => if b = 0 ∧ g = 0 then 32 else 0, fun b => if b = 0 then 1 else 0, 1⟩ :
        SparseFlatBitmap3L).set 5 = some b2 ∧
      b2.test 5 = true ∧
      ((⟨fun b g => if b = 0 ∧ g = 0 then 32 else 0, fun b => if b = 0 then 1 else 0, 1⟩ :
        SparseFlatBitmap3L).test 5 = true →
        b2 = (⟨fun b g => if b = 0 ∧ g = 0 then 32 else 0, fun b => if b = 0 then 1 else 0, 1⟩ :
        SparseFlatBitmap3L))) :=
  reset_then_set ⟨fun i => if i = 0 then 32 else 0⟩
    ⟨fun b g => if b = 0 ∧ g = 0 then 32 else 0, fun b => if b = 0 then 1 else 0, 1⟩ 5
    (by decide)
    (by intro i; simp only; split <;> decide)
    (by
      refine ⟨by decide, ?_, ?_, ?_, ?_⟩
      · intro b; simp only; split <;> decide
      · intro b g; simp only; split <;> decide
      · intro b g _ _ h
        by_cases hbg : b = 0 ∧ g = 0
        · simp only [hbg.1, hbg.2, if_true]; decide
        · simp only [hbg, if_false] at h; exact absurd rfl h
      · intro b _ h
        by_cases hb : b = 0
        · simp only [hb]; decide
        · simp only [hb, if_false] at h; exact absurd rfl h)

end HBL2

namespace HBL2

namespace SparseFlatBitmap3L

theorem testBit_and_not_pow {w k i : Nat} (hi : i < 64) (hne : k ≠ i) :
    (w &&& ((2 ^ 64 - 1) ^^^ 2 ^ k)).testBit i = w.testBit i := by
  rw [Nat.testBit_and, Nat.testBit_xor, Nat.testBit_two_pow, Nat.testBit_two_pow_sub_one]
  simp [hi, hne]

theorem ne_zero_of_and_ne_zero {a b : Nat} (h : a &&& b ≠ 0) : a ≠ 0 ∧ b ≠ 0 := by
  constructor
  · intro ha; rw [ha, Nat.zero_and] at h; exact h rfl
  · intro hb; rw [hb, Nat.and_zero] at h; exact h rfl

theorem summaryOk_set {m m1 : SparseFlatBitmap3L} {e : Nat} (hm : m.SummaryOk)
    (he : e < MAX_ENTITIES) (h : m.set e = some m1) : m1.SummaryOk := by
  obtain ⟨h0, h1, h2, hc1, hc0⟩ := hm
  have hs := split_lt he
  obtain ⟨m2, hs2, s2, s1, s0⟩ := @set_words m e he
  rw [h] at hs2
  cases hs2
  have p64 : ∀ k, k < 64 → 2 ^ k < 2 ^ 64 := fun k hk => Nat.pow_lt_pow_right (by decide) hk
  refine ⟨?_, ?_, ?_, ?_, ?_⟩
  · rw [s0]; exact Nat.or_lt_two_pow h0 (p64 _ hs.1)
  · intro b
    rw [s1]
    split
    · exact Nat.or_lt_two_pow (h1 _) (p64 _ hs.2.1)
    · exact h1 _
  · intro b g
    rw [s2]
    split
    · exact Nat.or_lt_two_pow (h2 _ _) (p64 _ hs.2.2)
    · exact h2 _ _
  · intro b g hb hg hne
    rw [s2] at hne
    rw [s1]
    by_cases hbg : b = e / 4096 ∧ g = e / 64 % 64
    · simp only [hbg.1, hbg.2, if_true, Nat.testBit_or, Nat.testBit_two_pow_self, Bool.or_true]
    · rw [if_neg hbg] at hne
      have := hc1 b g hb hg hne
      split
      · rw [Nat.testBit_or, this, Bool.true_or]
      · exact this
  · intro b hb hne
    rw [s1] at hne
    rw [s0]
    by_cases hbb : b = e / 4096
    · simp only [hbb, Nat.testBit_or, Nat.testBit_two_pow_self, Bool.or_true]
    · rw [if_neg hbb] at hne
      rw [Nat.testBit_or, hc0 b hb hne, Bool.true_or]

theorem summaryOk_and_with {m o : SparseFlatBitmap3L} (hm : m.SummaryOk) (ho : o.SummaryOk) :
    (m.and_with o).SummaryOk := by
  obtain ⟨h0, h1, h2, hc1, hc0⟩ := hm
  obtain ⟨_, _, _, oc1, oc0⟩ := ho
  refine ⟨?_, ?_, ?_, ?_, ?_⟩
  · exact Nat.lt_of_le_of_lt Nat.and_le_left h0
  · intro b
    simp only [and_with]
    split
    · exact Nat.lt_of_le_of_lt Nat.and_le_left (h1 _)
    · exact h1 _
  · intro b g
    simp only [and_with]
    split
    · exact Nat.lt_of_le_of_lt Nat.and_le_left (h2 _ _)
    · exact h2 _ _
  · intro b g hb hg hne
    have hbg : b < L0_BLOCKS ∧ g < L1_GROUPS := ⟨hb, hg⟩
    have hb' : b < L0_BLOCKS := hb
    simp only [and_with, hbg, and_self, if_true] at hne
    simp only [and_with, hb', if_true]
    obtain ⟨n1, n2⟩ := ne_zero_of_and_ne_zero hne
    rw [Nat.testBit_and, hc1 b g hb hg n1, oc1 b g hb hg n2]
    rfl
  · intro b hb hne
    have hb' : b < L0_BLOCKS := hb
    simp only [and_with, hb', if_true] at hne
    simp only [and_with]
    obtain ⟨n1, n2⟩ := ne_zero_of_and_ne_zero hne
    rw [Nat.testBit_and, hc0 b hb n1, oc0 b hb n2]
    rfl

theorem summaryOk_reset {m m1 : SparseFlatBitmap3L} {e : Nat} (hm : m.SummaryOk)
    (he : e < MAX_ENTITIES) (h : m.reset e = some m1) : m1.SummaryOk := by
  have hm' := hm
  obtain ⟨h0, h1, h2, hc1, hc0⟩ := hm
  have hs := split_lt he
  have hB : e / 4096 < 64 := hs.1
  have hG : e / 64 % 64 < 64 := hs.2.1
  have b1 := one_shiftLeft_mod hs.1
  have b2 := one_shiftLeft_mod hs.2.1
  have b3 := one_shiftLeft_mod hs.2.2
  simp only [reset, split_eq, hs, and_self, if_true, b1, b2, b3] at h
  by_cases c0 : m.l2 (e / 4096) (e / 64 % 64) &&& 2 ^ (e % 64) = 0
  · rw [if_pos c0] at h
    cases h
    exact hm'
  · rw [if_neg c0] at h
    have hwne : m.l2 (e / 4096) (e / 64 % 64) ≠ 0 := (ne_zero_of_and_ne_zero c0).1
    have hl1ne : m.l1 (e / 4096) ≠ 0 := by
      intro hz
      have := hc1 _ _ hB hG hwne
      rw [hz, Nat.zero_testBit] at this
      exact Bool.noConfusion this
    by_cases cw : m.l2 (e / 4096) (e / 64 % 64) &&& ((2 ^ 64 - 1) ^^^ 2 ^ (e % 64)) = 0
    · rw [if_pos cw] at h
      -- the group has become empty: its bit leaves `l1`
      have cover1 : ∀ b g, b < 64 → g < 64 →
          (if b = e / 4096 ∧ g = e / 64 % 64 then
              m.l2 (e / 4096) (e / 64 % 64) &&& ((2 ^ 64 - 1) ^^^ 2 ^ (e % 64))
            else m.l2 b g) ≠ 0 →
          (if b = e / 4096 then
              m.l1 (e / 4096) &&& ((2 ^ 64 - 1) ^^^ 2 ^ (e / 64 % 64))
            else m.l1 b).testBit g = true := by
        intro b g hb hg hne
        by_cases hbg : b = e / 4096 ∧ g = e / 64 % 64
        · rw [if_pos hbg] at hne; exact absurd cw hne
        · rw [if_neg hbg] at hne
          have := hc1 b g hb hg hne
          by_cases hbb : b = e / 4096
          · rw [if_pos hbb]
            have hgg : e / 64 % 64 ≠ g := fun hx => hbg ⟨hbb, hx.symm⟩
            rw [testBit_and_not_pow hg hgg, ← hbb]
            exact this
          · rw [if_neg hbb]; exact this
      have u1 : ∀ b, (if b = e / 4096 then
            m.l1 (e / 4096) &&& ((2 ^ 64 - 1) ^^^ 2 ^ (e / 64 % 64))
          else m.l1 b) < 2 ^ 64 := by
        intro b
        split
        · exact Nat.lt_of_le_of_lt Nat.and_le_left (h1 _)
        · exact h1 _
      have u2 : ∀ b g, (if b = e / 4096 ∧ g = e / 64 % 64 then
            m.l2 (e / 4096) (e / 64 % 64) &&& ((2 ^ 64 - 1) ^^^ 2 ^ (e % 64))
          else m.l2 b g) < 2 ^ 64 := by
        intro b g
        split
        · exact Nat.lt_of_le_of_lt Nat.and_le_left (h2 _ _)
        · exact h2 _ _
      by_cases cw1 : m.l1 (e / 4096) &&& ((2 ^ 64 - 1) ^^^ 2 ^ (e / 64 % 64)) = 0
      · rw [if_pos cw1] at h
        cases h
        refine ⟨Nat.lt_of_le_of_lt Nat.and_le_left h0, u1, u2, cover1, ?_⟩
        · intro b hb hne
          by_cases hbb : b = e / 4096
          · simp only [hbb, if_true] at hne; exact absurd cw1 hne
          · simp only [hbb, if_false] at hne
            have hBb : e / 4096 ≠ b := fun hx => hbb hx.symm
            show (m.l0 &&& ((2 ^ 64 - 1) ^^^ 2 ^ (e / 4096))).testBit b = true
            rw [testBit_and_not_pow hb hBb]
            exact hc0 b hb hne
      · rw [if_neg cw1] at h
        cases h
        refine ⟨h0, u1, u2, cover1, ?_⟩
        intro b hb hne
        by_cases hbb : b = e / 4096
        · rw [hbb]; exact hc0 _ hB hl1ne
        · simp only [hbb, if_false] at hne
          exact hc0 b hb hne
    · rw [if_neg cw] at h
      cases h
      refine ⟨h0, h1, ?_, ?_, hc0⟩
      · intro b g
        show (if b = e / 4096 ∧ g = e / 64 % 64 then _ else m.l2 b g) < 2 ^ 64
        split
        · exact Nat.lt_of_le_of_lt Nat.and_le_left (h2 _ _)
        · exact h2 _ _
      · intro b g hb hg hne
        by_cases hbg : b = e / 4096 ∧ g = e / 64 % 64
        · rw [hbg.1, hbg.2]; exact hc1 _ _ hB hG hwne
        · simp only [hbg, if_false] at hne
          exact hc1 b g hb hg hne

end SparseFlatBitmap3L

namespace BitmapOp

theorem apply_summaryOk {st st1 : Nat → SparseFlatBitmap3L} (op : BitmapOp)
    (h : ∀ r, (st r).SummaryOk) (hop : op.inRange = true) (h1 : apply3L st op = some st1) :
    ∀ r, (st1 r).SummaryOk := by
  cases op with
  | set r e =>
    have he : e < MAX_ENTITIES := of_decide_eq_true hop
    simp only [apply3L, Option.map_eq_some'] at h1
    obtain ⟨m1, hm1, rfl⟩ := h1
    intro k
    by_cases hk : k = r
    · simp only [hk, if_true]; exact SparseFlatBitmap3L.summaryOk_set (h r) he hm1
    · simp only [hk, if_false]; exact h k
  | reset r e =>
    have he : e < MAX_ENTITIES := of_decide_eq_true hop
    simp only [apply3L, Option.map_eq_some'] at h1
    obtain ⟨m1, hm1, rfl⟩ := h1
    intro k
    by_cases hk : k = r
    · simp only [hk, if_true]; exact SparseFlatBitmap3L.summaryOk_reset (h r) he hm1
    · simp only [hk, if_false]; exact h k
  | clear r =>
    simp only [apply3L, Option.some.injEq] at h1
    subst h1
    intro k
    by_cases hk : k = r
    · simp only [hk, if_true]; exact SparseFlatBitmap3L.summaryOk_clear
    · simp only [hk, if_false]; exact h k
  | and_with r o =>
    simp only [apply3L, Option.some.injEq] at h1
    subst h1
    intro k
    by_cases hk : k = r
    · simp only [hk, if_true]; exact SparseFlatBitmap3L.summaryOk_and_with (h r) (h o)
    · simp only [hk, if_false]; exact h k

/-- Every three-level bitmap reached from empty bitmaps by `set`, `reset`,
`clear` and `&=` has summary levels that cover its leaves. -/
theorem run3L_summaryOk (ops : List BitmapOp) :
    ∀ (st st1 : Nat → SparseFlatBitmap3L), (∀ r, (st r).SummaryOk) →
      ops.all inRange = true → ops.foldlM apply3L st = some st1 →
      ∀ r, (st1 r).SummaryOk := by
  induction ops with
  | nil =>
    intro st st1 h _ h1
    simp only [List.foldlM_nil, pure, Option.some.injEq] at h1
    subst h1
    exact h
  | cons op rest ih =>
    intro st st1 h hall h1
    rw [List.all_cons, Bool.and_eq_true] at hall
    rw [List.foldlM_cons] at h1
    cases hop : apply3L st op with
    | none => rw [hop] at h1; exact Option.noConfusion h1
    | some st2 =>
      rw [hop] at h1
      exact ih st2 st1 (apply_summaryOk op h hall.1 hop) hall.2 h1

end BitmapOp

end HBL2

namespace HBL2

/-- C38: `RunAll` leaves the list of registered systems as it was, so a second
`RunAll` with no `Register` in between builds the same batches and executes the
same waves, and each run executes the task of every registered system, in
registration order when the waves are read one after the other; likewise for
`Registry::ExecuteScheduledSystems` of ECS-Alt. -/
theorem runAll_keeps_entries (s : Sceduler) (r : Alt.Registry) :
    s.RunAllState.2 = s ∧
    s.RunAllState.2.m_Entries = s.m_Entries ∧
    s.RunAllState.1 = s.RunAll ∧
    s.RunAllState.2.RunAllState.1 = s.RunAllState.1 ∧
    Sceduler.buildBatches s.RunAllState.2 = Sceduler.buildBatches s ∧
    s.RunAllState.1.flatten = s.m_Entries.map SystemEntry.Task ∧
    s.RunAllState.2.RunAllState.1.flatten = s.m_Entries.map SystemEntry.Task ∧
    r.ExecuteScheduledSystems.2 = r ∧
    r.ExecuteScheduledSystems.2.ExecuteScheduledSystems.1 = r.ExecuteScheduledSystems.1 := by
  have hflat : s.RunAllState.1.flatten = s.m_Entries.map SystemEntry.Task := by
    have h := (Sceduler.batchInv_buildBatches s).flat
    simp only [List.nil_append] at h
    show (List.map (fun batch => batch.map SystemEntry.Task)
      (s.m_Entries.foldl Sceduler.step Sceduler.initState).batches).flatten = _
    rw [← List.map_flatten, h]
  exact ⟨rfl, rfl, rfl, rfl, rfl, hflat, hflat, rfl, rfl⟩

/-- C40, against the claim: a freshly constructed `SingletonComponentStorage`
holds no component, yet `Has(UINT32_MAX)` is true (the stored "no entity"
value compares equal) and `Indices()` is the one-element span over `m_Entity`,
not empty; the same after `Add(3)`, `Remove(3)` and after `Clear()`. -/
theorem singleton_empty_has_sentinel :
    (SingletonComponentStorage.fresh : SingletonComponentStorage Nat).Has UINT32_MAX = true ∧
    (SingletonComponentStorage.fresh : SingletonComponentStorage Nat).Indices = [UINT32_MAX] ∧
    (((SingletonComponentStorage.fresh : SingletonComponentStorage Nat).Add 3).1.Remove 3).Has
      UINT32_MAX = true ∧
    (((SingletonComponentStorage.fresh : SingletonComponentStorage Nat).Add 3).1.Clear).Indices =
      [UINT32_MAX] := by
  decide

/-- C40, as the code behaves by design: a `SingletonComponentStorage` holds no
component exactly when `m_Entity` is `UINT32_MAX`, which is so for a fresh
store, after `Clear()` and after `Remove` of the entity it holds; then `Has(e)`
is false and `Get(e)` is `nullptr` for every entity value `e` other than
`UINT32_MAX`. -/
theorem singleton_empty_has_none {T : Type} [Inhabited T] (s : SingletonComponentStorage T)
    (e : Entity) (he : e ≠ UINT32_MAX) :
    (SingletonComponentStorage.fresh : SingletonComponentStorage T).m_Entity = UINT32_MAX ∧
    s.Clear.m_Entity = UINT32_MAX ∧
    (s.Remove s.m_Entity).m_Entity = UINT32_MAX ∧
    (s.m_Entity = UINT32_MAX → s.Has e = false ∧ s.Get e = none) ∧
    (SingletonComponentStorage.fresh : SingletonComponentStorage T).Has e = false ∧
    s.Clear.Has e = false ∧ (s.Remove s.m_Entity).Has e = false := by
  have key : ∀ t : SingletonComponentStorage T, t.m_Entity = UINT32_MAX →
      t.Has e = false ∧ t.Get e = none := by
    intro t ht
    have hne : ¬ t.m_Entity = e := fun h => he (h ▸ ht)
    simp only [SingletonComponentStorage.Has, SingletonComponentStorage.Get, hne, if_false,
      and_self]
  have h1 : (SingletonComponentStorage.fresh : SingletonComponentStorage T).m_Entity =
      UINT32_MAX := rfl
  have h2 : s.Clear.m_Entity = UINT32_MAX := rfl
  have h3 : (s.Remove s.m_Entity).m_Entity = UINT32_MAX := by
    simp only [SingletonComponentStorage.Remove, if_true]
  exact ⟨h1, h2, h3, key s, (key _ h1).1, (key _ h2).1, (key _ h3).1⟩

theorem singleton_empty_has_none_witness :
    (SingletonComponentStorage.fresh : SingletonComponentStorage Nat).m_Entity = UINT32_MAX ∧
    (⟨7, 3, ComponentMaskAVX.clear⟩ : SingletonComponentStorage Nat).Clear.m_Entity =
      UINT32_MAX ∧
    ((⟨7, 3, ComponentMaskAVX.clear⟩ : SingletonComponentStorage Nat).Remove
      (⟨7, 3, ComponentMaskAVX.clear⟩ : SingletonComponentStorage Nat).m_Entity).m_Entity =
      UINT32_MAX ∧
    ((⟨7, 3, ComponentMaskAVX.clear⟩ : SingletonComponentStorage Nat).m_Entity = UINT32_MAX →
      (⟨7, 3, ComponentMaskAVX.clear⟩ : SingletonComponentStorage Nat).Has 5 = false ∧
      (⟨7, 3, ComponentMaskAVX.clear⟩ : SingletonComponentStorage Nat).Get 5 = none) ∧
    (SingletonComponentStorage.fresh : SingletonComponentStorage Nat).Has 5 = false ∧
    (⟨7, 3, ComponentMaskAVX.clear⟩ : SingletonComponentStorage Nat).Clear.Has 5 = false ∧
    ((⟨7, 3, ComponentMaskAVX.clear⟩ : SingletonComponentStorage Nat).Remove
      (⟨7, 3, ComponentMaskAVX.clear⟩ : SingletonComponentStorage Nat).m_Entity).Has 5 =
      false :=
  singleton_empty_has_none ⟨7, 3, ComponentMaskAVX.clear⟩ 5 (by decide)

/-- C33, the code against the claim: with `A` holding only entity 0 and `B` only
entity 1, `A &= B` ANDs the summary words, which both have the bit of group 0
and of block 0, so afterwards the leaf word `l2[0][0]` is zero while bit 0 of
`l1[0]` and bit 0 of `l0` are still set: `any()` is true although `test(e)` is
false for every `e`. -/
theorem and_with_leaves_stale_summary :
    ∃ a b, SparseFlatBitmap3L.clear.set 0 = some a ∧ SparseFlatBitmap3L.clear.set 1 = some b ∧
      (a.and_with b).l2 0 0 = 0 ∧ ((a.and_with b).l1 0).testBit 0 = true ∧
      (a.and_with b).l1 0 ≠ 0 ∧ (a.and_with b).l0.testBit 0 = true ∧
      (a.and_with b).any = true ∧ ∀ e, (a.and_with b).test e = false := by
  obtain ⟨a, ha, a2, a1, a0⟩ := @SparseFlatBitmap3L.set_words SparseFlatBitmap3L.clear 0
    (by decide)
  obtain ⟨b, hb, b2, b1, b0⟩ := @SparseFlatBitmap3L.set_words SparseFlatBitmap3L.clear 1
    (by decide)
  have hl2 : ∀ x y, (a.and_with b).l2 x y = 0 := by
    intro x y
    simp only [SparseFlatBitmap3L.and_with, a2, b2, SparseFlatBitmap3L.clear]
    by_cases hxy : x = 0 ∧ y = 0
    · simp [hxy.1, hxy.2, L0_BLOCKS, L1_GROUPS]
    · have h1 : ¬ (x = 0 / 4096 ∧ y = 0 / 64 % 64) := by simpa using hxy
      have h2 : ¬ (x = 1 / 4096 ∧ y = 1 / 64 % 64) := by simpa using hxy
      simp [h1, h2]
  have hl1 : (a.and_with b).l1 0 = 1 := by
    simp [SparseFlatBitmap3L.and_with, a1, b1, SparseFlatBitmap3L.clear,
      L0_BLOCKS]
  have hl0 : (a.and_with b).l0 = 1 := by
    simp [SparseFlatBitmap3L.and_with, a0, b0, SparseFlatBitmap3L.clear]
  refine ⟨a, b, ha, hb, hl2 0 0, by rw [hl1]; decide, by rw [hl1]; decide,
    by rw [hl0]; decide, by simp [SparseFlatBitmap3L.any, hl0], ?_⟩
  intro e
  cases ht : (a.and_with b).test e with
  | false => rfl
  | true =>
    have := ((SparseFlatBitmap3L.test_iff _ e).mp ht).2
    rw [hl2, Nat.zero_testBit] at this
    exact Bool.noConfusion this

end HBL2

namespace HBL2

open SparseComponentStorage StorageOp

/-- A sequence that keeps the `Has` discipline and completes keeps the storage
consistent. -/
theorem run_inv_hasGuarded {T : Type} [Inhabited T] (ops : List (StorageOp T)) :
    ∀ s s2 : SparseComponentStorage T, StorageInv s → hasGuarded s ops = true →
      run s ops = some s2 → StorageInv s2 := by
  induction ops with
  | nil =>
    intro s s2 hinv _ hr
    simp only [run, Option.some.injEq] at hr
    exact hr ▸ hinv
  | cons op rest ih =>
    intro s s2 hinv hg hr
    cases op with
    | add f v =>
      simp only [run, apply] at hr
      cases ha : s.AddComponent f v with
      | none => rw [ha] at hr; exact Option.noConfusion hr
      | some s1 =>
        rw [ha, Option.some_bind] at hr
        simp only [hasGuarded, ha, Bool.and_eq_true, Bool.not_eq_true'] at hg
        exact ih s1 s2 (inv_addComponent hinv hg.1 ha) hg.2 hr
    | remove f =>
      simp only [run, apply] at hr
      cases ha : s.RemoveComponent f with
      | none => rw [ha] at hr; exact Option.noConfusion hr
      | some s1 =>
        rw [ha, Option.some_bind] at hr
        simp only [hasGuarded, ha, Bool.and_eq_true] at hg
        obtain ⟨s1', h1, hinv1, _⟩ := Remove_facts hinv f hg.1
        have : s1 = s1' := by
          simp only [RemoveComponent, hg.1, Bool.not_true, Bool.false_eq_true, if_false] at ha
          rw [h1] at ha
          exact (Option.some.inj ha).symm
        exact ih s1 s2 (this ▸ hinv1) hg.2 hr

/-- C32, against the claim: after add 0, add 0, remove 0 (the remove made where
`Has(0)` holds) the entity list is `[0]` and `packed` has one entry, but the
sparse slot of entity 0 is the tombstone: the packed entry at position 0
belongs to an entity whose slot holds no in-range index. -/
theorem stale_entry_after_double_add :
    ((run (SparseComponentStorage.empty : SparseComponentStorage Nat)
        [.add 0 1, .add 0 2, .remove 0]).map
      (fun s => (s.indices, s.packed.length,
        (readSlot s.sparsePages 0).map UnpackIndex, Has s 0))) =
      some ([0], 1, some INDEX_MASK, false) ∧
    ¬ INDEX_MASK < 1 := by
  decide

/-- C32, as the code behaves: in every state reached from the empty storage by
calls that add only to entities lacking the component (removes anywhere), for
every position `i` below the packed length the sparse slot of `entities[i]`
holds the index `i` itself, which is in range and not the tombstone, and `Has`
is true for that entity. -/
theorem packed_entries_point_back {T : Type} [Inhabited T] (ops : List (StorageOp T))
    (hfresh : freshAdds (SparseComponentStorage.empty : SparseComponentStorage T) ops = true) :
    ∃ s, run (SparseComponentStorage.empty : SparseComponentStorage T) ops = some s ∧
      s.packed.length = s.indices.length ∧
      ∀ (i : Nat) (e : Entity), s.indices[i]? = some e →
        ∃ iv, readSlot s.sparsePages e = some iv ∧ UnpackIndex iv = i ∧
          UnpackIndex iv < s.packed.length ∧ UnpackIndex iv ≠ INDEX_MASK ∧
          s.indices[UnpackIndex iv]? = some e ∧ Has s e = true := by
  obtain ⟨s, hrun, hinv⟩ := run_inv_all ops hfresh
  refine ⟨s, hrun, hinv.len, ?_⟩
  intro i e hi
  obtain ⟨iv, hr, hidx⟩ := hinv.fwd i e hi
  have hlt : i < s.indices.length := by
    by_contra hge
    rw [List.getElem?_eq_none (Nat.le_of_not_lt hge)] at hi
    exact Option.noConfusion hi
  have hmask := inv_length_lt_mask hinv
  have hne : UnpackIndex iv ≠ INDEX_MASK := by omega
  refine ⟨iv, hr, hidx, ?_, hne, ?_, ?_⟩
  · rw [hidx, hinv.len]; exact hlt
  · rw [hidx]; exact hi
  · exact (Has_eq_true_iff s e).mpr ⟨iv, hr, hne⟩

theorem packed_entries_point_back_witness :
    ∃ s, run (SparseComponentStorage.empty : SparseComponentStorage Nat)
        [.add 0 1, .add 4 2, .remove 0, .add 0 3] = some s ∧
      s.packed.length = s.indices.length ∧
      ∀ (i : Nat) (e : Entity), s.indices[i]? = some e →
        ∃ iv, readSlot s.sparsePages e = some iv ∧ UnpackIndex iv = i ∧
          UnpackIndex iv < s.packed.length ∧ UnpackIndex iv ≠ INDEX_MASK ∧
          s.indices[UnpackIndex iv]? = some e ∧ Has s e = true :=
  packed_entries_point_back [.add 0 1, .add 4 2, .remove 0, .add 0 3] (by decide)

/-- C35: in every state reached from the empty storage by adding only entities
for which `Has` is false and removing only entities for which `Has` is true,
the entity list has no duplicates, it lists exactly the entities `e` with
`Has(e)` true, `Has(e)` is true exactly when `Mask().test(e)` is true, and for
`e` below `MAX_ENTITIES` `Mask().test(e)` returns the value of `Has(e)`. -/
theorem guarded_store_consistent {T : Type} [Inhabited T] (ops : List (StorageOp T))
    (s : SparseComponentStorage T)
    (hg : hasGuarded (SparseComponentStorage.empty : SparseComponentStorage T) ops = true)
    (hr : run (SparseComponentStorage.empty : SparseComponentStorage T) ops = some s) :
    s.Indices.Nodup ∧ (∀ e : Entity, e ∈ s.Indices ↔ Has s e = true) ∧
    (∀ e : Entity, Has s e = true ↔ s.Mask.test e = some true) ∧
    (∀ e : Entity, e < MAX_ENTITIES → s.Mask.test e = some (Has s e)) := by
  have hinv := run_inv_hasGuarded ops _ s inv_empty hg hr
  exact ⟨inv_nodup hinv, fun e => (inv_has_iff_mem hinv e).symm, has_iff_test hinv,
    hinv.maskOk⟩

theorem guarded_store_consistent_witness :
    ∃ s, run (SparseComponentStorage.empty : SparseComponentStorage Nat)
        [.add 0 1, .add 4 2, .remove 0, .add 0 3] = some s ∧
      s.Indices.Nodup ∧ (∀ e : Entity, e ∈ s.Indices ↔ Has s e = true) ∧
      (∀ e : Entity, Has s e = true ↔ s.Mask.test e = some true) ∧
      (∀ e : Entity, e < MAX_ENTITIES → s.Mask.test e = some (Has s e)) := by
  obtain ⟨s, hs, _⟩ := run_inv_all
    ([.add 0 1, .add 4 2, .remove 0, .add 0 3] : List (StorageOp Nat)) (by decide)
  exact ⟨s, hs, guarded_store_consistent [.add 0 1, .add 4 2, .remove 0, .add 0 3] s
    (by decide) hs⟩

end HBL2

namespace HBL2

namespace Sceduler

theorem and_or_ne_zero {x a b : Nat} (h : x &&& (a ||| b) ≠ 0) :
    x &&& a ≠ 0 ∨ x &&& b ≠ 0 := by
  by_contra hcon
  push_neg at hcon
  apply h
  apply Nat.eq_of_testBit_eq
  intro i
  have h1 := congrArg (fun n => n.testBit i) hcon.1
  have h2 := congrArg (fun n => n.testBit i) hcon.2
  simp only [Nat.testBit_and, Nat.zero_testBit] at h1 h2
  rw [Nat.testBit_and, Nat.testBit_or, Nat.zero_testBit, Bool.and_or_distrib_left, h1, h2]
  rfl

theorem chain'_getElem? {α : Type} {R : α → α → Prop} :
    ∀ (l : List α) (k : Nat) (a b : α), List.Chain' R l → l[k]? = some a →
      l[k + 1]? = some b → R a b := by
  intro l
  induction l with
  | nil => intro k a b _ h; simp at h
  | cons x l ih =>
    intro k a b hc ha hb
    rw [List.chain'_cons'] at hc
    cases k with
    | zero =>
      simp only [List.getElem?_cons_zero, Option.some.injEq] at ha
      rw [List.getElem?_cons_succ] at hb
      subst ha
      apply hc.1
      cases l with
      | nil => simp at hb
      | cons y l =>
        simp only [List.getElem?_cons_zero, Option.some.injEq] at hb
        simp [hb]
    | succ k =>
      rw [List.getElem?_cons_succ] at ha hb
      exact ih k a b hc.2 ha hb

theorem sealInv_init : SealInv initState where
  shape := ⟨[], [], rfl, by simp, by simp [initState], by simp [initState]⟩
  chain := by simp [initState]

theorem conflict_eq_true (sys : SystemEntry) (r w : Nat) (h : conflict sys r w = true) :
    sys.WriteMask &&& w ≠ 0 ∨ sys.WriteMask &&& r ≠ 0 ∨ sys.ReadMask &&& w ≠ 0 := by
  simpa [conflict, or_assoc] using h

/-- One iteration keeps the invariant and leaves the current batch with the
system just added. -/
theorem sealInv_step {st : BatchState} (h : SealInv st) (sys : SystemEntry) :
    SealInv (step st sys) ∧ ∀ b ∈ (step st sys).batches, b ≠ [] := by
  obtain ⟨pre, cur, hb, hpre, hR, hW⟩ := h.shape
  have hchain := h.chain
  by_cases hc : conflict sys st.batchReadMask st.batchWriteMask = true
  · -- a new batch is opened
    have hconf : ∃ s ∈ cur, Conflicting sys s := by
      rcases conflict_eq_true sys _ _ hc with h1 | h1 | h1
      · obtain ⟨m, hm, hx⟩ := hW _ h1
        exact ⟨m, hm, Or.inl hx⟩
      · obtain ⟨m, hm, hx⟩ := hR _ h1
        exact ⟨m, hm, Or.inr (Or.inl hx)⟩
      · obtain ⟨m, hm, hx⟩ := hW _ h1
        exact ⟨m, hm, Or.inr (Or.inr hx)⟩
    have hcur : cur ≠ [] := by
      obtain ⟨m, hm, _⟩ := hconf
      exact List.ne_nil_of_mem hm
    have hbat : (step st sys).batches = (pre ++ [cur]) ++ [[sys]] := by
      simp only [step, hc, if_true, hb]
      rw [pushCurrent_append_singleton]
      rfl
    have hall : ∀ b ∈ pre ++ [cur], b ≠ [] := by
      intro b hb'
      rcases List.mem_append.mp hb' with h1 | h1
      · exact hpre b h1
      · rw [List.mem_singleton.mp h1]; exact hcur
    refine ⟨⟨⟨pre ++ [cur], [sys], hbat, hall, ?_, ?_⟩, ?_⟩, ?_⟩
    · intro x hx
      have : (step st sys).batchReadMask = 0 ||| sys.ReadMask := by
        simp only [step, hc, if_true]
      rw [this, Nat.zero_or] at hx
      exact ⟨sys, List.mem_singleton.mpr rfl, hx⟩
    · intro x hx
      have : (step st sys).batchWriteMask = 0 ||| sys.WriteMask := by
        simp only [step, hc, if_true]
      rw [this, Nat.zero_or] at hx
      exact ⟨sys, List.mem_singleton.mpr rfl, hx⟩
    · rw [hbat, List.chain'_append]
      refine ⟨hb ▸ hchain, List.chain'_singleton _, ?_⟩
      intro x hx y hy
      simp only [List.getLast?_append, List.getLast?_singleton, Option.mem_def] at hx
      have hx' : cur = x := by simpa [Option.or] using hx
      simp only [List.head?_cons, Option.mem_def, Option.some.injEq] at hy
      subst hx'
      subst hy
      exact ⟨sys, [], rfl, hconf⟩
    · intro b hb'
      rw [hbat] at hb'
      rcases List.mem_append.mp hb' with h1 | h1
      · exact hall b h1
      · rw [List.mem_singleton.mp h1]; exact List.cons_ne_nil _ _
  · -- the system joins the current batch
    have hc' : conflict sys st.batchReadMask st.batchWriteMask = false := by
      cases hv : conflict sys st.batchReadMask st.batchWriteMask with
      | true => exact absurd hv hc
      | false => rfl
    have hbat : (step st sys).batches = pre ++ [cur ++ [sys]] := by
      simp only [step, hc', Bool.false_eq_true, if_false, hb]
      exact pushCurrent_append_singleton pre cur sys
    have hmR : (step st sys).batchReadMask = st.batchReadMask ||| sys.ReadMask := by
      simp only [step, hc', Bool.false_eq_true, if_false]
    have hmW : (step st sys).batchWriteMask = st.batchWriteMask ||| sys.WriteMask := by
      simp only [step, hc', Bool.false_eq_true, if_false]
    refine ⟨⟨⟨pre, cur ++ [sys], hbat, hpre, ?_, ?_⟩, ?_⟩, ?_⟩
    · intro x hx
      rw [hmR] at hx
      rcases and_or_ne_zero hx with h1 | h1
      · obtain ⟨m, hm, hx'⟩ := hR x h1
        exact ⟨m, List.mem_append_left _ hm, hx'⟩
      · exact ⟨sys, List.mem_append_right _ (List.mem_singleton.mpr rfl), h1⟩
    · intro x hx
      rw [hmW] at hx
      rcases and_or_ne_zero hx with h1 | h1
      · obtain ⟨m, hm, hx'⟩ := hW x h1
        exact ⟨m, List.mem_append_left _ hm, hx'⟩
      · exact ⟨sys, List.mem_append_right _ (List.mem_singleton.mpr rfl), h1⟩
    · rw [hb, List.chain'_append] at hchain
      rw [hbat, List.chain'_append]
      refine ⟨hchain.1, List.chain'_singleton _, ?_⟩
      intro x hx y hy
      simp only [List.head?_cons, Option.mem_def, Option.some.injEq] at hy
      subst hy
      obtain ⟨first, rest, hcur, hs⟩ := hchain.2.2 x hx cur (by simp)
      exact ⟨first, rest ++ [sys], by rw [hcur]; rfl, hs⟩
    · intro b hb'
      rw [hbat] at hb'
      rcases List.mem_append.mp hb' with h1 | h1
      · exact hpre b h1
      · rw [List.mem_singleton.mp h1]; simp

theorem sealInv_foldl (entries : List SystemEntry) :
    ∀ st : BatchState, SealInv st → SealInv (entries.foldl step st) := by
  induction entries with
  | nil => intro st h; exact h
  | cons sys rest ih =>
    intro st h
    exact ih _ (sealInv_step h sys).1

end Sceduler

/-- C37: when at least one system is registered, every batch that `RunAll`
builds is non-empty, and every batch after the first starts with a system that
conflicts (write/write, write/read or read/write) with at least one system of
the batch immediately before it. -/
theorem batches_nonempty_and_sealed_by_conflict (entries : List SystemEntry)
    (hne : entries ≠ []) :
    (∀ b ∈ Sceduler.buildBatches (Sceduler.registerAll Sceduler.empty entries), b ≠ []) ∧
    ∀ (k : Nat) (prev next : List SystemEntry),
      (Sceduler.buildBatches (Sceduler.registerAll Sceduler.empty entries))[k]? = some prev →
      (Sceduler.buildBatches (Sceduler.registerAll Sceduler.empty entries))[k + 1]? =
        some next →
      ∃ first rest, next = first :: rest ∧ ∃ s ∈ prev, Conflicting first s := by
  have hent : (Sceduler.registerAll Sceduler.empty entries).m_Entries = entries := by
    rw [Sceduler.registerAll_entries]; rfl
  have hbb : Sceduler.buildBatches (Sceduler.registerAll Sceduler.empty entries) =
      (entries.foldl Sceduler.step Sceduler.initState).batches := by
    rw [Sceduler.buildBatches, hent]
  rw [hbb]
  constructor
  · obtain ⟨init, last, rfl⟩ : ∃ init last, entries = init ++ [last] := by
      rcases List.eq_nil_or_concat entries with h | ⟨i, l, h⟩
      · exact absurd h hne
      · exact ⟨i, l, by rw [h, List.concat_eq_append]⟩
    rw [List.foldl_append, List.foldl_cons, List.foldl_nil]
    exact (Sceduler.sealInv_step
      (Sceduler.sealInv_foldl init _ Sceduler.sealInv_init) last).2
  · intro k prev next hk hk1
    exact Sceduler.chain'_getElem? _ k prev next
      (Sceduler.sealInv_foldl entries _ Sceduler.sealInv_init).chain hk hk1

theorem batches_nonempty_and_sealed_by_conflict_witness :
    (∀ b ∈ Sceduler.buildBatches (Sceduler.registerAll Sceduler.empty (fourSystems 0 1 2)),
      b ≠ []) ∧
    ∀ (k : Nat) (prev next : List SystemEntry),
      (Sceduler.buildBatches (Sceduler.registerAll Sceduler.empty (fourSystems 0 1 2)))[k]? =
        some prev →
      (Sceduler.buildBatches (Sceduler.registerAll Sceduler.empty (fourSystems 0 1 2)))[k + 1]? =
        some next →
      ∃ first rest, next = first :: rest ∧ ∃ s ∈ prev, Conflicting first s :=
  batches_nonempty_and_sealed_by_conflict (fourSystems 0 1 2) (by decide)

end HBL2

namespace HBL2

set_option maxRecDepth 8000

/-- C34, the code against the claim (and against its own comment, "TODO:
optionally remove from all arrays"): entity 0 is created and given the component
42 of type 0. After `DestroyEntity(0)` the array of that type still holds the
component and the entity (`m_Packed = [42]`, `m_Indices = [0]`), `Has(0)` is
false, and `Run` (the loop of `View().ForEach`) still calls the function on 42;
after `RemoveComponent(0)` instead the array is empty and `Run` calls it on
nothing. -/
theorem destroyEntity_keeps_component :
    ((((Alt.RegistryData.init : Alt.RegistryData Nat).CreateEntity.2.AddComponent 0 0 42).bind
        (fun r => r.DestroyEntity 0)).bind
      (fun r => (r.Run 0).bind (fun out => (out.2.array 0).map (fun arr =>
        (out.1, arr.m_Packed, arr.m_Indices, arr.Has 0))))) =
      some ([42], [42], [0], false) ∧
    ((((Alt.RegistryData.init : Alt.RegistryData Nat).CreateEntity.2.AddComponent 0 0 42).bind
        (fun r => r.RemoveComponent 0 0)).bind
      (fun r => (r.Run 0).bind (fun out => (out.2.array 0).map (fun arr =>
        (out.1, arr.m_Packed, arr.m_Indices, arr.Has 0))))) =
      some ([], [], [], false) ∧
    (Alt.RegistryData.init : Alt.RegistryData Nat).CreateEntity.1 = 0 := by
  decide

end HBL2

namespace HBL2

namespace EntityManager

end EntityManager

end HBL2

namespace HBL2

namespace Registry

variable {T : Type}

end Registry

end HBL2

namespace HBL2

namespace SparseComponentStorage

variable {T : Type}

/-- What a completed `Remove` has read and written. -/
theorem Remove_of_some {s s1 : SparseComponentStorage T} {e : Nat}
    (h : Remove s e = some s1) :
    ∃ old last lastComp siv,
      Has s e = true ∧
      readSlot s.sparsePages e = some old ∧ s.indices.getLast? = some last ∧
      s.packed.getLast? = some lastComp ∧ readSlot s.sparsePages last = some siv ∧
      UnpackIndex old < s.packed.length ∧ UnpackIndex old < s.indices.length ∧
      s1.packed = (s.packed.set (UnpackIndex old) lastComp).dropLast ∧
      s1.indices = (s.indices.set (UnpackIndex old) last).dropLast ∧
      (∀ f, s1.mask.test f = if f = e then some false else s.mask.test f) ∧
      (∀ f, readSlot s1.sparsePages f =
        if f = e then
          some (PackIndexVersion INDEX_MASK ((UnpackVersion old + 1) % 2 ^ 32))
        else if f = last then
          some (PackIndexVersion (UnpackIndex old % 2 ^ 32) (UnpackVersion siv))
        else readSlot s.sparsePages f) := by
  unfold Remove at h
  by_cases hHas : Has s e = true
  · rw [if_pos hHas] at h
    cases hold : readSlot s.sparsePages e with
    | none => simp [hold] at h
    | some old =>
      cases hlast : s.indices.getLast? with
      | none => simp [hold, hlast] at h
      | some last =>
        cases hlastC : s.packed.getLast? with
        | none => simp [hold, hlast, hlastC] at h
        | some lastComp =>
          simp only [hold, hlast, hlastC, Option.bind_eq_bind, Option.some_bind, -Nat.reducePow] at h
          by_cases hlt : UnpackIndex old < s.packed.length ∧ UnpackIndex old < s.indices.length
          · rw [if_pos hlt] at h
            cases hsiv : readSlot s.sparsePages last with
            | none => simp [hsiv] at h
            | some siv =>
              simp only [hsiv, Option.some_bind, -Nat.reducePow] at h
              cases hw1 : writeSlot s.sparsePages last
                  (PackIndexVersion (UnpackIndex old % 2 ^ 32) (UnpackVersion siv)) with
              | none => simp [hw1, -Nat.reducePow] at h
              | some pages1 =>
                simp only [hw1, Option.some_bind, -Nat.reducePow] at h
                cases hw2 : writeSlot pages1 e
                    (PackIndexVersion INDEX_MASK ((UnpackVersion old + 1) % 2 ^ 32)) with
                | none => simp [hw2, -Nat.reducePow] at h
                | some pages2 =>
                  simp only [hw2, Option.some_bind, -Nat.reducePow] at h
                  cases hm : s.mask.reset e with
                  | none => simp [hm] at h
                  | some m1 =>
                    simp only [hm, Option.some_bind, Option.pure_def, Option.some.injEq, -Nat.reducePow] at h
                    subst h
                    refine ⟨old, last, lastComp, siv, hHas, rfl, rfl, rfl, hsiv, hlt.1, hlt.2,
                      rfl, rfl, ?_, ?_⟩
                    · intro f; exact ComponentMaskAVX.test_reset hm f
                    · intro f
                      rw [readSlot_writeSlot hw2 f, readSlot_writeSlot hw1 f]
          · rw [if_neg hlt] at h
            exact Option.noConfusion h
  · rw [if_neg hHas] at h
    exact Option.noConfusion h

end SparseComponentStorage

end HBL2

namespace HBL2

namespace SparseComponentStorage

variable {T : Type}

/-- An add leaves `Has` of every other entity as it was. -/
theorem Has_addComponent_ne [Inhabited T] {s s1 : SparseComponentStorage T} {e : Nat} {v : T}
    (h : AddComponent s e v = some s1) (f : Nat) (hfe : f ≠ e) :
    Has s1 f = Has s f := by
  have he : e < MAX_ENTITIES := addComponent_lt h
  obtain ⟨s2, iv0, hadd, _, _, _, _, hr⟩ := AddComponent_spec s e v he
  rw [h] at hadd
  cases hadd
  rw [Has_eq, Has_eq, hr f]
  simp only [hfe, if_false]
  rw [readSlot_ensurePage]
  cases hs : readSlot s.sparsePages f with
  | some x => rfl
  | none =>
    by_cases hq : f >>> PAGE_SHIFT = e >>> PAGE_SHIFT
    · simp [hq, unpackIndex_tombstone]
    · simp [hq]

end SparseComponentStorage

namespace StorageOp

variable {T : Type}

end StorageOp

end HBL2

namespace HBL2

open SparseComponentStorage StorageOp

end HBL2

namespace HBL2

namespace SparseFlatBitmap3L

theorem ne_zero_of_testBit {a i : Nat} (h : a.testBit i = true) : a ≠ 0 := by
  intro hz
  rw [hz, Nat.zero_testBit] at h
  exact Bool.noConfusion h

theorem or_pow_ne_zero (a i : Nat) : a ||| 2 ^ i ≠ 0 :=
  ne_zero_of_testBit (i := i) (by simp [Nat.testBit_or, Nat.testBit_two_pow_self])

theorem testBit_and_not_pow_self (w : Nat) {k : Nat} (hk : k < 64) :
    (w &&& ((2 ^ 64 - 1) ^^^ 2 ^ k)).testBit k = false := by
  rw [Nat.testBit_and, Nat.testBit_xor, Nat.testBit_two_pow_self,
    Nat.testBit_two_pow_sub_one]
  simp [hk]

theorem summaryExact_clear : SummaryExact clear := by
  refine ⟨summaryOk_clear, ?_, ?_⟩
  · intro b g _ _ h
    simp [clear] at h
  · intro b _ h
    simp [clear] at h

theorem summaryExact_set {m m1 : SparseFlatBitmap3L} {e : Nat} (hm : m.SummaryExact)
    (he : e < MAX_ENTITIES) (h : m.set e = some m1) : m1.SummaryExact := by
  obtain ⟨hok, hx1, hx0⟩ := hm
  obtain ⟨m2, hs2, s2, s1, s0⟩ := @set_words m e he
  rw [h] at hs2
  cases hs2
  refine ⟨summaryOk_set hok he h, ?_, ?_⟩
  · intro b g hb hg hbit
    rw [s1] at hbit
    rw [s2]
    by_cases hbb : b = e / 4096
    · rw [if_pos hbb, Nat.testBit_or, Nat.testBit_two_pow] at hbit
      by_cases hgg : g = e / 64 % 64
      · rw [if_pos ⟨hbb, hgg⟩]
        exact or_pow_ne_zero _ _
      · have hne : ¬ (b = e / 4096 ∧ g = e / 64 % 64) := fun hx => hgg hx.2
        have hgg2 : ¬ e / 64 % 64 = g := fun hx => hgg hx.symm
        rw [if_neg hne]
        simp only [hgg2, decide_False, Bool.or_false] at hbit
        exact hx1 b g hb hg hbit
    · have hne : ¬ (b = e / 4096 ∧ g = e / 64 % 64) := fun hx => hbb hx.1
      rw [if_neg hbb] at hbit
      rw [if_neg hne]
      exact hx1 b g hb hg hbit
  · intro b hb hbit
    rw [s0, Nat.testBit_or, Nat.testBit_two_pow] at hbit
    rw [s1]
    by_cases hbb : b = e / 4096
    · rw [if_pos hbb]
      exact or_pow_ne_zero _ _
    · have hbb2 : ¬ e / 4096 = b := fun hx => hbb hx.symm
      rw [if_neg hbb]
      simp only [hbb2, decide_False, Bool.or_false] at hbit
      exact hx0 b hb hbit

theorem summaryExact_reset {m m1 : SparseFlatBitmap3L} {e : Nat} (hm : m.SummaryExact)
    (he : e < MAX_ENTITIES) (h : m.reset e = some m1) : m1.SummaryExact := by
  have hm' := hm
  obtain ⟨hok, hx1, hx0⟩ := hm
  refine ⟨summaryOk_reset hok he h, ?_⟩
  have hs := split_lt he
  have hB : e / 4096 < 64 := hs.1
  have hG : e / 64 % 64 < 64 := hs.2.1
  have b1 := one_shiftLeft_mod hs.1
  have b2 := one_shiftLeft_mod hs.2.1
  have b3 := one_shiftLeft_mod hs.2.2
  simp only [reset, split_eq, hs, and_self, if_true, b1, b2, b3] at h
  by_cases c0 : m.l2 (e / 4096) (e / 64 % 64) &&& 2 ^ (e % 64) = 0
  · rw [if_pos c0] at h
    cases h
    exact ⟨hx1, hx0⟩
  · rw [if_neg c0] at h
    by_cases cw : m.l2 (e / 4096) (e / 64 % 64) &&& ((2 ^ 64 - 1) ^^^ 2 ^ (e % 64)) = 0
    · rw [if_pos cw] at h
      -- the group has become empty: its bit leaves `l1`
      have exact1 : ∀ b g, b < 64 → g < 64 →
          (if b = e / 4096 then
              m.l1 (e / 4096) &&& ((2 ^ 64 - 1) ^^^ 2 ^ (e / 64 % 64))
            else m.l1 b).testBit g = true →
          (if b = e / 4096 ∧ g = e / 64 % 64 then
              m.l2 (e / 4096) (e / 64 % 64) &&& ((2 ^ 64 - 1) ^^^ 2 ^ (e % 64))
            else m.l2 b g) ≠ 0 := by
        intro b g hb hg hbit
        by_cases hbb : b = e / 4096
        · rw [if_pos hbb] at hbit
          by_cases hgg : g = e / 64 % 64
          · rw [hgg, testBit_and_not_pow_self _ hG] at hbit
            exact Bool.noConfusion hbit
          · have hne : ¬ (b = e / 4096 ∧ g = e / 64 % 64) := fun hx => hgg hx.2
            have hgg2 : e / 64 % 64 ≠ g := fun hx => hgg hx.symm
            rw [if_neg hne]
            rw [testBit_and_not_pow hg hgg2, ← hbb] at hbit
            exact hx1 b g hb hg hbit
        · have hne : ¬ (b = e / 4096 ∧ g = e / 64 % 64) := fun hx => hbb hx.1
          rw [if_neg hbb] at hbit
          rw [if_neg hne]
          exact hx1 b g hb hg hbit
      by_cases cw1 : m.l1 (e / 4096) &&& ((2 ^ 64 - 1) ^^^ 2 ^ (e / 64 % 64)) = 0
      · rw [if_pos cw1] at h
        cases h
        refine ⟨exact1, ?_⟩
        intro b hb hbit
        have hbit2 : (m.l0 &&& ((2 ^ 64 - 1) ^^^ 2 ^ (e / 4096))).testBit b = true := hbit
        show (if b = e / 4096 then
            m.l1 (e / 4096) &&& ((2 ^ 64 - 1) ^^^ 2 ^ (e / 64 % 64))
          else m.l1 b) ≠ 0
        by_cases hbb : b = e / 4096
        · rw [hbb, testBit_and_not_pow_self _ hB] at hbit2
          exact Bool.noConfusion hbit2
        · have hbb2 : e / 4096 ≠ b := fun hx => hbb hx.symm
          rw [if_neg hbb]
          rw [testBit_and_not_pow hb hbb2] at hbit2
          exact hx0 b hb hbit2
      · rw [if_neg cw1] at h
        cases h
        refine ⟨exact1, ?_⟩
        intro b hb hbit
        have hbit2 : m.l0.testBit b = true := hbit
        show (if b = e / 4096 then
            m.l1 (e / 4096) &&& ((2 ^ 64 - 1) ^^^ 2 ^ (e / 64 % 64))
          else m.l1 b) ≠ 0
        by_cases hbb : b = e / 4096
        · rw [if_pos hbb]; exact cw1
        · rw [if_neg hbb]; exact hx0 b hb hbit2
    · rw [if_neg cw] at h
      cases h
      refine ⟨?_, hx0⟩
      intro b g hb hg hbit
      have hbit2 : (m.l1 b).testBit g = true := hbit
      show (if b = e / 4096 ∧ g = e / 64 % 64 then
          m.l2 (e / 4096) (e / 64 % 64) &&& ((2 ^ 64 - 1) ^^^ 2 ^ (e % 64))
        else m.l2 b g) ≠ 0
      by_cases hbg : b = e / 4096 ∧ g = e / 64 % 64
      · rw [if_pos hbg]; exact cw
      · rw [if_neg hbg]; exact hx1 b g hb hg hbit2

end SparseFlatBitmap3L

namespace BitmapOp

theorem apply_summaryExact {st st1 : Nat → SparseFlatBitmap3L} (op : BitmapOp)
    (h : ∀ r, (st r).SummaryExact) (hop : op.inRange = true) (hna : op.noAnd = true)
    (h1 : apply3L st op = some st1) : ∀ r, (st1 r).SummaryExact := by
  cases op with
  | set r e =>
    have he : e < MAX_ENTITIES := of_decide_eq_true hop
    simp only [apply3L, Option.map_eq_some'] at h1
    obtain ⟨m1, hm1, rfl⟩ := h1
    intro k
    by_cases hk : k = r
    · simp only [hk, if_true]; exact SparseFlatBitmap3L.summaryExact_set (h r) he hm1
    · simp only [hk, if_false]; exact h k
  | reset r e =>
    have he : e < MAX_ENTITIES := of_decide_eq_true hop
    simp only [apply3L, Option.map_eq_some'] at h1
    obtain ⟨m1, hm1, rfl⟩ := h1
    intro k
    by_cases hk : k = r
    · simp only [hk, if_true]; exact SparseFlatBitmap3L.summaryExact_reset (h r) he hm1
    · simp only [hk, if_false]; exact h k
  | clear r =>
    simp only [apply3L, Option.some.injEq] at h1
    subst h1
    intro k
    by_cases hk : k = r
    · simp only [hk, if_true]; exact SparseFlatBitmap3L.summaryExact_clear
    · simp only [hk, if_false]; exact h k
  | and_with r o => exact Bool.noConfusion hna

/-- Every three-level bitmap reached from empty bitmaps by `set`, `reset` and
`clear` alone has exact summary words. -/
theorem run3L_summaryExact (ops : List BitmapOp) :
    ∀ (st st1 : Nat → SparseFlatBitmap3L), (∀ r, (st r).SummaryExact) →
      ops.all inRange = true → ops.all noAnd = true → ops.foldlM apply3L st = some st1 →
      ∀ r, (st1 r).SummaryExact := by
  induction ops with
  | nil =>
    intro st st1 h _ _ h1
    simp only [List.foldlM_nil, pure, Option.some.injEq] at h1
    subst h1
    exact h
  | cons op rest ih =>
    intro st st1 h hall hna h1
    rw [List.all_cons, Bool.and_eq_true] at hall hna
    rw [List.foldlM_cons] at h1
    cases hop : apply3L st op with
    | none => rw [hop] at h1; exact Option.noConfusion h1
    | some st2 =>
      rw [hop] at h1
      exact ih st2 st1 (apply_summaryExact op h hall.1 hna.1 hop) hall.2 hna.2 h1

end BitmapOp

end HBL2

namespace HBL2

namespace SparseComponentStorage

variable {T : Type}

/-- `Remove` completes when `Has(e)` holds, the index of the slot of `e` is in
range, and the slot of the last entity of the list is allocated. -/
theorem Remove_isSome {s : SparseComponentStorage T} {e old last siv : Nat} {lastComp : T}
    (hHas : Has s e = true) (hold : readSlot s.sparsePages e = some old)
    (hlast : s.indices.getLast? = some last) (hlastC : s.packed.getLast? = some lastComp)
    (hsiv : readSlot s.sparsePages last = some siv)
    (hlt1 : UnpackIndex old < s.packed.length) (hlt2 : UnpackIndex old < s.indices.length)
    (he : e < MAX_ENTITIES) : ∃ s1, Remove s e = some s1 := by
  obtain ⟨pages1, hw1⟩ := writeSlot_eq_some hsiv
    (PackIndexVersion (UnpackIndex old % 2 ^ 32) (UnpackVersion siv))
  have hr1 := readSlot_writeSlot hw1
  obtain ⟨x, hx⟩ : ∃ x, readSlot pages1 e = some x := by
    rw [hr1 e]
    by_cases h : e = last
    · simp [h]
    · simp [h, hold]
  obtain ⟨pages2, hw2⟩ := writeSlot_eq_some hx
    (PackIndexVersion INDEX_MASK ((UnpackVersion old + 1) % 2 ^ 32))
  obtain ⟨m1, hm1⟩ := ComponentMaskAVX.reset_isSome (m := s.mask) he
  refine ⟨{ mask := m1, packed := (s.packed.set (UnpackIndex old) lastComp).dropLast,
            indices := (s.indices.set (UnpackIndex old) last).dropLast,
            sparsePages := pages2 }, ?_⟩
  have hw1' := hw1
  have hw2' := hw2
  norm_num at hw1' hw2'
  simp [Remove, hHas, hold, hlast, hlastC, hlt1, hlt2, hsiv, hw1', hw2', hm1]

theorem slotsU32_of_remove {s s1 : SparseComponentStorage T} {e : Nat} (hu : SlotsU32 s)
    (h : Remove s e = some s1) : SlotsU32 s1 := by
  obtain ⟨old, last, lastComp, siv, _, _, _, _, _, _, _, _, _, _, hr⟩ := Remove_of_some h
  intro f iv hf
  rw [hr f] at hf
  by_cases hfe : f = e
  · rw [if_pos hfe] at hf
    rw [← Option.some.inj hf]; exact packIndexVersion_lt _ _
  · rw [if_neg hfe] at hf
    by_cases hfl : f = last
    · rw [if_pos hfl] at hf
      rw [← Option.some.inj hf]; exact packIndexVersion_lt _ _
    · rw [if_neg hfl] at hf
      exact hu f iv hf

theorem basicInv_empty : BasicInv (empty : SparseComponentStorage T) :=
  ⟨rfl, slotsU32_empty⟩

theorem basicInv_addComponent [Inhabited T] {s s1 : SparseComponentStorage T} {e : Nat} {v : T}
    (hinv : BasicInv s) (h : AddComponent s e v = some s1) : BasicInv s1 := by
  obtain ⟨s2, iv0, hadd, hp, hi, _⟩ := AddComponent_spec s e v (addComponent_lt h)
  rw [h] at hadd
  cases hadd
  refine ⟨?_, slotsU32_addComponent hinv.2 h⟩
  rw [hp, hi, List.length_append, List.length_append, hinv.1]
  rfl

theorem basicInv_remove {s s1 : SparseComponentStorage T} {e : Nat}
    (hinv : BasicInv s) (h : Remove s e = some s1) : BasicInv s1 := by
  obtain ⟨old, last, lastComp, siv, _, _, _, _, _, _, _, hp, hi, _, _⟩ := Remove_of_some h
  refine ⟨?_, slotsU32_of_remove hinv.2 h⟩
  rw [hp, hi, List.length_dropLast, List.length_dropLast, List.length_set, List.length_set,
    hinv.1]

/-- `Add(e)` then `Remove(e)` on a storage whose `packed` holds fewer than
`INDEX_MASK` entries. -/
theorem add_remove_any [Inhabited T] {s : SparseComponentStorage T} (hinv : BasicInv s)
    (hlen : s.packed.length < INDEX_MASK) {e : Nat} (he : e < MAX_ENTITIES) :
    ∃ s1 k s2, Add s e = some (s1, k) ∧ Remove s1 e = some s2 ∧
      Has s1 e = true ∧ Has s2 e = false ∧
      versionOf s1 e = versionOf s e ∧ versionOf s2 e = (versionOf s e + 1) % 4096 := by
  obtain ⟨s1, iv0, hadd, hp, hi, _, _, hr⟩ := Add_spec s e he
  have haddC := addComponent_default_of_add hadd
  have hv1 := versionOf_addComponent hinv.2 haddC
  have hmod : s.packed.length % 2 ^ 32 = s.packed.length := by
    apply Nat.mod_eq_of_lt
    rw [index_mask_eq] at hlen
    omega
  have hslot : readSlot s1.sparsePages e =
      some (PackIndexVersion s.packed.length (UnpackVersion iv0)) := by
    rw [hr e, if_pos rfl, hmod]
  have hidx : UnpackIndex (PackIndexVersion s.packed.length (UnpackVersion iv0)) =
      s.packed.length := unpackIndex_pack _ _ (Nat.le_of_lt hlen)
  have hH1 : Has s1 e = true :=
    (Has_eq_true_iff s1 e).mpr ⟨_, hslot, by rw [hidx]; exact Nat.ne_of_lt hlen⟩
  have hlast : s1.indices.getLast? = some e := by rw [hi]; simp
  have hlastC : s1.packed.getLast? = some default := by rw [hp]; simp
  obtain ⟨s2, hrem⟩ := Remove_isSome hH1 hslot hlast hlastC hslot
    (by rw [hidx, hp, List.length_append]; simp)
    (by rw [hidx, hi, List.length_append, hinv.1]; simp) he
  obtain ⟨old, _, _, _, _, hold, _, _, _, _, _, _, _, _, hr2⟩ := Remove_of_some hrem
  have hr2e := hr2 e
  rw [if_pos rfl] at hr2e
  refine ⟨s1, _, s2, hadd, hrem, hH1, ?_, hv1, ?_⟩
  · rw [Has_eq, hr2e]
    simp only [unpackIndex_tombstone, bne_self_eq_false]
  · have hvo : versionOf s1 e = UnpackVersion old := by
      simp only [versionOf, hold]
    rw [← hv1, hvo]
    simp only [versionOf, hr2e]
    rw [unpackVersion_pack _ _ (Nat.le_refl _)]
    omega

end SparseComponentStorage

namespace StorageOp

variable {T : Type}

/-- Every state that a call sequence reaches from the empty storage has `packed`
and the entity list of equal length and 32-bit slots. -/
theorem run_basicInv [Inhabited T] (ops : List (StorageOp T)) :
    ∀ s s2 : SparseComponentStorage T, BasicInv s → run s ops = some s2 → BasicInv s2 := by
  induction ops with
  | nil =>
    intro s s2 hinv hr
    simp only [run, Option.some.injEq] at hr
    exact hr ▸ hinv
  | cons op rest ih =>
    intro s s2 hinv hr
    simp only [run] at hr
    cases ha : apply s op with
    | none => rw [ha] at hr; exact Option.noConfusion hr
    | some s1 =>
      rw [ha, Option.some_bind] at hr
      refine ih s1 s2 ?_ hr
      cases op with
      | add f v => exact SparseComponentStorage.basicInv_addComponent hinv ha
      | remove f =>
        have hrem : s.RemoveComponent f = some s1 := ha
        by_cases hHas : s.Has f = true
        · simp only [SparseComponentStorage.RemoveComponent, hHas, Bool.not_true,
            Bool.false_eq_true, if_false] at hrem
          exact SparseComponentStorage.basicInv_remove hinv hrem
        · have hf : s.Has f = false := by
            cases hv : s.Has f with
            | true => exact absurd hv hHas
            | false => rfl
          simp only [SparseComponentStorage.RemoveComponent, hf, Bool.not_false, if_true,
            Option.some.injEq] at hrem
          exact hrem ▸ hinv

/-- The same entity added `k` times: the other entities keep their `Has`. -/
theorem run_replicate_add_has [Inhabited T] (e : Nat) (v : T) (he : e < MAX_ENTITIES)
    (k : Nat) :
    ∀ s : SparseComponentStorage T, ∃ s1, run s (List.replicate k (add e v)) = some s1 ∧
      s1.indices = s.indices ++ List.replicate k e ∧
      s1.packed.length = s.packed.length + k ∧
      ∀ f, f ≠ e → SparseComponentStorage.Has s1 f = SparseComponentStorage.Has s f := by
  induction k with
  | zero => intro s; exact ⟨s, rfl, by simp, rfl, fun _ _ => rfl⟩
  | succ k ih =>
    intro s
    obtain ⟨s1, iv0, hadd, hp, hi, _⟩ := SparseComponentStorage.AddComponent_spec s e v he
    obtain ⟨s2, hrun, hi2, hp2, hh2⟩ := ih s1
    refine ⟨s2, ?_, ?_, ?_, ?_⟩
    · rw [List.replicate_succ, run, apply, hadd, Option.some_bind]; exact hrun
    · rw [hi2, hi, List.append_assoc, List.replicate_succ]; rfl
    · rw [hp2, hp, List.length_append]; simp; omega
    · intro f hf
      rw [hh2 f hf, SparseComponentStorage.Has_addComponent_ne hadd f hf]

theorem run_eq_some_storeOf [Inhabited T] (ops : List (StorageOp T))
    (h : (run (SparseComponentStorage.empty : SparseComponentStorage T) ops).isSome = true) :
    run (SparseComponentStorage.empty : SparseComponentStorage T) ops = some (storeOf ops) := by
  obtain ⟨s, hs⟩ := Option.isSome_iff_exists.mp h
  simp [storeOf, hs]

end StorageOp

end HBL2

namespace HBL2

open SparseComponentStorage StorageOp

/-- Entity 0 added `k` times, with `k` at least `INDEX_MASK`: entity 1 is without
the component, and `Add(1)` stores the tombstone index in its slot, so that
`Has(1)` stays false and the assertion of `Remove(1)` fails. -/
theorem add_at_full_length (k : Nat) (hk : INDEX_MASK ≤ k) (hk2 : k < 2 ^ 32) :
    ∃ t t1 n, run (SparseComponentStorage.empty : SparseComponentStorage Nat)
        (List.replicate k (StorageOp.add 0 0)) = some t ∧
      t.packed.length = k ∧ Has t 1 = false ∧ Add t 1 = some (t1, n) ∧
      Has t1 1 = false ∧ Remove t1 1 = none ∧ RemoveComponent t1 1 = some t1 ∧
      versionOf t1 1 = versionOf t 1 := by
  obtain ⟨t, hrun, _, hp, hh⟩ := run_replicate_add_has (T := Nat) 0 0 (by decide) k empty
  have hlen0 : (empty : SparseComponentStorage Nat).packed.length = 0 := rfl
  rw [hlen0, Nat.zero_add] at hp
  have hbasic : BasicInv t := run_basicInv _ empty t basicInv_empty hrun
  obtain ⟨t1, iv0, hadd, _, _, _, _, hr⟩ := Add_spec t 1 (by decide)
  have hH : Has t 1 = false := by rw [hh 1 (by decide), Has_empty]
  have hslot : readSlot t1.sparsePages 1 =
      some (PackIndexVersion INDEX_MASK (UnpackVersion iv0)) := by
    rw [hr 1, if_pos rfl, hp, Nat.mod_eq_of_lt hk2, packIndexVersion_clamp,
      Nat.min_eq_right hk]
  have hH1 : Has t1 1 = false := by
    rw [Has_eq, hslot]
    simp only [unpackIndex_tombstone, bne_self_eq_false]
  refine ⟨t, t1, _, hrun, hp, hH, hadd, hH1, ?_, ?_,
    versionOf_addComponent hbasic.2 (addComponent_default_of_add hadd)⟩
  · simp [Remove, hH1]
  · simp [RemoveComponent, hH1]

/-- C12, against the claim: after 4095 rounds of `Add(0); Remove(0)` from the
empty storage, entity 0 is without the component and the version of its slot is
4095; one more `Add(0)` followed by `Remove(0)` leaves the version 0, not 4096.
And after 1048575 = `INDEX_MASK` adds of entity 0, entity 1 is without the
component, `Add(1)` stores the tombstone index so that `Has(1)` stays false, and
`Remove(1)` fails its assertion (the guarded `RemoveComponent` does nothing):
the version is not incremented. -/
theorem version_wraps_at_4095 :
    (∃ s s1 k s2,
      run (SparseComponentStorage.empty : SparseComponentStorage Nat)
        (addRemoveCycles 0 4095) = some s ∧
      Has s 0 = false ∧ versionOf s 0 = 4095 ∧
      Add s 0 = some (s1, k) ∧ Remove s1 0 = some s2 ∧
      versionOf s2 0 = 0 ∧ versionOf s2 0 ≠ versionOf s 0 + 1) ∧
    (∃ t t1 n, run (SparseComponentStorage.empty : SparseComponentStorage Nat)
        (List.replicate 1048575 (StorageOp.add 0 0)) = some t ∧
      t.packed.length = 1048575 ∧ Has t 1 = false ∧ Add t 1 = some (t1, n) ∧
      Has t1 1 = false ∧ Remove t1 1 = none ∧ RemoveComponent t1 1 = some t1 ∧
      versionOf t1 1 = versionOf t 1) := by
  constructor
  · obtain ⟨s, hrun, hinv, hu, hH, hv⟩ := addRemoveCycles_version 0 (by decide) 4095
    obtain ⟨s1, k, s2, hadd, _, hrem, _, _, _, _, _, _, _, hv2⟩ :=
      add_remove_cycle hinv hu hH (by decide)
    have hv' : versionOf s 0 = 4095 := by rw [hv]
    have hv2' : versionOf s2 0 = 0 := by rw [hv2, hv']
    exact ⟨s, s1, k, s2, hrun, hH, hv', hadd, hrem, hv2', by rw [hv2', hv']; decide⟩
  · exact add_at_full_length 1048575 (by rw [index_mask_eq]) (by omega)

/-- C12, as the code behaves: in every state reached from the empty storage by
any sequence of adds and removes (repeated adds included) in which `packed` holds
fewer than `INDEX_MASK` = 1048575 entries, for every entity `e` below
`MAX_ENTITIES` without the component, `Add(e)` followed by `Remove(e)` completes,
leaves `Has(e)` false, and the 12-bit version field of the sparse slot of `e`
equals the version before the `Add` plus one modulo 4096 (plus one whenever that
version is below 4095); `Add` itself leaves the version unchanged. -/
theorem add_remove_version {T : Type} [Inhabited T] (ops : List (StorageOp T))
    (s : SparseComponentStorage T) (e : Entity)
    (hr : run (SparseComponentStorage.empty : SparseComponentStorage T) ops = some s)
    (hlen : s.packed.length < INDEX_MASK) (_hHas : Has s e = false) (he : e < MAX_ENTITIES) :
    ∃ s1 k s2, Add s e = some (s1, k) ∧ Remove s1 e = some s2 ∧
      versionOf s1 e = versionOf s e ∧ Has s2 e = false ∧
      versionOf s2 e = (versionOf s e + 1) % 4096 ∧
      (versionOf s e < 4095 → versionOf s2 e = versionOf s e + 1) := by
  have hinv : BasicInv s := run_basicInv ops empty s basicInv_empty hr
  obtain ⟨s1, k, s2, hadd, hrem, _, hH2, hv1, hv2⟩ := add_remove_any hinv hlen he
  refine ⟨s1, k, s2, hadd, hrem, hv1, hH2, hv2, ?_⟩
  intro hlt
  rw [hv2]
  exact Nat.mod_eq_of_lt (by omega)

theorem add_remove_version_witness :
    ∃ s1 k s2,
      Add (storeOf [.add 1 5, .add 0 7, .add 0 8, .remove 0] : SparseComponentStorage Nat) 0 =
        some (s1, k) ∧
      Remove s1 0 = some s2 ∧
      versionOf s1 0 =
        versionOf (storeOf [.add 1 5, .add 0 7, .add 0 8, .remove 0] :
          SparseComponentStorage Nat) 0 ∧
      Has s2 0 = false ∧
      versionOf s2 0 =
        (versionOf (storeOf [.add 1 5, .add 0 7, .add 0 8, .remove 0] :
          SparseComponentStorage Nat) 0 + 1) % 4096 ∧
      (versionOf (storeOf [.add 1 5, .add 0 7, .add 0 8, .remove 0] :
          SparseComponentStorage Nat) 0 < 4095 →
        versionOf s2 0 =
          versionOf (storeOf [.add 1 5, .add 0 7, .add 0 8, .remove 0] :
            SparseComponentStorage Nat) 0 + 1) :=
  add_remove_version [.add 1 5, .add 0 7, .add 0 8, .remove 0]
    (storeOf [.add 1 5, .add 0 7, .add 0 8, .remove 0]) 0
    (run_eq_some_storeOf _ (by decide)) (by decide) (by decide) (by decide)

end HBL2

namespace HBL2

open SparseComponentStorage

/-- The dense branch of `ExcludeQuery::Run`, for include stores whose mask words
are 64-bit values: what it returns is strictly ascending and holds exactly the
entities that are in every include mask and in no exclude mask. -/
theorem exclude_dense_members {T : Type} {includes excludes : List (SparseComponentStorage T)}
    (N : Nat) (hu : ∀ s ∈ includes, s.mask.WordsU64) (vd : List Entity)
    (hvd : ExcludeQuery.densePath ⟨includes, excludes, N⟩ = some vd) :
    vd.Pairwise (· < ·) ∧ ∀ e, e ∈ vd ↔ InMasks includes excludes e := by
  simp only [ExcludeQuery.densePath, Option.bind_eq_bind, Option.bind_eq_some] at hvd
  obtain ⟨j, hj, hd⟩ := hvd
  cases includes with
  | nil => exact Option.noConfusion hj
  | cons s0 rest =>
    simp only [Query.jointMask, Option.some.injEq] at hj
    obtain ⟨hju, hjt⟩ := Query.foldl_and_with_spec rest s0.Mask (hu s0 (List.mem_cons_self _ _))
    rw [hj] at hju hjt
    obtain ⟨hsu, hst⟩ := Query.subtractMasks_spec excludes j hju
    obtain ⟨l, hl, hpw, hmem⟩ := ComponentMaskAVX.entities_spec hsu
    simp only [Query.denseLoop, hl, Option.bind_eq_bind, Option.some_bind] at hd
    rw [Query.mapM_invoke_some l vd hd]
    refine ⟨hpw, fun e => ?_⟩
    rw [hmem e, hst e, hjt e]
    simp only [InMasks, List.mem_cons, forall_eq_or_imp]

/-- C17: `Run()` is the sparse branch over the include store with the fewest
entries (the first such store when several tie) or the dense branch. On the
sparse branch the entities visited are the matching entries of that store's
entity list, in the order in which they occur there; on the dense branch the
entities visited are exactly the matching ones (those in every include mask and
in no exclude mask), in strictly ascending entity ID. Both for `ExcludeQuery`
and for `FilterQuery`, the mask words of the include stores being 64-bit values;
over consistent stores both branches complete and visit the same entities. -/
theorem run_visit_order {T : Type} (includes excludes : List (SparseComponentStorage T))
    (N : Nat) (hne : includes ≠ []) (hu : ∀ s ∈ includes, s.mask.WordsU64) :
    ∃ minCount minIdx st,
      IsFirstMin (includes.map (fun s => s.Indices.length)) minCount minIdx ∧
      includes[minIdx]? = some st ∧
      ExcludeQuery.Run ⟨includes, excludes, N⟩ =
        (if Query.useSparsePath N minCount
          then ExcludeQuery.sparsePath ⟨includes, excludes, N⟩ minIdx
          else ExcludeQuery.densePath ⟨includes, excludes, N⟩) ∧
      (∀ vs, ExcludeQuery.sparsePath ⟨includes, excludes, N⟩ minIdx = some vs →
        vs = st.Indices.filter (fun e => includes.all (fun s => s.Has e) &&
          !excludes.any (fun s => s.Has e)) ∧ vs.Sublist st.Indices) ∧
      (∀ vd, ExcludeQuery.densePath ⟨includes, excludes, N⟩ = some vd →
        vd.Pairwise (· < ·) ∧ ∀ e, e ∈ vd ↔ InMasks includes excludes e) ∧
      FilterQuery.Run ⟨includes, N⟩ =
        (if Query.useSparsePath N minCount then FilterQuery.sparsePath ⟨includes, N⟩ minIdx
          else FilterQuery.densePath ⟨includes, N⟩) ∧
      (∀ vs, FilterQuery.sparsePath ⟨includes, N⟩ minIdx = some vs →
        vs = st.Indices.filter (fun e => includes.all (fun s => s.Has e)) ∧
          vs.Sublist st.Indices) ∧
      (∀ vd, FilterQuery.densePath ⟨includes, N⟩ = some vd →
        vd.Pairwise (· < ·) ∧ ∀ e, e ∈ vd ↔ InMasks includes [] e) ∧
      ((∀ s ∈ includes, StoreOk s) → (∀ s ∈ excludes, StoreOk s) →
        (∃ vs vd, ExcludeQuery.sparsePath ⟨includes, excludes, N⟩ minIdx = some vs ∧
          ExcludeQuery.densePath ⟨includes, excludes, N⟩ = some vd ∧
          (∀ e, e ∈ vs ↔ InMasks includes excludes e) ∧
          (∀ e, e ∈ vd ↔ InMasks includes excludes e)) ∧
        (∃ vs vd, FilterQuery.sparsePath ⟨includes, N⟩ minIdx = some vs ∧
          FilterQuery.densePath ⟨includes, N⟩ = some vd ∧
          (∀ e, e ∈ vs ↔ InMasks includes [] e) ∧
          (∀ e, e ∈ vd ↔ InMasks includes [] e))) := by
  obtain ⟨mc, mi, st, hfirst, hst, hrun, hsp, hdp⟩ :=
    @exclude_order T includes excludes N hne hu
  obtain ⟨mc2, mi2, st2, hfirst2, hst2, hrun2, hsp2, hdp2⟩ :=
    @exclude_order T includes [] N hne hu
  have hsame : mc2 = mc ∧ mi2 = mi := by
    have k1 := hfirst.1
    have k2 := hfirst2.1
    have m1 : mi2 = mi := by
      rcases Nat.lt_trichotomy mi2 mi with h | h | h
      · have := hfirst.2.2 mi2 mc2 h k2
        have := hfirst2.2.1 mc (List.mem_iff_getElem?.mpr ⟨mi, k1⟩)
        omega
      · exact h
      · have := hfirst2.2.2 mi mc h k1
        have := hfirst.2.1 mc2 (List.mem_iff_getElem?.mpr ⟨mi2, k2⟩)
        omega
    refine ⟨?_, m1⟩
    rw [m1, k1] at k2
    exact (Option.some.inj k2).symm
  obtain ⟨rfl, rfl⟩ := hsame
  rw [hst] at hst2
  cases hst2
  refine ⟨mc2, mi2, st, hfirst, hst, hrun, hsp,
    fun vd hvd => exclude_dense_members N hu vd hvd, ?_, ?_, ?_, ?_⟩
  · rw [FilterQuery.Run_eq, FilterQuery.sparsePath_eq, FilterQuery.densePath_eq]; exact hrun2
  · intro vs hvs
    rw [FilterQuery.sparsePath_eq] at hvs
    have := hsp2 vs hvs
    simpa using this
  · intro vd hvd
    rw [FilterQuery.densePath_eq] at hvd
    exact exclude_dense_members N hu vd hvd
  · intro hI hE
    obtain ⟨mc3, mi3, _, vs, vd, hfm3, hf3, _, hsp3, _, _, hmS3, hdp3, _, hmD3, _⟩ :=
      exclude_paths N hne hI hE
    obtain ⟨mc4, mi4, _, vs4, vd4, hfm4, hf4, _, hsp4, _, _, hmS4, hdp4, _, hmD4, _⟩ :=
      @exclude_paths T _ [] N hne hI (by simp)
    have e3 : mi3 = mi2 := by
      have k1 := hfirst.1
      have k2 := hf3.1
      rcases Nat.lt_trichotomy mi3 mi2 with h | h | h
      · have := hfirst.2.2 mi3 mc3 h k2
        have := hf3.2.1 mc2 (List.mem_iff_getElem?.mpr ⟨mi2, k1⟩)
        omega
      · exact h
      · have := hf3.2.2 mi2 mc2 h k1
        have := hfirst.2.1 mc3 (List.mem_iff_getElem?.mpr ⟨mi3, k2⟩)
        omega
    have e4 : mi4 = mi2 := by
      have k1 := hfirst.1
      have k2 := hf4.1
      rcases Nat.lt_trichotomy mi4 mi2 with h | h | h
      · have := hfirst.2.2 mi4 mc4 h k2
        have := hf4.2.1 mc2 (List.mem_iff_getElem?.mpr ⟨mi2, k1⟩)
        omega
      · exact h
      · have := hf4.2.2 mi2 mc2 h k1
        have := hfirst.2.1 mc4 (List.mem_iff_getElem?.mpr ⟨mi4, k2⟩)
        omega
    subst e3
    subst e4
    refine ⟨⟨vs, vd, hsp3, hdp3, hmS3, hmD3⟩, ⟨vs4, vd4, ?_, ?_, hmS4, hmD4⟩⟩
    · rw [FilterQuery.sparsePath_eq]; exact hsp4
    · rw [FilterQuery.densePath_eq]; exact hdp4

set_option maxHeartbeats 1000000

theorem run_visit_order_witness :
    ∃ minCount minIdx st,
      IsFirstMin (([[.add 0 1, .add 1 2, .add 3 4], [.add 0 5, .add 3 7]].map (storeOf (T :=
          Nat))).map (fun s => s.Indices.length)) minCount minIdx ∧
      ([[.add 0 1, .add 1 2, .add 3 4], [.add 0 5, .add 3 7]].map (storeOf (T := Nat)))[minIdx]? =
          some st ∧
      ExcludeQuery.Run ⟨([[.add 0 1, .add 1 2, .add 3 4], [.add 0 5, .add 3 7]].map (storeOf (T :=
          Nat))), ([[.add 3 9]].map (storeOf (T := Nat))), 4⟩ =
        (if Query.useSparsePath 4 minCount
          then ExcludeQuery.sparsePath ⟨([[.add 0 1, .add 1 2, .add 3 4], [.add 0 5, .add 3 7]].map
              (storeOf (T := Nat))), ([[.add 3 9]].map (storeOf (T := Nat))), 4⟩ minIdx
          else ExcludeQuery.densePath ⟨([[.add 0 1, .add 1 2, .add 3 4], [.add 0 5, .add 3 7]].map
              (storeOf (T := Nat))), ([[.add 3 9]].map (storeOf (T := Nat))), 4⟩) ∧
      (∀ vs, ExcludeQuery.sparsePath ⟨([[.add 0 1, .add 1 2, .add 3 4], [.add 0 5, .add 3 7]].map
          (storeOf (T := Nat))), ([[.add 3 9]].map (storeOf (T := Nat))), 4⟩ minIdx = some vs →
        vs = st.Indices.filter (fun e => ([[.add 0 1, .add 1 2, .add 3 4], [.add 0 5, .add 3
            7]].map (storeOf (T := Nat))).all (fun s => s.Has e) &&
          !([[.add 3 9]].map (storeOf (T := Nat))).any (fun s => s.Has e)) ∧ vs.Sublist st.Indices)
              ∧
      (∀ vd, ExcludeQuery.densePath ⟨([[.add 0 1, .add 1 2, .add 3 4], [.add 0 5, .add 3 7]].map
          (storeOf (T := Nat))), ([[.add 3 9]].map (storeOf (T := Nat))), 4⟩ = some vd →
        vd.Pairwise (· < ·) ∧ ∀ e, e ∈ vd ↔ InMasks ([[.add 0 1, .add 1 2, .add 3 4], [.add 0 5,
            .add 3 7]].map (storeOf (T := Nat))) ([[.add 3 9]].map (storeOf (T := Nat))) e) ∧
      FilterQuery.Run ⟨([[.add 0 1, .add 1 2, .add 3 4], [.add 0 5, .add 3 7]].map (storeOf (T :=
          Nat))), 4⟩ =
        (if Query.useSparsePath 4 minCount then FilterQuery.sparsePath ⟨([[.add 0 1, .add 1 2, .add
            3 4], [.add 0 5, .add 3 7]].map (storeOf (T := Nat))), 4⟩ minIdx
          else FilterQuery.densePath ⟨([[.add 0 1, .add 1 2, .add 3 4], [.add 0 5, .add 3 7]].map
              (storeOf (T := Nat))), 4⟩) ∧
      (∀ vs, FilterQuery.sparsePath ⟨([[.add 0 1, .add 1 2, .add 3 4], [.add 0 5, .add 3 7]].map
          (storeOf (T := Nat))), 4⟩ minIdx = some vs →
        vs = st.Indices.filter (fun e => ([[.add 0 1, .add 1 2, .add 3 4], [.add 0 5, .add 3
            7]].map (storeOf (T := Nat))).all (fun s => s.Has e)) ∧
          vs.Sublist st.Indices) ∧
      (∀ vd, FilterQuery.densePath ⟨([[.add 0 1, .add 1 2, .add 3 4], [.add 0 5, .add 3 7]].map
          (storeOf (T := Nat))), 4⟩ = some vd →
        vd.Pairwise (· < ·) ∧ ∀ e, e ∈ vd ↔ InMasks ([[.add 0 1, .add 1 2, .add 3 4], [.add 0 5,
            .add 3 7]].map (storeOf (T := Nat))) [] e) ∧
      ((∀ s ∈ ([[.add 0 1, .add 1 2, .add 3 4], [.add 0 5, .add 3 7]].map (storeOf (T := Nat))),
          StoreOk s) → (∀ s ∈ ([[.add 3 9]].map (storeOf (T := Nat))), StoreOk s) →
        (∃ vs vd, ExcludeQuery.sparsePath ⟨([[.add 0 1, .add 1 2, .add 3 4], [.add 0 5, .add 3
            7]].map (storeOf (T := Nat))), ([[.add 3 9]].map (storeOf (T := Nat))), 4⟩ minIdx =
            some vs ∧
          ExcludeQuery.densePath ⟨([[.add 0 1, .add 1 2, .add 3 4], [.add 0 5, .add 3 7]].map
              (storeOf (T := Nat))), ([[.add 3 9]].map (storeOf (T := Nat))), 4⟩ = some vd ∧
          (∀ e, e ∈ vs ↔ InMasks ([[.add 0 1, .add 1 2, .add 3 4], [.add 0 5, .add 3 7]].map
              (storeOf (T := Nat))) ([[.add 3 9]].map (storeOf (T := Nat))) e) ∧
          (∀ e, e ∈ vd ↔ InMasks ([[.add 0 1, .add 1 2, .add 3 4], [.add 0 5, .add 3 7]].map
              (storeOf (T := Nat))) ([[.add 3 9]].map (storeOf (T := Nat))) e)) ∧
        (∃ vs vd, FilterQuery.sparsePath ⟨([[.add 0 1, .add 1 2, .add 3 4], [.add 0 5, .add 3
            7]].map (storeOf (T := Nat))), 4⟩ minIdx = some vs ∧
          FilterQuery.densePath ⟨([[.add 0 1, .add 1 2, .add 3 4], [.add 0 5, .add 3 7]].map
              (storeOf (T := Nat))), 4⟩ = some vd ∧
          (∀ e, e ∈ vs ↔ InMasks ([[.add 0 1, .add 1 2, .add 3 4], [.add 0 5, .add 3 7]].map
              (storeOf (T := Nat))) [] e) ∧
          (∀ e, e ∈ vd ↔ InMasks ([[.add 0 1, .add 1 2, .add 3 4], [.add 0 5, .add 3 7]].map
              (storeOf (T := Nat))) [] e))) :=
  run_visit_order ([[.add 0 1, .add 1 2, .add 3 4], [.add 0 5, .add 3 7]].map (storeOf (T := Nat)))
    ([[.add 3 9]].map (storeOf (T := Nat))) 4 (by simp)
    (fun s hs => (@storeOk_of_allFresh Nat _
      [[.add 0 1, .add 1 2, .add 3 4], [.add 0 5, .add 3 7]] (by decide) s hs).2)

end HBL2

namespace HBL2

namespace SparseComponentStorage

variable {T : Type}

end SparseComponentStorage

namespace StorageOp

variable {T : Type}

end StorageOp

end HBL2

namespace HBL2

open SparseComponentStorage StorageOp

end HBL2
